import Mathlib

/-!
# GBarVDEwald: periodic Green's function by Ewald summation

A shallow embedding of `libs/libscuff/GBarVDEwald.cc` of SCUFF-EM.

Number model.  A C `double` is an element of a linearly ordered field `F`
(exact arithmetic: no rounding, no NaN, no infinity; `x / 0 = 0`); a literal such as `2.0` is written `2`.
`cdouble` (`std::complex<double>`) is a pair of such scalars with the usual
complex arithmetic.  C `int`s are integers.  The functions of the C and C++
libraries and of the libraries outside this file (`sqrt`, `exp`, `abs`,
`log`, `arg`, `Faddeeva::erfcx`, `Faddeeva::erf`, `AmosBessel`, `IsFinite`,
`ISNAN`) are the fields of a record `Libm F` that every function of the
model takes as its first argument; theorems hold for every such record, and
state as hypotheses the few facts about these functions they rely on.

Fatal errors (`ErrExit`) are the `error` results of `Except Fatal`.
Diagnostics (`Warn`, `Log`) do not change any value and are left out of the
value-level functions; whether the `Warn` call of a series routine of `ExpInt`
is reached is given by a Boolean function of its own (`ExpInt_PS_warns`, ...).

Derivatives.  For the statements about derivatives the scalars are the real
numbers, and `toComplex` maps a `cdouble` over the reals to Mathlib's complex
numbers.

Shell loops.  The loops over the shells `NN` carry a bound on the number of
passes left; `nearbyAfter` and `distantAfter` give the variables after a number
of passes, and the theorems on the loops hold for every bound of at least
`NMAX - 1` passes.
-/

namespace scuff

/-! ## Complex numbers -/

/-- Model of `cdouble`, that is `std::complex<double>`. -/
@[ext]
structure cdouble (F : Type) where
  re : F
  im : F
deriving DecidableEq

namespace cdouble

variable {F : Type} [LinearOrderedField F]

/-- Conversion `double -> cdouble`. -/
def ofReal (x : F) : cdouble F := ⟨x, 0⟩

instance : Coe F (cdouble F) := ⟨ofReal⟩

instance : Zero (cdouble F) := ⟨⟨0, 0⟩⟩

instance : One (cdouble F) := ⟨⟨1, 0⟩⟩

instance : Add (cdouble F) := ⟨fun z w => ⟨z.re + w.re, z.im + w.im⟩⟩

instance : Neg (cdouble F) := ⟨fun z => ⟨-z.re, -z.im⟩⟩

instance : Sub (cdouble F) := ⟨fun z w => ⟨z.re - w.re, z.im - w.im⟩⟩

instance : Mul (cdouble F) :=
  ⟨fun z w => ⟨z.re * w.re - z.im * w.im, z.re * w.im + z.im * w.re⟩⟩

/-- The squared magnitude `std::norm(z)`. -/
def norm (z : cdouble F) : F := z.re * z.re + z.im * z.im

instance : Inv (cdouble F) := ⟨fun z => ⟨z.re / norm z, -z.im / norm z⟩⟩

instance : Div (cdouble F) := ⟨fun z w => z * w⁻¹⟩

/-- The imaginary unit, `#define II cdouble(0,1)`. -/
def II : cdouble F := ⟨0, 1⟩

@[simp]
theorem ofReal_re (x : F) : (ofReal x).re = x := rfl
@[simp]
theorem ofReal_im (x : F) : (ofReal x).im = 0 := rfl
@[simp]
theorem zero_re : (0 : cdouble F).re = 0 := rfl
@[simp]
theorem zero_im : (0 : cdouble F).im = 0 := rfl
@[simp]
theorem one_re : (1 : cdouble F).re = 1 := rfl
@[simp]
theorem one_im : (1 : cdouble F).im = 0 := rfl
@[simp]
theorem add_re (z w : cdouble F) : (z + w).re = z.re + w.re := rfl
@[simp]
theorem add_im (z w : cdouble F) : (z + w).im = z.im + w.im := rfl
@[simp]
theorem neg_re (z : cdouble F) : (-z).re = -z.re := rfl
@[simp]
theorem neg_im (z : cdouble F) : (-z).im = -z.im := rfl
@[simp]
theorem sub_re (z w : cdouble F) : (z - w).re = z.re - w.re := rfl
@[simp]
theorem sub_im (z w : cdouble F) : (z - w).im = z.im - w.im := rfl
@[simp]
theorem mul_re (z w : cdouble F) :
    (z * w).re = z.re * w.re - z.im * w.im := rfl
@[simp]
theorem mul_im (z w : cdouble F) :
    (z * w).im = z.re * w.im + z.im * w.re := rfl
@[simp]
theorem inv_re (z : cdouble F) : (z⁻¹).re = z.re / norm z := rfl
@[simp]
theorem inv_im (z : cdouble F) : (z⁻¹).im = -z.im / norm z := rfl
@[simp]
theorem II_re : (II : cdouble F).re = 0 := rfl
@[simp]
theorem II_im : (II : cdouble F).im = 1 := rfl

theorem div_def (z w : cdouble F) : z / w = z * w⁻¹ := rfl

instance : CommRing (cdouble F) where
  add_assoc := by intros; ext <;> simp [add_assoc]
  zero_add := by intros; ext <;> simp
  add_zero := by intros; ext <;> simp
  nsmul := nsmulRec
  zsmul := zsmulRec
  neg_add_cancel := by intros; ext <;> simp
  add_comm := by intros; ext <;> simp [add_comm]
  sub_eq_add_neg := by intros; ext <;> simp [sub_eq_add_neg]
  left_distrib := by intros; ext <;> simp <;> ring
  right_distrib := by intros; ext <;> simp <;> ring
  zero_mul := by intros; ext <;> simp
  mul_zero := by intros; ext <;> simp
  mul_assoc := by intros; ext <;> simp <;> ring
  one_mul := by intros; ext <;> simp
  mul_one := by intros; ext <;> simp
  mul_comm := by intros; ext <;> simp <;> ring

theorem norm_neg (z : cdouble F) : norm (-z) = norm z := by
  simp [norm]

theorem norm_nonneg (z : cdouble F) : 0 ≤ norm z := by
  unfold norm
  nlinarith [mul_self_nonneg z.re, mul_self_nonneg z.im]

theorem norm_pos_of_ne_zero {z : cdouble F} (h : z ≠ 0) : 0 < norm z := by
  rcases lt_or_eq_of_le (norm_nonneg z) with h1 | h1
  · exact h1
  · exfalso
    apply h
    have hre : z.re * z.re = 0 := by
      unfold norm at h1
      nlinarith [mul_self_nonneg z.re, mul_self_nonneg z.im]
    have him : z.im * z.im = 0 := by
      unfold norm at h1
      nlinarith [mul_self_nonneg z.re, mul_self_nonneg z.im]
    ext
    · simpa using hre
    · simpa using him

@[simp]
theorem ofReal_neg (x : F) : ofReal (-x) = -ofReal x := by
  ext <;> simp

@[simp]
theorem ofReal_zero : ofReal (0 : F) = 0 := rfl

theorem ofReal_mul (x y : F) : ofReal (x * y) = ofReal x * ofReal y := by
  ext <;> simp

theorem ofReal_add (x y : F) : ofReal (x + y) = ofReal x + ofReal y := by
  ext <;> simp

theorem ofReal_sub (x y : F) : ofReal (x - y) = ofReal x - ofReal y := by
  ext <;> simp

end cdouble

open cdouble

/-! ## Constants of the source file and of `math.h` -/

section Constants

variable {F : Type} [LinearOrderedField F]

/-- The macro `ABSTOL`. -/
def ABSTOL : F := 0

/-- The macro `RELTOL`. -/
def RELTOL : F := 1.0e-8

/-- The macro `NFIRSTROUND`. -/
def NFIRSTROUND : ℤ := 1

/-- The macro `NMAX`. -/
def NMAX : ℤ := 10000

/-- The macro `EULERGAMMA`. -/
def EULERGAMMA : F := 0.57721566490153286

/-- The macro `TINY`. -/
def TINY : F := 1.0e-30

/-- The constant `M_PI` of `math.h`. -/
def M_PI : F := 3.14159265358979323846

/-- The constant `M_2_SQRTPI` of `math.h` (2/sqrt(pi)). -/
def M_2_SQRTPI : F := 1.12837916709551257390

/-- The macro `PI32` (pi^(3/2)). -/
def PI32 : F := 5.5683279968317078453

end Constants

/-! ## Library functions and data -/

/-- The functions this file takes from the C/C++ library and from the other
libraries of the package: real `sqrt`; complex `abs`, `sqrt`, `exp`, `log`,
`arg`; `Faddeeva::erfcx` and the complex `Faddeeva::erf`; the modified Bessel
functions `K_0, K_1, K_2` as `AmosBessel('K', z, 0.0, 3, false, K, 0)` returns
them (`AmosBesselK z i` is `K[i]`); `IsFinite` of libhrutil and the macro
`ISNAN`. -/
structure Libm (F : Type) where
  sqrt : F → F
  cabs : cdouble F → F
  csqrt : cdouble F → cdouble F
  cexp : cdouble F → cdouble F
  clog : cdouble F → cdouble F
  carg : cdouble F → F
  erfcx : cdouble F → cdouble F
  cerf : cdouble F → cdouble F
  AmosBesselK : cdouble F → ℕ → cdouble F
  IsFinite : cdouble F → Bool
  ISNAN : F → Bool

/-- A point `double R[3]`. -/
@[ext]
structure Vec3 (F : Type) where
  x : F
  y : F
  z : F
deriving DecidableEq

/-- The first two entries of a `double[2]` or `double[3]` vector in the
xy-plane (`kBloch`, `P`). -/
@[ext]
structure Vec2 (F : Type) where
  x : F
  y : F
deriving DecidableEq

/-- The entries `[0][0], [0][1], [1][0], [1][1]` of a `double (*)[3]` array
(the lattice basis `LBV`, the reciprocal basis `Gamma`); row `i` is the
`i`-th basis vector.  No other entry is read or written by this file. -/
@[ext]
structure Mat2 (F : Type) where
  a00 : F
  a01 : F
  a10 : F
  a11 : F
deriving DecidableEq

/-- The `NSUM = 8` complex accumulators (`cdouble Sum[NSUM]`, `GBarVD[8]`):
value, d/dx, d/dy, d/dz, d2/dxdy, d2/dxdz, d2/dydz, d3/dxdydz. -/
@[ext]
structure Sum8 (F : Type) where
  s0 : cdouble F
  s1 : cdouble F
  s2 : cdouble F
  s3 : cdouble F
  s4 : cdouble F
  s5 : cdouble F
  s6 : cdouble F
  s7 : cdouble F
deriving DecidableEq

/-- The fatal errors raised through `ErrExit`. -/
inductive Fatal where
  /-- "lattice has empty unit cell" (GetRLBasis). -/
  | emptyUnitCell
  /-- "only 1D or 2D periodicity implemented in GBarVDEwald" (GetRLBasis). -/
  | only1Dor2D
  /-- "1D lattice vectors must point in the x direction" (AddGLong1D). -/
  | lattice1DNotAlongX
deriving DecidableEq, Repr

section Model

variable {F : Type} [LinearOrderedField F]

/-- The result of `memset(Sum,0,NSUM*sizeof(cdouble))`. -/
def Sum8.zero : Sum8 F := ⟨0, 0, 0, 0, 0, 0, 0, 0⟩

/-- The eight slots in index order. -/
def Sum8.toList (S : Sum8 F) : List (cdouble F) :=
  [S.s0, S.s1, S.s2, S.s3, S.s4, S.s5, S.s6, S.s7]

/-- Slot-wise sum. -/
def Sum8.add (S T : Sum8 F) : Sum8 F :=
  ⟨S.s0 + T.s0, S.s1 + T.s1, S.s2 + T.s2, S.s3 + T.s3,
   S.s4 + T.s4, S.s5 + T.s5, S.s6 + T.s6, S.s7 + T.s7⟩

/-- Slot-wise difference. -/
def Sum8.sub (S T : Sum8 F) : Sum8 F :=
  ⟨S.s0 - T.s0, S.s1 - T.s1, S.s2 - T.s2, S.s3 - T.s3,
   S.s4 - T.s4, S.s5 - T.s5, S.s6 - T.s6, S.s7 - T.s7⟩

/-- The loop `for(ns=0; ns<NSUM; ns++) Sum[ns] *= PreFactor`. -/
def Sum8.scale (c : F) (S : Sum8 F) : Sum8 F :=
  ⟨S.s0 * ofReal c, S.s1 * ofReal c, S.s2 * ofReal c, S.s3 * ofReal c,
   S.s4 * ofReal c, S.s5 * ofReal c, S.s6 * ofReal c, S.s7 * ofReal c⟩

/-- The integers `lo, lo+1, ..., hi` of a loop `for(n=lo; n<=hi; n++)`. -/
def intRange (lo hi : ℤ) : List ℤ :=
  (List.range (hi + 1 - lo).toNat).map (fun i => lo + (i : ℤ))

/-! ## The exponential integral -/

/-- The loop variables of `ExpInt_CF`. -/
structure CFState (F : Type) where
  fj : cdouble F
  Cj : cdouble F
  Dj : cdouble F
  Delta : cdouble F
  ConvergedIters : ℕ

/-- One pass through the loop body of `ExpInt_CF` (before the `break` test). -/
def ExpInt_CF_body (lib : Libm F) (z : cdouble F) (RelTol : F) (j : ℕ)
    (s : CFState F) : CFState F :=
  let aj : cdouble F := if j = 1 then lib.cexp (-z) else ofReal ((j / 2 : ℕ) : F)
  let bj : cdouble F := if j = 1 then z else (if j % 2 ≠ 0 then z else 1)
  let Djm1 := s.Dj
  let Dj := bj + aj * Djm1
  let Dj := if Dj = 0 then ofReal TINY else Dj
  let Cjm1 := s.Cj
  let Cj := bj + aj / Cjm1
  let Cj := if Cj = 0 then ofReal TINY else Cj
  let Dj := 1 / Dj
  let Delta := Cj * Dj
  let fjm1 := s.fj
  let fj := fjm1 * Delta
  { fj := fj, Cj := Cj, Dj := Dj, Delta := Delta,
    ConvergedIters := if lib.cabs (Delta - 1) < RelTol then s.ConvergedIters + 1 else 0 }

/-- The loop `for(j=1; j<1000; j++)` of `ExpInt_CF`, started at `j` with at
most `fuel` passes left; returns the loop variables and the final `j`. -/
def ExpInt_CF_loop (lib : Libm F) (z : cdouble F) (RelTol : F) :
    ℕ → ℕ → CFState F → CFState F × ℕ
  | 0, j, s => (s, j)
  | fuel + 1, j, s =>
    if j < 1000 then
      let s1 := ExpInt_CF_body lib z RelTol j s
      if s1.ConvergedIters = 5 then (s1, j)
      else ExpInt_CF_loop lib z RelTol fuel (j + 1) s1
    else (s, j)

/-- The state of `ExpInt_CF` before the loop. -/
def ExpInt_CF_init : CFState F :=
  { fj := ofReal TINY, Cj := ofReal TINY, Dj := 0, Delta := 0, ConvergedIters := 0 }

/-- Continued fraction for E1(z), `ExpInt_CF(z, RelTol, nIters)`: the value
returned. -/
def ExpInt_CF (lib : Libm F) (z : cdouble F) (RelTol : F) : cdouble F :=
  (ExpInt_CF_loop lib z RelTol 1000 1 ExpInt_CF_init).1.fj

/-- The loop variables of `ExpInt_PS`. -/
structure PSState (F : Type) where
  Result : cdouble F
  LastResult : cdouble F
  zPower : cdouble F
  nFact : F

/-- One pass through the loop body of `ExpInt_PS` (before the `break` test). -/
def ExpInt_PS_body (z : cdouble F) (n : ℕ) (s : PSState F) : PSState F :=
  let nFact := s.nFact * (n : F)
  let zPower := s.zPower * (-z)
  { Result := s.Result - zPower / ofReal (nFact * (n : F)),
    LastResult := s.Result, zPower := zPower, nFact := nFact }

/-- The loop `for(n=1; n<=100; n++)` of `ExpInt_PS`; returns the loop
variables and the final `n`. -/
def ExpInt_PS_loop (lib : Libm F) (z : cdouble F) (RelTol : F) :
    ℕ → ℕ → PSState F → PSState F × ℕ
  | 0, n, s => (s, n)
  | fuel + 1, n, s =>
    if n ≤ 100 then
      let s1 := ExpInt_PS_body z n s
      if lib.cabs (s1.Result - s1.LastResult) < RelTol * lib.cabs s1.Result then (s1, n)
      else ExpInt_PS_loop lib z RelTol fuel (n + 1) s1
    else (s, n)

/-- The state of `ExpInt_PS` before the loop. -/
def ExpInt_PS_init (lib : Libm F) (z : cdouble F) : PSState F :=
  { Result := ofReal (-EULERGAMMA) - lib.clog z, LastResult := 0, zPower := 1, nFact := 1 }

/-- Power series for E1(z), `ExpInt_PS(z, RelTol, pnTerms)`: the value
returned. -/
def ExpInt_PS (lib : Libm F) (z : cdouble F) (RelTol : F) : cdouble F :=
  (ExpInt_PS_loop lib z RelTol 101 1 (ExpInt_PS_init lib z)).1.Result

/-- The loop variables of `ExpInt_Asymptotic`. -/
structure AsState (F : Type) where
  Sum : cdouble F
  Term : cdouble F

/-- One pass through the loop body of `ExpInt_Asymptotic`. -/
def ExpInt_Asymptotic_body (z : cdouble F) (n : ℕ) (s : AsState F) : AsState F :=
  let Term := s.Term * (ofReal (-(n : F)) / z)
  { Sum := s.Sum + Term, Term := Term }

/-- The loop `for(n=1; n<=100; n++)` of `ExpInt_Asymptotic`. -/
def ExpInt_Asymptotic_loop (lib : Libm F) (z : cdouble F) (RelTol : F) :
    ℕ → ℕ → AsState F → AsState F × ℕ
  | 0, n, s => (s, n)
  | fuel + 1, n, s =>
    if n ≤ 100 then
      let s1 := ExpInt_Asymptotic_body z n s
      if lib.cabs s1.Term < RelTol * lib.cabs s1.Sum then (s1, n)
      else ExpInt_Asymptotic_loop lib z RelTol fuel (n + 1) s1
    else (s, n)

/-- Large-z series for E1(z), `ExpInt_Asymptotic(z, RelTol, pnTerms)`: the
value returned. -/
def ExpInt_Asymptotic (lib : Libm F) (z : cdouble F) (RelTol : F) : cdouble F :=
  if lib.cabs z > 100 then 0
  else
    let s := (ExpInt_Asymptotic_loop lib z RelTol 101 1 { Sum := 1, Term := 1 }).1
    s.Sum * lib.cexp (-z) / z

/-- The exponential integral `ExpInt(z)`. -/
def ExpInt (lib : Libm F) (z : cdouble F) : cdouble F :=
  let absz := lib.cabs z
  if absz < 5 then ExpInt_PS lib z 1.0e-8
  else if absz < 30 then
    if |(|lib.carg z| - M_PI)| < 0.2 then ExpInt_PS lib z 1.0e-8
    else ExpInt_CF lib z 1.0e-8
  else ExpInt_Asymptotic lib z 1.0e-8

/-! ## Reciprocal lattice and the Ewald parameter -/

/-- What `GetRLBasis` stores through `Gamma`, `EOpt` and `pRho` when
`GBarVDEwald` calls it (all three pointers non-null).  For `LDim = 2` the
function does not assign `*pRho`, and no `LDim = 2` path reads `Rho`; the
field is `0` there. -/
structure RLBasis (F : Type) where
  Gamma : Mat2 F
  EOpt : F
  Rho : F

/-- The function `GetRLBasis(LDim, L, Gamma, k, EOpt, R, pRho)`. -/
def GetRLBasis (lib : Libm F) (LDim : ℤ) (L : Mat2 F) (k : cdouble F) (R : Vec3 F) :
    Except Fatal (RLBasis F) :=
  if LDim = 1 then
    let L2 := L.a00 * L.a00 + L.a01 * L.a01
    let G00 := (2 * M_PI / L2) * L.a00
    let G01 := (2 * M_PI / L2) * L.a01
    let Factor := (R.x * L.a00 + R.y * L.a01) / L2
    let Rho2D0 := R.x - Factor * L.a00
    let Rho2D1 := R.y - Factor * L.a01
    let Rho2 := Rho2D0 * Rho2D0 + Rho2D1 * Rho2D1 + R.z * R.z
    let Rho := lib.sqrt Rho2
    let E := lib.sqrt (M_PI / L2)
    let E1 := lib.cabs k / 20
    let E2 := if Rho2 = 0 then 1.0e100 else 1.2 / Rho
    let E := if E < E1 then E1 else if E > E2 then E2 else E
    .ok { Gamma := ⟨G00, G01, 0, 0⟩, EOpt := E, Rho := Rho }
  else if LDim = 2 then
    let Area := L.a00 * L.a11 - L.a01 * L.a10
    if Area = 0 then .error Fatal.emptyUnitCell
    else
      let G00 := 2 * M_PI * L.a11 / Area
      let G01 := -2 * M_PI * L.a01 / Area
      let G10 := -2 * M_PI * L.a10 / Area
      let G11 := 2 * M_PI * L.a00 / Area
      let EOpt1 := lib.sqrt (M_PI / Area)
      let G12 := G00 * G00 + G01 * G01
      let G22 := G10 * G10 + G11 * G11
      let EOpt2 := lib.sqrt (norm k + G12 + G22) / 10
      .ok { Gamma := ⟨G00, G01, G10, G11⟩, EOpt := max EOpt1 EOpt2, Rho := 0 }
  else .error Fatal.only1Dor2D

/-! ## exp * erfc -/

/-- The function `erfc_s(a, b)`: "compute exp(a)*erfc(b)". -/
def erfc_s (lib : Libm F) (a b : cdouble F) : cdouble F :=
  let x := b.re
  let y := b.im
  let mb2 : cdouble F := ⟨(y - x) * (x + y), -2 * x * y⟩
  if x ≥ 0 then lib.cexp (a + mb2) * lib.erfcx b
  else ofReal 2 * lib.cexp a - lib.cexp (a + mb2) * lib.erfcx (-b)

/-- The function `cisnan(z)`. -/
def cisnan (lib : Libm F) (z : cdouble F) : Bool :=
  lib.ISNAN z.re || lib.ISNAN z.im

/-- The function `GetEEF(z, E, Q, EEF, EEFPrime)`; returns `(EEF, EEFPrime)`. -/
def GetEEF (lib : Libm F) (z E : F) (Q : cdouble F) : cdouble F × cdouble F :=
  let Arg := ofReal 0.5 * Q / ofReal E + ofReal (z * E)
  let PlusTerm := erfc_s lib (Q * ofReal z) Arg
  let dPlusTerm := Q * PlusTerm - ofReal (M_2_SQRTPI * E) * lib.cexp (Q * ofReal z - Arg * Arg)
  let Arg := ofReal 0.5 * Q / ofReal E - ofReal (z * E)
  let MinusTerm := erfc_s lib (-Q * ofReal z) Arg
  let dMinusTerm :=
    -Q * MinusTerm + ofReal (M_2_SQRTPI * E) * lib.cexp (-Q * ofReal z - Arg * Arg)
  let EEF := PlusTerm + MinusTerm
  let EEFPrime := dPlusTerm + dMinusTerm
  let EEF := if !lib.IsFinite EEF || cisnan lib EEF then 0 else EEF
  let EEFPrime := if !lib.IsFinite EEFPrime || cisnan lib EEFPrime then 0 else EEFPrime
  (EEF, EEFPrime)

/-! ## The reciprocal-space ("distant") sum -/

/-- The variables of `GetGBarDistant` that its per-vector calls read and
write: the running sums, the flag `Singular`, the counter `nCells`; and one
ghost field, `trace`, the list of the indices `(n1, n2)` (`(m, 0)` in 1D) with
which `AddGLong2D` / `AddGLong1D` have been called, in call order. -/
structure DistantState (F : Type) where
  Sum : Sum8 F
  Singular : Bool
  nCells : ℤ
  trace : List (ℤ × ℤ)

/-- The function `AddGLong2D(R, k, P, n1, n2, Gamma, E, GBarVD, Singular)`. -/
def AddGLong2D (lib : Libm F) (R : Vec3 F) (k : cdouble F) (P : Vec2 F) (n1 n2 : ℤ)
    (Gamma : Mat2 F) (E : F) (st0 : DistantState F) : DistantState F :=
  let st := { st0 with trace := st0.trace ++ [(n1, n2)] }
  if st.Singular then st
  else
    let PmG0 := P.x - (n1 : F) * Gamma.a00 - (n2 : F) * Gamma.a10
    let PmG1 := P.y - (n1 : F) * Gamma.a01 - (n2 : F) * Gamma.a11
    let Q := lib.csqrt (ofReal (PmG0 * PmG0 + PmG1 * PmG1) - k * k)
    if lib.cabs Q < 1.0e-4 * lib.cabs k then { st with Singular := true }
    else
      let PreFactor := lib.cexp (II * ofReal (PmG0 * R.x + PmG1 * R.y)) / Q
      let EEF := (GetEEF lib R.z E Q).1
      let EEFPrime := (GetEEF lib R.z E Q).2
      let S := st.Sum
      { st with
        Sum :=
          { s0 := S.s0 + PreFactor * EEF,
            s1 := S.s1 + II * ofReal PmG0 * PreFactor * EEF,
            s2 := S.s2 + II * ofReal PmG1 * PreFactor * EEF,
            s3 := S.s3 + PreFactor * EEFPrime,
            s4 := S.s4 + ofReal (-PmG0 * PmG1) * PreFactor * EEF,
            s5 := S.s5 + II * ofReal PmG0 * PreFactor * EEFPrime,
            s6 := S.s6 + II * ofReal PmG1 * PreFactor * EEFPrime,
            s7 := S.s7 + ofReal (-PmG0 * PmG1) * PreFactor * EEFPrime } }

/-- What `GFullTwiddle1D` and `GetGLongTwiddle1D` hand back: the value
returned, the two entries of `dGdRho`, and the flag `Singular`. -/
structure Twiddle (F : Type) where
  G : cdouble F
  d0 : cdouble F
  d1 : cdouble F
  Singular : Bool

/-- The function `GFullTwiddle1D(kx, Rho, k, dGdRho)` with `dGdRho` non-null
(its only call passes the caller's array); it does not touch `Singular`. -/
def GFullTwiddle1D (lib : Libm F) (kx Rho : F) (k : cdouble F) (Singular : Bool) :
    Twiddle F :=
  let kt2 := ofReal (kx * kx) - k * k
  let kt := lib.csqrt kt2
  let K := lib.AmosBesselK (kt * ofReal Rho)
  let Denom : F := 4 * M_PI * M_PI
  { G := K 0 / ofReal Denom,
    d0 := -kt * K 1 / ofReal Denom,
    d1 := kt2 * (K 0 + K 2) / ofReal (2 * Denom),
    Singular := Singular }

/-- The loop variables of `GetGLongTwiddle1D`. -/
structure TwState (F : Type) where
  Eqp1 : cdouble F
  PreFactor : F
  Sum : cdouble F
  d0 : cdouble F
  d1 : cdouble F
  ConvergedIters : ℕ

/-- One pass through the loop body of `GetGLongTwiddle1D` (before the
`break` test), `dGdRho` non-null. -/
def GetGLongTwiddle1D_body (lib : Libm F) (Rho RhoE2 : F) (Arg ExpFac : cdouble F)
    (q : ℕ) (s : TwState F) : TwState F :=
  let Eqp1 := (ExpFac - Arg * s.Eqp1) / ofReal (q : F)
  let PreFactor := s.PreFactor * (-1 * RhoE2 / (q : F))
  let Summand := ofReal PreFactor * Eqp1
  let Sum := s.Sum + Summand
  let Factor := 2 * (q : F) / Rho
  { Eqp1 := Eqp1, PreFactor := PreFactor, Sum := Sum,
    d0 := s.d0 + ofReal Factor * Summand,
    d1 := s.d1 + ofReal Factor * Summand * ofReal (2 * (q : F) - 1) / ofReal Rho,
    ConvergedIters := if lib.cabs (Summand / Sum) < 1.0e-8 then s.ConvergedIters + 1 else 0 }

/-- The loop `for(q=1; q<1000; q++)` of `GetGLongTwiddle1D`. -/
def GetGLongTwiddle1D_loop (lib : Libm F) (Rho RhoE2 : F) (Arg ExpFac : cdouble F) :
    ℕ → ℕ → TwState F → TwState F
  | 0, _, s => s
  | fuel + 1, q, s =>
    if q < 1000 then
      let s1 := GetGLongTwiddle1D_body lib Rho RhoE2 Arg ExpFac q s
      if s1.ConvergedIters = 2 then s1
      else GetGLongTwiddle1D_loop lib Rho RhoE2 Arg ExpFac fuel (q + 1) s1
    else s

/-- The function `GetGLongTwiddle1D(kx, Rho, k, E, dGdRho, Singular)` with
`dGdRho` non-null; `dGdRho` holds the caller's two entries on entry. -/
def GetGLongTwiddle1D (lib : Libm F) (kx Rho : F) (k : cdouble F) (E : F)
    (dGdRho : cdouble F × cdouble F) (Singular : Bool) : Twiddle F :=
  if Singular then { G := 0, d0 := dGdRho.1, d1 := dGdRho.2, Singular := Singular }
  else if Rho * E > 4.5 then GFullTwiddle1D lib kx Rho k Singular
  else
    let kt2 := ofReal (kx * kx) - k * k
    if lib.cabs kt2 < 1.0e-8 * lib.cabs (k * k) then
      { G := 0, d0 := 0, d1 := 0, Singular := true }
    else
      let E2 := E * E
      let Arg := kt2 / ofReal (4 * E2)
      let Eqp1 := ExpInt lib Arg
      let NormFac : F := 8 * M_PI * M_PI
      if Rho = 0 then { G := Eqp1 / ofReal NormFac, d0 := 0, d1 := 0, Singular := Singular }
      else
        let ExpFac := lib.cexp (-Arg)
        let RhoE2 := Rho * Rho * E2
        let s := GetGLongTwiddle1D_loop lib Rho RhoE2 Arg ExpFac 1000 1
          { Eqp1 := Eqp1, PreFactor := 1, Sum := Eqp1, d0 := 0, d1 := 0,
            ConvergedIters := 0 }
        { G := s.Sum / ofReal NormFac, d0 := s.d0 / ofReal NormFac,
          d1 := s.d1 / ofReal NormFac, Singular := Singular }

/-- The function `AddGLong1D(R, Rho, k, P, m, Gamma, E, GBarVD, Singular)`
(`mm` is the C parameter `m`). -/
def AddGLong1D (lib : Libm F) (R : Vec3 F) (Rho : F) (k : cdouble F) (P : Vec2 F)
    (mm : ℤ) (Gamma : Mat2 F) (E : F) (st0 : DistantState F) :
    Except Fatal (DistantState F) :=
  let st := { st0 with trace := st0.trace ++ [(mm, 0)] }
  if st.Singular then .ok st
  else
    let PmG0 := P.x - (mm : F) * Gamma.a00
    let PmG1 := P.y - (mm : F) * Gamma.a01
    if PmG1 ≠ 0 then .error Fatal.lattice1DNotAlongX
    else
      let PmGMag := PmG0
      let ExpFac := lib.cexp (II * ofReal (PmG0 * R.x + PmG1 * R.y))
      let tw := GetGLongTwiddle1D lib PmGMag Rho k E (0, 0) st.Singular
      let GT := tw.G
      let dGTdRho := tw.d0
      let dGT2dRho2 : cdouble F := if Rho = 0 then 0 else tw.d1 - tw.d0 / ofReal Rho
      let YOverRho : F := if Rho = 0 then 0 else R.y / Rho
      let ZOverRho : F := if Rho = 0 then 0 else R.z / Rho
      let S := st.Sum
      .ok { st with
            Singular := tw.Singular,
            Sum :=
              { s0 := S.s0 + ExpFac * GT,
                s1 := S.s1 + II * ofReal PmG0 * ExpFac * GT,
                s2 := S.s2 + ofReal YOverRho * ExpFac * dGTdRho,
                s3 := S.s3 + ofReal ZOverRho * ExpFac * dGTdRho,
                s4 := S.s4 + II * ofReal PmG0 * ofReal YOverRho * ExpFac * dGTdRho,
                s5 := S.s5 + II * ofReal PmG0 * ofReal ZOverRho * ExpFac * dGTdRho,
                s6 := S.s6 + ofReal (YOverRho * ZOverRho) * ExpFac * dGT2dRho2,
                s7 := S.s7 + II * ofReal PmG0 * ofReal YOverRho * ofReal ZOverRho
                        * ExpFac * dGT2dRho2 } }

/-- Left fold of a step that may raise a fatal error: the steps run in list
order and the first error ends the run. -/
def foldErr {α β : Type} (f : β → α → Except Fatal β) : List α → β → Except Fatal β
  | [], b => .ok b
  | a :: as, b =>
    match f b a with
    | .error e => .error e
    | .ok b1 => foldErr f as b1

/-- One pass of the loop `for(ns=0; ns<NSUM; ns++)` of the convergence
analysis (the same text in `GetGBarDistant` and `GetGBarNearby`):
`acc = (MaxAbsDelta, MaxRelDelta)`, `p = (Sum[ns], LastSum[ns])`. -/
def convStep (lib : Libm F) (acc : F × F) (p : cdouble F × cdouble F) : F × F :=
  let Delta := lib.cabs (p.1 - p.2)
  let MaxAbsDelta := if Delta > acc.1 then Delta else acc.1
  let AbsSum := lib.cabs p.1
  let MaxRelDelta :=
    if AbsSum > 0 ∧ Delta > acc.2 * AbsSum then Delta / AbsSum else acc.2
  (MaxAbsDelta, MaxRelDelta)

/-- The pair `(MaxAbsDelta, MaxRelDelta)` after the convergence analysis. -/
def maxDeltas (lib : Libm F) (Sum LastSum : Sum8 F) : F × F :=
  (List.zip Sum.toList LastSum.toList).foldl (convStep lib) (0, 0)

/-- The test `MaxAbsDelta<ABSTOL || MaxRelDelta<RELTOL` of the convergence
analysis. -/
def underTolerance (lib : Libm F) (Sum LastSum : Sum8 F) : Bool :=
  decide ((maxDeltas lib Sum LastSum).1 < ABSTOL ∨ (maxDeltas lib Sum LastSum).2 < RELTOL)

/-- The first round of `GetGBarDistant`. -/
def distantFirstRound (lib : Libm F) (R : Vec3 F) (Rho : F) (k : cdouble F)
    (kBloch : Vec2 F) (Gamma : Mat2 F) (LDim : ℤ) (E : F) (st : DistantState F) :
    Except Fatal (DistantState F) :=
  if LDim = 1 then
    foldErr (fun st mm => AddGLong1D lib R Rho k kBloch mm Gamma E st)
      (intRange (-NFIRSTROUND) NFIRSTROUND) st
  else
    .ok ((intRange (-NFIRSTROUND) NFIRSTROUND).foldl
      (fun st m1 => (intRange (-NFIRSTROUND) NFIRSTROUND).foldl
        (fun st m2 =>
          let st1 := AddGLong2D lib R k kBloch m1 m2 Gamma E st
          { st1 with nCells := st1.nCells + 1 }) st) st)

/-- The cells of shell `NN` in `GetGBarDistant`: the body of the loop over
`NN` up to the test `if (Singular) return true`. -/
def distantShell (lib : Libm F) (R : Vec3 F) (Rho : F) (k : cdouble F)
    (kBloch : Vec2 F) (Gamma : Mat2 F) (LDim : ℤ) (E : F) (NN : ℤ)
    (st : DistantState F) : Except Fatal (DistantState F) :=
  if LDim = 1 then
    match AddGLong1D lib R Rho k kBloch NN Gamma E st with
    | .error e => .error e
    | .ok st1 =>
      match AddGLong1D lib R Rho k kBloch (-NN) Gamma E st1 with
      | .error e => .error e
      | .ok st2 => .ok { st2 with nCells := st2.nCells + 2 }
  else
    .ok ((intRange (-NN) (NN - 1)).foldl
      (fun st mm =>
        let st1 := AddGLong2D lib R k kBloch mm NN Gamma E st
        let st2 := AddGLong2D lib R k kBloch NN (-mm) Gamma E st1
        let st3 := AddGLong2D lib R k kBloch (-mm) (-NN) Gamma E st2
        let st4 := AddGLong2D lib R k kBloch (-NN) mm Gamma E st3
        { st4 with nCells := st4.nCells + 4 }) st)

/-- The loop `for(NN=NFIRSTROUND+1; ConvergedIters<3 && NN<=NMAX; NN++)` of
`GetGBarDistant`, entered at `NN` with at most `fuel` shells left.  It ends
when the loop condition fails or when a shell leaves `Singular` set (the
`return true` inside the loop). -/
def distantLoop (lib : Libm F) (R : Vec3 F) (Rho : F) (k : cdouble F)
    (kBloch : Vec2 F) (Gamma : Mat2 F) (LDim : ℤ) (E : F) :
    ℕ → ℤ → ℕ → DistantState F → Sum8 F → Except Fatal (DistantState F)
  | 0, _, _, st, _ => .ok st
  | fuel + 1, NN, ConvergedIters, st, LastSum =>
    if ConvergedIters < 3 ∧ NN ≤ NMAX then
      match distantShell lib R Rho k kBloch Gamma LDim E NN st with
      | .error e => .error e
      | .ok st1 =>
        if st1.Singular then .ok st1
        else
          distantLoop lib R Rho k kBloch Gamma LDim E fuel (NN + 1)
            (if underTolerance lib st1.Sum LastSum then ConvergedIters + 1 else 0)
            st1 st1.Sum
    else .ok st

/-- What `GetGBarDistant` hands back: its return value (`Singular`), the
array `Sum`, the value stored through `pnCells` if the store is reached, and
the ghost trace of the per-vector calls. -/
structure DistantResult (F : Type) where
  Singular : Bool
  Sum : Sum8 F
  pnCells : Option ℤ
  trace : List (ℤ × ℤ)

/-- The function `GetGBarDistant(R, Rho, k, kBloch, Gamma, LDim, E, pnCells,
Sum)`. -/
def GetGBarDistant (lib : Libm F) (R : Vec3 F) (Rho : F) (k : cdouble F)
    (kBloch : Vec2 F) (Gamma : Mat2 F) (LDim : ℤ) (E : F) :
    Except Fatal (DistantResult F) :=
  if E = 0 then
    .ok { Singular := false, Sum := Sum8.zero, pnCells := none, trace := [] }
  else
    match distantFirstRound lib R Rho k kBloch Gamma LDim E
        { Sum := Sum8.zero, Singular := false, nCells := 0, trace := [] } with
    | .error e => .error e
    | .ok st1 =>
      if st1.Singular then
        .ok { Singular := true, Sum := st1.Sum, pnCells := none, trace := st1.trace }
      else
        match distantLoop lib R Rho k kBloch Gamma LDim E NMAX.toNat (NFIRSTROUND + 1) 0
            st1 st1.Sum with
        | .error e => .error e
        | .ok st2 =>
          if st2.Singular then
            .ok { Singular := true, Sum := st2.Sum, pnCells := none, trace := st2.trace }
          else
            let PreFactor : F :=
              if LDim = 1 then
                lib.sqrt (Gamma.a00 * Gamma.a00 + Gamma.a01 * Gamma.a01)
              else
                (Gamma.a00 * Gamma.a11 - Gamma.a01 * Gamma.a10) / (16 * M_PI * M_PI)
            .ok { Singular := false, Sum := st2.Sum.scale PreFactor,
                  pnCells := some st2.nCells, trace := st2.trace }

/-! ## The real-space ("nearby") sum -/

/-- The function `AddGFull(R, k, kBloch, Lx, Ly, Sum, ValueOnly)`. -/
def AddGFull (lib : Libm F) (R : Vec3 F) (k : cdouble F) (kBloch : Vec2 F)
    (Lx Ly : F) (Sum : Sum8 F) (ValueOnly : Bool) : Sum8 F :=
  let PhaseFactor := lib.cexp (II * ofReal (Lx * kBloch.x + Ly * kBloch.y))
  let RmL0 := R.x - Lx
  let RmL1 := R.y - Ly
  let RmL2 := R.z
  let r2 := RmL0 * RmL0 + RmL1 * RmL1 + RmL2 * RmL2
  let r := lib.sqrt r2
  if r < 1.0e-8 then Sum
  else
    let IKR := II * k * ofReal r
    let Phi := lib.cexp IKR / ofReal (4 * M_PI * r)
    if ValueOnly then { Sum with s0 := Sum.s0 + PhaseFactor * Phi }
    else
      let Psi := (IKR - ofReal 1) * Phi / ofReal r2
      let Zeta := (ofReal 3 + IKR * (ofReal (-3) + IKR)) * Phi / ofReal (r2 * r2)
      let Upsilon :=
        (ofReal (-15) + IKR * (ofReal 15 + IKR * (ofReal (-6) + IKR))) * Phi
          / ofReal (r2 * r2 * r2)
      { s0 := Sum.s0 + PhaseFactor * Phi,
        s1 := Sum.s1 + PhaseFactor * ofReal RmL0 * Psi,
        s2 := Sum.s2 + PhaseFactor * ofReal RmL1 * Psi,
        s3 := Sum.s3 + PhaseFactor * ofReal RmL2 * Psi,
        s4 := Sum.s4 + PhaseFactor * ofReal RmL0 * ofReal RmL1 * Zeta,
        s5 := Sum.s5 + PhaseFactor * ofReal RmL0 * ofReal RmL2 * Zeta,
        s6 := Sum.s6 + PhaseFactor * ofReal RmL1 * ofReal RmL2 * Zeta,
        s7 := Sum.s7 + PhaseFactor * ofReal RmL0 * ofReal RmL1 * ofReal RmL2 * Upsilon }

/-- The lattice vector `L[0], L[1]` that `AddGShort` and `AddGLongRealSpace`
form from the cell index. -/
def cellVector (n1 n2 : ℤ) (LBV : Mat2 F) (LDim : ℤ) : Vec2 F :=
  if LDim = 1 then ⟨(n1 : F) * LBV.a00, (n1 : F) * LBV.a01⟩
  else ⟨(n1 : F) * LBV.a00 + (n2 : F) * LBV.a10, (n1 : F) * LBV.a01 + (n2 : F) * LBV.a11⟩

/-- The radial quantities of `AddGShort`: `ggPgg` and the three successive
values of the variable `Term` (for slots 1-3, slots 4-6 and slot 7). -/
structure ShortTerms (F : Type) where
  ggPgg : cdouble F
  Term1 : cdouble F
  Term2 : cdouble F
  Term3 : cdouble F

/-- The part of `AddGShort` between the test `rml < 1.0e-6` and the updates
of `Sum`: everything it computes from `k`, `E`, `rml2` and `rml` alone. -/
@[irreducible]
def AddGShort_terms (lib : Libm F) (k : cdouble F) (E rml2 rml : F) : ShortTerms F :=
  let rml3 := rml2 * rml
  let rml4 := rml3 * rml
  let rml5 := rml4 * rml
  let rml6 := rml5 * rml
  let rml7 := rml6 * rml
  let E2 := E * E
  let E4 := E2 * E2
  let g2pTg3p :=
    erfc_s lib (II * k * ofReal rml) (ofReal (E * rml) + II * k / ofReal (2 * E))
  let g2mTg3m :=
    erfc_s lib (-II * k * ofReal rml) (ofReal (E * rml) - II * k / ofReal (2 * E))
  let ggPgg := g2pTg3p + g2mTg3m
  let ggMgg := g2pTg3p - g2mTg3m
  let g4 :=
    ofReal (-2 * M_2_SQRTPI * E)
      * lib.cexp (ofReal (-E2 * rml2) + k * k / ofReal (4 * E2))
  { ggPgg := ggPgg,
    Term1 := -ggPgg / ofReal rml3 + (g4 + II * k * ggMgg) / ofReal rml2,
    Term2 :=
      ofReal 3 * ggPgg / ofReal rml5 - ofReal 3 * (g4 + II * k * ggMgg) / ofReal rml4
        - k * k * ggPgg / ofReal rml3 - ofReal (2 * E2) * g4 / ofReal rml2,
    Term3 :=
      ofReal (-15) * ggPgg / ofReal rml7
        + ofReal 15 * (g4 + II * k * ggMgg) / ofReal rml6
        + ofReal 6 * k * k * ggPgg / ofReal rml5
        + ofReal (10 * E2) * g4 / ofReal rml4
        - k * k * (II * k * ggMgg + g4) / ofReal rml4
        + ofReal (4 * E4) * g4 / ofReal rml2 }

/-- The function `AddGShort(R, k, kBloch, n1, n2, LBV, LDim, E, Sum)`. -/
def AddGShort (lib : Libm F) (R : Vec3 F) (k : cdouble F) (kBloch : Vec2 F)
    (n1 n2 : ℤ) (LBV : Mat2 F) (LDim : ℤ) (E : F) (Sum : Sum8 F) : Sum8 F :=
  let L := cellVector n1 n2 LBV LDim
  if E = 0 then AddGFull lib R k kBloch L.x L.y Sum false
  else
    let PhaseFactor :=
      lib.cexp (II * ofReal (kBloch.x * L.x + kBloch.y * L.y)) / ofReal (8 * M_PI)
    let RmL0 := R.x - L.x
    let RmL1 := R.y - L.y
    let RmL2 := R.z
    let rml2 := RmL0 * RmL0 + RmL1 * RmL1 + RmL2 * RmL2
    let rml := lib.sqrt rml2
    if rml < 1.0e-6 then Sum
    else
      let T := AddGShort_terms lib k E rml2 rml
      { s0 := Sum.s0 + PhaseFactor * T.ggPgg / ofReal rml,
        s1 := Sum.s1 + PhaseFactor * ofReal RmL0 * T.Term1,
        s2 := Sum.s2 + PhaseFactor * ofReal RmL1 * T.Term1,
        s3 := Sum.s3 + PhaseFactor * ofReal RmL2 * T.Term1,
        s4 := Sum.s4 + PhaseFactor * ofReal RmL0 * ofReal RmL1 * T.Term2,
        s5 := Sum.s5 + PhaseFactor * ofReal RmL0 * ofReal RmL2 * T.Term2,
        s6 := Sum.s6 + PhaseFactor * ofReal RmL1 * ofReal RmL2 * T.Term2,
        s7 := Sum.s7 + PhaseFactor * ofReal RmL0 * ofReal RmL1 * ofReal RmL2 * T.Term3 }

/-- The variables of `GetGBarNearby`: the running sums, the counter `nCells`,
and one ghost field, `trace`, the list of the cell indices `(n1, n2)` with
which `GetGBarNearby` has called `AddGShort`, in call order. -/
structure NearbyState (F : Type) where
  Sum : Sum8 F
  nCells : ℤ
  trace : List (ℤ × ℤ)

/-- One call `AddGShort(R, k, kBloch, n1, n2, LBV, LDim, E, Sum)` made by
`GetGBarNearby`. -/
def nearbyCell (lib : Libm F) (R : Vec3 F) (k : cdouble F) (kBloch : Vec2 F)
    (LBV : Mat2 F) (LDim : ℤ) (E : F) (n1 n2 : ℤ) (st : NearbyState F) : NearbyState F :=
  { st with Sum := AddGShort lib R k kBloch n1 n2 LBV LDim E st.Sum,
            trace := st.trace ++ [(n1, n2)] }

/-- The first round of `GetGBarNearby`. -/
def nearbyFirstRound (lib : Libm F) (R : Vec3 F) (k : cdouble F) (kBloch : Vec2 F)
    (LBV : Mat2 F) (LDim : ℤ) (E : F) (ExcludeInnerCells : Bool) (st : NearbyState F) :
    NearbyState F :=
  if LDim = 1 then
    (intRange (-NFIRSTROUND) NFIRSTROUND).foldl
      (fun st n1 =>
        let st1 :=
          if !ExcludeInnerCells || decide (|n1| > 1) then
            nearbyCell lib R k kBloch LBV LDim E n1 0 st
          else st
        { st1 with nCells := st1.nCells + 1 }) st
  else if LDim = 2 then
    (intRange (-NFIRSTROUND) NFIRSTROUND).foldl
      (fun st n1 => (intRange (-NFIRSTROUND) NFIRSTROUND).foldl
        (fun st n2 =>
          let st1 :=
            if !ExcludeInnerCells || decide (|n1| > 1) || decide (|n2| > 1) then
              nearbyCell lib R k kBloch LBV LDim E n1 n2 st
            else st
          { st1 with nCells := st1.nCells + 1 }) st) st
  else st

/-- The cells of shell `NN` in `GetGBarNearby`. -/
def nearbyShell (lib : Libm F) (R : Vec3 F) (k : cdouble F) (kBloch : Vec2 F)
    (LBV : Mat2 F) (LDim : ℤ) (E : F) (NN : ℤ) (st : NearbyState F) : NearbyState F :=
  if LDim = 1 then
    let st1 := nearbyCell lib R k kBloch LBV LDim E NN 0 st
    let st2 := nearbyCell lib R k kBloch LBV LDim E (-NN) 0 st1
    { st2 with nCells := st2.nCells + 2 }
  else
    (intRange (-NN) (NN - 1)).foldl
      (fun st n =>
        let st1 := nearbyCell lib R k kBloch LBV LDim E n NN st
        let st2 := nearbyCell lib R k kBloch LBV LDim E NN (-n) st1
        let st3 := nearbyCell lib R k kBloch LBV LDim E (-n) (-NN) st2
        let st4 := nearbyCell lib R k kBloch LBV LDim E (-NN) n st3
        { st4 with nCells := st4.nCells + 4 }) st

/-- The loop `for(NN=NFIRSTROUND+1; ConvergedIters<3 && NN<=NMAX; NN++)` of
`GetGBarNearby`, entered at `NN` with at most `fuel` shells left. -/
def nearbyLoop (lib : Libm F) (R : Vec3 F) (k : cdouble F) (kBloch : Vec2 F)
    (LBV : Mat2 F) (LDim : ℤ) (E : F) :
    ℕ → ℤ → ℕ → NearbyState F → Sum8 F → NearbyState F
  | 0, _, _, st, _ => st
  | fuel + 1, NN, ConvergedIters, st, LastSum =>
    if ConvergedIters < 3 ∧ NN ≤ NMAX then
      let st1 := nearbyShell lib R k kBloch LBV LDim E NN st
      nearbyLoop lib R k kBloch LBV LDim E fuel (NN + 1)
        (if underTolerance lib st1.Sum LastSum then ConvergedIters + 1 else 0)
        st1 st1.Sum
    else st

/-- The function `GetGBarNearby(R, k, kBloch, LBV, LDim, E, ExcludeInnerCells,
pnCells, Sum)`: the final `Sum`, `nCells` and trace. -/
def GetGBarNearby (lib : Libm F) (R : Vec3 F) (k : cdouble F) (kBloch : Vec2 F)
    (LBV : Mat2 F) (LDim : ℤ) (E : F) (ExcludeInnerCells : Bool) : NearbyState F :=
  let st1 := nearbyFirstRound lib R k kBloch LBV LDim E ExcludeInnerCells
    { Sum := Sum8.zero, nCells := 0, trace := [] }
  nearbyLoop lib R k kBloch LBV LDim E NMAX.toNat (NFIRSTROUND + 1) 0 st1 st1.Sum

/-! ## The inner-cell correction and the entry point -/

/-- The coefficients `C0`, `C2`, `C4` of the small-r expansion in
`AddGLongRealSpace`. -/
structure SmallRCoeffs (F : Type) where
  C0 : cdouble F
  C2 : cdouble F
  C4 : cdouble F

/-- The part of the small-r branch of `AddGLongRealSpace` that computes `C0`,
`C2`, `C4` from `k` and `E`. -/
@[irreducible]
def AddGLongRealSpace_coeffs (lib : Libm F) (k : cdouble F) (E : F) : SmallRCoeffs F :=
  let k2 := k * k
  let k3 := k2 * k
  let E2 : cdouble F := ofReal (E * E)
  let ErfFac := ofReal 1 + lib.cerf (ofReal 0.5 * II * k / ofReal E)
  let ExpFac := lib.cexp (ofReal 0.25 * k2 / E2)
  { C0 := ofReal E * ExpFac / ofReal (2 * PI32) + II * k * ErfFac / ofReal (4 * M_PI),
    C2 :=
      -ExpFac * ofReal E * (ofReal 2 * E2 + k2) / ofReal (12 * PI32)
        - II * k3 * ErfFac / ofReal (24 * M_PI),
    C4 :=
      ExpFac * ofReal E * (ofReal 12 * E2 * E2 + ofReal 2 * E2 * k2 + k2 * k2)
          / ofReal (240 * PI32)
        + II * k3 * k2 * ErfFac / ofReal (480 * M_PI) }

/-- The function `AddGLongRealSpace(R, k, kBloch, n1, n2, LBV, LDim, E, Sum)`. -/
def AddGLongRealSpace (lib : Libm F) (R : Vec3 F) (k : cdouble F) (kBloch : Vec2 F)
    (n1 n2 : ℤ) (LBV : Mat2 F) (LDim : ℤ) (E : F) (Sum : Sum8 F) : Sum8 F :=
  if E = 0 then Sum
  else
    let L := cellVector n1 n2 LBV LDim
    let RmL0 := R.x - L.x
    let RmL1 := R.y - L.y
    let RmL2 := R.z
    let rml2 := RmL0 * RmL0 + RmL1 * RmL1 + RmL2 * RmL2
    let rml := lib.sqrt rml2
    let Smallr : Bool := decide (rml * E < 0.1) && decide (rml * lib.cabs k < 1)
    if Smallr then
      let C0 := (AddGLongRealSpace_coeffs lib k E).C0
      let C2 := (AddGLongRealSpace_coeffs lib k E).C2
      let C4 := (AddGLongRealSpace_coeffs lib k E).C4
      let PhaseFactor := lib.cexp (II * ofReal (kBloch.x * L.x + kBloch.y * L.y))
      { s0 := Sum.s0 + PhaseFactor * (C0 + C2 * ofReal rml2 + C4 * ofReal rml2 * ofReal rml2),
        s1 := Sum.s1 + PhaseFactor
                * (ofReal 2 * C2 * ofReal RmL0 + ofReal 4 * C4 * ofReal rml2 * ofReal RmL0),
        s2 := Sum.s2 + PhaseFactor
                * (ofReal 2 * C2 * ofReal RmL1 + ofReal 4 * C4 * ofReal rml2 * ofReal RmL1),
        s3 := Sum.s3 + PhaseFactor
                * (ofReal 2 * C2 * ofReal RmL2 + ofReal 4 * C4 * ofReal rml2 * ofReal RmL2),
        s4 := Sum.s4 + PhaseFactor * (ofReal 8 * C4 * ofReal RmL0 * ofReal RmL1),
        s5 := Sum.s5 + PhaseFactor * (ofReal 8 * C4 * ofReal RmL0 * ofReal RmL2),
        s6 := Sum.s6 + PhaseFactor * (ofReal 8 * C4 * ofReal RmL1 * ofReal RmL2),
        s7 := Sum.s7 + ofReal 0 }
    else
      let GFull := AddGFull lib R k kBloch L.x L.y Sum8.zero false
      let GShort := AddGShort lib R k kBloch n1 n2 LBV LDim E Sum8.zero
      Sum.add (GFull.sub GShort)

/-- The array `GLongInner` of `GBarVDEwald` after its double loop over
`n1 = -1..1`, `n2 = -n2Mult..n2Mult`. -/
def GLongInner (lib : Libm F) (R : Vec3 F) (k : cdouble F) (kBloch : Vec2 F)
    (LBV : Mat2 F) (LDim : ℤ) (E : F) : Sum8 F :=
  let n2Mult : ℤ := if LDim = 2 then 1 else 0
  (intRange (-1) 1).foldl
    (fun S n1 => (intRange (-1 * n2Mult) (1 * n2Mult)).foldl
      (fun S n2 => AddGLongRealSpace lib R k kBloch n1 n2 LBV LDim E S) S) Sum8.zero

/-- The last part of `GBarVDEwald`: `GBarVD = GBarNearby + GBarDistant`, then
the subtraction of `GLongInner` when `ExcludeInnerCells` is set. -/
def GBarVDEwald_combine (lib : Libm F) (R : Vec3 F) (k : cdouble F) (kBloch : Vec2 F)
    (LBV : Mat2 F) (LDim : ℤ) (E : F) (ExcludeInnerCells : Bool)
    (GBarNearby GBarDistant : Sum8 F) : Sum8 F :=
  let GBarVD := GBarNearby.add GBarDistant
  if ExcludeInnerCells then GBarVD.sub (GLongInner lib R k kBloch LBV LDim E)
  else GBarVD

/-- The array `kBloch` of `GBarVDEwald` after
`memcpy(kBloch, kBloch0, LDim*sizeof(double))` into `{0.0, 0.0, 0.0}`
(reached only with `LDim` 1 or 2). -/
def copyBloch (kBloch0 : Vec2 F) (LDim : ℤ) : Vec2 F :=
  if LDim = 1 then ⟨kBloch0.x, 0⟩ else kBloch0

/-- The body of `GBarVDEwald` after the line `if (E==-1) E=EOpt;`, with `E`
the value of the variable `E` at that point. -/
def GBarVDEwald_sums (lib : Libm F) (R : Vec3 F) (k : cdouble F) (kBloch0 : Vec2 F)
    (LBV : Mat2 F) (LDim : ℤ) (E : F) (ExcludeInnerCells : Bool) (Gamma : Mat2 F)
    (Rho : F) : Except Fatal (Sum8 F) :=
  let kBloch := copyBloch kBloch0 LDim
  let GBarNearby := (GetGBarNearby lib R k kBloch LBV LDim E ExcludeInnerCells).Sum
  match GetGBarDistant lib R Rho k kBloch Gamma LDim E with
  | .error e => .error e
  | .ok D =>
    if D.Singular then
      let kBloch1 : Vec2 F := { kBloch with x := kBloch.x + 1.0e-2 * lib.cabs k }
      let GBarNearby1 := (GetGBarNearby lib R k kBloch1 LBV LDim E ExcludeInnerCells).Sum
      match GetGBarDistant lib R Rho k kBloch1 Gamma LDim E with
      | .error e => .error e
      | .ok D1 =>
        .ok (GBarVDEwald_combine lib R k kBloch1 LBV LDim E ExcludeInnerCells
              GBarNearby1 D1.Sum)
    else
      .ok (GBarVDEwald_combine lib R k kBloch LBV LDim E ExcludeInnerCells
            GBarNearby D.Sum)

/-- The function `GBarVDEwald(R, k, kBloch0, LBV, LDim, E, ExcludeInnerCells,
GBarVD)`: the array `GBarVD` on return, or the fatal error raised. -/
def GBarVDEwald (lib : Libm F) (R : Vec3 F) (k : cdouble F) (kBloch0 : Vec2 F)
    (LBV : Mat2 F) (LDim : ℤ) (E : F) (ExcludeInnerCells : Bool) :
    Except Fatal (Sum8 F) :=
  if k = 0 then .ok Sum8.zero
  else
    match GetRLBasis lib LDim LBV k R with
    | .error e => .error e
    | .ok rl =>
      GBarVDEwald_sums lib R k kBloch0 LBV LDim (if E = -1 then rl.EOpt else E)
        ExcludeInnerCells rl.Gamma rl.Rho

/-- Reflection of the eight slots in the lattice plane: the slots with an odd
number of z-derivatives (3, 5, 6, 7) change sign. -/
def Sum8.reflectZ (S : Sum8 F) : Sum8 F :=
  { S with s3 := -S.s3, s5 := -S.s5, s6 := -S.s6, s7 := -S.s7 }

/-- Reflection of the sums held in a `NearbyState`. -/
def NearbyState.reflectZ (st : NearbyState F) : NearbyState F :=
  { st with Sum := st.Sum.reflectZ }

/-- Reflection of the sums held in a `DistantState`. -/
def DistantState.reflectZ (st : DistantState F) : DistantState F :=
  { st with Sum := st.Sum.reflectZ }

/-- The point `(x, y, -z)`. -/
def Vec3.negZ (R : Vec3 F) : Vec3 F := { R with z := -R.z }

/-! ## Observations and lists used by the claims -/

/-- Whether `ExpInt_CF(z, RelTol, nIters)` reaches its `Warn` call: the test
`ConvergedIters!=5` after the loop. -/
def ExpInt_CF_warns (lib : Libm F) (z : cdouble F) (RelTol : F) : Bool :=
  decide ((ExpInt_CF_loop lib z RelTol 1000 1 ExpInt_CF_init).1.ConvergedIters ≠ 5)

/-- Whether `ExpInt_PS(z, RelTol, pnTerms)` reaches its `Warn` call: the test
`n==100` after the loop. -/
def ExpInt_PS_warns (lib : Libm F) (z : cdouble F) (RelTol : F) : Bool :=
  decide ((ExpInt_PS_loop lib z RelTol 101 1 (ExpInt_PS_init lib z)).2 = 100)

/-- Whether `ExpInt_Asymptotic(z, RelTol, pnTerms)` reaches its `Warn` call:
the test `n==100` after the loop (the early `return 0.0` comes before it). -/
def ExpInt_Asymptotic_warns (lib : Libm F) (z : cdouble F) (RelTol : F) : Bool :=
  if lib.cabs z > 100 then false
  else decide ((ExpInt_Asymptotic_loop lib z RelTol 101 1 { Sum := 1, Term := 1 }).2 = 100)

/-- The inner block in the words of the specification: the 9 cells
`{-1,0,1} x {-1,0,1}` for `LDim = 2`, the 3 cells `n1 = -1, 0, 1` (`n2 = 0`)
otherwise. -/
def innerBlock_spec (LDim : ℤ) : List (ℤ × ℤ) :=
  if LDim = 2 then
    [(-1, -1), (-1, 0), (-1, 1), (0, -1), (0, 0), (0, 1), (1, -1), (1, 0), (1, 1)]
  else [(-1, 0), (0, 0), (1, 0)]

/-- The sum over the inner block, in the words of the specification, of what
`AddGLongRealSpace` adds for each cell (its effect on zeroed sums). -/
def innerBlockSum_spec (lib : Libm F) (R : Vec3 F) (k : cdouble F) (kBloch : Vec2 F)
    (LBV : Mat2 F) (LDim : ℤ) (E : F) : Sum8 F :=
  (innerBlock_spec LDim).foldl
    (fun S c => S.add (AddGLongRealSpace lib R k kBloch c.1 c.2 LBV LDim E Sum8.zero))
    Sum8.zero

/-- The variable `PreFactor` of `GetGBarDistant` (lines 545-549). -/
def GetGBarDistant_PreFactor (lib : Libm F) (Gamma : Mat2 F) (LDim : ℤ) : F :=
  if LDim = 1 then lib.sqrt (Gamma.a00 * Gamma.a00 + Gamma.a01 * Gamma.a01)
  else (Gamma.a00 * Gamma.a11 - Gamma.a01 * Gamma.a10) / (16 * M_PI * M_PI)

/-- The cell indices of the four calls in one pass of the loop
`for(n=-NN; n<NN; n++)`, for the values of `n` in the list, in call order. -/
def perimeterCells (NN : ℤ) : List ℤ → List (ℤ × ℤ)
  | [] => []
  | n :: l => [(n, NN), (NN, -n), (-n, -NN), (-NN, n)] ++ perimeterCells NN l

/-- The cell indices of shell `NN` in `GetGBarNearby`, in call order. -/
def shellCells (LDim NN : ℤ) : List (ℤ × ℤ) :=
  if LDim = 1 then [(NN, 0), (-NN, 0)]
  else perimeterCells NN (intRange (-NN) (NN - 1))

/-- The cell indices of the `n` shells `NN, NN+1, ..., NN+n-1`, in call
order. -/
def shellsFrom (LDim : ℤ) : ℤ → ℕ → List (ℤ × ℤ)
  | _, 0 => []
  | NN, n + 1 => shellCells LDim NN ++ shellsFrom LDim (NN + 1) n

/-- The sum, over the cells of a list, of what `AddGShort` adds for the cell
(its effect on zeroed sums). -/
def AddGShort_over (lib : Libm F) (R : Vec3 F) (k : cdouble F) (kBloch : Vec2 F)
    (LBV : Mat2 F) (LDim : ℤ) (E : F) (cells : List (ℤ × ℤ)) : Sum8 F :=
  cells.foldl
    (fun S c => S.add (AddGShort lib R k kBloch c.1 c.2 LBV LDim E Sum8.zero)) Sum8.zero

/-- The complex number that a `cdouble` over the reals stands for. -/
def toComplex (w : cdouble ℝ) : ℂ := ⟨w.re, w.im⟩

/-- The `cdouble` over the reals that holds a complex number. -/
def ofComplex (c : ℂ) : cdouble ℝ := ⟨c.re, c.im⟩

/-- The `N`-term truncation of the power series of the exponential integral
in the words of the specification, `c0 - sum_{n=1}^{N} (-z)^n / (n * n!)`, with
`c0` the constant term. -/
def ExpInt_PS_spec (c0 z : cdouble F) (N : ℕ) : cdouble F :=
  c0 - ((List.range N).map
    (fun i => (-z) ^ (i + 1) / ofReal ((((i + 1).factorial : ℕ) : F) * ((i + 1 : ℕ) : F)))).sum

/-- The variables of `GetGBarNearby` after the first `n` passes of its loop
over `NN` (the shells `NFIRSTROUND+1`, ..., `NFIRSTROUND+n`), entered in the
state `st`. -/
def nearbyAfter (lib : Libm F) (R : Vec3 F) (k : cdouble F) (kBloch : Vec2 F)
    (LBV : Mat2 F) (LDim : ℤ) (E : F) (st : NearbyState F) : ℕ → NearbyState F
  | 0 => st
  | n + 1 =>
    nearbyShell lib R k kBloch LBV LDim E (NFIRSTROUND + 1 + (n : ℤ))
      (nearbyAfter lib R k kBloch LBV LDim E st n)

/-- The variables of `GetGBarDistant` after the first `n` passes of its loop
over `NN` (the shells `NFIRSTROUND+1`, ..., `NFIRSTROUND+n`), entered in the
state `st`; a shell that ends in a fatal error leaves them as they were. -/
def distantAfter (lib : Libm F) (R : Vec3 F) (Rho : F) (k : cdouble F)
    (kBloch : Vec2 F) (Gamma : Mat2 F) (LDim : ℤ) (E : F) (st : DistantState F) :
    ℕ → DistantState F
  | 0 => st
  | n + 1 =>
    match distantShell lib R Rho k kBloch Gamma LDim E (NFIRSTROUND + 1 + (n : ℤ))
        (distantAfter lib R Rho k kBloch Gamma LDim E st n) with
    | .ok s => s
    | .error _ => distantAfter lib R Rho k kBloch Gamma LDim E st n

/-- The value of `ConvergedIters` after `n` passes of the loop over `NN` (its
update is `if (MaxAbsDelta<ABSTOL || MaxRelDelta<RELTOL) ConvergedIters++; else
ConvergedIters=0;`), when `sums j` is the array `Sum` after `j` passes. -/
def convergedAfter (lib : Libm F) (sums : ℕ → Sum8 F) : ℕ → ℕ
  | 0 => 0
  | n + 1 =>
    if underTolerance lib (sums (n + 1)) (sums n) then convergedAfter lib sums n + 1 else 0

end Model

/-! ## A rational instance of the library record

Coarse rational stand-ins for the library functions, so that the model can be
run on concrete inputs.  No theorem below depends on how good they are: the
general theorems hold for every `Libm`, and the closed ones only evaluate the
control flow. -/

/-- Newton's iteration `y -> (y + x/y)/2` for the square root of `x`. -/
def refSqrtIter (x : ℚ) : ℕ → ℚ → ℚ
  | 0, y => y
  | n + 1, y => refSqrtIter x n ((y + x / y) / 2)

/-- Rational square root: four Newton steps from `(x+1)/2`; `0` for `x ≤ 0`. -/
def refSqrt (x : ℚ) : ℚ := if x ≤ 0 then 0 else refSqrtIter x 4 ((x + 1) / 2)

/-- Rational `|z|`. -/
def refCabs (z : cdouble ℚ) : ℚ := refSqrt (norm z)

/-- Principal complex square root through `refSqrt`. -/
def refCsqrt (z : cdouble ℚ) : cdouble ℚ :=
  ⟨refSqrt ((refCabs z + z.re) / 2),
   (if z.im < 0 then -1 else 1) * refSqrt ((refCabs z - z.re) / 2)⟩

/-- Taylor polynomial of degree 6 of the exponential. -/
def refCexp (z : cdouble ℚ) : cdouble ℚ :=
  1 + z * (1 + z * (ofReal (1/2) + z * (ofReal (1/6) + z * (ofReal (1/24)
    + z * (ofReal (1/120) + z * ofReal (1/720))))))

/-- The approximation `t / (1 + 0.28 t^2)` of `atan t` for `|t| ≤ 1`. -/
def refAtan (t : ℚ) : ℚ := t / (1 + 0.28 * t * t)

/-- Rational `arg z` by quadrant. -/
def refCarg (z : cdouble ℚ) : ℚ :=
  if |z.im| ≤ |z.re| then
    if z.re > 0 then refAtan (z.im / z.re)
    else if z.re < 0 then
      (if z.im ≥ 0 then M_PI else -M_PI) + refAtan (z.im / z.re)
    else 0
  else (if z.im > 0 then M_PI / 2 else -M_PI / 2) - refAtan (z.re / z.im)

/-- Rational complex logarithm: `2 (t + t^3/3 + t^5/5)` with
`t = (|z|-1)/(|z|+1)` for the real part, `refCarg` for the imaginary part. -/
def refClog (z : cdouble ℚ) : cdouble ℚ :=
  let t := (refCabs z - 1) / (refCabs z + 1)
  ⟨2 * (t + t * t * t / 3 + t * t * t * t * t / 5), refCarg z⟩

/-- The rational instance of `Libm`. -/
def refLibm : Libm ℚ where
  sqrt := refSqrt
  cabs := refCabs
  csqrt := refCsqrt
  cexp := refCexp
  clog := refClog
  carg := refCarg
  erfcx := fun z => 1 / (1 + ofReal M_2_SQRTPI * z)
  cerf := fun z => ofReal M_2_SQRTPI * (z - z * z * z / ofReal 3)
  AmosBesselK := fun z _ => refCsqrt (ofReal (M_PI / 2) / z) * refCexp (-z)
  IsFinite := fun _ => true
  ISNAN := fun _ => false

/-- The rational library record `refLibm` with the square root set to `r0` at
the argument `x0` (four Newton steps from `(x+1)/2` are far off for small
arguments). -/
def refLibmSqrtAt (x0 r0 : ℚ) : Libm ℚ :=
  { refLibm with sqrt := fun x => if x = x0 then r0 else refSqrt x }

/-! ## Facts about the rational instance -/

theorem refSqrtIter_pos (x : ℚ) (hx : 0 < x) (n : ℕ) (y : ℚ) (hy : 0 < y) :
    0 < refSqrtIter x n y := by
  induction n generalizing y with
  | zero => simpa [refSqrtIter] using hy
  | succ n ih =>
    unfold refSqrtIter
    apply ih
    have h1 : 0 < x / y := div_pos hx hy
    linarith

theorem refSqrt_pos (x : ℚ) (hx : 0 < x) : 0 < refSqrt x := by
  unfold refSqrt
  rw [if_neg (not_le.mpr hx)]
  apply refSqrtIter_pos x hx
  linarith

theorem refCabs_neg (z : cdouble ℚ) : refCabs (-z) = refCabs z := by
  unfold refCabs
  rw [cdouble.norm_neg]

theorem refCabs_pos (z : cdouble ℚ) (hz : z ≠ 0) : 0 < refCabs z :=
  refSqrt_pos _ (cdouble.norm_pos_of_ne_zero hz)

/-! ## Helper lemmas -/

section Lemmas

variable {F : Type} [LinearOrderedField F]

theorem M_PI_pos : (0 : F) < M_PI := by
  unfold M_PI
  norm_num

theorem intRange_first : intRange (-NFIRSTROUND) NFIRSTROUND = [-1, 0, 1] := by
  decide

theorem GBarVDEwald_of_k_zero (lib : Libm F) (R : Vec3 F) (kBloch0 : Vec2 F)
    (LBV : Mat2 F) (LDim : ℤ) (E : F) (Excl : Bool) :
    GBarVDEwald lib R 0 kBloch0 LBV LDim E Excl = .ok Sum8.zero := by
  simp [GBarVDEwald]

theorem GetRLBasis_bad_LDim (lib : Libm F) (LDim : ℤ) (L : Mat2 F) (k : cdouble F)
    (R : Vec3 F) (h1 : LDim ≠ 1) (h2 : LDim ≠ 2) :
    GetRLBasis lib LDim L k R = .error Fatal.only1Dor2D := by
  simp [GetRLBasis, h1, h2]

theorem GetRLBasis_2D_ok (lib : Libm F) (L : Mat2 F) (k : cdouble F) (R : Vec3 F)
    (hA : L.a00 * L.a11 - L.a01 * L.a10 ≠ 0) :
    ∃ rl, GetRLBasis lib 2 L k R = .ok rl
      ∧ rl.Gamma =
        ⟨2 * M_PI * L.a11 / (L.a00 * L.a11 - L.a01 * L.a10),
         -2 * M_PI * L.a01 / (L.a00 * L.a11 - L.a01 * L.a10),
         -2 * M_PI * L.a10 / (L.a00 * L.a11 - L.a01 * L.a10),
         2 * M_PI * L.a00 / (L.a00 * L.a11 - L.a01 * L.a10)⟩
      ∧ rl.EOpt =
        max (lib.sqrt (M_PI / (L.a00 * L.a11 - L.a01 * L.a10)))
          (lib.sqrt (norm k
            + (rl.Gamma.a00 * rl.Gamma.a00 + rl.Gamma.a01 * rl.Gamma.a01)
            + (rl.Gamma.a10 * rl.Gamma.a10 + rl.Gamma.a11 * rl.Gamma.a11)) / 10) := by
  simp only [GetRLBasis]
  rw [if_pos trivial, if_neg hA]
  exact ⟨_, rfl, rfl, rfl⟩

theorem GetRLBasis_1D_EOpt_pos (lib : Libm F) (L : Mat2 F) (k : cdouble F) (R : Vec3 F)
    (hsqrt : ∀ x, 0 < x → 0 < lib.sqrt x) (hcabs : ∀ z, z ≠ 0 → 0 < lib.cabs z)
    (hk : k ≠ 0) (hL : L.a00 ≠ 0 ∨ L.a01 ≠ 0) :
    ∃ rl, GetRLBasis lib 1 L k R = .ok rl ∧ 0 < rl.EOpt := by
  have hL2 : 0 < L.a00 * L.a00 + L.a01 * L.a01 := by
    rcases hL with h | h
    · have := mul_self_pos.mpr h
      have := mul_self_nonneg L.a01
      linarith
    · have := mul_self_pos.mpr h
      have := mul_self_nonneg L.a00
      linarith
  have hE : 0 < lib.sqrt (M_PI / (L.a00 * L.a00 + L.a01 * L.a01)) :=
    hsqrt _ (div_pos M_PI_pos hL2)
  have hE1 : 0 < lib.cabs k / 20 := div_pos (hcabs k hk) (by norm_num)
  have hRho : ∀ a b c : F, ¬ (a * a + b * b + c * c = 0) →
      0 < 1.2 / lib.sqrt (a * a + b * b + c * c) := by
    intro a b c h
    have h0 : 0 ≤ a * a + b * b + c * c :=
      add_nonneg (add_nonneg (mul_self_nonneg a) (mul_self_nonneg b)) (mul_self_nonneg c)
    exact div_pos (by norm_num) (hsqrt _ (lt_of_le_of_ne h0 (Ne.symm h)))
  simp only [GetRLBasis, if_true]
  refine ⟨_, rfl, ?_⟩
  dsimp only
  split_ifs <;>
    first
    | exact hE
    | exact hE1
    | exact hRho _ _ _ (by assumption)
    | norm_num

theorem GetRLBasis_2D_EOpt_pos (lib : Libm F) (L : Mat2 F) (k : cdouble F) (R : Vec3 F)
    (hsqrt : ∀ x, 0 < x → 0 < lib.sqrt x) (hk : k ≠ 0)
    (hA : L.a00 * L.a11 - L.a01 * L.a10 ≠ 0) :
    ∃ rl, GetRLBasis lib 2 L k R = .ok rl ∧ 0 < rl.EOpt := by
  obtain ⟨rl, hrl, _, hE⟩ := GetRLBasis_2D_ok lib L k R hA
  refine ⟨rl, hrl, ?_⟩
  rw [hE]
  apply lt_max_of_lt_right
  apply div_pos _ (by norm_num)
  apply hsqrt
  have h0 := cdouble.norm_pos_of_ne_zero hk
  have h1 := mul_self_nonneg rl.Gamma.a00
  have h2 := mul_self_nonneg rl.Gamma.a01
  have h3 := mul_self_nonneg rl.Gamma.a10
  have h4 := mul_self_nonneg rl.Gamma.a11
  linarith

theorem foldErr_ok {α β : Type} (f : β → α → Except Fatal β)
    (hf : ∀ b a, ∃ b1, f b a = .ok b1) (l : List α) (b : β) :
    ∃ b1, foldErr f l b = .ok b1 := by
  induction l generalizing b with
  | nil => exact ⟨b, rfl⟩
  | cons a l ih =>
    obtain ⟨b1, hb1⟩ := hf b a
    obtain ⟨b2, hb2⟩ := ih b1
    exact ⟨b2, by simp [foldErr, hb1, hb2]⟩

theorem AddGLong1D_ok (lib : Libm F) (R : Vec3 F) (Rho : F) (k : cdouble F)
    (P : Vec2 F) (mm : ℤ) (Gamma : Mat2 F) (E : F) (st : DistantState F)
    (hP : P.y = 0) (hG : Gamma.a01 = 0) :
    ∃ st1, AddGLong1D lib R Rho k P mm Gamma E st = .ok st1 := by
  unfold AddGLong1D
  simp only [hP, hG, mul_zero, sub_zero, ne_eq, not_true_eq_false, if_false]
  split <;> exact ⟨_, rfl⟩

theorem distantFirstRound_ok (lib : Libm F) (R : Vec3 F) (Rho : F) (k : cdouble F)
    (P : Vec2 F) (Gamma : Mat2 F) (LDim : ℤ) (E : F) (st : DistantState F)
    (h : LDim = 1 → P.y = 0 ∧ Gamma.a01 = 0) :
    ∃ st1, distantFirstRound lib R Rho k P Gamma LDim E st = .ok st1 := by
  unfold distantFirstRound
  split
  · rename_i h1
    exact foldErr_ok _ (fun b a => AddGLong1D_ok lib R Rho k P a Gamma E b (h h1).1 (h h1).2) _ _
  · exact ⟨_, rfl⟩

theorem distantShell_ok (lib : Libm F) (R : Vec3 F) (Rho : F) (k : cdouble F)
    (P : Vec2 F) (Gamma : Mat2 F) (LDim : ℤ) (E : F) (NN : ℤ) (st : DistantState F)
    (h : LDim = 1 → P.y = 0 ∧ Gamma.a01 = 0) :
    ∃ st1, distantShell lib R Rho k P Gamma LDim E NN st = .ok st1 := by
  unfold distantShell
  split
  · rename_i h1
    obtain ⟨s1, hs1⟩ := AddGLong1D_ok lib R Rho k P NN Gamma E st (h h1).1 (h h1).2
    obtain ⟨s2, hs2⟩ := AddGLong1D_ok lib R Rho k P (-NN) Gamma E s1 (h h1).1 (h h1).2
    rw [hs1]
    simp only [hs2]
    exact ⟨_, rfl⟩
  · exact ⟨_, rfl⟩

theorem distantLoop_ok (lib : Libm F) (R : Vec3 F) (Rho : F) (k : cdouble F)
    (P : Vec2 F) (Gamma : Mat2 F) (LDim : ℤ) (E : F)
    (h : LDim = 1 → P.y = 0 ∧ Gamma.a01 = 0) (fuel : ℕ) :
    ∀ (NN : ℤ) (c : ℕ) (st : DistantState F) (LastSum : Sum8 F),
      ∃ st1, distantLoop lib R Rho k P Gamma LDim E fuel NN c st LastSum = .ok st1 := by
  induction fuel with
  | zero => intro NN c st LastSum; exact ⟨st, rfl⟩
  | succ fuel ih =>
    intro NN c st LastSum
    unfold distantLoop
    split
    · obtain ⟨s1, hs1⟩ := distantShell_ok lib R Rho k P Gamma LDim E NN st h
      rw [hs1]
      simp only
      split
      · exact ⟨_, rfl⟩
      · exact ih _ _ _ _
    · exact ⟨_, rfl⟩

theorem GetGBarDistant_ok (lib : Libm F) (R : Vec3 F) (Rho : F) (k : cdouble F)
    (P : Vec2 F) (Gamma : Mat2 F) (LDim : ℤ) (E : F)
    (h : LDim = 1 → (P.y = 0 ∧ Gamma.a01 = 0) ∨ E = 0) :
    ∃ D, GetGBarDistant lib R Rho k P Gamma LDim E = .ok D := by
  unfold GetGBarDistant
  by_cases hE : E = 0
  · rw [if_pos hE]
    exact ⟨_, rfl⟩
  · rw [if_neg hE]
    have h1 : LDim = 1 → P.y = 0 ∧ Gamma.a01 = 0 := by
      intro hL
      rcases h hL with h2 | h2
      · exact h2
      · exact absurd h2 hE
    obtain ⟨s1, hs1⟩ := distantFirstRound_ok lib R Rho k P Gamma LDim E
      { Sum := Sum8.zero, Singular := false, nCells := 0, trace := [] } h1
    rw [hs1]
    simp only
    split
    · exact ⟨_, rfl⟩
    · obtain ⟨s2, hs2⟩ := distantLoop_ok lib R Rho k P Gamma LDim E h1 NMAX.toNat
        (NFIRSTROUND + 1) 0 s1 s1.Sum
      rw [hs2]
      simp only
      split <;> exact ⟨_, rfl⟩

theorem GBarVDEwald_sums_ok (lib : Libm F) (R : Vec3 F) (k : cdouble F) (kBloch0 : Vec2 F)
    (LBV : Mat2 F) (LDim : ℤ) (E : F) (Excl : Bool) (Gamma : Mat2 F) (Rho : F)
    (h : LDim = 1 → Gamma.a01 = 0 ∨ E = 0) :
    ∃ G, GBarVDEwald_sums lib R k kBloch0 LBV LDim E Excl Gamma Rho = .ok G := by
  unfold GBarVDEwald_sums
  have hy : LDim = 1 → (copyBloch kBloch0 LDim).y = 0 := by
    intro hL
    simp [copyBloch, hL]
  obtain ⟨D, hD⟩ := GetGBarDistant_ok lib R Rho k (copyBloch kBloch0 LDim) Gamma LDim E
    (fun hL => (h hL).imp (fun hg => ⟨hy hL, hg⟩) id)
  simp only [hD]
  split
  · obtain ⟨D1, hD1⟩ := GetGBarDistant_ok lib R Rho k
      { copyBloch kBloch0 LDim with
        x := (copyBloch kBloch0 LDim).x + 1.0e-2 * lib.cabs k } Gamma LDim E
      (fun hL => (h hL).imp (fun hg => ⟨hy hL, hg⟩) id)
    simp only [hD1]
    exact ⟨_, rfl⟩
  · exact ⟨_, rfl⟩

theorem GetGBarDistant_1D_error (lib : Libm F) (R : Vec3 F) (Rho : F) (k : cdouble F)
    (P : Vec2 F) (Gamma : Mat2 F) (E : F) (hE : E ≠ 0) (hP : P.y = 0)
    (hG : Gamma.a01 ≠ 0) :
    GetGBarDistant lib R Rho k P Gamma 1 E = .error Fatal.lattice1DNotAlongX := by
  unfold GetGBarDistant
  rw [if_neg hE]
  have h1 : distantFirstRound lib R Rho k P Gamma 1 E
      { Sum := Sum8.zero, Singular := false, nCells := 0, trace := [] }
      = .error Fatal.lattice1DNotAlongX := by
    unfold distantFirstRound
    rw [if_pos rfl, intRange_first]
    simp [foldErr, AddGLong1D, hP, hG]
  rw [h1]

theorem GBarVDEwald_1D_error (lib : Libm F) (R : Vec3 F) (k : cdouble F)
    (kBloch0 : Vec2 F) (LBV : Mat2 F) (E : F) (Excl : Bool) (hk : k ≠ 0)
    (hL : (2 * M_PI / (LBV.a00 * LBV.a00 + LBV.a01 * LBV.a01)) * LBV.a01 ≠ 0)
    (hE0 : E ≠ 0) (hE1 : E ≠ -1) :
    GBarVDEwald lib R k kBloch0 LBV 1 E Excl = .error Fatal.lattice1DNotAlongX := by
  unfold GBarVDEwald
  rw [if_neg hk]
  simp only [GetRLBasis, if_true, if_neg hE1]
  unfold GBarVDEwald_sums
  simp only []
  rw [GetGBarDistant_1D_error lib R _ k _ _ E hE0 (by simp [copyBloch]) hL]

/-! ### Reflection in the lattice plane -/

theorem foldl_comm_map {α σ : Type} (g : σ → σ) (f f1 : σ → α → σ)
    (h : ∀ s a, f1 (g s) a = g (f s a)) (l : List α) (s : σ) :
    l.foldl f1 (g s) = g (l.foldl f s) := by
  induction l generalizing s with
  | nil => rfl
  | cons a l ih => simp only [List.foldl_cons, h, ih]

theorem foldErr_comm_map {α β : Type} (g : β → β) (f f1 : β → α → Except Fatal β)
    (h : ∀ b a, f1 (g b) a = (f b a).map g) (l : List α) (b : β) :
    foldErr f1 l (g b) = (foldErr f l b).map g := by
  induction l generalizing b with
  | nil => rfl
  | cons a l ih =>
    simp only [foldErr, h]
    cases hfa : f b a with
    | error e => rfl
    | ok b1 => simpa [Except.map] using ih b1

theorem GetRLBasis_negZ (lib : Libm F) (LDim : ℤ) (L : Mat2 F) (k : cdouble F)
    (R : Vec3 F) : GetRLBasis lib LDim L k R.negZ = GetRLBasis lib LDim L k R := by
  simp [GetRLBasis, Vec3.negZ]

theorem AddGFull_negZ (lib : Libm F) (R : Vec3 F) (k : cdouble F) (kBloch : Vec2 F)
    (Lx Ly : F) (S : Sum8 F) (vo : Bool) :
    AddGFull lib R.negZ k kBloch Lx Ly S.reflectZ vo
      = (AddGFull lib R k kBloch Lx Ly S vo).reflectZ := by
  unfold AddGFull
  simp only [Vec3.negZ, neg_mul_neg]
  split_ifs
  · rfl
  · rfl
  · apply Sum8.ext <;> simp [Sum8.reflectZ] <;> ring

theorem AddGShort_negZ (lib : Libm F) (R : Vec3 F) (k : cdouble F) (kBloch : Vec2 F)
    (n1 n2 : ℤ) (LBV : Mat2 F) (LDim : ℤ) (E : F) (S : Sum8 F) :
    AddGShort lib R.negZ k kBloch n1 n2 LBV LDim E S.reflectZ
      = (AddGShort lib R k kBloch n1 n2 LBV LDim E S).reflectZ := by
  unfold AddGShort
  simp only [AddGFull_negZ]
  simp only [Vec3.negZ, neg_mul_neg]
  split_ifs
  · rfl
  · rfl
  · apply Sum8.ext <;> simp [Sum8.reflectZ] <;> ring

theorem Sum8.reflectZ_zero : (Sum8.zero : Sum8 F).reflectZ = Sum8.zero := by
  apply Sum8.ext <;> simp [Sum8.reflectZ, Sum8.zero]

theorem Sum8.reflectZ_add (S T : Sum8 F) :
    (S.add T).reflectZ = S.reflectZ.add T.reflectZ := by
  apply Sum8.ext <;> simp [Sum8.reflectZ, Sum8.add] <;> ring

theorem Sum8.reflectZ_sub (S T : Sum8 F) :
    (S.sub T).reflectZ = S.reflectZ.sub T.reflectZ := by
  apply Sum8.ext <;> simp [Sum8.reflectZ, Sum8.sub] <;> ring

theorem Sum8.reflectZ_scale (c : F) (S : Sum8 F) :
    (S.scale c).reflectZ = S.reflectZ.scale c := by
  apply Sum8.ext <;> simp [Sum8.reflectZ, Sum8.scale]

theorem convStep_neg (lib : Libm F) (hcabs : ∀ z, lib.cabs (-z) = lib.cabs z)
    (acc : F × F) (a b : cdouble F) :
    convStep lib acc (-a, -b) = convStep lib acc (a, b) := by
  have h : -a - -b = -(a - b) := by ring
  simp only [convStep, h, hcabs]

theorem maxDeltas_reflectZ (lib : Libm F) (hcabs : ∀ z, lib.cabs (-z) = lib.cabs z)
    (S T : Sum8 F) : maxDeltas lib S.reflectZ T.reflectZ = maxDeltas lib S T := by
  simp only [maxDeltas, Sum8.toList, Sum8.reflectZ, List.zip_cons_cons, List.zip_nil_right,
    List.foldl_cons, List.foldl_nil, convStep_neg lib hcabs]

theorem underTolerance_reflectZ (lib : Libm F) (hcabs : ∀ z, lib.cabs (-z) = lib.cabs z)
    (S T : Sum8 F) : underTolerance lib S.reflectZ T.reflectZ = underTolerance lib S T := by
  simp only [underTolerance, maxDeltas_reflectZ lib hcabs]

theorem nearbyCell_negZ (lib : Libm F) (R : Vec3 F) (k : cdouble F) (kBloch : Vec2 F)
    (LBV : Mat2 F) (LDim : ℤ) (E : F) (n1 n2 : ℤ) (st : NearbyState F) :
    nearbyCell lib R.negZ k kBloch LBV LDim E n1 n2 st.reflectZ
      = (nearbyCell lib R k kBloch LBV LDim E n1 n2 st).reflectZ := by
  simp only [nearbyCell, NearbyState.reflectZ, AddGShort_negZ]

theorem nearbyFirstRound_negZ (lib : Libm F) (R : Vec3 F) (k : cdouble F) (kBloch : Vec2 F)
    (LBV : Mat2 F) (LDim : ℤ) (E : F) (Excl : Bool) (st : NearbyState F) :
    nearbyFirstRound lib R.negZ k kBloch LBV LDim E Excl st.reflectZ
      = (nearbyFirstRound lib R k kBloch LBV LDim E Excl st).reflectZ := by
  unfold nearbyFirstRound
  split_ifs
  · apply foldl_comm_map
    intro s a
    simp only [nearbyCell_negZ]
    split_ifs <;> rfl
  · apply foldl_comm_map
    intro s a
    apply foldl_comm_map
    intro s b
    simp only [nearbyCell_negZ]
    split_ifs <;> rfl
  · rfl

theorem nearbyShell_negZ (lib : Libm F) (R : Vec3 F) (k : cdouble F) (kBloch : Vec2 F)
    (LBV : Mat2 F) (LDim : ℤ) (E : F) (NN : ℤ) (st : NearbyState F) :
    nearbyShell lib R.negZ k kBloch LBV LDim E NN st.reflectZ
      = (nearbyShell lib R k kBloch LBV LDim E NN st).reflectZ := by
  unfold nearbyShell
  split_ifs
  · simp only [nearbyCell_negZ]
    rfl
  · apply foldl_comm_map
    intro s a
    simp only [nearbyCell_negZ]
    rfl

theorem nearbyLoop_negZ (lib : Libm F) (hcabs : ∀ z, lib.cabs (-z) = lib.cabs z)
    (R : Vec3 F) (k : cdouble F) (kBloch : Vec2 F)
    (LBV : Mat2 F) (LDim : ℤ) (E : F) (fuel : ℕ) :
    ∀ (NN : ℤ) (c : ℕ) (st : NearbyState F) (LastSum : Sum8 F),
      nearbyLoop lib R.negZ k kBloch LBV LDim E fuel NN c st.reflectZ LastSum.reflectZ
        = (nearbyLoop lib R k kBloch LBV LDim E fuel NN c st LastSum).reflectZ := by
  induction fuel with
  | zero => intro NN c st LastSum; rfl
  | succ fuel ih =>
    intro NN c st LastSum
    unfold nearbyLoop
    split_ifs
    · simp only [nearbyShell_negZ]
      have h := ih (NN + 1)
        (if underTolerance lib (nearbyShell lib R k kBloch LBV LDim E NN st).Sum LastSum
          then c + 1 else 0)
        (nearbyShell lib R k kBloch LBV LDim E NN st)
        (nearbyShell lib R k kBloch LBV LDim E NN st).Sum
      rw [← h]
      simp only [NearbyState.reflectZ, underTolerance_reflectZ lib hcabs]
    · rfl

theorem GetGBarNearby_negZ (lib : Libm F) (hcabs : ∀ z, lib.cabs (-z) = lib.cabs z)
    (R : Vec3 F) (k : cdouble F) (kBloch : Vec2 F)
    (LBV : Mat2 F) (LDim : ℤ) (E : F) (Excl : Bool) :
    (GetGBarNearby lib R.negZ k kBloch LBV LDim E Excl).Sum
      = (GetGBarNearby lib R k kBloch LBV LDim E Excl).Sum.reflectZ := by
  unfold GetGBarNearby
  have h0 : ({ Sum := Sum8.zero, nCells := 0, trace := [] } : NearbyState F)
      = NearbyState.reflectZ { Sum := Sum8.zero, nCells := 0, trace := [] } := by
    simp only [NearbyState.reflectZ, Sum8.reflectZ_zero]
  have h1 := nearbyFirstRound_negZ lib R k kBloch LBV LDim E Excl
    { Sum := Sum8.zero, nCells := 0, trace := [] }
  rw [← h0] at h1
  simp only [h1]
  have h2 := nearbyLoop_negZ lib hcabs R k kBloch LBV LDim E NMAX.toNat (NFIRSTROUND + 1) 0
    (nearbyFirstRound lib R k kBloch LBV LDim E Excl
      { Sum := Sum8.zero, nCells := 0, trace := [] })
    (nearbyFirstRound lib R k kBloch LBV LDim E Excl
      { Sum := Sum8.zero, nCells := 0, trace := [] }).Sum
  exact congrArg NearbyState.Sum h2


theorem cisnan_neg (lib : Libm F) (hnan : ∀ x, lib.ISNAN (-x) = lib.ISNAN x)
    (w : cdouble F) : cisnan lib (-w) = cisnan lib w := by
  simp only [cisnan, neg_re, neg_im, hnan]

theorem GetEEF_neg (lib : Libm F) (hfin : ∀ w, lib.IsFinite (-w) = lib.IsFinite w)
    (hnan : ∀ x, lib.ISNAN (-x) = lib.ISNAN x) (z E : F) (Q : cdouble F) :
    GetEEF lib (-z) E Q = ((GetEEF lib z E Q).1, -(GetEEF lib z E Q).2) := by
  have e1 : Q * ofReal (-z) = -Q * ofReal z := by rw [ofReal_neg]; ring
  have e2 : ofReal 0.5 * Q / ofReal E + ofReal (-z * E)
      = ofReal 0.5 * Q / ofReal E - ofReal (z * E) := by
    rw [neg_mul, ofReal_neg]; ring
  have e3 : -Q * ofReal (-z) = Q * ofReal z := by rw [ofReal_neg]; ring
  have e4 : ofReal 0.5 * Q / ofReal E - ofReal (-z * E)
      = ofReal 0.5 * Q / ofReal E + ofReal (z * E) := by
    rw [neg_mul, ofReal_neg]; ring
  unfold GetEEF
  simp only [e1, e2, e3, e4]
  generalize erfc_s lib (Q * ofReal z) (ofReal 0.5 * Q / ofReal E + ofReal (z * E)) = P
  generalize erfc_s lib (-Q * ofReal z) (ofReal 0.5 * Q / ofReal E - ofReal (z * E)) = M
  generalize lib.cexp (Q * ofReal z - (ofReal 0.5 * Q / ofReal E + ofReal (z * E))
    * (ofReal 0.5 * Q / ofReal E + ofReal (z * E))) = XP
  generalize lib.cexp (-Q * ofReal z - (ofReal 0.5 * Q / ofReal E - ofReal (z * E))
    * (ofReal 0.5 * Q / ofReal E - ofReal (z * E))) = XM
  have a1 : M + P = P + M := add_comm M P
  have a2 : Q * M - ofReal (M_2_SQRTPI * E) * XM + (-Q * P + ofReal (M_2_SQRTPI * E) * XP)
      = -(Q * P - ofReal (M_2_SQRTPI * E) * XP + (-Q * M + ofReal (M_2_SQRTPI * E) * XM)) := by
    ring
  rw [a1, a2, hfin, cisnan_neg lib hnan]
  refine Prod.ext rfl ?_
  simp only
  split_ifs
  · simp
  · rfl

theorem AddGLong2D_negZ (lib : Libm F) (hfin : ∀ w, lib.IsFinite (-w) = lib.IsFinite w)
    (hnan : ∀ x, lib.ISNAN (-x) = lib.ISNAN x) (R : Vec3 F) (k : cdouble F) (P : Vec2 F)
    (n1 n2 : ℤ) (Gamma : Mat2 F) (E : F) (st : DistantState F) :
    AddGLong2D lib R.negZ k P n1 n2 Gamma E st.reflectZ
      = (AddGLong2D lib R k P n1 n2 Gamma E st).reflectZ := by
  unfold AddGLong2D
  simp only [Vec3.negZ, GetEEF_neg lib hfin hnan, DistantState.reflectZ]
  split_ifs
  · rfl
  · rfl
  · simp only [DistantState.mk.injEq, and_true, true_and]
    apply Sum8.ext <;> simp [Sum8.reflectZ] <;> ring


theorem AddGLong1D_negZ (lib : Libm F) (R : Vec3 F) (Rho : F) (k : cdouble F) (P : Vec2 F)
    (mm : ℤ) (Gamma : Mat2 F) (E : F) (st : DistantState F) :
    AddGLong1D lib R.negZ Rho k P mm Gamma E st.reflectZ
      = (AddGLong1D lib R Rho k P mm Gamma E st).map DistantState.reflectZ := by
  unfold AddGLong1D
  simp only [Vec3.negZ, DistantState.reflectZ]
  generalize GetGLongTwiddle1D lib (P.x - (mm : F) * Gamma.a00) Rho k E (0, 0) st.Singular = tw
  split_ifs
  · rfl
  · rfl
  · simp only [Except.map, DistantState.reflectZ, Except.ok.injEq, DistantState.mk.injEq,
      and_true, true_and]
    apply Sum8.ext <;> simp [Sum8.reflectZ]
  · simp only [Except.map, DistantState.reflectZ, Except.ok.injEq, DistantState.mk.injEq,
      and_true, true_and]
    apply Sum8.ext <;> simp [Sum8.reflectZ, neg_div] <;> ring

theorem distantFirstRound_negZ (lib : Libm F)
    (hfin : ∀ w, lib.IsFinite (-w) = lib.IsFinite w)
    (hnan : ∀ x, lib.ISNAN (-x) = lib.ISNAN x) (R : Vec3 F) (Rho : F) (k : cdouble F)
    (P : Vec2 F) (Gamma : Mat2 F) (LDim : ℤ) (E : F) (st : DistantState F) :
    distantFirstRound lib R.negZ Rho k P Gamma LDim E st.reflectZ
      = (distantFirstRound lib R Rho k P Gamma LDim E st).map DistantState.reflectZ := by
  unfold distantFirstRound
  split_ifs
  · apply foldErr_comm_map
    intro b a
    exact AddGLong1D_negZ lib R Rho k P a Gamma E b
  · simp only [Except.map]
    congr 1
    apply foldl_comm_map
    intro s a
    apply foldl_comm_map
    intro s b
    simp only [AddGLong2D_negZ lib hfin hnan]
    rfl

theorem distantShell_negZ (lib : Libm F)
    (hfin : ∀ w, lib.IsFinite (-w) = lib.IsFinite w)
    (hnan : ∀ x, lib.ISNAN (-x) = lib.ISNAN x) (R : Vec3 F) (Rho : F) (k : cdouble F)
    (P : Vec2 F) (Gamma : Mat2 F) (LDim : ℤ) (E : F) (NN : ℤ) (st : DistantState F) :
    distantShell lib R.negZ Rho k P Gamma LDim E NN st.reflectZ
      = (distantShell lib R Rho k P Gamma LDim E NN st).map DistantState.reflectZ := by
  unfold distantShell
  split_ifs
  · rw [AddGLong1D_negZ]
    cases h1 : AddGLong1D lib R Rho k P NN Gamma E st with
    | error e => rfl
    | ok st1 =>
      simp only [Except.map]
      rw [AddGLong1D_negZ]
      cases h2 : AddGLong1D lib R Rho k P (-NN) Gamma E st1 with
      | error e => rfl
      | ok st2 => rfl
  · simp only [Except.map]
    congr 1
    apply foldl_comm_map
    intro s a
    simp only [AddGLong2D_negZ lib hfin hnan]
    rfl

theorem distantLoop_negZ (lib : Libm F) (hcabs : ∀ z, lib.cabs (-z) = lib.cabs z)
    (hfin : ∀ w, lib.IsFinite (-w) = lib.IsFinite w)
    (hnan : ∀ x, lib.ISNAN (-x) = lib.ISNAN x) (R : Vec3 F) (Rho : F) (k : cdouble F)
    (P : Vec2 F) (Gamma : Mat2 F) (LDim : ℤ) (E : F) (fuel : ℕ) :
    ∀ (NN : ℤ) (c : ℕ) (st : DistantState F) (LastSum : Sum8 F),
      distantLoop lib R.negZ Rho k P Gamma LDim E fuel NN c st.reflectZ LastSum.reflectZ
        = (distantLoop lib R Rho k P Gamma LDim E fuel NN c st LastSum).map
            DistantState.reflectZ := by
  induction fuel with
  | zero => intro NN c st LastSum; rfl
  | succ fuel ih =>
    intro NN c st LastSum
    unfold distantLoop
    split_ifs
    · rw [distantShell_negZ lib hfin hnan]
      cases h1 : distantShell lib R Rho k P Gamma LDim E NN st with
      | error e => rfl
      | ok st1 =>
        simp only [Except.map]
        by_cases hs : st1.Singular = true
        · have hs1 : st1.reflectZ.Singular = true := hs
          rw [if_pos hs, if_pos hs1]
        · have hs1 : ¬ st1.reflectZ.Singular = true := hs
          rw [if_neg hs, if_neg hs1]
          have h := ih (NN + 1) (if underTolerance lib st1.Sum LastSum then c + 1 else 0)
            st1 st1.Sum
          have h3 : st1.reflectZ.Sum = st1.Sum.reflectZ := rfl
          rw [h3, underTolerance_reflectZ lib hcabs, h]
          rfl
    · rfl

theorem GetGBarDistant_negZ (lib : Libm F) (hcabs : ∀ z, lib.cabs (-z) = lib.cabs z)
    (hfin : ∀ w, lib.IsFinite (-w) = lib.IsFinite w)
    (hnan : ∀ x, lib.ISNAN (-x) = lib.ISNAN x) (R : Vec3 F) (Rho : F) (k : cdouble F)
    (P : Vec2 F) (Gamma : Mat2 F) (LDim : ℤ) (E : F) :
    GetGBarDistant lib R.negZ Rho k P Gamma LDim E
      = (GetGBarDistant lib R Rho k P Gamma LDim E).map
          (fun D => { D with Sum := D.Sum.reflectZ }) := by
  unfold GetGBarDistant
  by_cases hE : E = 0
  · rw [if_pos hE, if_pos hE]
    simp only [Except.map, Sum8.reflectZ_zero]
  · rw [if_neg hE, if_neg hE]
    have h0 : ({ Sum := Sum8.zero, Singular := false, nCells := 0, trace := [] }
        : DistantState F)
        = DistantState.reflectZ
            { Sum := Sum8.zero, Singular := false, nCells := 0, trace := [] } := by
      simp only [DistantState.reflectZ, Sum8.reflectZ_zero]
    have h1 := distantFirstRound_negZ lib hfin hnan R Rho k P Gamma LDim E
      { Sum := Sum8.zero, Singular := false, nCells := 0, trace := [] }
    rw [← h0] at h1
    rw [h1]
    cases hf : distantFirstRound lib R Rho k P Gamma LDim E
        { Sum := Sum8.zero, Singular := false, nCells := 0, trace := [] } with
    | error e => rfl
    | ok st1 =>
      simp only [Except.map]
      by_cases hs : st1.Singular = true
      · have hs1 : st1.reflectZ.Singular = true := hs
        rw [if_pos hs, if_pos hs1]
        rfl
      · have hs1 : ¬ st1.reflectZ.Singular = true := hs
        rw [if_neg hs, if_neg hs1]
        have h2 := distantLoop_negZ lib hcabs hfin hnan R Rho k P Gamma LDim E NMAX.toNat
          (NFIRSTROUND + 1) 0 st1 st1.Sum
        have h3 : st1.reflectZ.Sum = st1.Sum.reflectZ := rfl
        rw [h3, h2]
        cases hl : distantLoop lib R Rho k P Gamma LDim E NMAX.toNat (NFIRSTROUND + 1) 0
            st1 st1.Sum with
        | error e => rfl
        | ok st2 =>
          simp only [Except.map]
          by_cases hs2 : st2.Singular = true
          · have hs3 : st2.reflectZ.Singular = true := hs2
            rw [if_pos hs2, if_pos hs3]
            rfl
          · have hs3 : ¬ st2.reflectZ.Singular = true := hs2
            rw [if_neg hs2, if_neg hs3]
            simp only [DistantState.reflectZ, Sum8.reflectZ_scale]


theorem AddGLongRealSpace_negZ (lib : Libm F) (R : Vec3 F) (k : cdouble F) (kBloch : Vec2 F)
    (n1 n2 : ℤ) (LBV : Mat2 F) (LDim : ℤ) (E : F) (S : Sum8 F) :
    AddGLongRealSpace lib R.negZ k kBloch n1 n2 LBV LDim E S.reflectZ
      = (AddGLongRealSpace lib R k kBloch n1 n2 LBV LDim E S).reflectZ := by
  unfold AddGLongRealSpace
  have h1 := AddGFull_negZ lib R k kBloch (cellVector n1 n2 LBV LDim).x
    (cellVector n1 n2 LBV LDim).y Sum8.zero false
  have h2 := AddGShort_negZ lib R k kBloch n1 n2 LBV LDim E Sum8.zero
  rw [Sum8.reflectZ_zero] at h1 h2
  simp only [h1, h2, ← Sum8.reflectZ_sub, ← Sum8.reflectZ_add]
  simp only [Vec3.negZ, neg_mul_neg]
  split_ifs
  · rfl
  · apply Sum8.ext <;> simp [Sum8.reflectZ] <;> ring
  · rfl

theorem GLongInner_negZ (lib : Libm F) (R : Vec3 F) (k : cdouble F) (kBloch : Vec2 F)
    (LBV : Mat2 F) (LDim : ℤ) (E : F) :
    GLongInner lib R.negZ k kBloch LBV LDim E
      = (GLongInner lib R k kBloch LBV LDim E).reflectZ := by
  unfold GLongInner
  simp only
  have h0 : (Sum8.zero : Sum8 F) = Sum8.reflectZ Sum8.zero := Sum8.reflectZ_zero.symm
  conv_lhs => rw [h0]
  apply foldl_comm_map
  intro s a
  apply foldl_comm_map
  intro s b
  exact AddGLongRealSpace_negZ lib R k kBloch a b LBV LDim E s

theorem GBarVDEwald_combine_negZ (lib : Libm F) (R : Vec3 F) (k : cdouble F)
    (kBloch : Vec2 F) (LBV : Mat2 F) (LDim : ℤ) (E : F) (Excl : Bool) (N D : Sum8 F) :
    GBarVDEwald_combine lib R.negZ k kBloch LBV LDim E Excl N.reflectZ D.reflectZ
      = (GBarVDEwald_combine lib R k kBloch LBV LDim E Excl N D).reflectZ := by
  unfold GBarVDEwald_combine
  simp only [GLongInner_negZ, ← Sum8.reflectZ_add, ← Sum8.reflectZ_sub]
  split_ifs <;> rfl

theorem GBarVDEwald_sums_negZ (lib : Libm F) (hcabs : ∀ z, lib.cabs (-z) = lib.cabs z)
    (hfin : ∀ w, lib.IsFinite (-w) = lib.IsFinite w)
    (hnan : ∀ x, lib.ISNAN (-x) = lib.ISNAN x) (R : Vec3 F) (k : cdouble F)
    (kBloch0 : Vec2 F) (LBV : Mat2 F) (LDim : ℤ) (E : F) (Excl : Bool) (Gamma : Mat2 F)
    (Rho : F) :
    GBarVDEwald_sums lib R.negZ k kBloch0 LBV LDim E Excl Gamma Rho
      = (GBarVDEwald_sums lib R k kBloch0 LBV LDim E Excl Gamma Rho).map Sum8.reflectZ := by
  unfold GBarVDEwald_sums
  simp only [GetGBarDistant_negZ lib hcabs hfin hnan, GetGBarNearby_negZ lib hcabs]
  generalize copyBloch kBloch0 LDim = kBloch
  cases hD : GetGBarDistant lib R Rho k kBloch Gamma LDim E with
  | error e => rfl
  | ok D =>
    simp only [Except.map]
    by_cases hs : D.Singular = true
    · rw [if_pos hs, if_pos hs]
      cases hD1 : GetGBarDistant lib R Rho k
          { x := kBloch.x + 1.0e-2 * lib.cabs k, y := kBloch.y } Gamma LDim E with
      | error e => rfl
      | ok D1 =>
        simp only [GBarVDEwald_combine_negZ]
    · rw [if_neg hs, if_neg hs]
      simp only [GBarVDEwald_combine_negZ]

theorem GBarVDEwald_negZ (lib : Libm F) (hcabs : ∀ z, lib.cabs (-z) = lib.cabs z)
    (hfin : ∀ w, lib.IsFinite (-w) = lib.IsFinite w)
    (hnan : ∀ x, lib.ISNAN (-x) = lib.ISNAN x) (R : Vec3 F) (k : cdouble F)
    (kBloch0 : Vec2 F) (LBV : Mat2 F) (LDim : ℤ) (E : F) (Excl : Bool) :
    GBarVDEwald lib R.negZ k kBloch0 LBV LDim E Excl
      = (GBarVDEwald lib R k kBloch0 LBV LDim E Excl).map Sum8.reflectZ := by
  unfold GBarVDEwald
  rw [GetRLBasis_negZ]
  by_cases hk : k = 0
  · rw [if_pos hk, if_pos hk]
    simp only [Except.map, Sum8.reflectZ_zero]
  · rw [if_neg hk, if_neg hk]
    cases hrl : GetRLBasis lib LDim LBV k R with
    | error e => rfl
    | ok rl =>
      simp only
      exact GBarVDEwald_sums_negZ lib hcabs hfin hnan R k kBloch0 LBV LDim _ Excl _ _

/-! ### Lemmas for the singular retry, the inner block, the cell lists and
the prefactor -/

theorem AddGLong2D_of_singular (lib : Libm F) (R : Vec3 F) (k : cdouble F) (P : Vec2 F)
    (n1 n2 : ℤ) (Gamma : Mat2 F) (E : F) (st : DistantState F) (h : st.Singular = true) :
    AddGLong2D lib R k P n1 n2 Gamma E st = { st with trace := st.trace ++ [(n1, n2)] } := by
  unfold AddGLong2D
  simp only
  rw [if_pos h]

theorem AddGLong2D_singular_of_test (lib : Libm F) (R : Vec3 F) (k : cdouble F) (P : Vec2 F)
    (n1 n2 : ℤ) (Gamma : Mat2 F) (E : F) (st : DistantState F) (h : st.Singular = false)
    (hQ : lib.cabs (lib.csqrt (ofReal
        ((P.x - (n1 : F) * Gamma.a00 - (n2 : F) * Gamma.a10)
            * (P.x - (n1 : F) * Gamma.a00 - (n2 : F) * Gamma.a10)
          + (P.y - (n1 : F) * Gamma.a01 - (n2 : F) * Gamma.a11)
            * (P.y - (n1 : F) * Gamma.a01 - (n2 : F) * Gamma.a11)) - k * k))
      < 1.0e-4 * lib.cabs k) :
    AddGLong2D lib R k P n1 n2 Gamma E st
      = { st with trace := st.trace ++ [(n1, n2)], Singular := true } := by
  unfold AddGLong2D
  simp only
  rw [if_neg (by simp [h]), if_pos hQ]

theorem AddGLong2D_foldl_singular (lib : Libm F) (R : Vec3 F) (k : cdouble F) (P : Vec2 F)
    (Gamma : Mat2 F) (E : F) (m1 : ℤ) (l : List ℤ) (st : DistantState F)
    (h : st.Singular = true) :
    (l.foldl (fun st m2 =>
        { AddGLong2D lib R k P m1 m2 Gamma E st with
          nCells := (AddGLong2D lib R k P m1 m2 Gamma E st).nCells + 1 }) st).Singular = true
    ∧ (l.foldl (fun st m2 =>
        { AddGLong2D lib R k P m1 m2 Gamma E st with
          nCells := (AddGLong2D lib R k P m1 m2 Gamma E st).nCells + 1 }) st).Sum = st.Sum := by
  induction l generalizing st with
  | nil => exact ⟨h, rfl⟩
  | cons a l ih =>
    simp only [List.foldl_cons]
    rw [AddGLong2D_of_singular lib R k P m1 a Gamma E st h]
    exact ih _ h

theorem distantFirstRound_2D_singular (lib : Libm F) (R : Vec3 F) (Rho : F) (k : cdouble F)
    (P : Vec2 F) (Gamma : Mat2 F) (LDim : ℤ) (E : F) (hL : LDim ≠ 1)
    (hQ : lib.cabs (lib.csqrt (ofReal
        ((P.x - ((-1 : ℤ) : F) * Gamma.a00 - ((-1 : ℤ) : F) * Gamma.a10)
            * (P.x - ((-1 : ℤ) : F) * Gamma.a00 - ((-1 : ℤ) : F) * Gamma.a10)
          + (P.y - ((-1 : ℤ) : F) * Gamma.a01 - ((-1 : ℤ) : F) * Gamma.a11)
            * (P.y - ((-1 : ℤ) : F) * Gamma.a01 - ((-1 : ℤ) : F) * Gamma.a11)) - k * k))
      < 1.0e-4 * lib.cabs k) :
    ∃ st1, distantFirstRound lib R Rho k P Gamma LDim E
        { Sum := Sum8.zero, Singular := false, nCells := 0, trace := [] } = .ok st1
      ∧ st1.Singular = true ∧ st1.Sum = Sum8.zero := by
  unfold distantFirstRound
  rw [if_neg hL, intRange_first]
  refine ⟨_, rfl, ?_⟩
  simp only [List.foldl_cons, List.foldl_nil]
  rw [AddGLong2D_singular_of_test lib R k P (-1) (-1) Gamma E _ rfl hQ]
  simp only [AddGLong2D_of_singular]
  constructor <;> trivial

theorem GetGBarDistant_2D_singular (lib : Libm F) (R : Vec3 F) (Rho : F) (k : cdouble F)
    (P : Vec2 F) (Gamma : Mat2 F) (LDim : ℤ) (E : F) (hL : LDim ≠ 1) (hE : E ≠ 0)
    (hQ : lib.cabs (lib.csqrt (ofReal
        ((P.x - ((-1 : ℤ) : F) * Gamma.a00 - ((-1 : ℤ) : F) * Gamma.a10)
            * (P.x - ((-1 : ℤ) : F) * Gamma.a00 - ((-1 : ℤ) : F) * Gamma.a10)
          + (P.y - ((-1 : ℤ) : F) * Gamma.a01 - ((-1 : ℤ) : F) * Gamma.a11)
            * (P.y - ((-1 : ℤ) : F) * Gamma.a01 - ((-1 : ℤ) : F) * Gamma.a11)) - k * k))
      < 1.0e-4 * lib.cabs k) :
    ∃ D, GetGBarDistant lib R Rho k P Gamma LDim E = .ok D ∧ D.Singular = true
      ∧ D.Sum = Sum8.zero := by
  obtain ⟨st1, h1, h2, h3⟩ := distantFirstRound_2D_singular lib R Rho k P Gamma LDim E hL hQ
  unfold GetGBarDistant
  rw [if_neg hE, h1]
  simp only
  rw [if_pos h2]
  exact ⟨_, rfl, rfl, h3⟩


theorem GBarVDEwald_unfold (lib : Libm F) (R : Vec3 F) (k : cdouble F) (kBloch0 : Vec2 F)
    (LBV : Mat2 F) (LDim : ℤ) (E : F) (Excl : Bool) (rl : RLBasis F) (hk : k ≠ 0)
    (hrl : GetRLBasis lib LDim LBV k R = .ok rl) :
    GBarVDEwald lib R k kBloch0 LBV LDim E Excl
      = GBarVDEwald_sums lib R k kBloch0 LBV LDim (if E = -1 then rl.EOpt else E) Excl
          rl.Gamma rl.Rho := by
  unfold GBarVDEwald
  rw [if_neg hk, hrl]

theorem GBarVDEwald_sums_nonsingular (lib : Libm F) (R : Vec3 F) (k : cdouble F)
    (kBloch0 : Vec2 F) (LBV : Mat2 F) (LDim : ℤ) (E : F) (Excl : Bool) (Gamma : Mat2 F)
    (Rho : F) (D : DistantResult F)
    (hD : GetGBarDistant lib R Rho k (copyBloch kBloch0 LDim) Gamma LDim E = .ok D)
    (hs : D.Singular = false) :
    GBarVDEwald_sums lib R k kBloch0 LBV LDim E Excl Gamma Rho
      = .ok (GBarVDEwald_combine lib R k (copyBloch kBloch0 LDim) LBV LDim E Excl
          (GetGBarNearby lib R k (copyBloch kBloch0 LDim) LBV LDim E Excl).Sum D.Sum) := by
  unfold GBarVDEwald_sums
  simp only [hD, hs]
  rfl

theorem GBarVDEwald_sums_singular (lib : Libm F) (R : Vec3 F) (k : cdouble F)
    (kBloch0 : Vec2 F) (LBV : Mat2 F) (LDim : ℤ) (E : F) (Excl : Bool) (Gamma : Mat2 F)
    (Rho : F) (D D1 : DistantResult F)
    (hD : GetGBarDistant lib R Rho k (copyBloch kBloch0 LDim) Gamma LDim E = .ok D)
    (hs : D.Singular = true)
    (hD1 : GetGBarDistant lib R Rho k
      ⟨(copyBloch kBloch0 LDim).x + 1.0e-2 * lib.cabs k, (copyBloch kBloch0 LDim).y⟩
      Gamma LDim E = .ok D1) :
    GBarVDEwald_sums lib R k kBloch0 LBV LDim E Excl Gamma Rho
      = .ok (GBarVDEwald_combine lib R k
          ⟨(copyBloch kBloch0 LDim).x + 1.0e-2 * lib.cabs k, (copyBloch kBloch0 LDim).y⟩
          LBV LDim E Excl
          (GetGBarNearby lib R k
            ⟨(copyBloch kBloch0 LDim).x + 1.0e-2 * lib.cabs k, (copyBloch kBloch0 LDim).y⟩
            LBV LDim E Excl).Sum D1.Sum) := by
  unfold GBarVDEwald_sums
  simp only [hD, hs, hD1]
  rfl

theorem GBarVDEwald_2D_ok (lib : Libm F) (R : Vec3 F) (k : cdouble F) (kBloch0 : Vec2 F)
    (LBV : Mat2 F) (E : F) (Excl : Bool) (hk : k ≠ 0)
    (hA : LBV.a00 * LBV.a11 - LBV.a01 * LBV.a10 ≠ 0) :
    ∃ G, GBarVDEwald lib R k kBloch0 LBV 2 E Excl = .ok G := by
  obtain ⟨rl, hrl, _⟩ := GetRLBasis_2D_ok lib LBV k R hA
  rw [GBarVDEwald_unfold lib R k kBloch0 LBV 2 E Excl rl hk hrl]
  exact GBarVDEwald_sums_ok lib R k kBloch0 LBV 2 _ Excl _ _ (fun h => absurd h (by decide))

theorem GetGBarDistant_E_zero (lib : Libm F) (R : Vec3 F) (Rho : F) (k : cdouble F)
    (P : Vec2 F) (Gamma : Mat2 F) (LDim : ℤ) :
    GetGBarDistant lib R Rho k P Gamma LDim 0
      = .ok { Singular := false, Sum := Sum8.zero, pnCells := none, trace := [] } := by
  unfold GetGBarDistant
  rw [if_pos rfl]

theorem Sum8.zero_add (S : Sum8 F) : Sum8.zero.add S = S := by
  apply Sum8.ext <;> simp [Sum8.add, Sum8.zero]

theorem AddGLongRealSpace_add (lib : Libm F) (R : Vec3 F) (k : cdouble F) (kBloch : Vec2 F)
    (n1 n2 : ℤ) (LBV : Mat2 F) (LDim : ℤ) (E : F) (S : Sum8 F) :
    AddGLongRealSpace lib R k kBloch n1 n2 LBV LDim E S
      = S.add (AddGLongRealSpace lib R k kBloch n1 n2 LBV LDim E Sum8.zero) := by
  unfold AddGLongRealSpace
  by_cases hE : E = 0
  · simp only [if_pos hE]
    apply Sum8.ext <;> simp [Sum8.add, Sum8.zero]
  · simp only [if_neg hE]
    split_ifs
    · apply Sum8.ext <;> simp [Sum8.add, Sum8.zero]
    · rw [Sum8.zero_add]

theorem GLongInner_eq_spec (lib : Libm F) (R : Vec3 F) (k : cdouble F) (kBloch : Vec2 F)
    (LBV : Mat2 F) (LDim : ℤ) (E : F) :
    GLongInner lib R k kBloch LBV LDim E = innerBlockSum_spec lib R k kBloch LBV LDim E := by
  have hf : (fun (S : Sum8 F) (c : ℤ × ℤ) =>
        S.add (AddGLongRealSpace lib R k kBloch c.1 c.2 LBV LDim E Sum8.zero))
      = fun S c => AddGLongRealSpace lib R k kBloch c.1 c.2 LBV LDim E S := by
    funext S c
    rw [← AddGLongRealSpace_add]
  have h1 : intRange (-1) 1 = [-1, 0, 1] := by decide
  have h2 : intRange (-1 * 1) (1 * 1) = [-1, 0, 1] := by decide
  have h3 : intRange (-1 * 0) (1 * 0) = [0] := by decide
  unfold GLongInner innerBlockSum_spec innerBlock_spec
  rw [hf]
  by_cases h : LDim = 2
  · simp only [if_pos h, h1, h2, List.foldl_cons, List.foldl_nil]
  · simp only [if_neg h, h1, h3, List.foldl_cons, List.foldl_nil]

theorem GBarVDEwald_output (lib : Libm F) (R : Vec3 F) (k : cdouble F) (kBloch0 : Vec2 F)
    (LBV : Mat2 F) (LDim : ℤ) (E : F) (Excl : Bool) (G : Sum8 F) (hk : k ≠ 0)
    (hG : GBarVDEwald lib R k kBloch0 LBV LDim E Excl = .ok G) :
    ∃ rl kB D, GetRLBasis lib LDim LBV k R = .ok rl ∧ (LDim = 1 ∨ LDim = 2)
      ∧ (kB = copyBloch kBloch0 LDim
          ∨ kB = ⟨(copyBloch kBloch0 LDim).x + 1.0e-2 * lib.cabs k, (copyBloch kBloch0 LDim).y⟩)
      ∧ GetGBarDistant lib R rl.Rho k kB rl.Gamma LDim (if E = -1 then rl.EOpt else E) = .ok D
      ∧ G = GBarVDEwald_combine lib R k kB LBV LDim (if E = -1 then rl.EOpt else E) Excl
          (GetGBarNearby lib R k kB LBV LDim (if E = -1 then rl.EOpt else E) Excl).Sum
          D.Sum := by
  have hL : LDim = 1 ∨ LDim = 2 := by
    by_contra h
    push_neg at h
    unfold GBarVDEwald at hG
    rw [if_neg hk, GetRLBasis_bad_LDim lib LDim LBV k R h.1 h.2] at hG
    cases hG
  cases hrl : GetRLBasis lib LDim LBV k R with
  | error e =>
    unfold GBarVDEwald at hG
    rw [if_neg hk, hrl] at hG
    cases hG
  | ok rl =>
    unfold GBarVDEwald at hG
    rw [if_neg hk, hrl] at hG
    simp only at hG
    unfold GBarVDEwald_sums at hG
    simp only at hG
    cases hD : GetGBarDistant lib R rl.Rho k (copyBloch kBloch0 LDim) rl.Gamma LDim
        (if E = -1 then rl.EOpt else E) with
    | error e =>
      rw [hD] at hG
      cases hG
    | ok D =>
      rw [hD] at hG
      simp only at hG
      by_cases hs : D.Singular = true
      · rw [if_pos hs] at hG
        cases hD1 : GetGBarDistant lib R rl.Rho k
            ⟨(copyBloch kBloch0 LDim).x + 1.0e-2 * lib.cabs k, (copyBloch kBloch0 LDim).y⟩
            rl.Gamma LDim (if E = -1 then rl.EOpt else E) with
        | error e =>
          rw [hD1] at hG
          cases hG
        | ok D1 =>
          rw [hD1] at hG
          simp only [Except.ok.injEq] at hG
          exact ⟨rl, _, D1, rfl, hL, Or.inr rfl, hD1, hG.symm⟩
      · rw [if_neg hs] at hG
        simp only [Except.ok.injEq] at hG
        exact ⟨rl, _, D, rfl, hL, Or.inl rfl, hD, hG.symm⟩

theorem AddGFull_add (lib : Libm F) (R : Vec3 F) (k : cdouble F) (kBloch : Vec2 F)
    (Lx Ly : F) (S : Sum8 F) (v : Bool) :
    AddGFull lib R k kBloch Lx Ly S v = S.add (AddGFull lib R k kBloch Lx Ly Sum8.zero v) := by
  unfold AddGFull
  simp only
  split_ifs
  · apply Sum8.ext <;> simp [Sum8.add, Sum8.zero]
  · apply Sum8.ext <;> simp [Sum8.add, Sum8.zero]
  · apply Sum8.ext <;> simp [Sum8.add, Sum8.zero]

theorem AddGShort_add (lib : Libm F) (R : Vec3 F) (k : cdouble F) (kBloch : Vec2 F)
    (n1 n2 : ℤ) (LBV : Mat2 F) (LDim : ℤ) (E : F) (S : Sum8 F) :
    AddGShort lib R k kBloch n1 n2 LBV LDim E S
      = S.add (AddGShort lib R k kBloch n1 n2 LBV LDim E Sum8.zero) := by
  unfold AddGShort
  by_cases hE : E = 0
  · simp only [if_pos hE]
    exact AddGFull_add lib R k kBloch _ _ S false
  · simp only [if_neg hE]
    split_ifs
    · apply Sum8.ext <;> simp [Sum8.add, Sum8.zero]
    · apply Sum8.ext <;> simp [Sum8.add, Sum8.zero]

theorem AddGShort_over_eq (lib : Libm F) (R : Vec3 F) (k : cdouble F) (kBloch : Vec2 F)
    (LBV : Mat2 F) (LDim : ℤ) (E : F) (cells : List (ℤ × ℤ)) :
    AddGShort_over lib R k kBloch LBV LDim E cells
      = cells.foldl (fun S c => AddGShort lib R k kBloch c.1 c.2 LBV LDim E S) Sum8.zero := by
  have hf : (fun (S : Sum8 F) (c : ℤ × ℤ) =>
        S.add (AddGShort lib R k kBloch c.1 c.2 LBV LDim E Sum8.zero))
      = fun S c => AddGShort lib R k kBloch c.1 c.2 LBV LDim E S := by
    funext S c
    rw [← AddGShort_add]
  unfold AddGShort_over
  rw [hf]

/-- The pair of facts carried through `GetGBarNearby`: the trace and the sums
it accounts for. -/
theorem nearbyCell_inv (lib : Libm F) (R : Vec3 F) (k : cdouble F) (kBloch : Vec2 F)
    (LBV : Mat2 F) (LDim : ℤ) (E : F) (n1 n2 : ℤ) (st : NearbyState F) (l : List (ℤ × ℤ))
    (ht : st.trace = l)
    (hS : st.Sum = l.foldl (fun S c => AddGShort lib R k kBloch c.1 c.2 LBV LDim E S)
      Sum8.zero) :
    (nearbyCell lib R k kBloch LBV LDim E n1 n2 st).trace = l ++ [(n1, n2)]
    ∧ (nearbyCell lib R k kBloch LBV LDim E n1 n2 st).Sum
      = (l ++ [(n1, n2)]).foldl
          (fun S c => AddGShort lib R k kBloch c.1 c.2 LBV LDim E S) Sum8.zero := by
  unfold nearbyCell
  simp only [ht, hS, List.foldl_append, List.foldl_cons, List.foldl_nil, and_self]

theorem nearbyShell_2D_fold_inv (lib : Libm F) (R : Vec3 F) (k : cdouble F) (kBloch : Vec2 F)
    (LBV : Mat2 F) (LDim : ℤ) (E : F) (NN : ℤ) (ms : List ℤ) (st : NearbyState F)
    (l : List (ℤ × ℤ)) (ht : st.trace = l)
    (hS : st.Sum = l.foldl (fun S c => AddGShort lib R k kBloch c.1 c.2 LBV LDim E S)
      Sum8.zero) :
    (ms.foldl
      (fun st n =>
        let st1 := nearbyCell lib R k kBloch LBV LDim E n NN st
        let st2 := nearbyCell lib R k kBloch LBV LDim E NN (-n) st1
        let st3 := nearbyCell lib R k kBloch LBV LDim E (-n) (-NN) st2
        let st4 := nearbyCell lib R k kBloch LBV LDim E (-NN) n st3
        { st4 with nCells := st4.nCells + 4 }) st).trace = l ++ perimeterCells NN ms
    ∧ (ms.foldl
      (fun st n =>
        let st1 := nearbyCell lib R k kBloch LBV LDim E n NN st
        let st2 := nearbyCell lib R k kBloch LBV LDim E NN (-n) st1
        let st3 := nearbyCell lib R k kBloch LBV LDim E (-n) (-NN) st2
        let st4 := nearbyCell lib R k kBloch LBV LDim E (-NN) n st3
        { st4 with nCells := st4.nCells + 4 }) st).Sum
      = (l ++ perimeterCells NN ms).foldl
          (fun S c => AddGShort lib R k kBloch c.1 c.2 LBV LDim E S) Sum8.zero := by
  induction ms generalizing st l with
  | nil => simp [perimeterCells, ht, hS]
  | cons n ms ih =>
    simp only [List.foldl_cons]
    obtain ⟨t1, s1⟩ := nearbyCell_inv lib R k kBloch LBV LDim E n NN st l ht hS
    obtain ⟨t2, s2⟩ := nearbyCell_inv lib R k kBloch LBV LDim E NN (-n) _ _ t1 s1
    obtain ⟨t3, s3⟩ := nearbyCell_inv lib R k kBloch LBV LDim E (-n) (-NN) _ _ t2 s2
    obtain ⟨t4, s4⟩ := nearbyCell_inv lib R k kBloch LBV LDim E (-NN) n _ _ t3 s3
    have h := ih
      { nearbyCell lib R k kBloch LBV LDim E (-NN) n
          (nearbyCell lib R k kBloch LBV LDim E (-n) (-NN)
            (nearbyCell lib R k kBloch LBV LDim E NN (-n)
              (nearbyCell lib R k kBloch LBV LDim E n NN st))) with
        nCells := (nearbyCell lib R k kBloch LBV LDim E (-NN) n
          (nearbyCell lib R k kBloch LBV LDim E (-n) (-NN)
            (nearbyCell lib R k kBloch LBV LDim E NN (-n)
              (nearbyCell lib R k kBloch LBV LDim E n NN st)))).nCells + 4 }
      (l ++ [(n, NN)] ++ [(NN, -n)] ++ [(-n, -NN)] ++ [(-NN, n)]) t4 s4
    have hl : l ++ [(n, NN)] ++ [(NN, -n)] ++ [(-n, -NN)] ++ [(-NN, n)]
          ++ perimeterCells NN ms = l ++ perimeterCells NN (n :: ms) := by
      simp [perimeterCells]
    rw [hl] at h
    exact h

theorem nearbyShell_inv (lib : Libm F) (R : Vec3 F) (k : cdouble F) (kBloch : Vec2 F)
    (LBV : Mat2 F) (LDim : ℤ) (E : F) (NN : ℤ) (st : NearbyState F)
    (l : List (ℤ × ℤ)) (ht : st.trace = l)
    (hS : st.Sum = l.foldl (fun S c => AddGShort lib R k kBloch c.1 c.2 LBV LDim E S)
      Sum8.zero) :
    (nearbyShell lib R k kBloch LBV LDim E NN st).trace = l ++ shellCells LDim NN
    ∧ (nearbyShell lib R k kBloch LBV LDim E NN st).Sum
      = (l ++ shellCells LDim NN).foldl
          (fun S c => AddGShort lib R k kBloch c.1 c.2 LBV LDim E S) Sum8.zero := by
  unfold nearbyShell shellCells
  by_cases h : LDim = 1
  · rw [if_pos h, if_pos h]
    obtain ⟨t1, s1⟩ := nearbyCell_inv lib R k kBloch LBV LDim E NN 0 st l ht hS
    obtain ⟨t2, s2⟩ := nearbyCell_inv lib R k kBloch LBV LDim E (-NN) 0 _ _ t1 s1
    simpa [List.append_assoc] using And.intro t2 s2
  · rw [if_neg h, if_neg h]
    exact nearbyShell_2D_fold_inv lib R k kBloch LBV LDim E NN _ st l ht hS

theorem nearbyLoop_inv (lib : Libm F) (R : Vec3 F) (k : cdouble F) (kBloch : Vec2 F)
    (LBV : Mat2 F) (LDim : ℤ) (E : F) (fuel : ℕ) (NN : ℤ) (CI : ℕ) (st : NearbyState F)
    (Last : Sum8 F) (l : List (ℤ × ℤ)) (ht : st.trace = l)
    (hS : st.Sum = l.foldl (fun S c => AddGShort lib R k kBloch c.1 c.2 LBV LDim E S)
      Sum8.zero) :
    ∃ n : ℕ,
      (nearbyLoop lib R k kBloch LBV LDim E fuel NN CI st Last).trace
        = l ++ shellsFrom LDim NN n
      ∧ (nearbyLoop lib R k kBloch LBV LDim E fuel NN CI st Last).Sum
        = (l ++ shellsFrom LDim NN n).foldl
            (fun S c => AddGShort lib R k kBloch c.1 c.2 LBV LDim E S) Sum8.zero := by
  induction fuel generalizing NN CI st Last l with
  | zero =>
    refine ⟨0, ?_, ?_⟩ <;> simp [nearbyLoop, shellsFrom, ht, hS]
  | succ fuel ih =>
    unfold nearbyLoop
    by_cases hc : CI < 3 ∧ NN ≤ NMAX
    · rw [if_pos hc]
      obtain ⟨t1, s1⟩ := nearbyShell_inv lib R k kBloch LBV LDim E NN st l ht hS
      obtain ⟨n, hn1, hn2⟩ := ih (NN + 1)
        (if underTolerance lib (nearbyShell lib R k kBloch LBV LDim E NN st).Sum Last
          then CI + 1 else 0)
        (nearbyShell lib R k kBloch LBV LDim E NN st)
        (nearbyShell lib R k kBloch LBV LDim E NN st).Sum _ t1 s1
      refine ⟨n + 1, ?_, ?_⟩
      · simpa [shellsFrom, List.append_assoc] using hn1
      · simpa [shellsFrom, List.append_assoc] using hn2
    · rw [if_neg hc]
      refine ⟨0, ?_, ?_⟩ <;> simp [shellsFrom, ht, hS]

theorem nearbyFirstRound_excl (lib : Libm F) (R : Vec3 F) (k : cdouble F) (kBloch : Vec2 F)
    (LBV : Mat2 F) (LDim : ℤ) (E : F) (st : NearbyState F) :
    (nearbyFirstRound lib R k kBloch LBV LDim E true st).trace = st.trace
    ∧ (nearbyFirstRound lib R k kBloch LBV LDim E true st).Sum = st.Sum := by
  unfold nearbyFirstRound
  rw [intRange_first]
  split_ifs <;> simp [List.foldl_cons, List.foldl_nil]

theorem nearbyFirstRound_all (lib : Libm F) (R : Vec3 F) (k : cdouble F) (kBloch : Vec2 F)
    (LBV : Mat2 F) (LDim : ℤ) (E : F) (hL : LDim = 1 ∨ LDim = 2) :
    (nearbyFirstRound lib R k kBloch LBV LDim E false
        { Sum := Sum8.zero, nCells := 0, trace := [] }).trace = innerBlock_spec LDim
    ∧ (nearbyFirstRound lib R k kBloch LBV LDim E false
        { Sum := Sum8.zero, nCells := 0, trace := [] }).Sum
      = (innerBlock_spec LDim).foldl
          (fun S c => AddGShort lib R k kBloch c.1 c.2 LBV LDim E S) Sum8.zero := by
  unfold nearbyFirstRound innerBlock_spec
  rw [intRange_first]
  rcases hL with h | h
  · subst h
    simp [List.foldl_cons, List.foldl_nil, nearbyCell]
  · subst h
    simp [List.foldl_cons, List.foldl_nil, nearbyCell]

theorem mem_intRange (lo hi m : ℤ) : m ∈ intRange lo hi ↔ lo ≤ m ∧ m ≤ hi := by
  unfold intRange
  simp only [List.mem_map, List.pure_def, List.bind_eq_flatMap, List.mem_flatMap,
    List.mem_range, List.mem_singleton]
  constructor
  · rintro ⟨i, ⟨j, hj, rfl⟩, rfl⟩
    omega
  · rintro ⟨h1, h2⟩
    exact ⟨m - lo, ⟨(m - lo).toNat, by omega, by omega⟩, by omega⟩

theorem mem_perimeterCells (NN : ℤ) (l : List ℤ) (a b : ℤ) :
    (a, b) ∈ perimeterCells NN l ↔
      ∃ n, n ∈ l ∧ ((a = n ∧ b = NN) ∨ (a = NN ∧ b = -n) ∨ (a = -n ∧ b = -NN)
        ∨ (a = -NN ∧ b = n)) := by
  induction l with
  | nil => simp [perimeterCells]
  | cons n l ih =>
    simp only [perimeterCells, List.mem_append, List.mem_cons, Prod.mk.injEq,
      List.mem_nil_iff, or_false, ih]
    constructor
    · rintro (h | ⟨m, hm, h⟩)
      · exact ⟨n, Or.inl rfl, h⟩
      · exact ⟨m, Or.inr hm, h⟩
    · rintro ⟨m, (rfl | hm), h⟩
      · exact Or.inl h
      · exact Or.inr ⟨m, hm, h⟩

theorem mem_shellCells_1D (NN a b : ℤ) :
    (a, b) ∈ shellCells 1 NN ↔ b = 0 ∧ (a = NN ∨ a = -NN) := by
  unfold shellCells
  rw [if_pos rfl]
  simp only [List.mem_cons, Prod.mk.injEq, List.mem_nil_iff, or_false]
  tauto

theorem mem_shellCells_2D (LDim NN a b : ℤ) (hL : LDim ≠ 1) (hN : 1 ≤ NN) :
    (a, b) ∈ shellCells LDim NN ↔ max |a| |b| = NN := by
  unfold shellCells
  rw [if_neg hL, mem_perimeterCells]
  have ha := abs_cases a
  have hb := abs_cases b
  constructor
  · rintro ⟨n, hn, hd⟩
    rw [mem_intRange] at hn
    omega
  · intro hm
    have h4 : (b = NN ∧ a ≤ NN - 1) ∨ (a = NN ∧ -NN + 1 ≤ b) ∨ (b = -NN ∧ -NN + 1 ≤ a)
        ∨ (a = -NN ∧ b ≤ NN - 1) := by omega
    rcases h4 with h | h | h | h
    · exact ⟨a, (mem_intRange _ _ _).mpr (by omega), Or.inl ⟨rfl, h.1⟩⟩
    · exact ⟨-b, (mem_intRange _ _ _).mpr (by omega), Or.inr (Or.inl ⟨h.1, by omega⟩)⟩
    · exact ⟨-a, (mem_intRange _ _ _).mpr (by omega),
        Or.inr (Or.inr (Or.inl ⟨by omega, h.1⟩))⟩
    · exact ⟨b, (mem_intRange _ _ _).mpr (by omega), Or.inr (Or.inr (Or.inr ⟨h.1, rfl⟩))⟩

theorem mem_shellsFrom (LDim NN : ℤ) (n : ℕ) (c : ℤ × ℤ) :
    c ∈ shellsFrom LDim NN n ↔ ∃ j : ℤ, NN ≤ j ∧ j < NN + n ∧ c ∈ shellCells LDim j := by
  induction n generalizing NN with
  | zero =>
    simp only [shellsFrom, List.not_mem_nil, false_iff]
    rintro ⟨j, h1, h2, _⟩
    simp at h2
    omega
  | succ n ih =>
    simp only [shellsFrom, List.mem_append, ih]
    constructor
    · rintro (h | ⟨j, h1, h2, h3⟩)
      · exact ⟨NN, le_refl _, by push_cast; omega, h⟩
      · exact ⟨j, by omega, by push_cast; omega, h3⟩
    · rintro ⟨j, h1, h2, h3⟩
      by_cases hj : j = NN
      · subst hj
        exact Or.inl h3
      · exact Or.inr ⟨j, by omega, by push_cast at h2; omega, h3⟩

theorem mem_shellsFrom_2D (LDim : ℤ) (hL : LDim ≠ 1) (n : ℕ) (a b : ℤ) :
    (a, b) ∈ shellsFrom LDim 2 n ↔ 2 ≤ max |a| |b| ∧ max |a| |b| ≤ (n : ℤ) + 1 := by
  rw [mem_shellsFrom]
  constructor
  · rintro ⟨j, h1, h2, h3⟩
    rw [mem_shellCells_2D LDim j a b hL (by omega)] at h3
    omega
  · rintro ⟨h1, h2⟩
    exact ⟨max |a| |b|, h1, by omega,
      (mem_shellCells_2D LDim _ a b hL (by omega)).mpr rfl⟩

theorem mem_shellsFrom_1D (n : ℕ) (a b : ℤ) :
    (a, b) ∈ shellsFrom 1 2 n ↔ b = 0 ∧ 2 ≤ |a| ∧ |a| ≤ (n : ℤ) + 1 := by
  rw [mem_shellsFrom]
  have ha := abs_cases a
  constructor
  · rintro ⟨j, h1, h2, h3⟩
    rw [mem_shellCells_1D] at h3
    omega
  · rintro ⟨h0, h1, h2⟩
    exact ⟨|a|, h1, by omega, (mem_shellCells_1D _ a b).mpr ⟨h0, by omega⟩⟩

theorem mem_innerBlock_spec_2D (a b : ℤ) :
    (a, b) ∈ innerBlock_spec 2 ↔ |a| ≤ 1 ∧ |b| ≤ 1 := by
  unfold innerBlock_spec
  rw [if_pos rfl]
  simp only [List.mem_cons, Prod.mk.injEq, List.mem_nil_iff, or_false]
  have ha := abs_cases a
  have hb := abs_cases b
  omega

theorem mem_innerBlock_spec_1D (a b : ℤ) :
    (a, b) ∈ innerBlock_spec 1 ↔ |a| ≤ 1 ∧ b = 0 := by
  unfold innerBlock_spec
  rw [if_neg (by decide)]
  simp only [List.mem_cons, Prod.mk.injEq, List.mem_nil_iff, or_false]
  have ha := abs_cases a
  omega

theorem innerBlock_spec_nodup (LDim : ℤ) : (innerBlock_spec LDim).Nodup := by
  unfold innerBlock_spec
  split_ifs <;> decide

theorem GetGBarNearby_excl_inv (lib : Libm F) (R : Vec3 F) (k : cdouble F)
    (kBloch : Vec2 F) (LBV : Mat2 F) (LDim : ℤ) (E : F) :
    ∃ n : ℕ, (GetGBarNearby lib R k kBloch LBV LDim E true).trace = shellsFrom LDim 2 n
      ∧ (GetGBarNearby lib R k kBloch LBV LDim E true).Sum
        = AddGShort_over lib R k kBloch LBV LDim E (shellsFrom LDim 2 n) := by
  obtain ⟨t1, s1⟩ := nearbyFirstRound_excl lib R k kBloch LBV LDim E
    { Sum := Sum8.zero, nCells := 0, trace := [] }
  obtain ⟨n, h1, h2⟩ := nearbyLoop_inv lib R k kBloch LBV LDim E NMAX.toNat (NFIRSTROUND + 1) 0
    (nearbyFirstRound lib R k kBloch LBV LDim E true
      { Sum := Sum8.zero, nCells := 0, trace := [] })
    (nearbyFirstRound lib R k kBloch LBV LDim E true
      { Sum := Sum8.zero, nCells := 0, trace := [] }).Sum [] t1 (by rw [s1]; rfl)
  refine ⟨n, ?_, ?_⟩
  · unfold GetGBarNearby
    simpa [NFIRSTROUND] using h1
  · unfold GetGBarNearby
    rw [AddGShort_over_eq]
    simpa [NFIRSTROUND] using h2

theorem GetGBarNearby_all_inv (lib : Libm F) (R : Vec3 F) (k : cdouble F)
    (kBloch : Vec2 F) (LBV : Mat2 F) (LDim : ℤ) (E : F) (hL : LDim = 1 ∨ LDim = 2) :
    ∃ n : ℕ, (GetGBarNearby lib R k kBloch LBV LDim E false).trace
        = innerBlock_spec LDim ++ shellsFrom LDim 2 n
      ∧ (GetGBarNearby lib R k kBloch LBV LDim E false).Sum
        = AddGShort_over lib R k kBloch LBV LDim E
            (innerBlock_spec LDim ++ shellsFrom LDim 2 n) := by
  obtain ⟨t1, s1⟩ := nearbyFirstRound_all lib R k kBloch LBV LDim E hL
  obtain ⟨n, h1, h2⟩ := nearbyLoop_inv lib R k kBloch LBV LDim E NMAX.toNat (NFIRSTROUND + 1) 0
    (nearbyFirstRound lib R k kBloch LBV LDim E false
      { Sum := Sum8.zero, nCells := 0, trace := [] })
    (nearbyFirstRound lib R k kBloch LBV LDim E false
      { Sum := Sum8.zero, nCells := 0, trace := [] }).Sum _ t1 s1
  refine ⟨n, ?_, ?_⟩
  · unfold GetGBarNearby
    simpa [NFIRSTROUND] using h1
  · unfold GetGBarNearby
    rw [AddGShort_over_eq]
    simpa [NFIRSTROUND] using h2

theorem GetRLBasis_1D_Gamma (lib : Libm F) (L : Mat2 F) (k : cdouble F) (R : Vec3 F) :
    ∃ rl, GetRLBasis lib 1 L k R = .ok rl
      ∧ rl.Gamma = ⟨(2 * M_PI / (L.a00 * L.a00 + L.a01 * L.a01)) * L.a00,
          (2 * M_PI / (L.a00 * L.a00 + L.a01 * L.a01)) * L.a01, 0, 0⟩ := by
  simp only [GetRLBasis, if_true]
  exact ⟨_, rfl, rfl⟩

theorem GetGLongTwiddle1D_far (lib : Libm F) (kx Rho : F) (k : cdouble F) (E : F)
    (dG : cdouble F × cdouble F) (hfar : Rho * E > 4.5) :
    GetGLongTwiddle1D lib kx Rho k E dG false = GFullTwiddle1D lib kx Rho k false := by
  unfold GetGLongTwiddle1D
  rw [if_neg (by simp), if_pos hfar]

theorem AddGLong1D_far (lib : Libm F) (R : Vec3 F) (Rho : F) (k : cdouble F)
    (P : Vec2 F) (mm : ℤ) (Gamma : Mat2 F) (E : F) (st : DistantState F)
    (hP : P.y = 0) (hG : Gamma.a01 = 0) (hfar : Rho * E > 4.5)
    (hs : st.Singular = false) :
    ∃ st1, AddGLong1D lib R Rho k P mm Gamma E st = .ok st1 ∧ st1.Singular = false
      ∧ st1.trace = st.trace ++ [(mm, 0)] := by
  unfold AddGLong1D
  simp only [hP, hG, hs, mul_zero, sub_zero, ne_eq, not_true_eq_false, if_false,
    GetGLongTwiddle1D_far lib _ Rho k E _ hfar]
  exact ⟨_, rfl, rfl, rfl⟩

theorem distantFirstRound_1D_far (lib : Libm F) (R : Vec3 F) (Rho : F) (k : cdouble F)
    (P : Vec2 F) (Gamma : Mat2 F) (E : F) (hP : P.y = 0) (hG : Gamma.a01 = 0)
    (hfar : Rho * E > 4.5) :
    ∃ st1, distantFirstRound lib R Rho k P Gamma 1 E
        { Sum := Sum8.zero, Singular := false, nCells := 0, trace := [] } = .ok st1
      ∧ st1.Singular = false ∧ st1.trace = [(-1, 0), (0, 0), (1, 0)] := by
  unfold distantFirstRound
  rw [if_pos rfl, intRange_first]
  obtain ⟨s1, h1, f1, t1⟩ := AddGLong1D_far lib R Rho k P (-1) Gamma E
    { Sum := Sum8.zero, Singular := false, nCells := 0, trace := [] } hP hG hfar rfl
  obtain ⟨s2, h2, f2, t2⟩ := AddGLong1D_far lib R Rho k P 0 Gamma E s1 hP hG hfar f1
  obtain ⟨s3, h3, f3, t3⟩ := AddGLong1D_far lib R Rho k P 1 Gamma E s2 hP hG hfar f2
  refine ⟨s3, ?_, f3, ?_⟩
  · simp only [foldErr, h1, h2, h3]
  · rw [t3, t2, t1]
    rfl

theorem distantShell_1D_far (lib : Libm F) (R : Vec3 F) (Rho : F) (k : cdouble F)
    (P : Vec2 F) (Gamma : Mat2 F) (E : F) (NN : ℤ) (st : DistantState F)
    (hP : P.y = 0) (hG : Gamma.a01 = 0) (hfar : Rho * E > 4.5)
    (hs : st.Singular = false) :
    ∃ st1, distantShell lib R Rho k P Gamma 1 E NN st = .ok st1 ∧ st1.Singular = false
      ∧ st1.trace = st.trace ++ [(NN, 0), (-NN, 0)] := by
  unfold distantShell
  rw [if_pos rfl]
  obtain ⟨s1, h1, f1, t1⟩ := AddGLong1D_far lib R Rho k P NN Gamma E st hP hG hfar hs
  obtain ⟨s2, h2, f2, t2⟩ := AddGLong1D_far lib R Rho k P (-NN) Gamma E s1 hP hG hfar f1
  rw [h1]
  simp only [h2]
  refine ⟨_, rfl, f2, ?_⟩
  simp [t2, t1]

theorem distantLoop_1D_far (lib : Libm F) (R : Vec3 F) (Rho : F) (k : cdouble F)
    (P : Vec2 F) (Gamma : Mat2 F) (E : F) (hP : P.y = 0) (hG : Gamma.a01 = 0)
    (hfar : Rho * E > 4.5) (fuel : ℕ) :
    ∀ (NN : ℤ) (c : ℕ) (st : DistantState F) (LastSum : Sum8 F), st.Singular = false →
      ∃ st1, distantLoop lib R Rho k P Gamma 1 E fuel NN c st LastSum = .ok st1
        ∧ st1.Singular = false ∧ ∀ x, x ∈ st.trace → x ∈ st1.trace := by
  induction fuel with
  | zero =>
    intro NN c st LastSum hs
    exact ⟨st, rfl, hs, fun _ h => h⟩
  | succ fuel ih =>
    intro NN c st LastSum hs
    unfold distantLoop
    split
    · obtain ⟨s1, h1, f1, t1⟩ := distantShell_1D_far lib R Rho k P Gamma E NN st hP hG hfar hs
      rw [h1]
      simp only [f1]
      obtain ⟨s2, h2, f2, t2⟩ := ih (NN + 1)
        (if underTolerance lib s1.Sum LastSum then c + 1 else 0) s1 s1.Sum f1
      refine ⟨s2, ?_, f2, ?_⟩
      · simpa using h2
      · intro x hx
        apply t2
        rw [t1]
        exact List.mem_append_left _ hx
    · exact ⟨st, rfl, hs, fun _ h => h⟩

theorem GetGBarDistant_1D_far (lib : Libm F) (R : Vec3 F) (Rho : F) (k : cdouble F)
    (P : Vec2 F) (Gamma : Mat2 F) (E : F) (hP : P.y = 0) (hG : Gamma.a01 = 0)
    (hfar : Rho * E > 4.5) (hE : E ≠ 0) :
    ∃ D, GetGBarDistant lib R Rho k P Gamma 1 E = .ok D ∧ D.Singular = false
      ∧ (0, 0) ∈ D.trace := by
  obtain ⟨s1, h1, f1, t1⟩ := distantFirstRound_1D_far lib R Rho k P Gamma E hP hG hfar
  obtain ⟨s2, h2, f2, t2⟩ := distantLoop_1D_far lib R Rho k P Gamma E hP hG hfar NMAX.toNat
    (NFIRSTROUND + 1) 0 s1 s1.Sum f1
  unfold GetGBarDistant
  rw [if_neg hE, h1]
  simp only [f1, h2, f2]
  refine ⟨_, rfl, rfl, ?_⟩
  apply t2
  rw [t1]
  simp

theorem erfc_s_mb2 (b : cdouble F) :
    (⟨(b.im - b.re) * (b.re + b.im), -2 * b.re * b.im⟩ : cdouble F) = -(b * b) := by
  ext <;> simp <;> ring

theorem toComplex_ofComplex (c : ℂ) : toComplex (ofComplex c) = c := rfl

theorem toComplex_add (a b : cdouble ℝ) : toComplex (a + b) = toComplex a + toComplex b := by
  apply Complex.ext <;> simp [toComplex]

theorem toComplex_sub (a b : cdouble ℝ) : toComplex (a - b) = toComplex a - toComplex b := by
  apply Complex.ext <;> simp [toComplex]

theorem toComplex_neg (a : cdouble ℝ) : toComplex (-a) = -toComplex a := by
  apply Complex.ext <;> simp [toComplex]

theorem toComplex_mul (a b : cdouble ℝ) : toComplex (a * b) = toComplex a * toComplex b := by
  apply Complex.ext <;> simp [toComplex]

theorem toComplex_ofReal (x : ℝ) : toComplex (ofReal x) = (x : ℂ) := by
  apply Complex.ext <;> simp [toComplex]

theorem toComplex_zero : toComplex 0 = 0 := by
  apply Complex.ext <;> simp [toComplex]

theorem toComplex_inv (a : cdouble ℝ) : toComplex a⁻¹ = (toComplex a)⁻¹ := by
  apply Complex.ext <;>
    simp [toComplex, cdouble.norm, Complex.inv_re, Complex.inv_im, Complex.normSq_apply]

theorem toComplex_div (a b : cdouble ℝ) : toComplex (a / b) = toComplex a / toComplex b := by
  rw [cdouble.div_def, toComplex_mul, toComplex_inv, div_eq_mul_inv]

theorem erfc_s_toComplex (lib : Libm ℝ) (erfc : ℂ → ℂ)
    (hexp : ∀ w, toComplex (lib.cexp w) = Complex.exp (toComplex w))
    (herfcx : ∀ w, toComplex (lib.erfcx w)
      = Complex.exp (toComplex w * toComplex w) * erfc (toComplex w))
    (hneg : ∀ w, erfc (-w) = 2 - erfc w) (a b : cdouble ℝ) :
    toComplex (erfc_s lib a b) = Complex.exp (toComplex a) * erfc (toComplex b) := by
  have hm : (⟨(b.im - b.re) * (b.re + b.im), -2 * b.re * b.im⟩ : cdouble ℝ) = -(b * b) := by
    ext <;> simp <;> ring
  unfold erfc_s
  simp only
  rw [hm]
  split_ifs with h
  · rw [toComplex_mul, hexp, herfcx, toComplex_add, toComplex_neg, toComplex_mul,
      ← mul_assoc, ← Complex.exp_add]
    congr 2
    ring
  · rw [toComplex_sub, toComplex_mul, toComplex_mul, hexp, hexp, herfcx, toComplex_add,
      toComplex_neg, toComplex_neg, toComplex_mul, toComplex_ofReal, hneg,
      ← mul_assoc, ← Complex.exp_add]
    have h1 : toComplex a + -(toComplex b * toComplex b) + -toComplex b * -toComplex b
        = toComplex a := by ring
    rw [h1]
    push_cast
    ring


theorem GetEEF_raw (lib : Libm ℝ) (hfin : ∀ w, lib.IsFinite w = true)
    (hnan : ∀ x, lib.ISNAN x = false) (z E : ℝ) (Q : cdouble ℝ) :
    GetEEF lib z E Q
      = (erfc_s lib (Q * ofReal z) (ofReal 0.5 * Q / ofReal E + ofReal (z * E))
          + erfc_s lib (-Q * ofReal z) (ofReal 0.5 * Q / ofReal E - ofReal (z * E)),
         Q * erfc_s lib (Q * ofReal z) (ofReal 0.5 * Q / ofReal E + ofReal (z * E))
            - ofReal (M_2_SQRTPI * E) * lib.cexp (Q * ofReal z
                - (ofReal 0.5 * Q / ofReal E + ofReal (z * E))
                  * (ofReal 0.5 * Q / ofReal E + ofReal (z * E)))
          + (-Q * erfc_s lib (-Q * ofReal z) (ofReal 0.5 * Q / ofReal E - ofReal (z * E))
            + ofReal (M_2_SQRTPI * E) * lib.cexp (-Q * ofReal z
                - (ofReal 0.5 * Q / ofReal E - ofReal (z * E))
                  * (ofReal 0.5 * Q / ofReal E - ofReal (z * E))))) := by
  unfold GetEEF
  simp [hfin, hnan, cisnan]

theorem ofComplex_toComplex (w : cdouble ℝ) : ofComplex (toComplex w) = w := rfl

theorem ofComplex_mul (a b : ℂ) : ofComplex (a * b) = ofComplex a * ofComplex b := by
  ext <;> simp [ofComplex]

/-! ### Lemmas for the per-cell routines, their derivatives, the shell loops
and the cell lists -/

theorem Sum8.sub_add_cancel (X Y : Sum8 F) : (X.sub Y).add Y = X := by
  apply Sum8.ext <;> simp [Sum8.add, Sum8.sub]

theorem ExpInt_PS_spec_succ (c0 z : cdouble F) (N : ℕ) :
    ExpInt_PS_spec c0 z (N + 1)
      = ExpInt_PS_spec c0 z N
        - (-z) ^ (N + 1) / ofReal ((((N + 1).factorial : ℕ) : F) * ((N + 1 : ℕ) : F)) := by
  unfold ExpInt_PS_spec
  rw [List.range_succ, List.map_append, List.sum_append]
  simp only [List.map_cons, List.map_nil, List.sum_cons, List.sum_nil, add_zero]
  ring

theorem ExpInt_PS_body_inv (c0 z : cdouble F) (m : ℕ) (s : PSState F)
    (h1 : s.nFact = ((m.factorial : ℕ) : F)) (h2 : s.zPower = (-z) ^ m)
    (h3 : s.Result = ExpInt_PS_spec c0 z m) :
    (ExpInt_PS_body z (m + 1) s).nFact = (((m + 1).factorial : ℕ) : F)
    ∧ (ExpInt_PS_body z (m + 1) s).zPower = (-z) ^ (m + 1)
    ∧ (ExpInt_PS_body z (m + 1) s).Result = ExpInt_PS_spec c0 z (m + 1) := by
  unfold ExpInt_PS_body
  simp only
  have hf : s.nFact * ((m + 1 : ℕ) : F) = (((m + 1).factorial : ℕ) : F) := by
    rw [h1, Nat.factorial_succ]
    push_cast
    ring
  refine ⟨hf, ?_, ?_⟩
  · rw [h2, pow_succ]
  · rw [ExpInt_PS_spec_succ, h3, h2, hf, pow_succ]

theorem ExpInt_PS_loop_inv (lib : Libm F) (c0 z : cdouble F) (RelTol : F) (fuel : ℕ) :
    ∀ (m : ℕ) (s : PSState F), m ≤ 100 → 101 ≤ fuel + m →
      s.nFact = ((m.factorial : ℕ) : F) → s.zPower = (-z) ^ m →
      s.Result = ExpInt_PS_spec c0 z m →
      ∃ N, m ≤ N ∧ N ≤ 100 ∧ (m < 100 → m < N)
        ∧ (ExpInt_PS_loop lib z RelTol fuel (m + 1) s).1.Result = ExpInt_PS_spec c0 z N
        ∧ ((ExpInt_PS_loop lib z RelTol fuel (m + 1) s).2 = N
          ∨ ((ExpInt_PS_loop lib z RelTol fuel (m + 1) s).2 = 101 ∧ N = 100)) := by
  induction fuel with
  | zero =>
    intro m s hm hf
    omega
  | succ fuel ih =>
    intro m s hm hf h1 h2 h3
    unfold ExpInt_PS_loop
    by_cases hc : m + 1 ≤ 100
    · rw [if_pos hc]
      obtain ⟨b1, b2, b3⟩ := ExpInt_PS_body_inv c0 z m s h1 h2 h3
      simp only
      split_ifs with ht
      · exact ⟨m + 1, by omega, hc, fun _ => by omega, b3, Or.inl rfl⟩
      · obtain ⟨N, n1, n2, _, n4, n5⟩ := ih (m + 1) _ hc (by omega) b1 b2 b3
        exact ⟨N, by omega, n2, fun _ => by omega, n4, n5⟩
    · rw [if_neg hc]
      have hm1 : m = 100 := by omega
      subst hm1
      exact ⟨100, le_refl _, le_refl _, fun h => absurd h (by omega), h3, Or.inr ⟨rfl, rfl⟩⟩

/-- Chain rule through the distance: if `f` has derivative `ρ * g ρ` at the
distance `ρ`, then `t ↦ f (sqrt ((t-a)^2 + c))` has derivative `(t-a) * g ρ`. -/
theorem hasDerivAt_comp_dist (f g : ℝ → ℂ) (a c t0 : ℝ)
    (hpos : 0 < (t0 - a) * (t0 - a) + c)
    (hf : HasDerivAt f (Real.sqrt ((t0 - a) * (t0 - a) + c)
        * g (Real.sqrt ((t0 - a) * (t0 - a) + c))) (Real.sqrt ((t0 - a) * (t0 - a) + c))) :
    HasDerivAt (fun t : ℝ => f (Real.sqrt ((t - a) * (t - a) + c)))
      ((t0 - a) * g (Real.sqrt ((t0 - a) * (t0 - a) + c))) t0 := by
  have hq : HasDerivAt (fun t : ℝ => (t - a) * (t - a) + c) (2 * (t0 - a)) t0 := by
    have h := (((hasDerivAt_id t0).sub_const a).mul ((hasDerivAt_id t0).sub_const a)).add_const c
    refine h.congr_deriv ?_
    simp only [id]
    ring
  have hs := hq.sqrt (ne_of_gt hpos)
  have hc := HasDerivAt.scomp t0 hf hs
  have hr : Real.sqrt ((t0 - a) * (t0 - a) + c) ≠ 0 := ne_of_gt (Real.sqrt_pos.mpr hpos)
  have hrc : ((Real.sqrt ((t0 - a) * (t0 - a) + c) : ℝ) : ℂ) ≠ 0 := by exact_mod_cast hr
  refine hc.congr_deriv ?_
  rw [Complex.real_smul]
  push_cast
  field_simp
  ring

theorem eventually_pos_of_pos (q : ℝ → ℝ) (hq : Continuous q) (t0 : ℝ) (h : 0 < q t0) :
    ∀ᶠ t in nhds t0, 0 < q t :=
  (isOpen_lt continuous_const hq).eventually_mem h

/-- The partial derivatives, up to the mixed third one, of a function
`T = p * f0(r)` of the point `(x, y, z)` that depends on it through the distance
`r = sqrt((x-a)^2 + (y-b)^2 + z^2)` only, when `f1, f2, f3` are
`(1/ρ) d/dρ` applied once, twice and three times to `f0`. -/
theorem radial_partials (a b : ℝ) (p : ℂ) (f0 f1 f2 f3 : ℝ → ℂ)
    (h0 : ∀ ρ : ℝ, 0 < ρ → HasDerivAt f0 (ρ * f1 ρ) ρ)
    (h1 : ∀ ρ : ℝ, 0 < ρ → HasDerivAt f1 (ρ * f2 ρ) ρ)
    (h2 : ∀ ρ : ℝ, 0 < ρ → HasDerivAt f2 (ρ * f3 ρ) ρ)
    (T : ℝ → ℝ → ℝ → ℂ)
    (hT : ∀ x y z, T x y z
      = p * f0 (Real.sqrt ((x - a) * (x - a) + (y - b) * (y - b) + z * z)))
    (x y z : ℝ) (hr : 0 < (x - a) * (x - a) + (y - b) * (y - b) + z * z) :
    HasDerivAt (fun t => T t y z)
        (p * (x - a) * f1 (Real.sqrt ((x - a) * (x - a) + (y - b) * (y - b) + z * z))) x
    ∧ HasDerivAt (fun t => T x t z)
        (p * (y - b) * f1 (Real.sqrt ((x - a) * (x - a) + (y - b) * (y - b) + z * z))) y
    ∧ HasDerivAt (fun t => T x y t)
        (p * z * f1 (Real.sqrt ((x - a) * (x - a) + (y - b) * (y - b) + z * z))) z
    ∧ HasDerivAt (fun t => deriv (fun u => T u t z) x)
        (p * (x - a) * (y - b)
          * f2 (Real.sqrt ((x - a) * (x - a) + (y - b) * (y - b) + z * z))) y
    ∧ HasDerivAt (fun t => deriv (fun u => T u y t) x)
        (p * (x - a) * z
          * f2 (Real.sqrt ((x - a) * (x - a) + (y - b) * (y - b) + z * z))) z
    ∧ HasDerivAt (fun t => deriv (fun u => T x u t) y)
        (p * (y - b) * z
          * f2 (Real.sqrt ((x - a) * (x - a) + (y - b) * (y - b) + z * z))) z
    ∧ HasDerivAt (fun t => deriv (fun v => deriv (fun u => T u v t) x) y)
        (p * (x - a) * (y - b) * z
          * f3 (Real.sqrt ((x - a) * (x - a) + (y - b) * (y - b) + z * z))) z := by
  -- the three ways of singling out one coordinate of the squared distance
  have ex : ∀ x y z : ℝ, (x - a) * (x - a) + (y - b) * (y - b) + z * z
      = (x - a) * (x - a) + ((y - b) * (y - b) + z * z) := fun x y z => by ring
  have ey : ∀ x y z : ℝ, (x - a) * (x - a) + (y - b) * (y - b) + z * z
      = (y - b) * (y - b) + ((x - a) * (x - a) + z * z) := fun x y z => by ring
  have ez : ∀ x y z : ℝ, (x - a) * (x - a) + (y - b) * (y - b) + z * z
      = (z - 0) * (z - 0) + ((x - a) * (x - a) + (y - b) * (y - b)) := fun x y z => by ring
  -- derivative of `c * g(r)` in each coordinate, for `g` with `g' = ρ * g1`
  have dx : ∀ (g g1 : ℝ → ℂ) (c : ℂ), (∀ ρ : ℝ, 0 < ρ → HasDerivAt g (ρ * g1 ρ) ρ) →
      ∀ x y z : ℝ, 0 < (x - a) * (x - a) + (y - b) * (y - b) + z * z →
      HasDerivAt (fun t => c * g (Real.sqrt ((t - a) * (t - a) + (y - b) * (y - b) + z * z)))
        (c * (x - a) * g1 (Real.sqrt ((x - a) * (x - a) + (y - b) * (y - b) + z * z))) x := by
    intro g g1 c hg x y z hpos
    have hpos1 := hpos
    rw [ex] at hpos1
    have h := (hasDerivAt_comp_dist g g1 a ((y - b) * (y - b) + z * z) x hpos1
      (hg _ (Real.sqrt_pos.mpr hpos1))).const_mul c
    simp only [ex]
    refine h.congr_deriv ?_
    ring
  have dy : ∀ (g g1 : ℝ → ℂ) (c : ℂ), (∀ ρ : ℝ, 0 < ρ → HasDerivAt g (ρ * g1 ρ) ρ) →
      ∀ x y z : ℝ, 0 < (x - a) * (x - a) + (y - b) * (y - b) + z * z →
      HasDerivAt (fun t => c * g (Real.sqrt ((x - a) * (x - a) + (t - b) * (t - b) + z * z)))
        (c * (y - b) * g1 (Real.sqrt ((x - a) * (x - a) + (y - b) * (y - b) + z * z))) y := by
    intro g g1 c hg x y z hpos
    have hpos1 := hpos
    rw [ey] at hpos1
    have h := (hasDerivAt_comp_dist g g1 b ((x - a) * (x - a) + z * z) y hpos1
      (hg _ (Real.sqrt_pos.mpr hpos1))).const_mul c
    simp only [ey]
    refine h.congr_deriv ?_
    ring
  have dz : ∀ (g g1 : ℝ → ℂ) (c : ℂ), (∀ ρ : ℝ, 0 < ρ → HasDerivAt g (ρ * g1 ρ) ρ) →
      ∀ x y z : ℝ, 0 < (x - a) * (x - a) + (y - b) * (y - b) + z * z →
      HasDerivAt (fun t => c * g (Real.sqrt ((x - a) * (x - a) + (y - b) * (y - b) + t * t)))
        (c * z * g1 (Real.sqrt ((x - a) * (x - a) + (y - b) * (y - b) + z * z))) z := by
    intro g g1 c hg x y z hpos
    have hpos1 := hpos
    rw [ez] at hpos1
    have h := (hasDerivAt_comp_dist g g1 0 ((x - a) * (x - a) + (y - b) * (y - b)) z hpos1
      (hg _ (Real.sqrt_pos.mpr hpos1))).const_mul c
    simp only [ez]
    refine h.congr_deriv ?_
    push_cast
    ring
  have hTf : T = fun x y z =>
      p * f0 (Real.sqrt ((x - a) * (x - a) + (y - b) * (y - b) + z * z)) := by
    funext x y z
    exact hT x y z
  subst hTf
  -- first partials, at every point off the centre
  have Tx : ∀ x y z : ℝ, 0 < (x - a) * (x - a) + (y - b) * (y - b) + z * z →
      deriv (fun u => p * f0 (Real.sqrt ((u - a) * (u - a) + (y - b) * (y - b) + z * z))) x
        = p * (x - a) * f1 (Real.sqrt ((x - a) * (x - a) + (y - b) * (y - b) + z * z)) :=
    fun x y z h => (dx f0 f1 p h0 x y z h).deriv
  have Ty : ∀ x y z : ℝ, 0 < (x - a) * (x - a) + (y - b) * (y - b) + z * z →
      deriv (fun u => p * f0 (Real.sqrt ((x - a) * (x - a) + (u - b) * (u - b) + z * z))) y
        = p * (y - b) * f1 (Real.sqrt ((x - a) * (x - a) + (y - b) * (y - b) + z * z)) :=
    fun x y z h => (dy f0 f1 p h0 x y z h).deriv
  -- continuity of the squared distance in one coordinate
  have cy : ∀ x z : ℝ, Continuous (fun t : ℝ => (x - a) * (x - a) + (t - b) * (t - b) + z * z) :=
    fun x z => by fun_prop
  have cz : ∀ x y : ℝ, Continuous (fun t : ℝ => (x - a) * (x - a) + (y - b) * (y - b) + t * t) :=
    fun x y => by fun_prop
  -- second partials
  have Txy : ∀ x y z : ℝ, 0 < (x - a) * (x - a) + (y - b) * (y - b) + z * z →
      HasDerivAt (fun t => deriv (fun u =>
          p * f0 (Real.sqrt ((u - a) * (u - a) + (t - b) * (t - b) + z * z))) x)
        (p * (x - a) * (y - b)
          * f2 (Real.sqrt ((x - a) * (x - a) + (y - b) * (y - b) + z * z))) y := by
    intro x y z h
    have hev := eventually_pos_of_pos _ (cy x z) y h
    refine HasDerivAt.congr_of_eventuallyEq (dy f1 f2 (p * (x - a)) h1 x y z h) ?_
    exact hev.mono (fun t ht => Tx x t z ht)
  have Txz : ∀ x y z : ℝ, 0 < (x - a) * (x - a) + (y - b) * (y - b) + z * z →
      HasDerivAt (fun t => deriv (fun u =>
          p * f0 (Real.sqrt ((u - a) * (u - a) + (y - b) * (y - b) + t * t))) x)
        (p * (x - a) * z
          * f2 (Real.sqrt ((x - a) * (x - a) + (y - b) * (y - b) + z * z))) z := by
    intro x y z h
    have hev := eventually_pos_of_pos _ (cz x y) z h
    refine HasDerivAt.congr_of_eventuallyEq (dz f1 f2 (p * (x - a)) h1 x y z h) ?_
    exact hev.mono (fun t ht => Tx x y t ht)
  have Tyz : ∀ x y z : ℝ, 0 < (x - a) * (x - a) + (y - b) * (y - b) + z * z →
      HasDerivAt (fun t => deriv (fun u =>
          p * f0 (Real.sqrt ((x - a) * (x - a) + (u - b) * (u - b) + t * t))) y)
        (p * (y - b) * z
          * f2 (Real.sqrt ((x - a) * (x - a) + (y - b) * (y - b) + z * z))) z := by
    intro x y z h
    have hev := eventually_pos_of_pos _ (cz x y) z h
    refine HasDerivAt.congr_of_eventuallyEq (dz f1 f2 (p * (y - b)) h1 x y z h) ?_
    exact hev.mono (fun t ht => Ty x y t ht)
  refine ⟨dx f0 f1 p h0 x y z hr, dy f0 f1 p h0 x y z hr, dz f0 f1 p h0 x y z hr,
    Txy x y z hr, Txz x y z hr, Tyz x y z hr, ?_⟩
  have hev := eventually_pos_of_pos _ (cz x y) z hr
  refine HasDerivAt.congr_of_eventuallyEq (dz f2 f3 (p * (x - a) * (y - b)) h2 x y z hr) ?_
  exact hev.mono (fun t ht => (Txy x y t ht).deriv)

theorem toComplex_II : toComplex II = Complex.I := by
  apply Complex.ext <;> simp [toComplex]

theorem M_PI_ne_zero_complex : (((M_PI : ℝ)) : ℂ) ≠ 0 := by
  have h : (M_PI : ℝ) ≠ 0 := ne_of_gt M_PI_pos
  exact_mod_cast h

/-- Radial derivative of `Phi(ρ) = exp(i k ρ) / (4 π ρ)`: it is `ρ * Psi(ρ)`. -/
theorem hasDerivAt_Phi (κ : ℂ) (ρ : ℝ) (hρ : 0 < ρ) :
    HasDerivAt
      (fun ρ : ℝ => Complex.exp (Complex.I * κ * (ρ : ℂ)) / ((4 * M_PI * ρ : ℝ) : ℂ))
      ((ρ : ℂ) * ((Complex.I * κ * (ρ : ℂ) - 1)
        * (Complex.exp (Complex.I * κ * (ρ : ℂ)) / ((4 * M_PI * ρ : ℝ) : ℂ))
        / ((ρ * ρ : ℝ) : ℂ))) ρ := by
  have hρc : (ρ : ℂ) ≠ 0 := by exact_mod_cast (ne_of_gt hρ)
  have hπ := M_PI_ne_zero_complex
  have he : HasDerivAt (fun ρ : ℝ => Complex.exp (Complex.I * κ * (ρ : ℂ)))
      (Complex.exp (Complex.I * κ * (ρ : ℂ)) * (Complex.I * κ)) ρ := by
    have h := (((hasDerivAt_id ρ).ofReal_comp).const_mul (Complex.I * κ)).cexp
    simpa using h
  have hd : HasDerivAt (fun ρ : ℝ => ((4 * M_PI * ρ : ℝ) : ℂ)) ((4 * M_PI : ℝ) : ℂ) ρ := by
    have h := (((hasDerivAt_id ρ).const_mul (4 * M_PI : ℝ))).ofReal_comp
    simpa using h
  have hden : ((4 * M_PI * ρ : ℝ) : ℂ) ≠ 0 := by
    push_cast
    exact mul_ne_zero (mul_ne_zero (by norm_num) hπ) hρc
  refine (he.div hd hden).congr_deriv ?_
  push_cast
  field_simp
  ring

/-- Radial derivative of `Psi(ρ) = (i k ρ - 1) Phi(ρ) / ρ^2`: it is
`ρ * Zeta(ρ)`. -/
theorem hasDerivAt_Psi (κ : ℂ) (ρ : ℝ) (hρ : 0 < ρ) :
    HasDerivAt
      (fun ρ : ℝ => (Complex.I * κ * (ρ : ℂ) - 1)
        * (Complex.exp (Complex.I * κ * (ρ : ℂ)) / ((4 * M_PI * ρ : ℝ) : ℂ))
        / ((ρ * ρ : ℝ) : ℂ))
      ((ρ : ℂ) * ((3 + Complex.I * κ * (ρ : ℂ) * (-3 + Complex.I * κ * (ρ : ℂ)))
        * (Complex.exp (Complex.I * κ * (ρ : ℂ)) / ((4 * M_PI * ρ : ℝ) : ℂ))
        / ((ρ * ρ * (ρ * ρ) : ℝ) : ℂ))) ρ := by
  have hρc : (ρ : ℂ) ≠ 0 := by exact_mod_cast (ne_of_gt hρ)
  have hπ := M_PI_ne_zero_complex
  have hΦ := hasDerivAt_Phi κ ρ hρ
  have hw : HasDerivAt (fun ρ : ℝ => Complex.I * κ * (ρ : ℂ) - 1) (Complex.I * κ) ρ := by
    have h := (((hasDerivAt_id ρ).ofReal_comp).const_mul (Complex.I * κ)).sub_const 1
    simpa using h
  have hd : HasDerivAt (fun ρ : ℝ => ((ρ * ρ : ℝ) : ℂ)) ((2 * ρ : ℝ) : ℂ) ρ := by
    have h := ((hasDerivAt_id ρ).mul (hasDerivAt_id ρ)).ofReal_comp
    refine h.congr_deriv ?_
    simp only [id]
    push_cast
    ring
  have hden : ((ρ * ρ : ℝ) : ℂ) ≠ 0 := by
    push_cast
    exact mul_ne_zero hρc hρc
  refine ((hw.mul hΦ).div hd hden).congr_deriv ?_
  push_cast
  generalize Complex.exp (Complex.I * κ * (ρ : ℂ)) / (4 * ((M_PI : ℝ) : ℂ) * (ρ : ℂ)) = q
  field_simp
  ring

/-- Radial derivative of `Zeta(ρ) = (3 + i k ρ (-3 + i k ρ)) Phi(ρ) / ρ^4`: it
is `ρ * Upsilon(ρ)`. -/
theorem hasDerivAt_Zeta (κ : ℂ) (ρ : ℝ) (hρ : 0 < ρ) :
    HasDerivAt
      (fun ρ : ℝ => (3 + Complex.I * κ * (ρ : ℂ) * (-3 + Complex.I * κ * (ρ : ℂ)))
        * (Complex.exp (Complex.I * κ * (ρ : ℂ)) / ((4 * M_PI * ρ : ℝ) : ℂ))
        / ((ρ * ρ * (ρ * ρ) : ℝ) : ℂ))
      ((ρ : ℂ) * ((-15 + Complex.I * κ * (ρ : ℂ)
            * (15 + Complex.I * κ * (ρ : ℂ) * (-6 + Complex.I * κ * (ρ : ℂ))))
        * (Complex.exp (Complex.I * κ * (ρ : ℂ)) / ((4 * M_PI * ρ : ℝ) : ℂ))
        / ((ρ * ρ * (ρ * ρ) * (ρ * ρ) : ℝ) : ℂ))) ρ := by
  have hρc : (ρ : ℂ) ≠ 0 := by exact_mod_cast (ne_of_gt hρ)
  have hπ := M_PI_ne_zero_complex
  have hΦ := hasDerivAt_Phi κ ρ hρ
  have hw : HasDerivAt (fun ρ : ℝ => Complex.I * κ * (ρ : ℂ)) (Complex.I * κ) ρ := by
    have h := ((hasDerivAt_id ρ).ofReal_comp).const_mul (Complex.I * κ)
    simpa using h
  have hn : HasDerivAt
      (fun ρ : ℝ => 3 + Complex.I * κ * (ρ : ℂ) * (-3 + Complex.I * κ * (ρ : ℂ)))
      (Complex.I * κ * (-3 + Complex.I * κ * (ρ : ℂ))
        + Complex.I * κ * (ρ : ℂ) * (Complex.I * κ)) ρ :=
    (hw.mul (hw.const_add (-3))).const_add 3
  have hd : HasDerivAt (fun ρ : ℝ => ((ρ * ρ * (ρ * ρ) : ℝ) : ℂ))
      ((4 * (ρ * ρ * ρ) : ℝ) : ℂ) ρ := by
    have h2 := (hasDerivAt_id ρ).mul (hasDerivAt_id ρ)
    have h := (h2.mul h2).ofReal_comp
    refine h.congr_deriv ?_
    simp only [id]
    push_cast
    ring
  have hden : ((ρ * ρ * (ρ * ρ) : ℝ) : ℂ) ≠ 0 := by
    push_cast
    exact mul_ne_zero (mul_ne_zero hρc hρc) (mul_ne_zero hρc hρc)
  refine ((hn.mul hΦ).div hd hden).congr_deriv ?_
  push_cast
  generalize Complex.exp (Complex.I * κ * (ρ : ℂ)) / (4 * ((M_PI : ℝ) : ℂ) * (ρ : ℂ)) = q
  field_simp
  ring

theorem AddGFull_of_lt (lib : Libm ℝ) (R : Vec3 ℝ) (k : cdouble ℝ) (kBloch : Vec2 ℝ)
    (Lx Ly : ℝ) (S : Sum8 ℝ) (v : Bool)
    (h : lib.sqrt ((R.x - Lx) * (R.x - Lx) + (R.y - Ly) * (R.y - Ly) + R.z * R.z) < 1.0e-8) :
    AddGFull lib R k kBloch Lx Ly S v = S := by
  unfold AddGFull
  simp only
  rw [if_pos h]

/-- The amounts `AddGFull` adds, as complex numbers, when `sqrt` and `exp` of
the library are the real square root and the complex exponential. -/
theorem AddGFull_toComplex (lib : Libm ℝ) (hsqrt : ∀ x, lib.sqrt x = Real.sqrt x)
    (hexp : ∀ w, toComplex (lib.cexp w) = Complex.exp (toComplex w))
    (k : cdouble ℝ) (kBloch : Vec2 ℝ) (Lx Ly x y z : ℝ)
    (h : ¬ Real.sqrt ((x - Lx) * (x - Lx) + (y - Ly) * (y - Ly) + z * z) < 1.0e-8)
    (p : ℂ) (hp : p = Complex.exp (Complex.I * ((Lx * kBloch.x + Ly * kBloch.y : ℝ) : ℂ)))
    (r : ℝ) (hr : r = Real.sqrt ((x - Lx) * (x - Lx) + (y - Ly) * (y - Ly) + z * z))
    (φ : ℂ) (hφ : φ = Complex.exp (Complex.I * toComplex k * (r : ℂ)) / ((4 * M_PI * r : ℝ) : ℂ)) :
    toComplex (AddGFull lib ⟨x, y, z⟩ k kBloch Lx Ly Sum8.zero false).s0 = p * φ
    ∧ toComplex (AddGFull lib ⟨x, y, z⟩ k kBloch Lx Ly Sum8.zero false).s1
      = p * (x - Lx) * ((Complex.I * toComplex k * (r : ℂ) - 1) * φ / ((r * r : ℝ) : ℂ))
    ∧ toComplex (AddGFull lib ⟨x, y, z⟩ k kBloch Lx Ly Sum8.zero false).s2
      = p * (y - Ly) * ((Complex.I * toComplex k * (r : ℂ) - 1) * φ / ((r * r : ℝ) : ℂ))
    ∧ toComplex (AddGFull lib ⟨x, y, z⟩ k kBloch Lx Ly Sum8.zero false).s3
      = p * z * ((Complex.I * toComplex k * (r : ℂ) - 1) * φ / ((r * r : ℝ) : ℂ))
    ∧ toComplex (AddGFull lib ⟨x, y, z⟩ k kBloch Lx Ly Sum8.zero false).s4
      = p * (x - Lx) * (y - Ly)
        * ((3 + Complex.I * toComplex k * (r : ℂ) * (-3 + Complex.I * toComplex k * (r : ℂ)))
          * φ / ((r * r * (r * r) : ℝ) : ℂ))
    ∧ toComplex (AddGFull lib ⟨x, y, z⟩ k kBloch Lx Ly Sum8.zero false).s5
      = p * (x - Lx) * z
        * ((3 + Complex.I * toComplex k * (r : ℂ) * (-3 + Complex.I * toComplex k * (r : ℂ)))
          * φ / ((r * r * (r * r) : ℝ) : ℂ))
    ∧ toComplex (AddGFull lib ⟨x, y, z⟩ k kBloch Lx Ly Sum8.zero false).s6
      = p * (y - Ly) * z
        * ((3 + Complex.I * toComplex k * (r : ℂ) * (-3 + Complex.I * toComplex k * (r : ℂ)))
          * φ / ((r * r * (r * r) : ℝ) : ℂ))
    ∧ toComplex (AddGFull lib ⟨x, y, z⟩ k kBloch Lx Ly Sum8.zero false).s7
      = p * (x - Lx) * (y - Ly) * z
        * ((-15 + Complex.I * toComplex k * (r : ℂ)
            * (15 + Complex.I * toComplex k * (r : ℂ)
              * (-6 + Complex.I * toComplex k * (r : ℂ))))
          * φ / ((r * r * (r * r) * (r * r) : ℝ) : ℂ)) := by
  have hrr : r * r = (x - Lx) * (x - Lx) + (y - Ly) * (y - Ly) + z * z := by
    rw [hr]
    apply Real.mul_self_sqrt
    nlinarith [mul_self_nonneg (x - Lx), mul_self_nonneg (y - Ly), mul_self_nonneg z]
  have h2 : ¬ r < 1.0e-8 := by
    rw [hr]
    exact h
  unfold AddGFull
  simp only [hsqrt]
  simp only [← hr]
  simp only [if_neg h2, Bool.false_eq_true, if_false]
  simp only [← hrr]
  simp only [Sum8.zero, cdouble.zero_re, toComplex_add, toComplex_mul, toComplex_div,
    toComplex_sub, toComplex_ofReal, toComplex_II, toComplex_zero, hexp, ← hp, zero_add]
  rw [← hφ]
  push_cast
  refine ⟨rfl, rfl, rfl, rfl, rfl, rfl, rfl, rfl⟩

/-- Derivative of `erfc` along a horizontal line `ρ ↦ erfc(E ρ + c)`, from its
derivative in the real direction. -/
theorem hasDerivAt_erfc_line (erfc : ℂ → ℂ)
    (hderiv : ∀ w : ℂ, HasDerivAt (fun t : ℝ => erfc (w + (t : ℂ)))
      (-((M_2_SQRTPI : ℝ) : ℂ) * Complex.exp (-(w * w))) 0)
    (E : ℝ) (c : ℂ) (ρ : ℝ) :
    HasDerivAt (fun ρ : ℝ => erfc (((E * ρ : ℝ) : ℂ) + c))
      ((E : ℂ) * (-((M_2_SQRTPI : ℝ) : ℂ)
        * Complex.exp (-((((E * ρ : ℝ) : ℂ) + c) * (((E * ρ : ℝ) : ℂ) + c))))) ρ := by
  have hh : HasDerivAt (fun t : ℝ => E * (t - ρ)) E ρ := by
    have h := ((hasDerivAt_id ρ).sub_const ρ).const_mul E
    simpa using h
  have hc := HasDerivAt.scomp_of_eq ρ (hderiv (((E * ρ : ℝ) : ℂ) + c)) hh (by simp)
  have hf : (fun ρ' : ℝ => erfc (((E * ρ' : ℝ) : ℂ) + c))
      = (fun t : ℝ => erfc (((E * ρ : ℝ) : ℂ) + c + (t : ℂ))) ∘ (fun t : ℝ => E * (t - ρ)) := by
    funext t
    simp only [Function.comp]
    congr 1
    push_cast
    ring
  rw [hf]
  refine hc.congr_deriv ?_
  rw [Complex.real_smul]

/-- The derivative relations of the header comment of `AddGShort`:
`d/dR ggPgg = i k ggMgg + g4`, `d/dR ggMgg = i k ggPgg`, and
`d/dR g4 = -2 E^2 R g4`. -/
theorem short_relations (erfc : ℂ → ℂ)
    (hderiv : ∀ w : ℂ, HasDerivAt (fun t : ℝ => erfc (w + (t : ℂ)))
      (-((M_2_SQRTPI : ℝ) : ℂ) * Complex.exp (-(w * w))) 0)
    (κ : ℂ) (E : ℝ) (hE : E ≠ 0) (P M G : ℝ → ℂ)
    (hP : P = fun ρ : ℝ =>
      Complex.exp (Complex.I * κ * (ρ : ℂ))
          * erfc (((E * ρ : ℝ) : ℂ) + Complex.I * κ / ((2 * E : ℝ) : ℂ))
        + Complex.exp (-Complex.I * κ * (ρ : ℂ))
          * erfc (((E * ρ : ℝ) : ℂ) - Complex.I * κ / ((2 * E : ℝ) : ℂ)))
    (hM : M = fun ρ : ℝ =>
      Complex.exp (Complex.I * κ * (ρ : ℂ))
          * erfc (((E * ρ : ℝ) : ℂ) + Complex.I * κ / ((2 * E : ℝ) : ℂ))
        - Complex.exp (-Complex.I * κ * (ρ : ℂ))
          * erfc (((E * ρ : ℝ) : ℂ) - Complex.I * κ / ((2 * E : ℝ) : ℂ)))
    (hG : G = fun ρ : ℝ =>
      ((-2 * M_2_SQRTPI * E : ℝ) : ℂ)
        * Complex.exp (((-(E * E) * (ρ * ρ) : ℝ) : ℂ) + κ * κ / ((4 * (E * E) : ℝ) : ℂ)))
    (ρ : ℝ) :
    HasDerivAt P (Complex.I * κ * M ρ + G ρ) ρ
    ∧ HasDerivAt M (Complex.I * κ * P ρ) ρ
    ∧ HasDerivAt G (((-2 * (E * E) * ρ : ℝ) : ℂ) * G ρ) ρ := by
  have hEc : (E : ℂ) ≠ 0 := by exact_mod_cast hE
  have hep : HasDerivAt (fun ρ : ℝ => Complex.exp (Complex.I * κ * (ρ : ℂ)))
      (Complex.exp (Complex.I * κ * (ρ : ℂ)) * (Complex.I * κ)) ρ := by
    have h := (((hasDerivAt_id ρ).ofReal_comp).const_mul (Complex.I * κ)).cexp
    simpa using h
  have hem : HasDerivAt (fun ρ : ℝ => Complex.exp (-Complex.I * κ * (ρ : ℂ)))
      (Complex.exp (-Complex.I * κ * (ρ : ℂ)) * (-Complex.I * κ)) ρ := by
    have h := (((hasDerivAt_id ρ).ofReal_comp).const_mul (-Complex.I * κ)).cexp
    simpa using h
  have hgp := hasDerivAt_erfc_line erfc hderiv E (Complex.I * κ / ((2 * E : ℝ) : ℂ)) ρ
  have hgm := hasDerivAt_erfc_line erfc hderiv E (-(Complex.I * κ / ((2 * E : ℝ) : ℂ))) ρ
  simp only [← sub_eq_add_neg] at hgm
  -- the two products of the exponential and the Gaussian are the same number
  have key1 : Complex.exp (Complex.I * κ * (ρ : ℂ))
      * Complex.exp (-((((E * ρ : ℝ) : ℂ) + Complex.I * κ / ((2 * E : ℝ) : ℂ))
          * (((E * ρ : ℝ) : ℂ) + Complex.I * κ / ((2 * E : ℝ) : ℂ))))
      = Complex.exp (((-(E * E) * (ρ * ρ) : ℝ) : ℂ) + κ * κ / ((4 * (E * E) : ℝ) : ℂ)) := by
    rw [← Complex.exp_add]
    congr 1
    push_cast
    field_simp
    ring_nf
    rw [Complex.I_sq]
    ring
  have key2 : Complex.exp (-Complex.I * κ * (ρ : ℂ))
      * Complex.exp (-((((E * ρ : ℝ) : ℂ) - Complex.I * κ / ((2 * E : ℝ) : ℂ))
          * (((E * ρ : ℝ) : ℂ) - Complex.I * κ / ((2 * E : ℝ) : ℂ))))
      = Complex.exp (((-(E * E) * (ρ * ρ) : ℝ) : ℂ) + κ * κ / ((4 * (E * E) : ℝ) : ℂ)) := by
    rw [← Complex.exp_add]
    congr 1
    push_cast
    field_simp
    ring_nf
    rw [Complex.I_sq]
    ring
  have hG1 : HasDerivAt (fun ρ : ℝ =>
      ((-2 * M_2_SQRTPI * E : ℝ) : ℂ)
        * Complex.exp (((-(E * E) * (ρ * ρ) : ℝ) : ℂ) + κ * κ / ((4 * (E * E) : ℝ) : ℂ)))
      (((-2 * (E * E) * ρ : ℝ) : ℂ) * (((-2 * M_2_SQRTPI * E : ℝ) : ℂ)
        * Complex.exp (((-(E * E) * (ρ * ρ) : ℝ) : ℂ) + κ * κ / ((4 * (E * E) : ℝ) : ℂ)))) ρ := by
    have hq : HasDerivAt (fun ρ : ℝ => -(E * E) * (ρ * ρ)) (-2 * (E * E) * ρ) ρ := by
      have h := ((hasDerivAt_id ρ).mul (hasDerivAt_id ρ)).const_mul (-(E * E))
      refine h.congr_deriv ?_
      simp only [id]
      ring
    have h := (((hq.ofReal_comp).add_const (κ * κ / ((4 * (E * E) : ℝ) : ℂ))).cexp).const_mul
      (((-2 * M_2_SQRTPI * E : ℝ) : ℂ))
    refine h.congr_deriv ?_
    ring
  subst hP hM hG
  refine ⟨?_, ?_, hG1⟩
  · refine ((hep.mul hgp).add (hem.mul hgm)).congr_deriv ?_
    have e1 : ∀ a b c d : ℂ, a * (b * (c * d)) = b * c * (a * d) := fun a b c d => by ring
    rw [e1, e1, key1, key2]
    push_cast
    ring
  · refine ((hep.mul hgp).sub (hem.mul hgm)).congr_deriv ?_
    have e1 : ∀ a b c d : ℂ, a * (b * (c * d)) = b * c * (a * d) := fun a b c d => by ring
    rw [e1, e1, key1, key2]
    push_cast
    ring

/-- Derivative of a power of the distance, cast to the complex numbers. -/
theorem hasDerivAt_cast_pow (n : ℕ) (q : ℝ → ℝ) (hq : ∀ t, q t = t ^ (n + 1)) (ρ : ℝ) :
    HasDerivAt (fun ρ : ℝ => ((q ρ : ℝ) : ℂ)) (((n + 1 : ℕ) : ℂ) * (ρ : ℂ) ^ n) ρ := by
  have e : q = fun t => t ^ (n + 1) := funext hq
  rw [e]
  have h := (hasDerivAt_pow (n + 1) ρ).ofReal_comp
  refine h.congr_deriv ?_
  push_cast
  simp

/-- The first radial factor of `AddGShort`: `(1/ρ) d/dρ (ggPgg/ρ)
= -ggPgg/ρ^3 + (g4 + i k ggMgg)/ρ^2`, under the derivative relations. -/
theorem short_radial_one (κ : ℂ) (P M G : ℝ → ℂ) (ρ : ℝ) (hρ : 0 < ρ)
    (hP : HasDerivAt P (Complex.I * κ * M ρ + G ρ) ρ) :
    HasDerivAt (fun ρ : ℝ => P ρ / (ρ : ℂ))
      ((ρ : ℂ) * (-P ρ / ((ρ * ρ * ρ : ℝ) : ℂ)
        + (G ρ + Complex.I * κ * M ρ) / ((ρ * ρ : ℝ) : ℂ))) ρ := by
  have hρc : (ρ : ℂ) ≠ 0 := by exact_mod_cast (ne_of_gt hρ)
  have hid : HasDerivAt (fun ρ : ℝ => (ρ : ℂ)) 1 ρ := by
    simpa using (hasDerivAt_id ρ).ofReal_comp
  refine (hP.div hid hρc).congr_deriv ?_
  push_cast
  field_simp
  ring

/-- The second radial factor of `AddGShort`, under the derivative
relations: `(1/ρ) d/dρ` of the first one. -/
theorem short_radial_two (κ : ℂ) (E : ℝ) (P M G : ℝ → ℂ) (ρ : ℝ) (hρ : 0 < ρ)
    (hP : HasDerivAt P (Complex.I * κ * M ρ + G ρ) ρ)
    (hM : HasDerivAt M (Complex.I * κ * P ρ) ρ)
    (hG : HasDerivAt G (((-2 * (E * E) * ρ : ℝ) : ℂ) * G ρ) ρ) :
    HasDerivAt
      (fun ρ : ℝ => -P ρ / ((ρ * ρ * ρ : ℝ) : ℂ)
        + (G ρ + Complex.I * κ * M ρ) / ((ρ * ρ : ℝ) : ℂ))
      ((ρ : ℂ) * (3 * P ρ / ((ρ * ρ * ρ * ρ * ρ : ℝ) : ℂ)
        - 3 * (G ρ + Complex.I * κ * M ρ) / ((ρ * ρ * ρ * ρ : ℝ) : ℂ)
        - κ * κ * P ρ / ((ρ * ρ * ρ : ℝ) : ℂ)
        - ((2 * (E * E) : ℝ) : ℂ) * G ρ / ((ρ * ρ : ℝ) : ℂ))) ρ := by
  have hρc : (ρ : ℂ) ≠ 0 := by exact_mod_cast (ne_of_gt hρ)
  have hI : Complex.I * Complex.I = -1 := Complex.I_mul_I
  have hM2 : HasDerivAt (fun ρ : ℝ => Complex.I * κ * M ρ) (-(κ * κ) * P ρ) ρ :=
    (hM.const_mul (Complex.I * κ)).congr_deriv (by linear_combination (κ * κ * P ρ) * hI)
  have hp2 := hasDerivAt_cast_pow 1 (fun ρ => ρ * ρ) (fun t => by ring) ρ
  have hp3 := hasDerivAt_cast_pow 2 (fun ρ => ρ * ρ * ρ) (fun t => by ring) ρ
  have n2 : (ρ : ℂ) * ρ ≠ 0 := mul_ne_zero hρc hρc
  have n3 : (ρ : ℂ) * ρ * ρ ≠ 0 := mul_ne_zero n2 hρc
  have n4 : (ρ : ℂ) * ρ * ρ * ρ ≠ 0 := mul_ne_zero n3 hρc
  have n5 : (ρ : ℂ) * ρ * ρ * ρ * ρ ≠ 0 := mul_ne_zero n4 hρc
  have m2 : ((ρ * ρ : ℝ) : ℂ) ≠ 0 := by
    push_cast
    exact n2
  have m3 : ((ρ * ρ * ρ : ℝ) : ℂ) ≠ 0 := by
    push_cast
    exact n3
  have h := ((hP.neg).div hp3 m3).add ((hG.add hM2).div hp2 m2)
  refine h.congr_deriv ?_
  push_cast
  field_simp
  ring

/-- Derivative of an inverse power of the distance. -/
theorem hasDerivAt_inv_pow (n : ℕ) (ρ : ℝ) (hρ : 0 < ρ) :
    HasDerivAt (fun ρ : ℝ => ((ρ : ℂ)⁻¹) ^ (n + 1))
      (-((n + 1 : ℕ) : ℂ) * ((ρ : ℂ)⁻¹) ^ (n + 2)) ρ := by
  have hρc : (ρ : ℂ) ≠ 0 := by exact_mod_cast (ne_of_gt hρ)
  have h := ((hasDerivAt_inv hρc).pow (n + 1)).comp_ofReal
  refine h.congr_deriv ?_
  simp only [Nat.add_sub_cancel]
  push_cast
  ring

/-- The third radial factor of `AddGShort`, under the derivative relations:
`(1/ρ) d/dρ` of the second one. -/
theorem short_radial_three (κ : ℂ) (E : ℝ) (P M G : ℝ → ℂ) (ρ : ℝ) (hρ : 0 < ρ)
    (hP : HasDerivAt P (Complex.I * κ * M ρ + G ρ) ρ)
    (hM : HasDerivAt M (Complex.I * κ * P ρ) ρ)
    (hG : HasDerivAt G (((-2 * (E * E) * ρ : ℝ) : ℂ) * G ρ) ρ) :
    HasDerivAt
      (fun ρ : ℝ => 3 * P ρ / ((ρ * ρ * ρ * ρ * ρ : ℝ) : ℂ)
        - 3 * (G ρ + Complex.I * κ * M ρ) / ((ρ * ρ * ρ * ρ : ℝ) : ℂ)
        - κ * κ * P ρ / ((ρ * ρ * ρ : ℝ) : ℂ)
        - ((2 * (E * E) : ℝ) : ℂ) * G ρ / ((ρ * ρ : ℝ) : ℂ))
      ((ρ : ℂ) * (-15 * P ρ / ((ρ * ρ * ρ * ρ * ρ * ρ * ρ : ℝ) : ℂ)
        + 15 * (G ρ + Complex.I * κ * M ρ) / ((ρ * ρ * ρ * ρ * ρ * ρ : ℝ) : ℂ)
        + 6 * κ * κ * P ρ / ((ρ * ρ * ρ * ρ * ρ : ℝ) : ℂ)
        + ((10 * (E * E) : ℝ) : ℂ) * G ρ / ((ρ * ρ * ρ * ρ : ℝ) : ℂ)
        - κ * κ * (Complex.I * κ * M ρ + G ρ) / ((ρ * ρ * ρ * ρ : ℝ) : ℂ)
        + ((4 * (E * E * (E * E)) : ℝ) : ℂ) * G ρ / ((ρ * ρ : ℝ) : ℂ))) ρ := by
  have hρc : (ρ : ℂ) ≠ 0 := by exact_mod_cast (ne_of_gt hρ)
  have hu : (ρ : ℂ) * (ρ : ℂ)⁻¹ = 1 := mul_inv_cancel₀ hρc
  have hI : Complex.I * Complex.I = -1 := Complex.I_mul_I
  have hM2 : HasDerivAt (fun ρ : ℝ => Complex.I * κ * M ρ) (-(κ * κ) * P ρ) ρ :=
    (hM.const_mul (Complex.I * κ)).congr_deriv (by linear_combination (κ * κ * P ρ) * hI)
  have h := ((((hP.const_mul 3).mul (hasDerivAt_inv_pow 4 ρ hρ)).sub
    (((hG.add hM2).const_mul 3).mul (hasDerivAt_inv_pow 3 ρ hρ))).sub
    ((hP.const_mul (κ * κ)).mul (hasDerivAt_inv_pow 2 ρ hρ))).sub
    ((hG.const_mul (((2 * (E * E) : ℝ) : ℂ))).mul (hasDerivAt_inv_pow 1 ρ hρ))
  have hf : (fun ρ : ℝ => 3 * P ρ / ((ρ * ρ * ρ * ρ * ρ : ℝ) : ℂ)
        - 3 * (G ρ + Complex.I * κ * M ρ) / ((ρ * ρ * ρ * ρ : ℝ) : ℂ)
        - κ * κ * P ρ / ((ρ * ρ * ρ : ℝ) : ℂ)
        - ((2 * (E * E) : ℝ) : ℂ) * G ρ / ((ρ * ρ : ℝ) : ℂ))
      = fun ρ : ℝ => 3 * P ρ * ((ρ : ℂ)⁻¹) ^ (4 + 1)
        - 3 * (G ρ + Complex.I * κ * M ρ) * ((ρ : ℂ)⁻¹) ^ (3 + 1)
        - κ * κ * P ρ * ((ρ : ℂ)⁻¹) ^ (2 + 1)
        - ((2 * (E * E) : ℝ) : ℂ) * G ρ * ((ρ : ℂ)⁻¹) ^ (1 + 1) := by
    funext t
    push_cast
    ring
  rw [hf]
  refine h.congr_deriv ?_
  push_cast
  linear_combination
    (-(3 * (Complex.I * κ * M ρ + G ρ) * ((ρ : ℂ)⁻¹) ^ 5 - 15 * P ρ * ((ρ : ℂ)⁻¹) ^ 6
      + 3 * (κ * κ * P ρ) * ((ρ : ℂ)⁻¹) ^ 4
      + 12 * (G ρ + Complex.I * κ * M ρ) * ((ρ : ℂ)⁻¹) ^ 5
      - κ * κ * (Complex.I * κ * M ρ + G ρ) * ((ρ : ℂ)⁻¹) ^ 3
      + 3 * (κ * κ * P ρ) * ((ρ : ℂ)⁻¹) ^ 4
      + 4 * ((E : ℂ) * E) * G ρ * ((ρ : ℂ)⁻¹) ^ 3)) * hu

/-- The radial quantities of `AddGShort` as complex numbers, at `rml2 = ρ ρ`
and `rml = ρ`, in terms of `ggPgg`, `ggMgg` and `g4`. -/
theorem AddGShort_terms_toComplex (lib : Libm ℝ) (erfc : ℂ → ℂ)
    (hexp : ∀ w, toComplex (lib.cexp w) = Complex.exp (toComplex w))
    (herfcx : ∀ w, toComplex (lib.erfcx w)
      = Complex.exp (toComplex w * toComplex w) * erfc (toComplex w))
    (hneg : ∀ w, erfc (-w) = 2 - erfc w)
    (k : cdouble ℝ) (E : ℝ) (P M G : ℝ → ℂ)
    (hP : P = fun ρ : ℝ =>
      Complex.exp (Complex.I * toComplex k * (ρ : ℂ))
          * erfc (((E * ρ : ℝ) : ℂ) + Complex.I * toComplex k / ((2 * E : ℝ) : ℂ))
        + Complex.exp (-Complex.I * toComplex k * (ρ : ℂ))
          * erfc (((E * ρ : ℝ) : ℂ) - Complex.I * toComplex k / ((2 * E : ℝ) : ℂ)))
    (hM : M = fun ρ : ℝ =>
      Complex.exp (Complex.I * toComplex k * (ρ : ℂ))
          * erfc (((E * ρ : ℝ) : ℂ) + Complex.I * toComplex k / ((2 * E : ℝ) : ℂ))
        - Complex.exp (-Complex.I * toComplex k * (ρ : ℂ))
          * erfc (((E * ρ : ℝ) : ℂ) - Complex.I * toComplex k / ((2 * E : ℝ) : ℂ)))
    (hG : G = fun ρ : ℝ =>
      ((-2 * M_2_SQRTPI * E : ℝ) : ℂ)
        * Complex.exp (((-(E * E) * (ρ * ρ) : ℝ) : ℂ)
            + toComplex k * toComplex k / ((4 * (E * E) : ℝ) : ℂ)))
    (ρ : ℝ) :
    toComplex (AddGShort_terms lib k E (ρ * ρ) ρ).ggPgg = P ρ
    ∧ toComplex (AddGShort_terms lib k E (ρ * ρ) ρ).Term1
      = -P ρ / ((ρ * ρ * ρ : ℝ) : ℂ)
        + (G ρ + Complex.I * toComplex k * M ρ) / ((ρ * ρ : ℝ) : ℂ)
    ∧ toComplex (AddGShort_terms lib k E (ρ * ρ) ρ).Term2
      = 3 * P ρ / ((ρ * ρ * ρ * ρ * ρ : ℝ) : ℂ)
        - 3 * (G ρ + Complex.I * toComplex k * M ρ) / ((ρ * ρ * ρ * ρ : ℝ) : ℂ)
        - toComplex k * toComplex k * P ρ / ((ρ * ρ * ρ : ℝ) : ℂ)
        - ((2 * (E * E) : ℝ) : ℂ) * G ρ / ((ρ * ρ : ℝ) : ℂ)
    ∧ toComplex (AddGShort_terms lib k E (ρ * ρ) ρ).Term3
      = -15 * P ρ / ((ρ * ρ * ρ * ρ * ρ * ρ * ρ : ℝ) : ℂ)
        + 15 * (G ρ + Complex.I * toComplex k * M ρ) / ((ρ * ρ * ρ * ρ * ρ * ρ : ℝ) : ℂ)
        + 6 * toComplex k * toComplex k * P ρ / ((ρ * ρ * ρ * ρ * ρ : ℝ) : ℂ)
        + ((10 * (E * E) : ℝ) : ℂ) * G ρ / ((ρ * ρ * ρ * ρ : ℝ) : ℂ)
        - toComplex k * toComplex k * (Complex.I * toComplex k * M ρ + G ρ)
            / ((ρ * ρ * ρ * ρ : ℝ) : ℂ)
        + ((4 * (E * E * (E * E)) : ℝ) : ℂ) * G ρ / ((ρ * ρ : ℝ) : ℂ) := by
  subst hP hM hG
  unfold AddGShort_terms
  simp only [toComplex_add, toComplex_mul, toComplex_div, toComplex_sub, toComplex_neg,
    toComplex_ofReal, toComplex_II, hexp, erfc_s_toComplex lib erfc hexp herfcx hneg]
  push_cast
  refine ⟨trivial, trivial, ?_, ?_⟩
  · ring
  · ring

/-- The amounts `AddGShort` adds (the case `E ≠ 0`, `rml ≥ 1.0e-6`), as complex
numbers, when `sqrt` and `exp` of the library are the real square root and the
complex exponential. -/
theorem AddGShort_toComplex (lib : Libm ℝ) (erfc : ℂ → ℂ)
    (hsqrt : ∀ x, lib.sqrt x = Real.sqrt x)
    (hexp : ∀ w, toComplex (lib.cexp w) = Complex.exp (toComplex w))
    (herfcx : ∀ w, toComplex (lib.erfcx w)
      = Complex.exp (toComplex w * toComplex w) * erfc (toComplex w))
    (hneg : ∀ w, erfc (-w) = 2 - erfc w)
    (k : cdouble ℝ) (kBloch : Vec2 ℝ) (n1 n2 : ℤ) (LBV : Mat2 ℝ) (LDim : ℤ) (E : ℝ)
    (hE : E ≠ 0) (L : Vec2 ℝ) (hL : L = cellVector n1 n2 LBV LDim)
    (P M G : ℝ → ℂ)
    (hP : P = fun ρ : ℝ =>
      Complex.exp (Complex.I * toComplex k * (ρ : ℂ))
          * erfc (((E * ρ : ℝ) : ℂ) + Complex.I * toComplex k / ((2 * E : ℝ) : ℂ))
        + Complex.exp (-Complex.I * toComplex k * (ρ : ℂ))
          * erfc (((E * ρ : ℝ) : ℂ) - Complex.I * toComplex k / ((2 * E : ℝ) : ℂ)))
    (hM : M = fun ρ : ℝ =>
      Complex.exp (Complex.I * toComplex k * (ρ : ℂ))
          * erfc (((E * ρ : ℝ) : ℂ) + Complex.I * toComplex k / ((2 * E : ℝ) : ℂ))
        - Complex.exp (-Complex.I * toComplex k * (ρ : ℂ))
          * erfc (((E * ρ : ℝ) : ℂ) - Complex.I * toComplex k / ((2 * E : ℝ) : ℂ)))
    (hG : G = fun ρ : ℝ =>
      ((-2 * M_2_SQRTPI * E : ℝ) : ℂ)
        * Complex.exp (((-(E * E) * (ρ * ρ) : ℝ) : ℂ)
            + toComplex k * toComplex k / ((4 * (E * E) : ℝ) : ℂ)))
    (x y z : ℝ)
    (h : ¬ Real.sqrt ((x - L.x) * (x - L.x) + (y - L.y) * (y - L.y) + z * z) < 1.0e-6)
    (p : ℂ) (hp : p = Complex.exp (Complex.I * ((kBloch.x * L.x + kBloch.y * L.y : ℝ) : ℂ))
      / ((8 * M_PI : ℝ) : ℂ))
    (r : ℝ) (hr : r = Real.sqrt ((x - L.x) * (x - L.x) + (y - L.y) * (y - L.y) + z * z)) :
    toComplex (AddGShort lib ⟨x, y, z⟩ k kBloch n1 n2 LBV LDim E Sum8.zero).s0
      = p * (P r / (r : ℂ))
    ∧ toComplex (AddGShort lib ⟨x, y, z⟩ k kBloch n1 n2 LBV LDim E Sum8.zero).s1
      = p * (x - L.x) * toComplex (AddGShort_terms lib k E (r * r) r).Term1
    ∧ toComplex (AddGShort lib ⟨x, y, z⟩ k kBloch n1 n2 LBV LDim E Sum8.zero).s2
      = p * (y - L.y) * toComplex (AddGShort_terms lib k E (r * r) r).Term1
    ∧ toComplex (AddGShort lib ⟨x, y, z⟩ k kBloch n1 n2 LBV LDim E Sum8.zero).s3
      = p * z * toComplex (AddGShort_terms lib k E (r * r) r).Term1
    ∧ toComplex (AddGShort lib ⟨x, y, z⟩ k kBloch n1 n2 LBV LDim E Sum8.zero).s4
      = p * (x - L.x) * (y - L.y) * toComplex (AddGShort_terms lib k E (r * r) r).Term2
    ∧ toComplex (AddGShort lib ⟨x, y, z⟩ k kBloch n1 n2 LBV LDim E Sum8.zero).s5
      = p * (x - L.x) * z * toComplex (AddGShort_terms lib k E (r * r) r).Term2
    ∧ toComplex (AddGShort lib ⟨x, y, z⟩ k kBloch n1 n2 LBV LDim E Sum8.zero).s6
      = p * (y - L.y) * z * toComplex (AddGShort_terms lib k E (r * r) r).Term2
    ∧ toComplex (AddGShort lib ⟨x, y, z⟩ k kBloch n1 n2 LBV LDim E Sum8.zero).s7
      = p * (x - L.x) * (y - L.y) * z * toComplex (AddGShort_terms lib k E (r * r) r).Term3 := by
  have hrr : r * r = (x - L.x) * (x - L.x) + (y - L.y) * (y - L.y) + z * z := by
    rw [hr]
    apply Real.mul_self_sqrt
    nlinarith [mul_self_nonneg (x - L.x), mul_self_nonneg (y - L.y), mul_self_nonneg z]
  have h2 : ¬ r < 1.0e-6 := by
    rw [hr]
    exact h
  have hg := (AddGShort_terms_toComplex lib erfc hexp herfcx hneg k E P M G hP hM hG r).1
  unfold AddGShort
  simp only [← hL]
  simp only [if_neg hE, hsqrt]
  simp only [← hr]
  simp only [if_neg h2]
  simp only [← hrr]
  simp only [Sum8.zero, cdouble.zero_re, toComplex_add, toComplex_mul, toComplex_div,
    toComplex_sub, toComplex_ofReal, toComplex_II, toComplex_zero, hexp, zero_add, hg, ← hp]
  push_cast
  refine ⟨?_, ?_, ?_, ?_, ?_, ?_, ?_, ?_⟩ <;> first | trivial | rfl | ring

/-- A function with the two properties of the complementary error function
that the claims on `AddGShort` use, for any constant `c` in the place of
`2/sqrt π`: `erfc(-w) = 2 - erfc(w)`, and the derivative of `erfc` in the real
direction is `-c exp(-w^2)`. -/
theorem exists_erfc_like (c : ℂ) :
    ∃ erfc : ℂ → ℂ, (∀ w, erfc (-w) = 2 - erfc w)
      ∧ ∀ w : ℂ, HasDerivAt (fun t : ℝ => erfc (w + (t : ℂ))) (-c * Complex.exp (-(w * w))) 0 := by
  have hcont : ∀ y : ℝ, Continuous (fun t : ℝ =>
      Complex.exp (-(((t : ℂ) + (y : ℂ) * Complex.I) * ((t : ℂ) + (y : ℂ) * Complex.I)))) := by
    intro y
    fun_prop
  refine ⟨fun w => 1 - c * ∫ t in (0 : ℝ)..w.re,
    Complex.exp (-(((t : ℂ) + (w.im : ℂ) * Complex.I) * ((t : ℂ) + (w.im : ℂ) * Complex.I))),
    ?_, ?_⟩
  · intro w
    have h1 := intervalIntegral.integral_comp_neg (a := (0 : ℝ)) (b := w.re)
      (fun t : ℝ => Complex.exp (-(((t : ℂ) + ((-w).im : ℂ) * Complex.I)
        * ((t : ℂ) + ((-w).im : ℂ) * Complex.I))))
    have h2 : (fun x : ℝ => Complex.exp (-((((-x : ℝ) : ℂ) + ((-w).im : ℂ) * Complex.I)
        * (((-x : ℝ) : ℂ) + ((-w).im : ℂ) * Complex.I))))
        = fun x : ℝ => Complex.exp (-(((x : ℂ) + (w.im : ℂ) * Complex.I)
          * ((x : ℂ) + (w.im : ℂ) * Complex.I))) := by
      funext x
      congr 1
      simp only [Complex.neg_im]
      push_cast
      ring
    simp only [h2, neg_zero] at h1
    simp only [Complex.neg_re]
    rw [intervalIntegral.integral_symm (-w.re) 0, ← h1]
    ring
  · intro w
    have hF := ((hcont w.im).integral_hasStrictDerivAt 0 w.re).hasDerivAt
    have hs : HasDerivAt (fun t : ℝ => w.re + t) 1 0 := by
      simpa using (hasDerivAt_id (0 : ℝ)).const_add w.re
    have hc := HasDerivAt.scomp_of_eq (0 : ℝ) hF hs (by simp)
    have h := (hc.const_mul c).const_sub 1
    have hf : (fun t : ℝ => 1 - c * ∫ s in (0 : ℝ)..(w + (t : ℂ)).re,
          Complex.exp (-(((s : ℂ) + ((w + (t : ℂ)).im : ℂ) * Complex.I)
            * ((s : ℂ) + ((w + (t : ℂ)).im : ℂ) * Complex.I))))
        = fun t : ℝ => 1 - c * ((fun u : ℝ => ∫ s in (0 : ℝ)..u,
          Complex.exp (-(((s : ℂ) + (w.im : ℂ) * Complex.I)
            * ((s : ℂ) + (w.im : ℂ) * Complex.I)))) ∘ (fun t : ℝ => w.re + t)) t := by
      funext t
      simp
    show HasDerivAt (fun t : ℝ => 1 - c * ∫ s in (0 : ℝ)..(w + (t : ℂ)).re,
          Complex.exp (-(((s : ℂ) + ((w + (t : ℂ)).im : ℂ) * Complex.I)
            * ((s : ℂ) + ((w + (t : ℂ)).im : ℂ) * Complex.I)))) _ 0
    rw [hf]
    refine h.congr_deriv ?_
    rw [one_smul, Complex.re_add_im]
    ring

/-- Derivative of the squared distance in its first coordinate, as a complex
number. -/
theorem hasDerivAt_sq_dist (a c x : ℝ) :
    HasDerivAt (fun t : ℝ => (((t - a) * (t - a) + c : ℝ) : ℂ)) (((2 * (x - a) : ℝ) : ℂ)) x := by
  have h : HasDerivAt (fun t : ℝ => (t - a) * (t - a) + c) (2 * (x - a)) x := by
    have h1 := (((hasDerivAt_id x).sub_const a).mul ((hasDerivAt_id x).sub_const a)).add_const c
    refine h1.congr_deriv ?_
    simp only [id]
    ring
  exact h.ofReal_comp

/-- The partial derivatives of `φ (c0 + c2 r^2 + c4 r^4)`, with
`r^2 = (x-a)^2 + (y-b)^2 + z^2`, up to the mixed third one. -/
theorem poly_partials (a b : ℝ) (φ c0 c2 c4 : ℂ) (T : ℝ → ℝ → ℝ → ℂ)
    (hT : ∀ x y z, T x y z
      = φ * (c0 + c2 * (((x - a) * (x - a) + (y - b) * (y - b) + z * z : ℝ) : ℂ)
          + c4 * (((x - a) * (x - a) + (y - b) * (y - b) + z * z : ℝ) : ℂ)
            * (((x - a) * (x - a) + (y - b) * (y - b) + z * z : ℝ) : ℂ)))
    (x y z : ℝ) :
    HasDerivAt (fun t => T t y z)
        (φ * (2 * c2 * ((x - a : ℝ) : ℂ)
          + 4 * c4 * (((x - a) * (x - a) + (y - b) * (y - b) + z * z : ℝ) : ℂ)
            * ((x - a : ℝ) : ℂ))) x
    ∧ HasDerivAt (fun t => T x t z)
        (φ * (2 * c2 * ((y - b : ℝ) : ℂ)
          + 4 * c4 * (((x - a) * (x - a) + (y - b) * (y - b) + z * z : ℝ) : ℂ)
            * ((y - b : ℝ) : ℂ))) y
    ∧ HasDerivAt (fun t => T x y t)
        (φ * (2 * c2 * ((z : ℝ) : ℂ)
          + 4 * c4 * (((x - a) * (x - a) + (y - b) * (y - b) + z * z : ℝ) : ℂ)
            * ((z : ℝ) : ℂ))) z
    ∧ HasDerivAt (fun t => deriv (fun u => T u t z) x)
        (φ * (8 * c4 * ((x - a : ℝ) : ℂ) * ((y - b : ℝ) : ℂ))) y
    ∧ HasDerivAt (fun t => deriv (fun u => T u y t) x)
        (φ * (8 * c4 * ((x - a : ℝ) : ℂ) * ((z : ℝ) : ℂ))) z
    ∧ HasDerivAt (fun t => deriv (fun u => T x u t) y)
        (φ * (8 * c4 * ((y - b : ℝ) : ℂ) * ((z : ℝ) : ℂ))) z
    ∧ HasDerivAt (fun t => deriv (fun v => deriv (fun u => T u v t) x) y) 0 z := by
  -- the three first partials at every point
  have hx : ∀ x y z : ℝ, HasDerivAt (fun t => T t y z)
        (φ * (2 * c2 * ((x - a : ℝ) : ℂ)
          + 4 * c4 * (((x - a) * (x - a) + (y - b) * (y - b) + z * z : ℝ) : ℂ)
            * ((x - a : ℝ) : ℂ))) x := by
    intro x y z
    have hq := hasDerivAt_sq_dist a ((y - b) * (y - b) + z * z) x
    have h := ((((hq.const_mul c2).const_add c0).add ((hq.mul hq).const_mul c4))).const_mul φ
    have hf : (fun t => T t y z) = fun t : ℝ => φ * (c0
        + c2 * (((t - a) * (t - a) + ((y - b) * (y - b) + z * z) : ℝ) : ℂ)
        + c4 * ((((t - a) * (t - a) + ((y - b) * (y - b) + z * z) : ℝ) : ℂ)
          * (((t - a) * (t - a) + ((y - b) * (y - b) + z * z) : ℝ) : ℂ))) := by
      funext t
      rw [hT]
      push_cast
      ring
    rw [hf]
    refine h.congr_deriv ?_
    push_cast
    ring
  have hy : ∀ x y z : ℝ, HasDerivAt (fun t => T x t z)
        (φ * (2 * c2 * ((y - b : ℝ) : ℂ)
          + 4 * c4 * (((x - a) * (x - a) + (y - b) * (y - b) + z * z : ℝ) : ℂ)
            * ((y - b : ℝ) : ℂ))) y := by
    intro x y z
    have hq := hasDerivAt_sq_dist b ((x - a) * (x - a) + z * z) y
    have h := ((((hq.const_mul c2).const_add c0).add ((hq.mul hq).const_mul c4))).const_mul φ
    have hf : (fun t => T x t z) = fun t : ℝ => φ * (c0
        + c2 * (((t - b) * (t - b) + ((x - a) * (x - a) + z * z) : ℝ) : ℂ)
        + c4 * ((((t - b) * (t - b) + ((x - a) * (x - a) + z * z) : ℝ) : ℂ)
          * (((t - b) * (t - b) + ((x - a) * (x - a) + z * z) : ℝ) : ℂ))) := by
      funext t
      rw [hT]
      push_cast
      ring
    rw [hf]
    refine h.congr_deriv ?_
    push_cast
    ring
  have hz : ∀ x y z : ℝ, HasDerivAt (fun t => T x y t)
        (φ * (2 * c2 * ((z : ℝ) : ℂ)
          + 4 * c4 * (((x - a) * (x - a) + (y - b) * (y - b) + z * z : ℝ) : ℂ)
            * ((z : ℝ) : ℂ))) z := by
    intro x y z
    have hq := hasDerivAt_sq_dist 0 ((x - a) * (x - a) + (y - b) * (y - b)) z
    have h := ((((hq.const_mul c2).const_add c0).add ((hq.mul hq).const_mul c4))).const_mul φ
    have hf : (fun t => T x y t) = fun t : ℝ => φ * (c0
        + c2 * (((t - 0) * (t - 0) + ((x - a) * (x - a) + (y - b) * (y - b)) : ℝ) : ℂ)
        + c4 * ((((t - 0) * (t - 0) + ((x - a) * (x - a) + (y - b) * (y - b)) : ℝ) : ℂ)
          * (((t - 0) * (t - 0) + ((x - a) * (x - a) + (y - b) * (y - b)) : ℝ) : ℂ))) := by
      funext t
      rw [hT]
      push_cast
      ring
    rw [hf]
    refine h.congr_deriv ?_
    push_cast
    ring
  -- the three mixed second partials at every point
  have hxy : ∀ x y z : ℝ, HasDerivAt (fun t => deriv (fun u => T u t z) x)
        (φ * (8 * c4 * ((x - a : ℝ) : ℂ) * ((y - b : ℝ) : ℂ))) y := by
    intro x y z
    have hf : (fun t => deriv (fun u => T u t z) x) = fun t : ℝ =>
        φ * (2 * c2 * ((x - a : ℝ) : ℂ)
          + 4 * c4 * (((t - b) * (t - b) + ((x - a) * (x - a) + z * z) : ℝ) : ℂ)
            * ((x - a : ℝ) : ℂ)) := by
      funext t
      rw [(hx x t z).deriv]
      push_cast
      ring
    have hq := hasDerivAt_sq_dist b ((x - a) * (x - a) + z * z) y
    have h := ((((hq.const_mul (4 * c4)).mul_const (((x - a : ℝ) : ℂ))).const_add
      (2 * c2 * ((x - a : ℝ) : ℂ)))).const_mul φ
    rw [hf]
    refine h.congr_deriv ?_
    push_cast
    ring
  have hxz : ∀ x y z : ℝ, HasDerivAt (fun t => deriv (fun u => T u y t) x)
        (φ * (8 * c4 * ((x - a : ℝ) : ℂ) * ((z : ℝ) : ℂ))) z := by
    intro x y z
    have hf : (fun t => deriv (fun u => T u y t) x) = fun t : ℝ =>
        φ * (2 * c2 * ((x - a : ℝ) : ℂ)
          + 4 * c4 * (((t - 0) * (t - 0) + ((x - a) * (x - a) + (y - b) * (y - b)) : ℝ) : ℂ)
            * ((x - a : ℝ) : ℂ)) := by
      funext t
      rw [(hx x y t).deriv]
      push_cast
      ring
    have hq := hasDerivAt_sq_dist 0 ((x - a) * (x - a) + (y - b) * (y - b)) z
    have h := ((((hq.const_mul (4 * c4)).mul_const (((x - a : ℝ) : ℂ))).const_add
      (2 * c2 * ((x - a : ℝ) : ℂ)))).const_mul φ
    rw [hf]
    refine h.congr_deriv ?_
    push_cast
    ring
  have hyz : ∀ x y z : ℝ, HasDerivAt (fun t => deriv (fun u => T x u t) y)
        (φ * (8 * c4 * ((y - b : ℝ) : ℂ) * ((z : ℝ) : ℂ))) z := by
    intro x y z
    have hf : (fun t => deriv (fun u => T x u t) y) = fun t : ℝ =>
        φ * (2 * c2 * ((y - b : ℝ) : ℂ)
          + 4 * c4 * (((t - 0) * (t - 0) + ((x - a) * (x - a) + (y - b) * (y - b)) : ℝ) : ℂ)
            * ((y - b : ℝ) : ℂ)) := by
      funext t
      rw [(hy x y t).deriv]
      push_cast
      ring
    have hq := hasDerivAt_sq_dist 0 ((x - a) * (x - a) + (y - b) * (y - b)) z
    have h := ((((hq.const_mul (4 * c4)).mul_const (((y - b : ℝ) : ℂ))).const_add
      (2 * c2 * ((y - b : ℝ) : ℂ)))).const_mul φ
    rw [hf]
    refine h.congr_deriv ?_
    push_cast
    ring
  refine ⟨hx x y z, hy x y z, hz x y z, hxy x y z, hxz x y z, hyz x y z, ?_⟩
  have hf : (fun t => deriv (fun v => deriv (fun u => T u v t) x) y)
      = fun _ : ℝ => φ * (8 * c4 * ((x - a : ℝ) : ℂ) * ((y - b : ℝ) : ℂ)) := by
    funext t
    rw [(hxy x y t).deriv]
  rw [hf]
  exact hasDerivAt_const z _

theorem convStep_fst_nonneg (lib : Libm F) (acc : F × F) (p : cdouble F × cdouble F)
    (h : 0 ≤ acc.1) : 0 ≤ (convStep lib acc p).1 := by
  unfold convStep
  simp only
  split_ifs with h1
  · exact le_trans h (le_of_lt h1)
  · exact h

theorem convStep_snd_lt (lib : Libm F) (acc : F × F) (p : cdouble F × cdouble F) (t : F) :
    (convStep lib acc p).2 < t ↔
      acc.2 < t ∧ (lib.cabs p.1 > 0 → lib.cabs (p.1 - p.2) < t * lib.cabs p.1) := by
  unfold convStep
  simp only
  split_ifs with h1
  · obtain ⟨hA, hD⟩ := h1
    rw [div_lt_iff₀ hA]
    constructor
    · intro h
      refine ⟨?_, fun _ => h⟩
      have h2 : acc.2 * lib.cabs p.1 < t * lib.cabs p.1 := lt_trans hD h
      exact lt_of_mul_lt_mul_right h2 (le_of_lt hA)
    · intro h
      exact h.2 hA
  · constructor
    · intro h
      refine ⟨h, fun hA => ?_⟩
      have h2 : ¬ lib.cabs (p.1 - p.2) > acc.2 * lib.cabs p.1 := fun hD => h1 ⟨hA, hD⟩
      have h3 : acc.2 * lib.cabs p.1 < t * lib.cabs p.1 := mul_lt_mul_of_pos_right h hA
      exact lt_of_le_of_lt (not_lt.mp h2) h3
    · intro h
      exact h.1

theorem convStep_foldl (lib : Libm F) (t : F) (l : List (cdouble F × cdouble F)) :
    ∀ acc : F × F, 0 ≤ acc.1 →
      0 ≤ (l.foldl (convStep lib) acc).1
      ∧ ((l.foldl (convStep lib) acc).2 < t ↔
          acc.2 < t ∧ ∀ p ∈ l, lib.cabs p.1 > 0 → lib.cabs (p.1 - p.2) < t * lib.cabs p.1) := by
  induction l with
  | nil =>
    intro acc h
    simp [h]
  | cons p l ih =>
    intro acc h
    obtain ⟨a1, a2⟩ := ih (convStep lib acc p) (convStep_fst_nonneg lib acc p h)
    refine ⟨a1, ?_⟩
    rw [List.foldl_cons, a2, convStep_snd_lt]
    simp only [List.mem_cons, forall_eq_or_imp]
    tauto

/-- A shell is under tolerance exactly when every slot whose new value has a
positive modulus changed by less than `RELTOL` times that modulus; the test
`MaxAbsDelta < ABSTOL` never holds. -/
theorem underTolerance_iff (lib : Libm F) (S Last : Sum8 F) :
    ¬ (maxDeltas lib S Last).1 < ABSTOL
    ∧ (underTolerance lib S Last = true ↔
      ∀ p ∈ List.zip S.toList Last.toList,
        lib.cabs p.1 > 0 → lib.cabs (p.1 - p.2) < RELTOL * lib.cabs p.1) := by
  obtain ⟨a1, a2⟩ := convStep_foldl lib RELTOL (List.zip S.toList Last.toList) (0, 0)
    (le_refl _)
  have h0 : ¬ (maxDeltas lib S Last).1 < ABSTOL := by
    unfold maxDeltas ABSTOL
    exact not_lt.mpr a1
  refine ⟨h0, ?_⟩
  unfold underTolerance
  rw [decide_eq_true_iff]
  constructor
  · rintro (h | h)
    · exact absurd h h0
    · exact (a2.mp h).2
  · intro h
    right
    refine a2.mpr ⟨?_, h⟩
    show (0 : F) < RELTOL
    unfold RELTOL
    norm_num

theorem convergedAfter_three (lib : Libm F) (sums : ℕ → Sum8 F) (m : ℕ) :
    3 ≤ convergedAfter lib sums (m + 3) ↔
      underTolerance lib (sums (m + 1)) (sums m) = true
      ∧ underTolerance lib (sums (m + 2)) (sums (m + 1)) = true
      ∧ underTolerance lib (sums (m + 3)) (sums (m + 2)) = true := by
  simp only [convergedAfter]
  cases underTolerance lib (sums (m + 1)) (sums m) <;>
    cases underTolerance lib (sums (m + 2)) (sums (m + 1)) <;>
    cases underTolerance lib (sums (m + 3)) (sums (m + 2)) <;> simp

theorem convergedAfter_le (lib : Libm F) (sums : ℕ → Sum8 F) (n : ℕ) :
    convergedAfter lib sums n ≤ n := by
  induction n with
  | zero => simp [convergedAfter]
  | succ n ih =>
    simp only [convergedAfter]
    split_ifs <;> omega

/-- The first index from `m` on at which the loop condition fails is unique. -/
theorem first_stop_unique (c : ℕ → ℕ) (n n' : ℕ) (h1 : n ≤ 9999) (h2 : n' ≤ 9999)
    (a : 3 ≤ c n ∨ n = 9999) (a' : 3 ≤ c n' ∨ n' = 9999)
    (b : ∀ j, j < n → c j < 3) (b' : ∀ j, j < n' → c j < 3) : n = n' := by
  rcases Nat.lt_trichotomy n n' with h | h | h
  · have := b' n h
    omega
  · exact h
  · have := b n' h
    omega

theorem nearbyLoop_run (lib : Libm F) (R : Vec3 F) (k : cdouble F) (kBloch : Vec2 F)
    (LBV : Mat2 F) (LDim : ℤ) (E : F) (st0 : NearbyState F) (fuel : ℕ) :
    ∀ m : ℕ, 9999 ≤ fuel + m → m ≤ 9999 →
      ∃ n : ℕ, m ≤ n ∧ n ≤ 9999
        ∧ nearbyLoop lib R k kBloch LBV LDim E fuel (NFIRSTROUND + 1 + (m : ℤ))
            (convergedAfter lib
              (fun j => (nearbyAfter lib R k kBloch LBV LDim E st0 j).Sum) m)
            (nearbyAfter lib R k kBloch LBV LDim E st0 m)
            (nearbyAfter lib R k kBloch LBV LDim E st0 m).Sum
          = nearbyAfter lib R k kBloch LBV LDim E st0 n
        ∧ (3 ≤ convergedAfter lib
              (fun j => (nearbyAfter lib R k kBloch LBV LDim E st0 j).Sum) n ∨ n = 9999)
        ∧ ∀ j, m ≤ j → j < n →
            convergedAfter lib
              (fun j => (nearbyAfter lib R k kBloch LBV LDim E st0 j).Sum) j < 3 := by
  induction fuel with
  | zero =>
    intro m h1 h2
    have hm : m = 9999 := by omega
    exact ⟨m, le_refl _, h2, rfl, Or.inr hm, fun j a b => by omega⟩
  | succ fuel ih =>
    intro m h1 h2
    by_cases hc : convergedAfter lib
        (fun j => (nearbyAfter lib R k kBloch LBV LDim E st0 j).Sum) m < 3
        ∧ NFIRSTROUND + 1 + (m : ℤ) ≤ NMAX
    · have hm : m < 9999 := by
        have := hc.2
        simp only [NFIRSTROUND, NMAX] at this
        omega
      obtain ⟨n, a1, a2, a3, a4, a5⟩ := ih (m + 1) (by omega) (by omega)
      refine ⟨n, by omega, a2, ?_, a4, ?_⟩
      · unfold nearbyLoop
        rw [if_pos hc]
        simp only
        have e1 : NFIRSTROUND + 1 + (m : ℤ) + 1 = NFIRSTROUND + 1 + ((m + 1 : ℕ) : ℤ) := by
          push_cast
          ring
        rw [e1]
        exact a3
      · intro j h3 h4
        rcases Nat.eq_or_lt_of_le h3 with h | h
        · subst h
          exact hc.1
        · exact a5 j h h4
    · refine ⟨m, le_refl _, h2, ?_, ?_, fun j a b => by omega⟩
      · unfold nearbyLoop
        rw [if_neg hc]
      · by_cases h3 : 3 ≤ convergedAfter lib
            (fun j => (nearbyAfter lib R k kBloch LBV LDim E st0 j).Sum) m
        · exact Or.inl h3
        · right
          have h4 : ¬ (NFIRSTROUND + 1 + (m : ℤ) ≤ NMAX) := fun h => hc ⟨by omega, h⟩
          simp only [NFIRSTROUND, NMAX] at h4
          omega

theorem distantAfter_succ_ok (lib : Libm F) (R : Vec3 F) (Rho : F) (k : cdouble F)
    (P : Vec2 F) (Gamma : Mat2 F) (LDim : ℤ) (E : F) (st0 s : DistantState F) (n : ℕ)
    (h : distantShell lib R Rho k P Gamma LDim E (NFIRSTROUND + 1 + (n : ℤ))
      (distantAfter lib R Rho k P Gamma LDim E st0 n) = .ok s) :
    distantAfter lib R Rho k P Gamma LDim E st0 (n + 1) = s := by
  simp only [distantAfter, h]

/-- The parts of a non-singular result of `GetGBarDistant` with `E ≠ 0`. -/
theorem GetGBarDistant_parts (lib : Libm F) (R : Vec3 F) (Rho : F) (k : cdouble F)
    (P : Vec2 F) (Gamma : Mat2 F) (LDim : ℤ) (E : F) (D : DistantResult F) (hE : E ≠ 0)
    (hD : GetGBarDistant lib R Rho k P Gamma LDim E = .ok D) (hs : D.Singular = false) :
    ∃ st1 st2, distantFirstRound lib R Rho k P Gamma LDim E
          { Sum := Sum8.zero, Singular := false, nCells := 0, trace := [] } = .ok st1
      ∧ st1.Singular = false
      ∧ distantLoop lib R Rho k P Gamma LDim E NMAX.toNat (NFIRSTROUND + 1) 0 st1 st1.Sum
          = .ok st2
      ∧ st2.Singular = false
      ∧ D.Sum = st2.Sum.scale (GetGBarDistant_PreFactor lib Gamma LDim)
      ∧ D.trace = st2.trace ∧ D.pnCells = some st2.nCells := by
  unfold GetGBarDistant at hD
  rw [if_neg hE] at hD
  cases h1 : distantFirstRound lib R Rho k P Gamma LDim E
      { Sum := Sum8.zero, Singular := false, nCells := 0, trace := [] } with
  | error e =>
    rw [h1] at hD
    cases hD
  | ok st1 =>
    rw [h1] at hD
    simp only at hD
    by_cases hs1 : st1.Singular = true
    · rw [if_pos hs1] at hD
      simp only [Except.ok.injEq] at hD
      rw [← hD] at hs
      cases hs
    · rw [if_neg hs1] at hD
      cases h2 : distantLoop lib R Rho k P Gamma LDim E NMAX.toNat (NFIRSTROUND + 1) 0
          st1 st1.Sum with
      | error e =>
        rw [h2] at hD
        cases hD
      | ok st2 =>
        rw [h2] at hD
        simp only at hD
        by_cases hs2 : st2.Singular = true
        · rw [if_pos hs2] at hD
          simp only [Except.ok.injEq] at hD
          rw [← hD] at hs
          cases hs
        · rw [if_neg hs2] at hD
          simp only [Except.ok.injEq] at hD
          refine ⟨st1, st2, rfl, by simpa using hs1, h2, by simpa using hs2, ?_, ?_, ?_⟩
          · rw [← hD]
            rfl
          · rw [← hD]
          · rw [← hD]

theorem distantLoop_extract (lib : Libm F) (R : Vec3 F) (Rho : F) (k : cdouble F)
    (P : Vec2 F) (Gamma : Mat2 F) (LDim : ℤ) (E : F) (st0 st2 : DistantState F)
    (hS : st2.Singular = false) (fuel : ℕ) :
    ∀ m : ℕ, 9999 ≤ fuel + m → m ≤ 9999 →
      distantLoop lib R Rho k P Gamma LDim E fuel (NFIRSTROUND + 1 + (m : ℤ))
          (convergedAfter lib
            (fun j => (distantAfter lib R Rho k P Gamma LDim E st0 j).Sum) m)
          (distantAfter lib R Rho k P Gamma LDim E st0 m)
          (distantAfter lib R Rho k P Gamma LDim E st0 m).Sum = .ok st2 →
      ∃ n : ℕ, m ≤ n ∧ n ≤ 9999
        ∧ st2 = distantAfter lib R Rho k P Gamma LDim E st0 n
        ∧ (3 ≤ convergedAfter lib
              (fun j => (distantAfter lib R Rho k P Gamma LDim E st0 j).Sum) n ∨ n = 9999)
        ∧ ∀ j, m ≤ j → j < n →
            convergedAfter lib
              (fun j => (distantAfter lib R Rho k P Gamma LDim E st0 j).Sum) j < 3
            ∧ distantShell lib R Rho k P Gamma LDim E (NFIRSTROUND + 1 + (j : ℤ))
                (distantAfter lib R Rho k P Gamma LDim E st0 j)
              = .ok (distantAfter lib R Rho k P Gamma LDim E st0 (j + 1))
            ∧ (distantAfter lib R Rho k P Gamma LDim E st0 (j + 1)).Singular = false := by
  induction fuel with
  | zero =>
    intro m h1 h2 h
    have hm : m = 9999 := by omega
    simp only [distantLoop, Except.ok.injEq] at h
    exact ⟨m, le_refl _, h2, h.symm, Or.inr hm, fun j a b => by omega⟩
  | succ fuel ih =>
    intro m h1 h2 h
    by_cases hc : convergedAfter lib
        (fun j => (distantAfter lib R Rho k P Gamma LDim E st0 j).Sum) m < 3
        ∧ NFIRSTROUND + 1 + (m : ℤ) ≤ NMAX
    · have hm : m < 9999 := by
        have := hc.2
        simp only [NFIRSTROUND, NMAX] at this
        omega
      unfold distantLoop at h
      rw [if_pos hc] at h
      cases hsh : distantShell lib R Rho k P Gamma LDim E (NFIRSTROUND + 1 + (m : ℤ))
          (distantAfter lib R Rho k P Gamma LDim E st0 m) with
      | error e =>
        rw [hsh] at h
        cases h
      | ok s1 =>
        rw [hsh] at h
        simp only at h
        have hs1 := distantAfter_succ_ok lib R Rho k P Gamma LDim E st0 s1 m hsh
        by_cases hsg : s1.Singular = true
        · rw [if_pos hsg] at h
          simp only [Except.ok.injEq] at h
          rw [← h, hsg] at hS
          cases hS
        · rw [if_neg hsg] at h
          have e1 : NFIRSTROUND + 1 + (m : ℤ) + 1 = NFIRSTROUND + 1 + ((m + 1 : ℕ) : ℤ) := by
            push_cast
            ring
          rw [e1, ← hs1] at h
          obtain ⟨n, a1, a2, a3, a4, a5⟩ := ih (m + 1) (by omega) (by omega) h
          refine ⟨n, by omega, a2, a3, a4, ?_⟩
          intro j h3 h4
          rcases Nat.eq_or_lt_of_le h3 with hj | hj
          · subst hj
            refine ⟨hc.1, ?_, ?_⟩
            · rw [hsh, hs1]
            · rw [hs1]
              simpa using hsg
          · exact a5 j hj h4
    · unfold distantLoop at h
      rw [if_neg hc] at h
      simp only [Except.ok.injEq] at h
      refine ⟨m, le_refl _, h2, h.symm, ?_, fun j a b => by omega⟩
      by_cases h3 : 3 ≤ convergedAfter lib
          (fun j => (distantAfter lib R Rho k P Gamma LDim E st0 j).Sum) m
      · exact Or.inl h3
      · right
        have h4 : ¬ (NFIRSTROUND + 1 + (m : ℤ) ≤ NMAX) := fun h => hc ⟨by omega, h⟩
        simp only [NFIRSTROUND, NMAX] at h4
        omega

theorem distantLoop_run (lib : Libm F) (R : Vec3 F) (Rho : F) (k : cdouble F)
    (P : Vec2 F) (Gamma : Mat2 F) (LDim : ℤ) (E : F) (st0 : DistantState F) (n : ℕ)
    (hn : n ≤ 9999)
    (hstop : 3 ≤ convergedAfter lib
        (fun j => (distantAfter lib R Rho k P Gamma LDim E st0 j).Sum) n ∨ n = 9999)
    (fuel : ℕ) :
    ∀ m : ℕ, 9999 ≤ fuel + m → m ≤ n →
      (∀ j, m ≤ j → j < n →
        convergedAfter lib
            (fun j => (distantAfter lib R Rho k P Gamma LDim E st0 j).Sum) j < 3
          ∧ distantShell lib R Rho k P Gamma LDim E (NFIRSTROUND + 1 + (j : ℤ))
              (distantAfter lib R Rho k P Gamma LDim E st0 j)
            = .ok (distantAfter lib R Rho k P Gamma LDim E st0 (j + 1))
          ∧ (distantAfter lib R Rho k P Gamma LDim E st0 (j + 1)).Singular = false) →
      distantLoop lib R Rho k P Gamma LDim E fuel (NFIRSTROUND + 1 + (m : ℤ))
          (convergedAfter lib
            (fun j => (distantAfter lib R Rho k P Gamma LDim E st0 j).Sum) m)
          (distantAfter lib R Rho k P Gamma LDim E st0 m)
          (distantAfter lib R Rho k P Gamma LDim E st0 m).Sum
        = .ok (distantAfter lib R Rho k P Gamma LDim E st0 n) := by
  induction fuel with
  | zero =>
    intro m h1 h2 _
    have hm : m = n := by omega
    subst hm
    rfl
  | succ fuel ih =>
    intro m h1 h2 hall
    rcases Nat.eq_or_lt_of_le h2 with hmn | hmn
    · subst hmn
      have hc : ¬ (convergedAfter lib
          (fun j => (distantAfter lib R Rho k P Gamma LDim E st0 j).Sum) m < 3
          ∧ NFIRSTROUND + 1 + (m : ℤ) ≤ NMAX) := by
        rintro ⟨c1, c2⟩
        simp only [NFIRSTROUND, NMAX] at c2
        omega
      unfold distantLoop
      rw [if_neg hc]
    · obtain ⟨b1, b2, b3⟩ := hall m (le_refl _) hmn
      have hc : convergedAfter lib
          (fun j => (distantAfter lib R Rho k P Gamma LDim E st0 j).Sum) m < 3
          ∧ NFIRSTROUND + 1 + (m : ℤ) ≤ NMAX := by
        refine ⟨b1, ?_⟩
        simp only [NFIRSTROUND, NMAX]
        omega
      unfold distantLoop
      rw [if_pos hc, b2]
      simp only
      rw [if_neg (by simp [b3])]
      have e1 : NFIRSTROUND + 1 + (m : ℤ) + 1 = NFIRSTROUND + 1 + ((m + 1 : ℕ) : ℤ) := by
        push_cast
        ring
      rw [e1]
      exact ih (m + 1) (by omega) (by omega) (fun j c1 c2 => hall j (by omega) c2)

theorem intRange_eq_map (lo hi : ℤ) :
    intRange lo hi = (List.range (hi + 1 - lo).toNat).map (fun i : ℕ => lo + (i : ℤ)) := by
  unfold intRange
  simp only [List.pure_def, List.bind_eq_flatMap, List.map_flatMap, List.map_cons, List.map_nil]
  induction (List.range (hi + 1 - lo).toNat) with
  | nil => rfl
  | cons a l ih => simp [List.flatMap_cons, ih]

theorem intRange_nodup (lo hi : ℤ) : (intRange lo hi).Nodup := by
  rw [intRange_eq_map]
  refine (List.nodup_range _).map ?_
  intro a b h
  simpa using h

theorem count_le_one_of_nodup {α : Type} [BEq α] [LawfulBEq α] (c : α) :
    ∀ l : List α, l.Nodup → l.count c ≤ 1 := by
  intro l
  induction l with
  | nil =>
    intro _
    simp
  | cons x l ih =>
    intro hn
    rw [List.nodup_cons] at hn
    rw [List.count_cons]
    by_cases hx : x = c
    · subst hx
      rw [List.count_eq_zero_of_not_mem hn.1]
      simp
    · have hb : (x == c) = false := by
        simpa using hx
      rw [hb]
      simpa using ih hn.2

/-- The number of occurrences in a list without repetition. -/
theorem count_of_nodup {α : Type} [BEq α] [LawfulBEq α] (l : List α) (hn : l.Nodup) (c : α)
    (P : Prop) [Decidable P] (hm : c ∈ l ↔ P) : l.count c = if P then 1 else 0 := by
  by_cases h : P
  · rw [if_pos h]
    have h1 := List.count_pos_iff.mpr (hm.mpr h)
    have h2 := count_le_one_of_nodup c l hn
    omega
  · rw [if_neg h]
    exact List.count_eq_zero_of_not_mem (fun hc => h (hm.mp hc))

theorem perimeterCells_nodup (NN : ℤ) (hN : 1 ≤ NN) :
    ∀ l : List ℤ, l.Nodup → (∀ n ∈ l, -NN ≤ n ∧ n ≤ NN - 1) →
      (perimeterCells NN l).Nodup := by
  intro l
  induction l with
  | nil =>
    intro _ _
    simp [perimeterCells]
  | cons n l ih =>
    intro hnd hb
    have hn := hb n (List.mem_cons_self _ _)
    rw [List.nodup_cons] at hnd
    rw [perimeterCells, List.nodup_append]
    refine ⟨?_, ih hnd.2 (fun m hm => hb m (List.mem_cons_of_mem _ hm)), ?_⟩
    · simp only [List.nodup_cons, List.mem_cons, List.mem_singleton, Prod.mk.injEq,
        List.not_mem_nil, not_false_eq_true, List.nodup_nil, and_true, not_or]
      omega
    · rintro ⟨a, b⟩ h1 h2
      rw [mem_perimeterCells] at h2
      obtain ⟨m, hm, hc⟩ := h2
      have hmb := hb m (List.mem_cons_of_mem _ hm)
      have hne : m ≠ n := fun h => hnd.1 (h ▸ hm)
      simp only [List.mem_cons, Prod.mk.injEq, List.mem_nil_iff, or_false] at h1
      omega

theorem shellCells_nodup (LDim NN : ℤ) (hN : 1 ≤ NN) : (shellCells LDim NN).Nodup := by
  unfold shellCells
  split_ifs
  · simp only [List.nodup_cons, List.mem_singleton, Prod.mk.injEq, List.not_mem_nil,
      not_false_eq_true, List.nodup_nil, and_true]
    omega
  · exact perimeterCells_nodup NN hN _ (intRange_nodup _ _)
      (fun n hn => (mem_intRange _ _ _).mp hn)

/-- Every cell of shell `NN` has `max(|n1|, |n2|) = NN`. -/
theorem shellCells_level (LDim NN a b : ℤ) (hN : 1 ≤ NN) (h : (a, b) ∈ shellCells LDim NN) :
    max |a| |b| = NN := by
  by_cases hL : LDim = 1
  · subst hL
    rw [mem_shellCells_1D] at h
    have ha := abs_cases a
    have hb := abs_cases b
    omega
  · exact (mem_shellCells_2D LDim NN a b hL hN).mp h

theorem shellsFrom_nodup (LDim : ℤ) (n : ℕ) :
    ∀ NN : ℤ, 1 ≤ NN → (shellsFrom LDim NN n).Nodup := by
  induction n with
  | zero =>
    intro NN _
    simp [shellsFrom]
  | succ n ih =>
    intro NN hN
    rw [shellsFrom, List.nodup_append]
    refine ⟨shellCells_nodup LDim NN hN, ih (NN + 1) (by omega), ?_⟩
    rintro ⟨a, b⟩ h1 h2
    have l1 := shellCells_level LDim NN a b hN h1
    rw [mem_shellsFrom] at h2
    obtain ⟨j, j1, j2, j3⟩ := h2
    have l2 := shellCells_level LDim j a b (by omega) j3
    omega

/-- The cells up to shell `n + 1`: no cell occurs twice. -/
theorem cells_nodup (LDim : ℤ) (hL : LDim = 1 ∨ LDim = 2) (n : ℕ) :
    (innerBlock_spec LDim ++ shellsFrom LDim 2 n).Nodup := by
  rw [List.nodup_append]
  refine ⟨innerBlock_spec_nodup LDim, shellsFrom_nodup LDim n 2 (by omega), ?_⟩
  rintro ⟨a, b⟩ h1 h2
  rw [mem_shellsFrom] at h2
  obtain ⟨j, j1, j2, j3⟩ := h2
  have l2 := shellCells_level LDim j a b (by omega) j3
  have ha := abs_cases a
  have hb := abs_cases b
  rcases hL with h | h
  · subst h
    rw [mem_innerBlock_spec_1D] at h1
    omega
  · subst h
    rw [mem_innerBlock_spec_2D] at h1
    omega

theorem mem_cells_2D (n : ℕ) (a b : ℤ) :
    (a, b) ∈ innerBlock_spec 2 ++ shellsFrom 2 2 n ↔ max |a| |b| ≤ (n : ℤ) + 1 := by
  rw [List.mem_append, mem_innerBlock_spec_2D, mem_shellsFrom_2D 2 (by decide)]
  have ha := abs_cases a
  have hb := abs_cases b
  omega

theorem mem_cells_1D (n : ℕ) (a b : ℤ) :
    (a, b) ∈ innerBlock_spec 1 ++ shellsFrom 1 2 n ↔ |a| ≤ (n : ℤ) + 1 ∧ b = 0 := by
  rw [List.mem_append, mem_innerBlock_spec_1D, mem_shellsFrom_1D]
  have ha := abs_cases a
  omega

theorem nearbyShell_trace (lib : Libm F) (R : Vec3 F) (k : cdouble F) (kBloch : Vec2 F)
    (LBV : Mat2 F) (LDim : ℤ) (E : F) (NN : ℤ) (st : NearbyState F) :
    (nearbyShell lib R k kBloch LBV LDim E NN st).trace = st.trace ++ shellCells LDim NN := by
  unfold nearbyShell shellCells
  split_ifs
  · simp [nearbyCell]
  · generalize intRange (-NN) (NN - 1) = l
    induction l generalizing st with
    | nil => simp [perimeterCells]
    | cons n l ih =>
      rw [List.foldl_cons, ih]
      simp [nearbyCell, perimeterCells]

theorem AddGLong2D_trace (lib : Libm F) (R : Vec3 F) (k : cdouble F) (P : Vec2 F)
    (n1 n2 : ℤ) (Gamma : Mat2 F) (E : F) (st : DistantState F) :
    (AddGLong2D lib R k P n1 n2 Gamma E st).trace = st.trace ++ [(n1, n2)] := by
  unfold AddGLong2D
  simp only
  split_ifs <;> rfl

theorem AddGLong1D_trace (lib : Libm F) (R : Vec3 F) (Rho : F) (k : cdouble F) (P : Vec2 F)
    (mm : ℤ) (Gamma : Mat2 F) (E : F) (st st1 : DistantState F)
    (h : AddGLong1D lib R Rho k P mm Gamma E st = .ok st1) :
    st1.trace = st.trace ++ [(mm, 0)] := by
  unfold AddGLong1D at h
  simp only at h
  by_cases h1 : st.Singular = true
  · rw [if_pos h1] at h
    simp only [Except.ok.injEq] at h
    subst h
    rfl
  · rw [if_neg h1] at h
    by_cases h2 : P.y - (mm : F) * Gamma.a01 ≠ 0
    · rw [if_pos h2] at h
      cases h
    · rw [if_neg h2] at h
      simp only [Except.ok.injEq] at h
      subst h
      rfl

theorem distantShell_trace (lib : Libm F) (R : Vec3 F) (Rho : F) (k : cdouble F)
    (P : Vec2 F) (Gamma : Mat2 F) (LDim : ℤ) (E : F) (NN : ℤ) (st st1 : DistantState F)
    (h : distantShell lib R Rho k P Gamma LDim E NN st = .ok st1) :
    st1.trace = st.trace ++ shellCells LDim NN := by
  unfold distantShell at h
  unfold shellCells
  split_ifs at h ⊢
  · cases h1 : AddGLong1D lib R Rho k P NN Gamma E st with
    | error e =>
      rw [h1] at h
      cases h
    | ok s1 =>
      rw [h1] at h
      simp only at h
      cases h2 : AddGLong1D lib R Rho k P (-NN) Gamma E s1 with
      | error e =>
        rw [h2] at h
        cases h
      | ok s2 =>
        rw [h2] at h
        simp only [Except.ok.injEq] at h
        rw [← h]
        simp only
        rw [AddGLong1D_trace lib R Rho k P (-NN) Gamma E s1 s2 h2,
          AddGLong1D_trace lib R Rho k P NN Gamma E st s1 h1]
        simp
  · simp only [Except.ok.injEq] at h
    rw [← h]
    generalize intRange (-NN) (NN - 1) = l
    clear h
    induction l generalizing st with
    | nil => simp [perimeterCells]
    | cons n l ih =>
      rw [List.foldl_cons, ih]
      simp [AddGLong2D_trace, perimeterCells]

theorem distantFirstRound_trace (lib : Libm F) (R : Vec3 F) (Rho : F) (k : cdouble F)
    (P : Vec2 F) (Gamma : Mat2 F) (LDim : ℤ) (hL : LDim = 1 ∨ LDim = 2) (E : F)
    (st1 : DistantState F)
    (h : distantFirstRound lib R Rho k P Gamma LDim E
      { Sum := Sum8.zero, Singular := false, nCells := 0, trace := [] } = .ok st1) :
    st1.trace = innerBlock_spec LDim := by
  unfold distantFirstRound at h
  unfold innerBlock_spec
  rw [intRange_first] at h
  rcases hL with hL | hL
  · subst hL
    rw [if_pos rfl] at h
    rw [if_neg (by decide)]
    simp only [foldErr] at h
    cases h1 : AddGLong1D lib R Rho k P (-1) Gamma E
        { Sum := Sum8.zero, Singular := false, nCells := 0, trace := [] } with
    | error e =>
      rw [h1] at h
      cases h
    | ok s1 =>
      rw [h1] at h
      simp only at h
      cases h2 : AddGLong1D lib R Rho k P 0 Gamma E s1 with
      | error e =>
        rw [h2] at h
        cases h
      | ok s2 =>
        rw [h2] at h
        simp only at h
        cases h3 : AddGLong1D lib R Rho k P 1 Gamma E s2 with
        | error e =>
          rw [h3] at h
          cases h
        | ok s3 =>
          rw [h3] at h
          simp only [Except.ok.injEq] at h
          rw [← h, AddGLong1D_trace lib R Rho k P 1 Gamma E s2 s3 h3,
            AddGLong1D_trace lib R Rho k P 0 Gamma E s1 s2 h2,
            AddGLong1D_trace lib R Rho k P (-1) Gamma E _ s1 h1]
          rfl
  · subst hL
    rw [if_neg (by decide)] at h
    rw [if_pos rfl]
    simp only [Except.ok.injEq] at h
    rw [← h]
    simp [List.foldl_cons, List.foldl_nil, AddGLong2D_trace]

theorem distantLoop_trace (lib : Libm F) (R : Vec3 F) (Rho : F) (k : cdouble F)
    (P : Vec2 F) (Gamma : Mat2 F) (LDim : ℤ) (E : F) (fuel : ℕ) :
    ∀ (NN : ℤ) (CI : ℕ) (st : DistantState F) (Last : Sum8 F) (st2 : DistantState F),
      distantLoop lib R Rho k P Gamma LDim E fuel NN CI st Last = .ok st2 →
      ∃ n : ℕ, st2.trace = st.trace ++ shellsFrom LDim NN n := by
  induction fuel with
  | zero =>
    intro NN CI st Last st2 h
    simp only [distantLoop, Except.ok.injEq] at h
    exact ⟨0, by simp [shellsFrom, h]⟩
  | succ fuel ih =>
    intro NN CI st Last st2 h
    unfold distantLoop at h
    by_cases hc : CI < 3 ∧ NN ≤ NMAX
    · rw [if_pos hc] at h
      cases hsh : distantShell lib R Rho k P Gamma LDim E NN st with
      | error e =>
        rw [hsh] at h
        cases h
      | ok s1 =>
        rw [hsh] at h
        simp only at h
        have ht := distantShell_trace lib R Rho k P Gamma LDim E NN st s1 hsh
        by_cases hsg : s1.Singular = true
        · rw [if_pos hsg] at h
          simp only [Except.ok.injEq] at h
          exact ⟨1, by simp [shellsFrom, ← h, ht]⟩
        · rw [if_neg hsg] at h
          obtain ⟨n, hn⟩ := ih _ _ _ _ _ h
          exact ⟨n + 1, by rw [hn, ht, shellsFrom, List.append_assoc]⟩
    · rw [if_neg hc] at h
      simp only [Except.ok.injEq] at h
      exact ⟨0, by simp [shellsFrom, h]⟩

/-- Every result of `GetGBarDistant` with `E ≠ 0` comes from calls for the
inner block followed by a number of complete shells. -/
theorem GetGBarDistant_trace (lib : Libm F) (R : Vec3 F) (Rho : F) (k : cdouble F)
    (P : Vec2 F) (Gamma : Mat2 F) (LDim : ℤ) (hL : LDim = 1 ∨ LDim = 2) (E : F)
    (hE : E ≠ 0) (D : DistantResult F)
    (hD : GetGBarDistant lib R Rho k P Gamma LDim E = .ok D) :
    ∃ n : ℕ, D.trace = innerBlock_spec LDim ++ shellsFrom LDim 2 n := by
  unfold GetGBarDistant at hD
  rw [if_neg hE] at hD
  cases h1 : distantFirstRound lib R Rho k P Gamma LDim E
      { Sum := Sum8.zero, Singular := false, nCells := 0, trace := [] } with
  | error e =>
    rw [h1] at hD
    cases hD
  | ok st1 =>
    rw [h1] at hD
    simp only at hD
    have t1 := distantFirstRound_trace lib R Rho k P Gamma LDim hL E st1 h1
    by_cases hs1 : st1.Singular = true
    · rw [if_pos hs1] at hD
      simp only [Except.ok.injEq] at hD
      exact ⟨0, by simp [shellsFrom, ← hD, t1]⟩
    · rw [if_neg hs1] at hD
      cases h2 : distantLoop lib R Rho k P Gamma LDim E NMAX.toNat (NFIRSTROUND + 1) 0
          st1 st1.Sum with
      | error e =>
        rw [h2] at hD
        cases hD
      | ok st2 =>
        rw [h2] at hD
        simp only at hD
        obtain ⟨n, hn⟩ := distantLoop_trace lib R Rho k P Gamma LDim E _ _ _ _ _ _ h2
        rw [t1] at hn
        have e2 : NFIRSTROUND + 1 = 2 := rfl
        rw [e2] at hn
        by_cases hs2 : st2.Singular = true
        · rw [if_pos hs2] at hD
          simp only [Except.ok.injEq] at hD
          exact ⟨n, by rw [← hD]; exact hn⟩
        · rw [if_neg hs2] at hD
          simp only [Except.ok.injEq] at hD
          exact ⟨n, by rw [← hD]; exact hn⟩

/-- For `LDim = 2`, `GetRLBasis` raises a fatal error exactly when the signed
area is 0, and the error is then "lattice has empty unit cell". -/
theorem GetRLBasis_2D_error_iff (lib : Libm F) (L : Mat2 F) (k : cdouble F) (R : Vec3 F) :
    ((∃ e, GetRLBasis lib 2 L k R = .error e) ↔ L.a00 * L.a11 - L.a01 * L.a10 = 0)
    ∧ (L.a00 * L.a11 - L.a01 * L.a10 = 0 →
        GetRLBasis lib 2 L k R = .error Fatal.emptyUnitCell) := by
  have hz : L.a00 * L.a11 - L.a01 * L.a10 = 0 →
      GetRLBasis lib 2 L k R = .error Fatal.emptyUnitCell := by
    intro h
    simp [GetRLBasis, h]
  refine ⟨⟨?_, fun h => ⟨_, hz h⟩⟩, hz⟩
  rintro ⟨e, he⟩
  by_contra h
  obtain ⟨rl, hrl, _⟩ := GetRLBasis_2D_ok lib L k R h
  rw [hrl] at he
  cases he

/-- For a basis of nonzero signed area, the rows that `GetRLBasis` stores in
`Gamma` are the dual basis of the rows of `L` (`Gamma_i · L_j = 2π` for
`i = j`, `0` otherwise) exactly when `L1y = L2x`. -/
theorem GetRLBasis_2D_dual_iff (lib : Libm F) (L : Mat2 F) (k : cdouble F) (R : Vec3 F)
    (hA : L.a00 * L.a11 - L.a01 * L.a10 ≠ 0) :
    ∃ rl, GetRLBasis lib 2 L k R = .ok rl
      ∧ ((rl.Gamma.a00 * L.a00 + rl.Gamma.a01 * L.a01 = 2 * M_PI
          ∧ rl.Gamma.a00 * L.a10 + rl.Gamma.a01 * L.a11 = 0
          ∧ rl.Gamma.a10 * L.a00 + rl.Gamma.a11 * L.a01 = 0
          ∧ rl.Gamma.a10 * L.a10 + rl.Gamma.a11 * L.a11 = 2 * M_PI)
        ↔ L.a01 = L.a10) := by
  obtain ⟨rl, hrl, hG, _⟩ := GetRLBasis_2D_ok lib L k R hA
  refine ⟨rl, hrl, ?_⟩
  have hpi : (M_PI : F) ≠ 0 := M_PI_pos.ne'
  have hGu : ∀ x : F, 2 * M_PI * x / (L.a00 * L.a11 - L.a01 * L.a10)
      = (2 * M_PI / (L.a00 * L.a11 - L.a01 * L.a10)) * x := fun x => by ring
  have hGn : ∀ x : F, -2 * M_PI * x / (L.a00 * L.a11 - L.a01 * L.a10)
      = -((2 * M_PI / (L.a00 * L.a11 - L.a01 * L.a10)) * x) := fun x => by ring
  have huA : (2 * M_PI / (L.a00 * L.a11 - L.a01 * L.a10))
      * (L.a00 * L.a11 - L.a01 * L.a10) = 2 * M_PI := div_mul_cancel₀ _ hA
  have hu0 : 2 * M_PI / (L.a00 * L.a11 - L.a01 * L.a10) ≠ 0 :=
    div_ne_zero (mul_ne_zero two_ne_zero hpi) hA
  obtain ⟨u, hu0, huA, hGu, hGn⟩ : ∃ u : F, u ≠ 0
      ∧ u * (L.a00 * L.a11 - L.a01 * L.a10) = 2 * M_PI
      ∧ (∀ x : F, 2 * M_PI * x / (L.a00 * L.a11 - L.a01 * L.a10) = u * x)
      ∧ (∀ x : F, -2 * M_PI * x / (L.a00 * L.a11 - L.a01 * L.a10) = -(u * x)) :=
    ⟨_, hu0, huA, hGu, hGn⟩
  rw [hG]
  simp only [hGu, hGn]
  rw [← huA]
  constructor
  · rintro ⟨h1, h2, h3, -⟩
    by_contra hne
    have hd : L.a01 - L.a10 ≠ 0 := sub_ne_zero.mpr hne
    have e1 : u * (L.a01 * (L.a01 - L.a10)) = 0 := by linear_combination -h1
    have e2 : u * (L.a11 * (L.a01 - L.a10)) = 0 := by linear_combination -h2
    have z01 : L.a01 = 0 :=
      (mul_eq_zero.mp ((mul_eq_zero.mp e1).resolve_left hu0)).resolve_right hd
    have z11 : L.a11 = 0 :=
      (mul_eq_zero.mp ((mul_eq_zero.mp e2).resolve_left hu0)).resolve_right hd
    apply hA
    rw [z11, z01]
    ring
  · intro h
    rw [h]
    refine ⟨?_, ?_, ?_, ?_⟩ <;> ring

end Lemmas

/-! ## The claims -/

section Claims

variable {F : Type} [LinearOrderedField F]

/-- C1: called with wavenumber `k = 0`, `GBarVDEwald` returns the 8-slot
output with every slot exactly 0, for every point, Bloch vector, lattice
basis, lattice dimension, splitting parameter and exclusion flag. -/
theorem C1_k_zero_all_slots_zero (lib : Libm F) (R : Vec3 F) (kBloch0 : Vec2 F)
    (LBV : Mat2 F) (LDim : ℤ) (E : F) (Excl : Bool) :
    GBarVDEwald lib R 0 kBloch0 LBV LDim E Excl = .ok ⟨0, 0, 0, 0, 0, 0, 0, 0⟩ :=
  GBarVDEwald_of_k_zero lib R kBloch0 LBV LDim E Excl

/-- C2 fails as stated: with `LDim = 3` and `k = 0` the call raises no error
and returns the zero vector. -/
theorem C2_counterexample :
    GBarVDEwald refLibm ⟨0, 0, 1⟩ 0 ⟨0, 0⟩ ⟨1, 0, 0, 1⟩ 3 1 false = .ok Sum8.zero :=
  GBarVDEwald_of_k_zero refLibm _ _ _ _ _ _

/-- C2, amended: for every input with `k ≠ 0` whose `LDim` is neither 1 nor
2, `GBarVDEwald` fails with the fatal error "only 1D or 2D periodicity
implemented" and returns no result, whatever the other arguments. -/
theorem C2_bad_LDim_fatal_when_k_ne_zero (lib : Libm F) (R : Vec3 F) (k : cdouble F)
    (kBloch0 : Vec2 F) (LBV : Mat2 F) (LDim : ℤ) (E : F) (Excl : Bool)
    (hk : k ≠ 0) (h1 : LDim ≠ 1) (h2 : LDim ≠ 2) :
    GBarVDEwald lib R k kBloch0 LBV LDim E Excl = .error Fatal.only1Dor2D := by
  unfold GBarVDEwald
  rw [if_neg hk, GetRLBasis_bad_LDim lib LDim LBV k R h1 h2]

/-- C2, amended, at `LDim = 3`, `k = 1`, unit square basis. -/
theorem C2_witness :
    GBarVDEwald refLibm ⟨0, 0, 1⟩ ⟨1, 0⟩ ⟨0, 0⟩ ⟨1, 0, 0, 1⟩ 3 1 false
      = .error Fatal.only1Dor2D :=
  C2_bad_LDim_fatal_when_k_ne_zero refLibm ⟨0, 0, 1⟩ ⟨1, 0⟩ ⟨0, 0⟩ ⟨1, 0, 0, 1⟩ 3 1 false
    (by decide) (by decide) (by decide)

/-- C3, the code at the basis `L1 = (2, 1)`, `L2 = (0, 1)` (signed area 2):
`GetRLBasis` raises no error and stores `Gamma_1 = (π, -π)` and
`Gamma_2 = (0, 2π)`, so that `Gamma_1 · L_1 = π`, `Gamma_1 · L_2 = -π` and
`Gamma_2 · L_1 = 2π`, where the reciprocal basis, `(π, 0)` and `(-π, 2π)`, has
`2π`, `0` and `0`: the stored rows are not the reciprocal basis.  At the
degenerate basis `(1, 0)`, `(2, 0)` (signed area 0) the error "lattice has
empty unit cell" is raised. -/
theorem C3_Gamma_not_reciprocal_at_sheared_basis :
    ((2 : ℚ) * 1 - 1 * 0 ≠ 0)
    ∧ (∃ rl, GetRLBasis refLibm 2 ⟨2, 1, 0, 1⟩ ⟨1, 0⟩ ⟨0, 0, 1⟩ = .ok rl
      ∧ rl.Gamma = ⟨M_PI, -M_PI, 0, 2 * M_PI⟩
      ∧ rl.Gamma.a00 * 2 + rl.Gamma.a01 * 1 = M_PI
      ∧ rl.Gamma.a00 * 0 + rl.Gamma.a01 * 1 = -M_PI
      ∧ rl.Gamma.a10 * 2 + rl.Gamma.a11 * 1 = 2 * M_PI
      ∧ rl.Gamma.a10 * 0 + rl.Gamma.a11 * 1 = 2 * M_PI
      ∧ ¬ (rl.Gamma.a00 * 2 + rl.Gamma.a01 * 1 = 2 * M_PI
          ∧ rl.Gamma.a00 * 0 + rl.Gamma.a01 * 1 = 0
          ∧ rl.Gamma.a10 * 2 + rl.Gamma.a11 * 1 = 0
          ∧ rl.Gamma.a10 * 0 + rl.Gamma.a11 * 1 = 2 * M_PI))
    ∧ ((M_PI : ℚ) * 2 + 0 * 1 = 2 * M_PI ∧ (M_PI : ℚ) * 0 + 0 * 1 = 0
      ∧ (-M_PI : ℚ) * 2 + 2 * M_PI * 1 = 0 ∧ (-M_PI : ℚ) * 0 + 2 * M_PI * 1 = 2 * M_PI)
    ∧ (M_PI : ℚ) ≠ 2 * M_PI ∧ (-M_PI : ℚ) ≠ 0 ∧ (2 * M_PI : ℚ) ≠ 0
    ∧ GetRLBasis refLibm 2 ⟨1, 0, 2, 0⟩ ⟨1, 0⟩ ⟨0, 0, 1⟩ = .error Fatal.emptyUnitCell := by
  obtain ⟨rl, hrl, hG, _⟩ :=
    GetRLBasis_2D_ok refLibm ⟨2, 1, 0, 1⟩ ⟨1, 0⟩ ⟨0, 0, 1⟩ (by norm_num)
  obtain ⟨rl2, hrl2, hiff⟩ :=
    GetRLBasis_2D_dual_iff refLibm ⟨2, 1, 0, 1⟩ ⟨1, 0⟩ ⟨0, 0, 1⟩ (by norm_num)
  rw [hrl] at hrl2
  cases hrl2
  have hG1 : rl.Gamma = ⟨M_PI, -M_PI, 0, 2 * M_PI⟩ := by
    rw [hG]
    norm_num [M_PI]
  refine ⟨by norm_num, ⟨rl, hrl, hG1, ?_, ?_, ?_, ?_, ?_⟩, ⟨by ring, by ring, by ring, by ring⟩,
    by norm_num [M_PI], by norm_num [M_PI], by norm_num [M_PI], ?_⟩
  · rw [hG1]; norm_num [M_PI]
  · rw [hG1]; norm_num [M_PI]
  · rw [hG1]; norm_num [M_PI]
  · rw [hG1]; norm_num [M_PI]
  · intro h
    exact absurd (hiff.mp h) (by norm_num)
  · exact (GetRLBasis_2D_error_iff refLibm ⟨1, 0, 2, 0⟩ ⟨1, 0⟩ ⟨0, 0, 1⟩).2 (by norm_num)

/-- C4 fails as stated: a 1D lattice along y (`L1 = (0,1)`, nonzero), `k = 1`,
`E = 1` raises the fatal error "1D lattice vectors must point in the x
direction". -/
theorem C4_counterexample :
    GBarVDEwald refLibm ⟨0, 0, 1⟩ ⟨1, 0⟩ ⟨0, 0⟩ ⟨0, 1, 0, 0⟩ 1 1 false
      = .error Fatal.lattice1DNotAlongX :=
  GBarVDEwald_1D_error refLibm ⟨0, 0, 1⟩ ⟨1, 0⟩ ⟨0, 0⟩ ⟨0, 1, 0, 0⟩ 1 false
    (by decide) (by norm_num [M_PI]) (by norm_num) (by norm_num)

/-- C4, amended: `GBarVDEwald` has a third fatal error.  For every input with
`LDim = 1` and a nonzero lattice vector that lies along x (`L1y = 0`) or with
`E = 0`, or with `LDim = 2` and nonzero signed cell area, it raises no fatal
error and returns an 8-slot value, for every splitting parameter.  For
`LDim = 1`, `L1y ≠ 0`, `k ≠ 0` and `E` neither 0 nor -1 it raises the fatal
error "1D lattice vectors must point in the x direction". -/
theorem C4_fatal_errors_of_GBarVDEwald (lib : Libm F) (R : Vec3 F) (k : cdouble F)
    (kBloch0 : Vec2 F) (LBV : Mat2 F) (LDim : ℤ) (E : F) (Excl : Bool) :
    (((LDim = 1 ∧ (LBV.a00 ≠ 0 ∨ LBV.a01 ≠ 0) ∧ (LBV.a01 = 0 ∨ E = 0))
        ∨ (LDim = 2 ∧ LBV.a00 * LBV.a11 - LBV.a01 * LBV.a10 ≠ 0)) →
      ∃ G, GBarVDEwald lib R k kBloch0 LBV LDim E Excl = .ok G)
    ∧ (LDim = 1 → LBV.a01 ≠ 0 → k ≠ 0 → E ≠ 0 → E ≠ -1 →
      GBarVDEwald lib R k kBloch0 LBV LDim E Excl = .error Fatal.lattice1DNotAlongX) := by
  constructor
  · intro h
    by_cases hk : k = 0
    · subst hk
      exact ⟨_, GBarVDEwald_of_k_zero lib R kBloch0 LBV LDim E Excl⟩
    · unfold GBarVDEwald
      rw [if_neg hk]
      rcases h with ⟨hL, _, h2⟩ | ⟨hL, hA⟩
      · subst hL
        simp only [GetRLBasis, if_true]
        apply GBarVDEwald_sums_ok
        intro _
        rcases h2 with h2 | h2
        · left
          simp [h2]
        · right
          subst h2
          norm_num
      · subst hL
        obtain ⟨rl, hrl, _⟩ := GetRLBasis_2D_ok lib LBV k R hA
        rw [hrl]
        apply GBarVDEwald_sums_ok
        intro h1
        exact absurd h1 (by decide)
  · intro hL h01 hk hE0 hE1
    subst hL
    apply GBarVDEwald_1D_error lib R k kBloch0 LBV E Excl hk _ hE0 hE1
    have hL2 : 0 < LBV.a00 * LBV.a00 + LBV.a01 * LBV.a01 := by
      have := mul_self_nonneg LBV.a00
      have := mul_self_pos.mpr h01
      linarith
    exact mul_ne_zero (div_ne_zero (mul_ne_zero two_ne_zero M_PI_pos.ne') hL2.ne') h01

/-- C4, amended, at a 1D lattice along x (no error), at the unit square in 2D
(no error), and at a 1D lattice with a y-component (the third fatal error). -/
theorem C4_witness :
    (∃ G, GBarVDEwald refLibm ⟨0, 0, 1⟩ ⟨1, 0⟩ ⟨0, 0⟩ ⟨1, 0, 0, 0⟩ 1 1 false = .ok G)
    ∧ (∃ G, GBarVDEwald refLibm ⟨0, 0, 1⟩ ⟨1, 0⟩ ⟨0, 0⟩ ⟨1, 0, 0, 1⟩ 2 1 true = .ok G)
    ∧ GBarVDEwald refLibm ⟨0, 0, 1⟩ ⟨1, 0⟩ ⟨0, 0⟩ ⟨1, 1, 0, 0⟩ 1 1 false
        = .error Fatal.lattice1DNotAlongX :=
  ⟨(C4_fatal_errors_of_GBarVDEwald refLibm ⟨0, 0, 1⟩ ⟨1, 0⟩ ⟨0, 0⟩ ⟨1, 0, 0, 0⟩ 1 1 false).1
      (Or.inl ⟨rfl, Or.inl (by norm_num), Or.inl rfl⟩),
   (C4_fatal_errors_of_GBarVDEwald refLibm ⟨0, 0, 1⟩ ⟨1, 0⟩ ⟨0, 0⟩ ⟨1, 0, 0, 1⟩ 2 1 true).1
      (Or.inr ⟨rfl, by norm_num⟩),
   (C4_fatal_errors_of_GBarVDEwald refLibm ⟨0, 0, 1⟩ ⟨1, 0⟩ ⟨0, 0⟩ ⟨1, 1, 0, 0⟩ 1 1 false).2
      rfl (by norm_num) (by decide) (by norm_num) (by norm_num)⟩

/-- C5: called with splitting parameter `E = 0`, `GetGBarDistant` sets all
eight sums to 0, calls neither `AddGLong1D` nor `AddGLong2D` (empty trace,
nothing stored through `pnCells`), and returns `Singular = false`, for every
point, wavenumber, Bloch vector, reciprocal basis and lattice dimension. -/
theorem C5_distant_sum_disabled_at_E_zero (lib : Libm F) (R : Vec3 F) (Rho : F)
    (k : cdouble F) (kBloch : Vec2 F) (Gamma : Mat2 F) (LDim : ℤ) :
    GetGBarDistant lib R Rho k kBloch Gamma LDim 0
      = .ok { Singular := false, Sum := ⟨0, 0, 0, 0, 0, 0, 0, 0⟩, pnCells := none,
              trace := [] } := by
  unfold GetGBarDistant
  rw [if_pos rfl]
  rfl

/-- C6: for `E = 0` and every cell index `(n1, n2)`, `AddGShort` has the same
effect on the eight running sums as `AddGFull` (with derivatives) at the
lattice vector `n1*L1` (1D) resp. `n1*L1 + n2*L2` (2D). -/
theorem C6_AddGShort_at_E_zero_is_AddGFull (lib : Libm F) (R : Vec3 F) (k : cdouble F)
    (kBloch : Vec2 F) (n1 n2 : ℤ) (LBV : Mat2 F) (Sum : Sum8 F) :
    AddGShort lib R k kBloch n1 n2 LBV 1 0 Sum
        = AddGFull lib R k kBloch ((n1 : F) * LBV.a00) ((n1 : F) * LBV.a01) Sum false
    ∧ AddGShort lib R k kBloch n1 n2 LBV 2 0 Sum
        = AddGFull lib R k kBloch ((n1 : F) * LBV.a00 + (n2 : F) * LBV.a10)
            ((n1 : F) * LBV.a01 + (n2 : F) * LBV.a11) Sum false := by
  constructor
  · unfold AddGShort
    rw [if_pos rfl]
    simp [cellVector]
  · unfold AddGShort
    rw [if_pos rfl]
    simp [cellVector]

/-- C7: when `GetRLBasis` succeeds with `EOpt`, `GBarVDEwald` called with the
sentinel `E = -1` returns the same result as called with `E = EOpt`; every
other value of `E` is passed unchanged to the rest of the function (for
`k ≠ 0`; for `k = 0` the result is the zero vector whatever `E` is). -/
theorem C7_sentinel_selects_EOpt (lib : Libm F) (R : Vec3 F) (k : cdouble F)
    (kBloch0 : Vec2 F) (LBV : Mat2 F) (LDim : ℤ) (E : F) (Excl : Bool) (rl : RLBasis F)
    (hrl : GetRLBasis lib LDim LBV k R = .ok rl) :
    GBarVDEwald lib R k kBloch0 LBV LDim (-1) Excl
        = GBarVDEwald lib R k kBloch0 LBV LDim rl.EOpt Excl
    ∧ (E ≠ -1 → k ≠ 0 →
        GBarVDEwald lib R k kBloch0 LBV LDim E Excl
          = GBarVDEwald_sums lib R k kBloch0 LBV LDim E Excl rl.Gamma rl.Rho) := by
  constructor
  · unfold GBarVDEwald
    by_cases hk : k = 0
    · rw [if_pos hk, if_pos hk]
    · rw [if_neg hk, if_neg hk, hrl]
      simp
  · intro hE hk
    unfold GBarVDEwald
    rw [if_neg hk, hrl]
    simp [hE]

/-- C7 at the unit square lattice, `k = 1`, `R = (0, 0, 1)`, `E = 1/2`. -/
theorem C7_witness :
    ∃ rl, GetRLBasis refLibm 2 ⟨1, 0, 0, 1⟩ ⟨1, 0⟩ ⟨0, 0, 1⟩ = .ok rl
      ∧ GBarVDEwald refLibm ⟨0, 0, 1⟩ ⟨1, 0⟩ ⟨0, 0⟩ ⟨1, 0, 0, 1⟩ 2 (-1) false
          = GBarVDEwald refLibm ⟨0, 0, 1⟩ ⟨1, 0⟩ ⟨0, 0⟩ ⟨1, 0, 0, 1⟩ 2 rl.EOpt false
      ∧ GBarVDEwald refLibm ⟨0, 0, 1⟩ ⟨1, 0⟩ ⟨0, 0⟩ ⟨1, 0, 0, 1⟩ 2 (1/2) false
          = GBarVDEwald_sums refLibm ⟨0, 0, 1⟩ ⟨1, 0⟩ ⟨0, 0⟩ ⟨1, 0, 0, 1⟩ 2 (1/2) false
              rl.Gamma rl.Rho := by
  obtain ⟨rl, hrl, _⟩ :=
    GetRLBasis_2D_ok refLibm ⟨1, 0, 0, 1⟩ ⟨1, 0⟩ ⟨0, 0, 1⟩ (by norm_num)
  have h7 := C7_sentinel_selects_EOpt refLibm ⟨0, 0, 1⟩ ⟨1, 0⟩ ⟨0, 0⟩ ⟨1, 0, 0, 1⟩ 2 (1/2)
    false rl hrl
  exact ⟨rl, hrl, h7.1, h7.2 (by norm_num) (by decide)⟩

/-- C8: for every `k ≠ 0` and every non-degenerate lattice (`LDim = 1` with
nonzero lattice vector, `LDim = 2` with nonzero signed area of either sign),
`GetRLBasis` succeeds with a strictly positive `EOpt`, and the call with
`E = -1` runs the sums with that positive splitting parameter.  Used facts of
the library: `sqrt x > 0` for `x > 0`, `abs(z) > 0` for `z ≠ 0`. -/
theorem C8_auto_selected_E_is_positive (lib : Libm F) (R : Vec3 F) (k : cdouble F)
    (kBloch0 : Vec2 F) (LBV : Mat2 F) (LDim : ℤ) (Excl : Bool)
    (hsqrt : ∀ x, 0 < x → 0 < lib.sqrt x) (hcabs : ∀ z, z ≠ 0 → 0 < lib.cabs z)
    (hk : k ≠ 0)
    (hL : (LDim = 1 ∧ (LBV.a00 ≠ 0 ∨ LBV.a01 ≠ 0))
      ∨ (LDim = 2 ∧ LBV.a00 * LBV.a11 - LBV.a01 * LBV.a10 ≠ 0)) :
    ∃ rl, GetRLBasis lib LDim LBV k R = .ok rl ∧ 0 < rl.EOpt
      ∧ GBarVDEwald lib R k kBloch0 LBV LDim (-1) Excl
          = GBarVDEwald_sums lib R k kBloch0 LBV LDim rl.EOpt Excl rl.Gamma rl.Rho := by
  have h : ∃ rl, GetRLBasis lib LDim LBV k R = .ok rl ∧ 0 < rl.EOpt := by
    rcases hL with ⟨h1, h2⟩ | ⟨h1, h2⟩
    · subst h1
      exact GetRLBasis_1D_EOpt_pos lib LBV k R hsqrt hcabs hk h2
    · subst h1
      exact GetRLBasis_2D_EOpt_pos lib LBV k R hsqrt hk h2
  obtain ⟨rl, hrl, hpos⟩ := h
  refine ⟨rl, hrl, hpos, ?_⟩
  unfold GBarVDEwald
  rw [if_neg hk, hrl]
  simp

/-- C8 at a 2D lattice of negative signed area (`L1 = (0,1)`, `L2 = (1,0)`),
`k = 1`. -/
theorem C8_witness :
    ∃ rl, GetRLBasis refLibm 2 ⟨0, 1, 1, 0⟩ ⟨1, 0⟩ ⟨0, 0, 1⟩ = .ok rl ∧ 0 < rl.EOpt
      ∧ GBarVDEwald refLibm ⟨0, 0, 1⟩ ⟨1, 0⟩ ⟨0, 0⟩ ⟨0, 1, 1, 0⟩ 2 (-1) false
          = GBarVDEwald_sums refLibm ⟨0, 0, 1⟩ ⟨1, 0⟩ ⟨0, 0⟩ ⟨0, 1, 1, 0⟩ 2 rl.EOpt false
              rl.Gamma rl.Rho :=
  C8_auto_selected_E_is_positive refLibm ⟨0, 0, 1⟩ ⟨1, 0⟩ ⟨0, 0⟩ ⟨0, 1, 1, 0⟩ 2 false
    refSqrt_pos refCabs_pos (by decide) (Or.inr ⟨rfl, by norm_num⟩)

/-- C9, the code at the oblique basis `L1 = (1, 0)`, `L2 = (1/2, 1)` (area 1):
`GetRLBasis` stores `Gamma_1 = (2π, 0)` and `Gamma_2 = (-π, 2π)`, so that
`Gamma_1 · L_2 = π`, `Gamma_2 · L_1 = -π` and `Gamma_2 · L_2 = 3π/2`, where the
dual basis has `0`, `0` and `2π`. -/
theorem C9_Gamma_at_oblique_basis :
    ∃ rl, GetRLBasis refLibm 2 ⟨1, 0, 1/2, 1⟩ ⟨1, 0⟩ ⟨0, 0, 1⟩ = .ok rl
      ∧ rl.Gamma = ⟨2 * M_PI, 0, -M_PI, 2 * M_PI⟩
      ∧ rl.Gamma.a00 * (1/2) + rl.Gamma.a01 * 1 = M_PI
      ∧ rl.Gamma.a10 * 1 + rl.Gamma.a11 * 0 = -M_PI
      ∧ rl.Gamma.a10 * (1/2) + rl.Gamma.a11 * 1 = 3 * M_PI / 2
      ∧ (M_PI : ℚ) ≠ 0 := by
  obtain ⟨rl, hrl, hG, _⟩ :=
    GetRLBasis_2D_ok refLibm ⟨1, 0, 1/2, 1⟩ ⟨1, 0⟩ ⟨0, 0, 1⟩ (by norm_num)
  have hG1 : rl.Gamma = ⟨2 * M_PI, 0, -M_PI, 2 * M_PI⟩ := by
    rw [hG]
    norm_num [M_PI]
  refine ⟨rl, hrl, hG1, ?_, ?_, ?_, M_PI_pos.ne'⟩
  · rw [hG1]; norm_num [M_PI]
  · rw [hG1]; norm_num [M_PI]
  · rw [hG1]; norm_num [M_PI]

/-- C10: reflection in the lattice plane.  For every input (any lattice
dimension and basis, `k`, Bloch vector, `E`, exclusion flag) and every point
`(x, y, z)`, `GBarVDEwald` at `(x, y, -z)` equals `GBarVDEwald` at `(x, y, z)`
with slots 3, 5, 6, 7 negated and slots 0, 1, 2, 4 unchanged (and raises the
same fatal error if that call raises one).  Used facts of the library:
`abs(-w) = abs(w)`, `IsFinite(-w) = IsFinite(w)`, `ISNAN(-x) = ISNAN(x)`. -/
theorem C10_reflection_in_lattice_plane (lib : Libm F)
    (hcabs : ∀ w, lib.cabs (-w) = lib.cabs w)
    (hfin : ∀ w, lib.IsFinite (-w) = lib.IsFinite w)
    (hnan : ∀ x, lib.ISNAN (-x) = lib.ISNAN x)
    (x y z : F) (k : cdouble F) (kBloch0 : Vec2 F) (LBV : Mat2 F) (LDim : ℤ) (E : F)
    (Excl : Bool) :
    GBarVDEwald lib ⟨x, y, -z⟩ k kBloch0 LBV LDim E Excl
      = (GBarVDEwald lib ⟨x, y, z⟩ k kBloch0 LBV LDim E Excl).map
          (fun G => ⟨G.s0, G.s1, G.s2, -G.s3, G.s4, -G.s5, -G.s6, -G.s7⟩) :=
  GBarVDEwald_negZ lib hcabs hfin hnan ⟨x, y, z⟩ k kBloch0 LBV LDim E Excl

/-- C10 at the unit square lattice, `k = 1`, point `(1/3, 1/5, 1)`, `E = 1`,
inner cells excluded. -/
theorem C10_witness :
    GBarVDEwald refLibm ⟨1/3, 1/5, -1⟩ ⟨1, 0⟩ ⟨0, 0⟩ ⟨1, 0, 0, 1⟩ 2 1 true
      = (GBarVDEwald refLibm ⟨1/3, 1/5, 1⟩ ⟨1, 0⟩ ⟨0, 0⟩ ⟨1, 0, 0, 1⟩ 2 1 true).map
          (fun G => ⟨G.s0, G.s1, G.s2, -G.s3, G.s4, -G.s5, -G.s6, -G.s7⟩) :=
  C10_reflection_in_lattice_plane refLibm refCabs_neg (fun _ => rfl) (fun _ => rfl)
    (1/3) (1/5) 1 ⟨1, 0⟩ ⟨0, 0⟩ ⟨1, 0, 0, 1⟩ 2 1 true

set_option maxRecDepth 100000 in
/-- C11, the code on the 1D path with `Rho*E > 4.5`: lattice `L1 = (1, 0)`
(`Gamma_1 = (2π, 0)`), `k = 1`, Bloch vector `(1, 0)`, `R = (0, 0, 5)`,
`Rho = 5`, `E = 1`.  The reciprocal-lattice vector `m = 0` has `P - G = (1, 0)`,
`|P - G|^2 - k^2 = 0`, so `|Q| < 1e-4 |k|`; `GetGBarDistant` calls `AddGLong1D`
for it (the index `(0, 0)` is in the trace), `GetGLongTwiddle1D` returns through
`GFullTwiddle1D` before its singularity test, and `GetGBarDistant` returns with
`Singular = false`. -/
theorem C11_far_branch_skips_singular_test :
    (5 : ℚ) * 1 > 4.5
    ∧ refLibm.cabs (refLibm.csqrt
        (ofReal ((1 - ((0 : ℤ) : ℚ) * (2 * M_PI)) * (1 - ((0 : ℤ) : ℚ) * (2 * M_PI))
          + (0 - ((0 : ℤ) : ℚ) * 0) * (0 - ((0 : ℤ) : ℚ) * 0)) - ⟨1, 0⟩ * ⟨1, 0⟩))
      < 1.0e-4 * refLibm.cabs ⟨1, 0⟩
    ∧ ∃ D, GetGBarDistant refLibm ⟨0, 0, 5⟩ 5 ⟨1, 0⟩ ⟨1, 0⟩ ⟨2 * M_PI, 0, 0, 0⟩ 1 1 = .ok D
        ∧ D.Singular = false ∧ ((0 : ℤ), (0 : ℤ)) ∈ D.trace := by
  refine ⟨by norm_num, by decide!, ?_⟩
  exact GetGBarDistant_1D_far refLibm ⟨0, 0, 5⟩ 5 ⟨1, 0⟩ ⟨1, 0⟩ ⟨2 * M_PI, 0, 0, 0⟩ 1 rfl rfl
    (by norm_num) (by norm_num)

/-- C12: for `k ≠ 0`, with `rl` the result of `GetRLBasis` and `E1` the
splitting parameter in force: if the distant sum at the caller's Bloch vector
is not singular, the result of `GBarVDEwald` is the combination (nearby +
distant, inner-cell correction) computed at that Bloch vector; if it is
singular, the result is the combination computed at the Bloch vector with
`1e-2 * |k|` added to its first component, from the nearby sum and the distant
sum `D1` recomputed there, whatever the flag `D1.Singular` is. -/
theorem C12_bounded_retry
    (lib : Libm F) (R : Vec3 F) (k : cdouble F) (kBloch0 : Vec2 F) (LBV : Mat2 F)
    (LDim : ℤ) (E : F) (Excl : Bool) (rl : RLBasis F) (E1 : F) (hk : k ≠ 0)
    (hrl : GetRLBasis lib LDim LBV k R = .ok rl)
    (hE1 : E1 = if E = -1 then rl.EOpt else E) :
    (∀ D, GetGBarDistant lib R rl.Rho k (copyBloch kBloch0 LDim) rl.Gamma LDim E1 = .ok D →
      D.Singular = false →
      GBarVDEwald lib R k kBloch0 LBV LDim E Excl
        = .ok (GBarVDEwald_combine lib R k (copyBloch kBloch0 LDim) LBV LDim E1 Excl
            (GetGBarNearby lib R k (copyBloch kBloch0 LDim) LBV LDim E1 Excl).Sum D.Sum))
    ∧ (∀ D D1,
      GetGBarDistant lib R rl.Rho k (copyBloch kBloch0 LDim) rl.Gamma LDim E1 = .ok D →
      D.Singular = true →
      GetGBarDistant lib R rl.Rho k
        ⟨(copyBloch kBloch0 LDim).x + 1.0e-2 * lib.cabs k, (copyBloch kBloch0 LDim).y⟩
        rl.Gamma LDim E1 = .ok D1 →
      GBarVDEwald lib R k kBloch0 LBV LDim E Excl
        = .ok (GBarVDEwald_combine lib R k
            ⟨(copyBloch kBloch0 LDim).x + 1.0e-2 * lib.cabs k, (copyBloch kBloch0 LDim).y⟩
            LBV LDim E1 Excl
            (GetGBarNearby lib R k
              ⟨(copyBloch kBloch0 LDim).x + 1.0e-2 * lib.cabs k, (copyBloch kBloch0 LDim).y⟩
              LBV LDim E1 Excl).Sum D1.Sum)) := by
  subst hE1
  rw [GBarVDEwald_unfold lib R k kBloch0 LBV LDim E Excl rl hk hrl]
  exact ⟨fun D hD hs => GBarVDEwald_sums_nonsingular lib R k kBloch0 LBV LDim _ Excl _ _ D hD hs,
    fun D D1 hD hs hD1 =>
      GBarVDEwald_sums_singular lib R k kBloch0 LBV LDim _ Excl _ _ D D1 hD hs hD1⟩

set_option maxRecDepth 100000 in
/-- C12 at the unit square lattice, `k = 1`, `R = (0, 0, 1)`: with `E = 0` the
distant sum is not singular and the caller's Bloch vector `(0, 0)` is used;
with `E = 1` and Bloch vector `(1 - 2π, -2π)` the first reciprocal-lattice
vector `(-1, -1)` gives `P - G = (1, 0)`, the distant sum is singular and the
result is the one computed at the perturbed Bloch vector. -/
theorem C12_witness :
    (∃ rl D, GetRLBasis refLibm 2 ⟨1, 0, 0, 1⟩ ⟨1, 0⟩ ⟨0, 0, 1⟩ = .ok rl
      ∧ GetGBarDistant refLibm ⟨0, 0, 1⟩ rl.Rho ⟨1, 0⟩ (copyBloch ⟨0, 0⟩ 2) rl.Gamma 2 0 = .ok D
      ∧ D.Singular = false
      ∧ GBarVDEwald refLibm ⟨0, 0, 1⟩ ⟨1, 0⟩ ⟨0, 0⟩ ⟨1, 0, 0, 1⟩ 2 0 true
        = .ok (GBarVDEwald_combine refLibm ⟨0, 0, 1⟩ ⟨1, 0⟩ (copyBloch ⟨0, 0⟩ 2) ⟨1, 0, 0, 1⟩ 2 0
            true
            (GetGBarNearby refLibm ⟨0, 0, 1⟩ ⟨1, 0⟩ (copyBloch ⟨0, 0⟩ 2) ⟨1, 0, 0, 1⟩ 2 0
              true).Sum D.Sum))
    ∧ (∃ rl D D1, GetRLBasis refLibm 2 ⟨1, 0, 0, 1⟩ ⟨1, 0⟩ ⟨0, 0, 1⟩ = .ok rl
      ∧ GetGBarDistant refLibm ⟨0, 0, 1⟩ rl.Rho ⟨1, 0⟩
          (copyBloch ⟨1 - 2 * M_PI, -2 * M_PI⟩ 2) rl.Gamma 2 1 = .ok D
      ∧ D.Singular = true
      ∧ GetGBarDistant refLibm ⟨0, 0, 1⟩ rl.Rho ⟨1, 0⟩
          ⟨(copyBloch ⟨1 - 2 * M_PI, -2 * M_PI⟩ 2).x + 1.0e-2 * refLibm.cabs ⟨1, 0⟩,
            (copyBloch ⟨1 - 2 * M_PI, -2 * M_PI⟩ 2).y⟩ rl.Gamma 2 1 = .ok D1
      ∧ GBarVDEwald refLibm ⟨0, 0, 1⟩ ⟨1, 0⟩ ⟨1 - 2 * M_PI, -2 * M_PI⟩ ⟨1, 0, 0, 1⟩ 2 1 true
        = .ok (GBarVDEwald_combine refLibm ⟨0, 0, 1⟩ ⟨1, 0⟩
            ⟨(copyBloch ⟨1 - 2 * M_PI, -2 * M_PI⟩ 2).x + 1.0e-2 * refLibm.cabs ⟨1, 0⟩,
              (copyBloch ⟨1 - 2 * M_PI, -2 * M_PI⟩ 2).y⟩ ⟨1, 0, 0, 1⟩ 2 1 true
            (GetGBarNearby refLibm ⟨0, 0, 1⟩ ⟨1, 0⟩
              ⟨(copyBloch ⟨1 - 2 * M_PI, -2 * M_PI⟩ 2).x + 1.0e-2 * refLibm.cabs ⟨1, 0⟩,
                (copyBloch ⟨1 - 2 * M_PI, -2 * M_PI⟩ 2).y⟩ ⟨1, 0, 0, 1⟩ 2 1 true).Sum
            D1.Sum)) := by
  obtain ⟨rl, hrl, hG, _⟩ :=
    GetRLBasis_2D_ok refLibm ⟨1, 0, 0, 1⟩ ⟨1, 0⟩ ⟨0, 0, 1⟩ (by norm_num)
  constructor
  · have hD := GetGBarDistant_E_zero refLibm ⟨0, 0, 1⟩ rl.Rho ⟨1, 0⟩ (copyBloch ⟨0, 0⟩ 2)
      rl.Gamma 2
    exact ⟨rl, _, hrl, hD, rfl,
      (C12_bounded_retry refLibm ⟨0, 0, 1⟩ ⟨1, 0⟩ ⟨0, 0⟩ ⟨1, 0, 0, 1⟩ 2 0 true rl 0 (by decide) hrl
        (by norm_num)).1 _ hD rfl⟩
  · obtain ⟨D, hD, hs, _⟩ := GetGBarDistant_2D_singular refLibm ⟨0, 0, 1⟩ rl.Rho ⟨1, 0⟩
      (copyBloch ⟨1 - 2 * M_PI, -2 * M_PI⟩ 2) rl.Gamma 2 1 (by decide) (by norm_num)
      (by rw [hG]; decide!)
    obtain ⟨D1, hD1⟩ := GetGBarDistant_ok refLibm ⟨0, 0, 1⟩ rl.Rho ⟨1, 0⟩
      ⟨(copyBloch ⟨1 - 2 * M_PI, -2 * M_PI⟩ 2).x + 1.0e-2 * refLibm.cabs ⟨1, 0⟩,
        (copyBloch ⟨1 - 2 * M_PI, -2 * M_PI⟩ 2).y⟩ rl.Gamma 2 1
      (fun h => absurd h (by decide))
    exact ⟨rl, D, D1, hrl, hD, hs, hD1,
      (C12_bounded_retry refLibm ⟨0, 0, 1⟩ ⟨1, 0⟩ ⟨1 - 2 * M_PI, -2 * M_PI⟩ ⟨1, 0, 0, 1⟩ 2 1 true
          rl 1
        (by decide) hrl (by norm_num)).2 D D1 hD hs hD1⟩

/-- C13: for `k ≠ 0`, every result `G` of `GBarVDEwald` is, for the reciprocal
basis `rl` of `GetRLBasis` (so `LDim` is 1 or 2), the splitting parameter `E1`
in force and the Bloch vector `kB` in force (the caller's, or the perturbed one
after a singular first distant sum), slot by slot `Nearby + Distant` when
`ExcludeInnerCells` is false and `Nearby + Distant` minus the sum of
`AddGLongRealSpace` over the inner block when it is true; the inner block is
the 9 cells `{-1,0,1} x {-1,0,1}` for `LDim = 2` and the 3 cells
`n1 = -1, 0, 1`, `n2 = 0` for `LDim = 1` (`innerBlock_spec`). -/
theorem C13_output_nearby_plus_distant_minus_inner_block
    (lib : Libm F) (R : Vec3 F) (k : cdouble F) (kBloch0 : Vec2 F)
    (LBV : Mat2 F) (LDim : ℤ) (E : F) (Excl : Bool) (G : Sum8 F) (hk : k ≠ 0)
    (hG : GBarVDEwald lib R k kBloch0 LBV LDim E Excl = .ok G) :
    ∃ rl kB D E1, GetRLBasis lib LDim LBV k R = .ok rl ∧ (LDim = 1 ∨ LDim = 2)
      ∧ E1 = (if E = -1 then rl.EOpt else E)
      ∧ (kB = copyBloch kBloch0 LDim
          ∨ kB = ⟨(copyBloch kBloch0 LDim).x + 1.0e-2 * lib.cabs k, (copyBloch kBloch0 LDim).y⟩)
      ∧ GetGBarDistant lib R rl.Rho k kB rl.Gamma LDim E1 = .ok D
      ∧ (Excl = false →
          G = (GetGBarNearby lib R k kB LBV LDim E1 Excl).Sum.add D.Sum)
      ∧ (Excl = true →
          G = ((GetGBarNearby lib R k kB LBV LDim E1 Excl).Sum.add D.Sum).sub
                (innerBlockSum_spec lib R k kB LBV LDim E1)) := by
  obtain ⟨rl, kB, D, hrl, hL, hkB, hD, hGeq⟩ :=
    GBarVDEwald_output lib R k kBloch0 LBV LDim E Excl G hk hG
  refine ⟨rl, kB, D, _, hrl, hL, rfl, hkB, hD, ?_, ?_⟩
  · intro hx
    rw [hGeq]
    unfold GBarVDEwald_combine
    simp [hx]
  · intro hx
    rw [hGeq]
    unfold GBarVDEwald_combine
    simp [hx, GLongInner_eq_spec]

/-- C13 at the unit square lattice, `k = 1`, `R = (1/3, 1/5, 1)`, `E = 1`, inner
cells excluded. -/
theorem C13_witness :
    ∃ G, GBarVDEwald refLibm ⟨1/3, 1/5, 1⟩ ⟨1, 0⟩ ⟨0, 0⟩ ⟨1, 0, 0, 1⟩ 2 1 true = .ok G
      ∧ ∃ rl kB D E1, GetRLBasis refLibm 2 ⟨1, 0, 0, 1⟩ ⟨1, 0⟩ ⟨1/3, 1/5, 1⟩ = .ok rl
        ∧ ((2 : ℤ) = 1 ∨ (2 : ℤ) = 2)
        ∧ E1 = (if (1 : ℚ) = -1 then rl.EOpt else 1)
        ∧ (kB = copyBloch ⟨0, 0⟩ 2
            ∨ kB = ⟨(copyBloch ⟨0, 0⟩ 2).x + 1.0e-2 * refLibm.cabs ⟨1, 0⟩,
                (copyBloch ⟨0, 0⟩ 2).y⟩)
        ∧ GetGBarDistant refLibm ⟨1/3, 1/5, 1⟩ rl.Rho ⟨1, 0⟩ kB rl.Gamma 2 E1 = .ok D
        ∧ (true = false →
            G = (GetGBarNearby refLibm ⟨1/3, 1/5, 1⟩ ⟨1, 0⟩ kB ⟨1, 0, 0, 1⟩ 2 E1 true).Sum.add
                  D.Sum)
        ∧ (true = true →
            G = ((GetGBarNearby refLibm ⟨1/3, 1/5, 1⟩ ⟨1, 0⟩ kB ⟨1, 0, 0, 1⟩ 2 E1 true).Sum.add
                  D.Sum).sub
                  (innerBlockSum_spec refLibm ⟨1/3, 1/5, 1⟩ ⟨1, 0⟩ kB ⟨1, 0, 0, 1⟩ 2 E1)) := by
  obtain ⟨G, hG⟩ := GBarVDEwald_2D_ok refLibm ⟨1/3, 1/5, 1⟩ ⟨1, 0⟩ ⟨0, 0⟩ ⟨1, 0, 0, 1⟩ 1 true
    (by decide) (by norm_num)
  exact ⟨G, hG, C13_output_nearby_plus_distant_minus_inner_block refLibm ⟨1/3, 1/5, 1⟩ ⟨1, 0⟩ ⟨0,
      0⟩ ⟨1, 0, 0, 1⟩ 2 1 true G (by decide) hG⟩

/-- C14: for `LDim` 1 or 2, `GetGBarNearby` with `ExcludeInnerCells = true`
calls `AddGShort` exactly for the cells of the shells `2, ..., nT + 1` and its
sum is the sum of their contributions; with `ExcludeInnerCells = false` it
calls `AddGShort` for the inner block followed by the shells `2, ..., nF + 1`
and its sum is the sum of the same per-cell contributions.  The inner block
has no repeated cell and consists of the cells with `|n1| ≤ 1` and `|n2| ≤ 1`
(`LDim = 2`) or `|n1| ≤ 1`, `n2 = 0` (`LDim = 1`); the shells up to shell
`n + 1` consist of the cells with `2 ≤ max(|n1|, |n2|) ≤ n + 1` (`LDim = 2`) or
`2 ≤ |n1| ≤ n + 1`, `n2 = 0` (`LDim = 1`), so no cell of the inner block is
among them. -/
theorem C14_nearby_cells_and_inner_block
    (lib : Libm F) (R : Vec3 F) (k : cdouble F) (kBloch : Vec2 F) (LBV : Mat2 F)
    (LDim : ℤ) (E : F) (hL : LDim = 1 ∨ LDim = 2) :
    ∃ nT nF : ℕ,
      (GetGBarNearby lib R k kBloch LBV LDim E true).trace = shellsFrom LDim 2 nT
      ∧ (GetGBarNearby lib R k kBloch LBV LDim E true).Sum
        = AddGShort_over lib R k kBloch LBV LDim E (shellsFrom LDim 2 nT)
      ∧ (GetGBarNearby lib R k kBloch LBV LDim E false).trace
        = innerBlock_spec LDim ++ shellsFrom LDim 2 nF
      ∧ (GetGBarNearby lib R k kBloch LBV LDim E false).Sum
        = AddGShort_over lib R k kBloch LBV LDim E
            (innerBlock_spec LDim ++ shellsFrom LDim 2 nF)
      ∧ (innerBlock_spec LDim).Nodup
      ∧ (∀ a b : ℤ, (a, b) ∈ innerBlock_spec LDim ↔
          |a| ≤ 1 ∧ (if LDim = 2 then |b| ≤ 1 else b = 0))
      ∧ (∀ (n : ℕ) (a b : ℤ), (a, b) ∈ shellsFrom LDim 2 n ↔
          if LDim = 2 then 2 ≤ max |a| |b| ∧ max |a| |b| ≤ (n : ℤ) + 1
          else b = 0 ∧ 2 ≤ |a| ∧ |a| ≤ (n : ℤ) + 1) := by
  obtain ⟨nT, hT1, hT2⟩ := GetGBarNearby_excl_inv lib R k kBloch LBV LDim E
  obtain ⟨nF, hF1, hF2⟩ := GetGBarNearby_all_inv lib R k kBloch LBV LDim E hL
  refine ⟨nT, nF, hT1, hT2, hF1, hF2, innerBlock_spec_nodup LDim, ?_, ?_⟩
  · intro a b
    rcases hL with h | h
    · subst h
      rw [if_neg (by decide)]
      exact mem_innerBlock_spec_1D a b
    · subst h
      rw [if_pos rfl]
      exact mem_innerBlock_spec_2D a b
  · intro n a b
    rcases hL with h | h
    · subst h
      rw [if_neg (by decide)]
      exact mem_shellsFrom_1D n a b
    · subst h
      rw [if_pos rfl]
      exact mem_shellsFrom_2D 2 (by decide) n a b

/-- C14 at the unit square lattice, `k = 1`, `R = (1/3, 1/5, 1)`, `E = 1`. -/
theorem C14_witness :
    ((2 : ℤ) = 1 ∨ (2 : ℤ) = 2)
    ∧ ∃ nT nF : ℕ,
      (GetGBarNearby refLibm ⟨1/3, 1/5, 1⟩ ⟨1, 0⟩ ⟨0, 0⟩ ⟨1, 0, 0, 1⟩ 2 1 true).trace
        = shellsFrom 2 2 nT
      ∧ (GetGBarNearby refLibm ⟨1/3, 1/5, 1⟩ ⟨1, 0⟩ ⟨0, 0⟩ ⟨1, 0, 0, 1⟩ 2 1 true).Sum
        = AddGShort_over refLibm ⟨1/3, 1/5, 1⟩ ⟨1, 0⟩ ⟨0, 0⟩ ⟨1, 0, 0, 1⟩ 2 1 (shellsFrom 2 2 nT)
      ∧ (GetGBarNearby refLibm ⟨1/3, 1/5, 1⟩ ⟨1, 0⟩ ⟨0, 0⟩ ⟨1, 0, 0, 1⟩ 2 1 false).trace
        = innerBlock_spec 2 ++ shellsFrom 2 2 nF
      ∧ (GetGBarNearby refLibm ⟨1/3, 1/5, 1⟩ ⟨1, 0⟩ ⟨0, 0⟩ ⟨1, 0, 0, 1⟩ 2 1 false).Sum
        = AddGShort_over refLibm ⟨1/3, 1/5, 1⟩ ⟨1, 0⟩ ⟨0, 0⟩ ⟨1, 0, 0, 1⟩ 2 1
            (innerBlock_spec 2 ++ shellsFrom 2 2 nF)
      ∧ (innerBlock_spec 2).Nodup
      ∧ (∀ a b : ℤ, (a, b) ∈ innerBlock_spec 2 ↔
          |a| ≤ 1 ∧ (if (2 : ℤ) = 2 then |b| ≤ 1 else b = 0))
      ∧ (∀ (n : ℕ) (a b : ℤ), (a, b) ∈ shellsFrom 2 2 n ↔
          if (2 : ℤ) = 2 then 2 ≤ max |a| |b| ∧ max |a| |b| ≤ (n : ℤ) + 1
          else b = 0 ∧ 2 ≤ |a| ∧ |a| ≤ (n : ℤ) + 1) :=
  ⟨Or.inr rfl, C14_nearby_cells_and_inner_block refLibm ⟨1/3, 1/5, 1⟩ ⟨1, 0⟩ ⟨0, 0⟩ ⟨1, 0, 0, 1⟩ 2
      1 (Or.inr rfl)⟩

/-- C15: `ExpInt(z)` returns exactly 0 for every complex `z` with `|z| > 100`
(`|z|` is the value of the library `abs`). -/
theorem C15_ExpInt_zero_beyond_100
    (lib : Libm F) (z : cdouble F) (hz : lib.cabs z > 100) : ExpInt lib z = 0 := by
  unfold ExpInt
  simp only
  rw [if_neg (by linarith), if_neg (by linarith)]
  unfold ExpInt_Asymptotic
  rw [if_pos hz]

/-- C15 at `z = 200`. -/
theorem C15_witness : refLibm.cabs ⟨200, 0⟩ > 100 ∧ ExpInt refLibm ⟨200, 0⟩ = 0 :=
  ⟨by decide!, C15_ExpInt_zero_beyond_100 refLibm ⟨200, 0⟩ (by decide!)⟩

set_option maxRecDepth 100000 in
/-- C16, the code when the cap is reached: in `ExpInt_Asymptotic(1, 1e-8)` (terms
`(-1)^n n!`) and in `ExpInt_PS(-100, 1e-8)` the loop `for(n=1; n<=100; n++)`
runs out without the tolerance test succeeding and leaves `n = 101`, so the test
`n==100` in front of `Warn` fails and no warning is emitted. -/
theorem C16_no_warning_when_cap_is_reached :
    (ExpInt_Asymptotic_loop refLibm ⟨1, 0⟩ 1.0e-8 101 1 { Sum := 1, Term := 1 }).2 = 101
    ∧ ExpInt_Asymptotic_warns refLibm ⟨1, 0⟩ 1.0e-8 = false
    ∧ (ExpInt_PS_loop refLibm ⟨-100, 0⟩ 1.0e-8 101 1 (ExpInt_PS_init refLibm ⟨-100, 0⟩)).2 = 101
    ∧ ExpInt_PS_warns refLibm ⟨-100, 0⟩ 1.0e-8 = false := by
  refine ⟨by decide!, by decide!, by decide!, by decide!⟩

/-- C17: `ExpInt(z)` is `ExpInt_PS(z, 1e-8)` when `|z| < 5`, and when
`5 ≤ |z| < 30` and `| |arg z| - π | < 0.2`; `ExpInt_CF(z, 1e-8)` when
`5 ≤ |z| < 30` and `| |arg z| - π | ≥ 0.2`; `ExpInt_Asymptotic(z, 1e-8)` when
`|z| ≥ 30`. -/
theorem C17_ExpInt_dispatch (lib : Libm F) (z : cdouble F) :
    (lib.cabs z < 5 → ExpInt lib z = ExpInt_PS lib z 1.0e-8)
    ∧ (5 ≤ lib.cabs z → lib.cabs z < 30 → |(|lib.carg z| - M_PI)| < 0.2 →
        ExpInt lib z = ExpInt_PS lib z 1.0e-8)
    ∧ (5 ≤ lib.cabs z → lib.cabs z < 30 → 0.2 ≤ |(|lib.carg z| - M_PI)| →
        ExpInt lib z = ExpInt_CF lib z 1.0e-8)
    ∧ (30 ≤ lib.cabs z → ExpInt lib z = ExpInt_Asymptotic lib z 1.0e-8) := by
  refine ⟨?_, ?_, ?_, ?_⟩
  · intro h
    unfold ExpInt
    simp only
    rw [if_pos h]
  · intro h1 h2 h3
    unfold ExpInt
    simp only
    rw [if_neg (not_lt.mpr h1), if_pos h2, if_pos h3]
  · intro h1 h2 h3
    unfold ExpInt
    simp only
    rw [if_neg (not_lt.mpr h1), if_pos h2, if_neg (not_lt.mpr h3)]
  · intro h
    unfold ExpInt
    simp only
    rw [if_neg (by linarith), if_neg (not_lt.mpr h)]

/-- C17 at `z = 1`, `z = -10` (argument near `π`), `z = 10` and `z = 200`. -/
theorem C17_witness :
    (refLibm.cabs ⟨1, 0⟩ < 5
      ∧ ExpInt refLibm ⟨1, 0⟩ = ExpInt_PS refLibm ⟨1, 0⟩ 1.0e-8)
    ∧ (5 ≤ refLibm.cabs ⟨-10, 0⟩ ∧ refLibm.cabs ⟨-10, 0⟩ < 30
      ∧ |(|refLibm.carg ⟨-10, 0⟩| - M_PI)| < 0.2
      ∧ ExpInt refLibm ⟨-10, 0⟩ = ExpInt_PS refLibm ⟨-10, 0⟩ 1.0e-8)
    ∧ (5 ≤ refLibm.cabs ⟨10, 0⟩ ∧ refLibm.cabs ⟨10, 0⟩ < 30
      ∧ 0.2 ≤ |(|refLibm.carg ⟨10, 0⟩| - M_PI)|
      ∧ ExpInt refLibm ⟨10, 0⟩ = ExpInt_CF refLibm ⟨10, 0⟩ 1.0e-8)
    ∧ (30 ≤ refLibm.cabs ⟨200, 0⟩
      ∧ ExpInt refLibm ⟨200, 0⟩ = ExpInt_Asymptotic refLibm ⟨200, 0⟩ 1.0e-8) :=
  ⟨⟨by decide!, (C17_ExpInt_dispatch refLibm ⟨1, 0⟩).1 (by decide!)⟩,
   ⟨by decide!, by decide!, by decide!,
    (C17_ExpInt_dispatch refLibm ⟨-10, 0⟩).2.1 (by decide!) (by decide!) (by decide!)⟩,
   ⟨by decide!, by decide!, by decide!,
    (C17_ExpInt_dispatch refLibm ⟨10, 0⟩).2.2.1 (by decide!) (by decide!) (by decide!)⟩,
   ⟨by decide!, (C17_ExpInt_dispatch refLibm ⟨200, 0⟩).2.2.2 (by decide!)⟩⟩

/-- C18: assuming `erfcx(w) = exp(w^2) erfc(w)`, `erfc(-w) = 2 - erfc(w)` and
`exp(x + y) = exp(x) exp(y)`, for all complex `a`, `b`: `erfc_s(a, b)` equals
`exp(a) erfc(b)`; the quantity `mb2` formed inside equals `-b^2`; the branch
`Re(b) ≥ 0` returns `exp(a - b^2) erfcx(b)`; the branch `Re(b) < 0` returns
`2 exp(a) - exp(a - b^2) erfcx(-b)`, and the argument `-b` of `erfcx` has
non-negative real part there. -/
theorem C18_erfc_s_is_exp_times_erfc (lib : Libm F) (erfc : cdouble F → cdouble F)
    (hexp : ∀ x y, lib.cexp (x + y) = lib.cexp x * lib.cexp y)
    (herfcx : ∀ w, lib.erfcx w = lib.cexp (w * w) * erfc w)
    (hneg : ∀ w, erfc (-w) = ofReal 2 - erfc w) (a b : cdouble F) :
    erfc_s lib a b = lib.cexp a * erfc b
    ∧ (⟨(b.im - b.re) * (b.re + b.im), -2 * b.re * b.im⟩ : cdouble F) = -(b * b)
    ∧ (0 ≤ b.re → erfc_s lib a b = lib.cexp (a - b * b) * lib.erfcx b)
    ∧ (b.re < 0 →
        erfc_s lib a b = ofReal 2 * lib.cexp a - lib.cexp (a - b * b) * lib.erfcx (-b)
          ∧ 0 ≤ (-b).re) := by
  have hm := erfc_s_mb2 b
  have hsub : a + -(b * b) = a - b * b := by ring
  have hcancel : lib.cexp (a - b * b) * lib.cexp (b * b) = lib.cexp a := by
    rw [← hexp]
    congr 1
    ring
  have h1 : 0 ≤ b.re → erfc_s lib a b = lib.cexp (a - b * b) * lib.erfcx b := by
    intro h
    unfold erfc_s
    simp only
    rw [if_pos h, hm, hsub]
  have h2 : b.re < 0 →
      erfc_s lib a b = ofReal 2 * lib.cexp a - lib.cexp (a - b * b) * lib.erfcx (-b) := by
    intro h
    unfold erfc_s
    simp only
    rw [if_neg (not_le.mpr h), hm, hsub]
  refine ⟨?_, hm, h1, fun h => ⟨h2 h, ?_⟩⟩
  · rcases le_or_lt 0 b.re with h | h
    · rw [h1 h, herfcx, ← mul_assoc, hcancel]
    · rw [h2 h, herfcx, hneg]
      have hbb : -b * -b = b * b := by ring
      rw [hbb, ← mul_assoc, hcancel]
      ring
  · simp only [neg_re]
    linarith

/-- C18 over the reals with the complex exponential function and
`erfc(w) = 1 - w`, at `a = 1 + 2i` and `b = -3 + 4i`, `b = 3 + 4i`. -/
theorem C18_witness :
    ∃ (lib : Libm ℝ) (erfc : cdouble ℝ → cdouble ℝ),
      (∀ x y, lib.cexp (x + y) = lib.cexp x * lib.cexp y)
      ∧ (∀ w, lib.erfcx w = lib.cexp (w * w) * erfc w)
      ∧ (∀ w, erfc (-w) = ofReal 2 - erfc w)
      ∧ erfc_s lib ⟨1, 2⟩ ⟨-3, 4⟩ = lib.cexp ⟨1, 2⟩ * erfc ⟨-3, 4⟩
      ∧ erfc_s lib ⟨1, 2⟩ ⟨-3, 4⟩
          = ofReal 2 * lib.cexp ⟨1, 2⟩
            - lib.cexp (⟨1, 2⟩ - ⟨-3, 4⟩ * ⟨-3, 4⟩) * lib.erfcx (-⟨-3, 4⟩)
      ∧ erfc_s lib ⟨1, 2⟩ ⟨3, 4⟩ = lib.cexp (⟨1, 2⟩ - ⟨3, 4⟩ * ⟨3, 4⟩) * lib.erfcx ⟨3, 4⟩ := by
  let erfc : cdouble ℝ → cdouble ℝ := fun w => 1 - w
  let lib : Libm ℝ :=
    { sqrt := fun x => x, cabs := fun _ => 0, csqrt := fun w => w,
      cexp := fun w => ofComplex (Complex.exp (toComplex w)),
      clog := fun w => w, carg := fun _ => 0,
      erfcx := fun w => ofComplex (Complex.exp (toComplex (w * w))) * erfc w,
      cerf := fun w => w, AmosBesselK := fun w _ => w,
      IsFinite := fun _ => true, ISNAN := fun _ => false }
  have hexp : ∀ x y, lib.cexp (x + y) = lib.cexp x * lib.cexp y := by
    intro x y
    show ofComplex (Complex.exp (toComplex (x + y)))
      = ofComplex (Complex.exp (toComplex x)) * ofComplex (Complex.exp (toComplex y))
    rw [toComplex_add, Complex.exp_add, ofComplex_mul]
  have herfcx : ∀ w, lib.erfcx w = lib.cexp (w * w) * erfc w := fun w => rfl
  have hneg : ∀ w, erfc (-w) = ofReal 2 - erfc w := by
    intro w
    show 1 - -w = ofReal 2 - (1 - w)
    ext
    · simp only [sub_re, neg_re, one_re, ofReal_re]
      ring
    · simp only [sub_im, neg_im, one_im, ofReal_im]
      ring
  have h1 := C18_erfc_s_is_exp_times_erfc lib erfc hexp herfcx hneg ⟨1, 2⟩ ⟨-3, 4⟩
  have h2 := C18_erfc_s_is_exp_times_erfc lib erfc hexp herfcx hneg ⟨1, 2⟩ ⟨3, 4⟩
  exact ⟨lib, erfc, hexp, herfcx, hneg, h1.1, (h1.2.2.2 (by norm_num)).1,
    h2.2.2.1 (by norm_num)⟩

/-- C19: over the reals (every value finite: `IsFinite` true and `ISNAN` false
everywhere), with `exp` the complex exponential function, `erfcx(w) =
exp(w^2) erfc(w)`, `erfc(-w) = 2 - erfc(w)` and `erfc` differentiable at
`Q/2E ± Ez` with derivative `-(2/sqrt π) exp(-w^2)` there: for `E ≠ 0`,
`GetEEF` returns `EEF = exp(Qz) erfc(Q/2E + Ez) + exp(-Qz) erfc(Q/2E - Ez)`,
and
`EEFPrime` is the derivative of that expression with respect to `z`; `EEF` is
even and `EEFPrime` is odd in `z`. -/
theorem C19_GetEEF_value_derivative_parity (lib : Libm ℝ) (erfc : ℂ → ℂ)
    (hexp : ∀ w, toComplex (lib.cexp w) = Complex.exp (toComplex w))
    (herfcx : ∀ w, toComplex (lib.erfcx w)
      = Complex.exp (toComplex w * toComplex w) * erfc (toComplex w))
    (hneg : ∀ w, erfc (-w) = 2 - erfc w)
    (hfin : ∀ w, lib.IsFinite w = true) (hnan : ∀ x, lib.ISNAN x = false)
    (z E : ℝ) (Q : cdouble ℝ) (hE : E ≠ 0)
    (hd1 : HasDerivAt erfc
      (-((M_2_SQRTPI : ℝ) : ℂ) * Complex.exp (-((toComplex Q / (2 * E) + E * z) ^ 2)))
      (toComplex Q / (2 * E) + E * z))
    (hd2 : HasDerivAt erfc
      (-((M_2_SQRTPI : ℝ) : ℂ) * Complex.exp (-((toComplex Q / (2 * E) - E * z) ^ 2)))
      (toComplex Q / (2 * E) - E * z)) :
    toComplex (GetEEF lib z E Q).1
        = Complex.exp (toComplex Q * z) * erfc (toComplex Q / (2 * E) + E * z)
          + Complex.exp (-(toComplex Q * z)) * erfc (toComplex Q / (2 * E) - E * z)
    ∧ HasDerivAt
        (fun t : ℝ =>
          Complex.exp (toComplex Q * t) * erfc (toComplex Q / (2 * E) + E * t)
            + Complex.exp (-(toComplex Q * t)) * erfc (toComplex Q / (2 * E) - E * t))
        (toComplex (GetEEF lib z E Q).2) z
    ∧ (GetEEF lib (-z) E Q).1 = (GetEEF lib z E Q).1
    ∧ (GetEEF lib (-z) E Q).2 = -(GetEEF lib z E Q).2 := by
  have hes := erfc_s_toComplex lib erfc hexp herfcx hneg
  have hEc : (E : ℂ) ≠ 0 := by exact_mod_cast hE
  have h05 : ((0.5 : ℝ) : ℂ) = 1 / 2 := by
    have h : (0.5 : ℝ) = 1 / 2 := by norm_num
    rw [h]
    push_cast
    rfl
  have hA1 : ((0.5 : ℝ) : ℂ) * toComplex Q / (E : ℂ) + ((z * E : ℝ) : ℂ)
      = toComplex Q / (2 * E) + E * z := by
    rw [h05]
    push_cast
    field_simp
    ring
  have hA2 : ((0.5 : ℝ) : ℂ) * toComplex Q / (E : ℂ) - ((z * E : ℝ) : ℂ)
      = toComplex Q / (2 * E) - E * z := by
    rw [h05]
    push_cast
    field_simp
    ring
  have hnegz := GetEEF_neg lib (fun w => by rw [hfin, hfin]) (fun x => by rw [hnan, hnan]) z E Q
  refine ⟨?_, ?_, ?_, ?_⟩
  · rw [GetEEF_raw lib hfin hnan]
    simp only [toComplex_add, hes, toComplex_mul, toComplex_neg, toComplex_sub, toComplex_div,
      toComplex_ofReal, hA1, hA2]
    rw [neg_mul]
  · -- the derivative
    have hl1 : HasDerivAt (fun t : ℝ => toComplex Q * (t : ℂ)) (toComplex Q) z := by
      simpa using ((hasDerivAt_id z).ofReal_comp).const_mul (toComplex Q)
    have hl2 : HasDerivAt (fun t : ℝ => -(toComplex Q * (t : ℂ))) (-toComplex Q) z := hl1.neg
    have ha1 : HasDerivAt (fun t : ℝ => toComplex Q / (2 * E) + E * (t : ℂ)) (E : ℂ) z := by
      simpa using (((hasDerivAt_id z).ofReal_comp).const_mul (E : ℂ)).const_add
        (toComplex Q / (2 * E))
    have ha2 : HasDerivAt (fun t : ℝ => toComplex Q / (2 * E) - E * (t : ℂ)) (-(E : ℂ)) z := by
      simpa using (((hasDerivAt_id z).ofReal_comp).const_mul (E : ℂ)).const_sub
        (toComplex Q / (2 * E))
    have he1 := hl1.cexp
    have he2 := hl2.cexp
    have hc1 := HasDerivAt.scomp z hd1 ha1
    have hc2 := HasDerivAt.scomp z hd2 ha2
    have hsum := (he1.mul hc1).add (he2.mul hc2)
    refine HasDerivAt.congr_deriv hsum ?_
    rw [GetEEF_raw lib hfin hnan]
    simp only [toComplex_add, hes, hexp, toComplex_mul, toComplex_neg, toComplex_sub,
      toComplex_div, toComplex_ofReal, hA1, hA2, Function.comp, smul_eq_mul]
    have x1 : ∀ u A : ℂ, Complex.exp (u - A * A) = Complex.exp u * Complex.exp (-(A ^ 2)) := by
      intro u A
      rw [← Complex.exp_add]
      congr 1
      ring
    rw [x1, x1, neg_mul (toComplex Q) (z : ℂ)]
    push_cast
    ring
  · rw [hnegz]
  · rw [hnegz]

/-- C19 at `z = 1`, `E = 1`, `Q = 0`, with the complex exponential function and
`erfc(w) = 1 - (2/sqrt π) exp(-1) w`. -/
theorem C19_witness :
    ∃ (lib : Libm ℝ) (erfc : ℂ → ℂ),
      (∀ w, toComplex (lib.cexp w) = Complex.exp (toComplex w))
      ∧ (∀ w, toComplex (lib.erfcx w)
          = Complex.exp (toComplex w * toComplex w) * erfc (toComplex w))
      ∧ (∀ w, erfc (-w) = 2 - erfc w)
      ∧ HasDerivAt erfc
          (-((M_2_SQRTPI : ℝ) : ℂ)
            * Complex.exp (-((toComplex 0 / (2 * (1 : ℝ)) + (1 : ℝ) * (1 : ℝ)) ^ 2)))
          (toComplex 0 / (2 * (1 : ℝ)) + (1 : ℝ) * (1 : ℝ))
      ∧ HasDerivAt erfc
          (-((M_2_SQRTPI : ℝ) : ℂ)
            * Complex.exp (-((toComplex 0 / (2 * (1 : ℝ)) - (1 : ℝ) * (1 : ℝ)) ^ 2)))
          (toComplex 0 / (2 * (1 : ℝ)) - (1 : ℝ) * (1 : ℝ))
      ∧ toComplex (GetEEF lib 1 1 0).1
          = Complex.exp (toComplex 0 * (1 : ℝ))
              * erfc (toComplex 0 / (2 * (1 : ℝ)) + (1 : ℝ) * (1 : ℝ))
            + Complex.exp (-(toComplex 0 * (1 : ℝ)))
              * erfc (toComplex 0 / (2 * (1 : ℝ)) - (1 : ℝ) * (1 : ℝ))
      ∧ HasDerivAt
          (fun t : ℝ =>
            Complex.exp (toComplex 0 * t) * erfc (toComplex 0 / (2 * (1 : ℝ)) + (1 : ℝ) * t)
              + Complex.exp (-(toComplex 0 * t))
                * erfc (toComplex 0 / (2 * (1 : ℝ)) - (1 : ℝ) * t))
          (toComplex (GetEEF lib 1 1 0).2) 1
      ∧ (GetEEF lib (-1) 1 0).1 = (GetEEF lib 1 1 0).1
      ∧ (GetEEF lib (-1) 1 0).2 = -(GetEEF lib 1 1 0).2 := by
  let erfc : ℂ → ℂ := fun w => 1 - ((M_2_SQRTPI : ℝ) : ℂ) * Complex.exp (-1) * w
  let lib : Libm ℝ :=
    { sqrt := fun x => x, cabs := fun _ => 0, csqrt := fun w => w,
      cexp := fun w => ofComplex (Complex.exp (toComplex w)),
      clog := fun w => w, carg := fun _ => 0,
      erfcx := fun w => ofComplex (Complex.exp (toComplex w * toComplex w) * erfc (toComplex w)),
      cerf := fun w => w, AmosBesselK := fun w _ => w,
      IsFinite := fun _ => true, ISNAN := fun _ => false }
  have hexp : ∀ w, toComplex (lib.cexp w) = Complex.exp (toComplex w) := fun w => rfl
  have herfcx : ∀ w, toComplex (lib.erfcx w)
      = Complex.exp (toComplex w * toComplex w) * erfc (toComplex w) := fun w => rfl
  have hneg : ∀ w, erfc (-w) = 2 - erfc w := by
    intro w
    simp only [erfc]
    ring
  have hd : ∀ A : ℂ, A ^ 2 = 1 →
      HasDerivAt erfc (-((M_2_SQRTPI : ℝ) : ℂ) * Complex.exp (-(A ^ 2))) A := by
    intro A hA
    rw [hA]
    have h := ((hasDerivAt_id A).const_mul
      (((M_2_SQRTPI : ℝ) : ℂ) * Complex.exp (-1))).const_sub 1
    simpa [erfc] using h
  have hd1 := hd (toComplex 0 / (2 * (1 : ℝ)) + (1 : ℝ) * (1 : ℝ))
    (by simp [toComplex_zero])
  have hd2 := hd (toComplex 0 / (2 * (1 : ℝ)) - (1 : ℝ) * (1 : ℝ))
    (by simp [toComplex_zero])
  have h := C19_GetEEF_value_derivative_parity lib erfc hexp herfcx hneg (fun _ => rfl) (fun _ =>
      rfl) 1 1 0 one_ne_zero
    hd1 hd2
  exact ⟨lib, erfc, hexp, herfcx, hneg, hd1, hd2, h.1, h.2.1, h.2.2.1, h.2.2.2⟩

/-- C21: the shell loops of `GetGBarNearby` and `GetGBarDistant`.
(i) For all sums the test `MaxAbsDelta < ABSTOL` never holds, and a shell is
under tolerance exactly when every slot whose new value has a positive modulus
changed by less than `RELTOL` times that modulus.
(ii) For every input of `GetGBarNearby` (every library, point, `k`, Bloch
vector, basis, `LDim`, `E` and flag), with `st1` the state after the first
round, there is `n` with `n + 3 ≤ 9999` such that the loop, given room for at
least 9999 passes, ends in the state after the `n + 3` shells
`NN = 2, ..., n + 4` (each shell applied to the state the one before left), and
this state is the result of `GetGBarNearby`; unless `n + 3 = 9999` (the last
shell is then `NN = 10000 = NMAX`) the last three shells are under tolerance;
and no three consecutive earlier shells are all under tolerance.
(iii) The same holds for every non-singular result `D` of `GetGBarDistant` with
`E ≠ 0`: the first round and every shell up to the last return without a fatal
error and without the singular flag, and `D` holds the sums after the last
shell times the prefactor. -/
theorem C21_shell_loops_stop_after_three_converged_shells (lib : Libm F) (R : Vec3 F) (k : cdouble
    F) (kBloch : Vec2 F)
    (LBV : Mat2 F) (LDim : ℤ) :
    (∀ S Last : Sum8 F, ¬ (maxDeltas lib S Last).1 < ABSTOL
      ∧ (underTolerance lib S Last = true ↔
        ∀ p ∈ List.zip S.toList Last.toList,
          lib.cabs p.1 > 0 → lib.cabs (p.1 - p.2) < RELTOL * lib.cabs p.1))
    ∧ (∀ (E : F) (ExcludeInnerCells : Bool), ∃ n : ℕ, n + 3 ≤ 9999
      ∧ (∀ j : ℕ, (nearbyAfter lib R k kBloch LBV LDim E
          (nearbyFirstRound lib R k kBloch LBV LDim E ExcludeInnerCells
            { Sum := Sum8.zero, nCells := 0, trace := [] }) (j + 1))
          = nearbyShell lib R k kBloch LBV LDim E (NFIRSTROUND + 1 + (j : ℤ))
            (nearbyAfter lib R k kBloch LBV LDim E
          (nearbyFirstRound lib R k kBloch LBV LDim E ExcludeInnerCells
            { Sum := Sum8.zero, nCells := 0, trace := [] }) j))
      ∧ (∀ fuel : ℕ, 9999 ≤ fuel →
        nearbyLoop lib R k kBloch LBV LDim E fuel (NFIRSTROUND + 1) 0
          (nearbyFirstRound lib R k kBloch LBV LDim E ExcludeInnerCells
            { Sum := Sum8.zero, nCells := 0, trace := [] })
          (nearbyFirstRound lib R k kBloch LBV LDim E ExcludeInnerCells
            { Sum := Sum8.zero, nCells := 0, trace := [] }).Sum
        = (nearbyAfter lib R k kBloch LBV LDim E
          (nearbyFirstRound lib R k kBloch LBV LDim E ExcludeInnerCells
            { Sum := Sum8.zero, nCells := 0, trace := [] }) (n + 3)))
      ∧ GetGBarNearby lib R k kBloch LBV LDim E ExcludeInnerCells
        = (nearbyAfter lib R k kBloch LBV LDim E
          (nearbyFirstRound lib R k kBloch LBV LDim E ExcludeInnerCells
            { Sum := Sum8.zero, nCells := 0, trace := [] }) (n + 3))
      ∧ (n + 3 < 9999 →
        underTolerance lib (nearbyAfter lib R k kBloch LBV LDim E
          (nearbyFirstRound lib R k kBloch LBV LDim E ExcludeInnerCells
            { Sum := Sum8.zero, nCells := 0, trace := [] }) (n + 1)).Sum
          (nearbyAfter lib R k kBloch LBV LDim E
          (nearbyFirstRound lib R k kBloch LBV LDim E ExcludeInnerCells
            { Sum := Sum8.zero, nCells := 0, trace := [] }) n).Sum = true
        ∧ underTolerance lib (nearbyAfter lib R k kBloch LBV LDim E
          (nearbyFirstRound lib R k kBloch LBV LDim E ExcludeInnerCells
            { Sum := Sum8.zero, nCells := 0, trace := [] }) (n + 2)).Sum
          (nearbyAfter lib R k kBloch LBV LDim E
          (nearbyFirstRound lib R k kBloch LBV LDim E ExcludeInnerCells
            { Sum := Sum8.zero, nCells := 0, trace := [] }) (n + 1)).Sum = true
        ∧ underTolerance lib (nearbyAfter lib R k kBloch LBV LDim E
          (nearbyFirstRound lib R k kBloch LBV LDim E ExcludeInnerCells
            { Sum := Sum8.zero, nCells := 0, trace := [] }) (n + 3)).Sum
          (nearbyAfter lib R k kBloch LBV LDim E
          (nearbyFirstRound lib R k kBloch LBV LDim E ExcludeInnerCells
            { Sum := Sum8.zero, nCells := 0, trace := [] }) (n + 2)).Sum = true)
      ∧ ∀ m : ℕ, m < n →
        ¬ (underTolerance lib (nearbyAfter lib R k kBloch LBV LDim E
          (nearbyFirstRound lib R k kBloch LBV LDim E ExcludeInnerCells
            { Sum := Sum8.zero, nCells := 0, trace := [] }) (m + 1)).Sum
          (nearbyAfter lib R k kBloch LBV LDim E
          (nearbyFirstRound lib R k kBloch LBV LDim E ExcludeInnerCells
            { Sum := Sum8.zero, nCells := 0, trace := [] }) m).Sum = true
        ∧ underTolerance lib (nearbyAfter lib R k kBloch LBV LDim E
          (nearbyFirstRound lib R k kBloch LBV LDim E ExcludeInnerCells
            { Sum := Sum8.zero, nCells := 0, trace := [] }) (m + 2)).Sum
          (nearbyAfter lib R k kBloch LBV LDim E
          (nearbyFirstRound lib R k kBloch LBV LDim E ExcludeInnerCells
            { Sum := Sum8.zero, nCells := 0, trace := [] }) (m + 1)).Sum = true
        ∧ underTolerance lib (nearbyAfter lib R k kBloch LBV LDim E
          (nearbyFirstRound lib R k kBloch LBV LDim E ExcludeInnerCells
            { Sum := Sum8.zero, nCells := 0, trace := [] }) (m + 3)).Sum
          (nearbyAfter lib R k kBloch LBV LDim E
          (nearbyFirstRound lib R k kBloch LBV LDim E ExcludeInnerCells
            { Sum := Sum8.zero, nCells := 0, trace := [] }) (m + 2)).Sum = true))
    ∧ ∀ (Rho : F) (Gamma : Mat2 F) (E : F) (D : DistantResult F), E ≠ 0 →
      GetGBarDistant lib R Rho k kBloch Gamma LDim E = .ok D → D.Singular = false →
      ∃ st1 : DistantState F,
      distantFirstRound lib R Rho k kBloch Gamma LDim E
          { Sum := Sum8.zero, Singular := false, nCells := 0, trace := [] } = .ok st1
      ∧ st1.Singular = false
      ∧ ∃ n : ℕ, n + 3 ≤ 9999
        ∧ (∀ j : ℕ, j < n + 3 →
          distantShell lib R Rho k kBloch Gamma LDim E (NFIRSTROUND + 1 + (j : ℤ))
              (distantAfter lib R Rho k kBloch Gamma LDim E st1 j)
            = .ok (distantAfter lib R Rho k kBloch Gamma LDim E st1 (j + 1))
          ∧ (distantAfter lib R Rho k kBloch Gamma LDim E st1 (j + 1)).Singular = false)
        ∧ (∀ fuel : ℕ, 9999 ≤ fuel →
          distantLoop lib R Rho k kBloch Gamma LDim E fuel (NFIRSTROUND + 1) 0 st1 st1.Sum
            = .ok (distantAfter lib R Rho k kBloch Gamma LDim E st1 (n + 3)))
        ∧ D.Sum = (distantAfter lib R Rho k kBloch Gamma LDim E st1 (n + 3)).Sum.scale
            (GetGBarDistant_PreFactor lib Gamma LDim)
        ∧ D.trace = (distantAfter lib R Rho k kBloch Gamma LDim E st1 (n + 3)).trace
        ∧ (n + 3 < 9999 →
          underTolerance lib (distantAfter lib R Rho k kBloch Gamma LDim E st1 (n + 1)).Sum
              (distantAfter lib R Rho k kBloch Gamma LDim E st1 n).Sum = true
          ∧ underTolerance lib (distantAfter lib R Rho k kBloch Gamma LDim E st1 (n + 2)).Sum
              (distantAfter lib R Rho k kBloch Gamma LDim E st1 (n + 1)).Sum = true
          ∧ underTolerance lib (distantAfter lib R Rho k kBloch Gamma LDim E st1 (n + 3)).Sum
              (distantAfter lib R Rho k kBloch Gamma LDim E st1 (n + 2)).Sum = true)
        ∧ ∀ m : ℕ, m < n →
          ¬ (underTolerance lib (distantAfter lib R Rho k kBloch Gamma LDim E st1 (m + 1)).Sum
              (distantAfter lib R Rho k kBloch Gamma LDim E st1 m).Sum = true
          ∧ underTolerance lib (distantAfter lib R Rho k kBloch Gamma LDim E st1 (m + 2)).Sum
              (distantAfter lib R Rho k kBloch Gamma LDim E st1 (m + 1)).Sum = true
          ∧ underTolerance lib (distantAfter lib R Rho k kBloch Gamma LDim E st1 (m + 3)).Sum
              (distantAfter lib R Rho k kBloch Gamma LDim E st1 (m + 2)).Sum = true) := by
  have hN : NMAX.toNat = 10000 := rfl
  refine ⟨fun S Last => underTolerance_iff lib S Last, ?_, ?_⟩
  · intro E ExcludeInnerCells
    obtain ⟨n, -, a2, a3, a4, a5⟩ := nearbyLoop_run lib R k kBloch LBV LDim E
      (nearbyFirstRound lib R k kBloch LBV LDim E ExcludeInnerCells
        { Sum := Sum8.zero, nCells := 0, trace := [] }) NMAX.toNat 0 (by omega) (by omega)
    have h3 : 3 ≤ n := by
      rcases a4 with h | h
      · exact le_trans h (convergedAfter_le lib _ n)
      · omega
    obtain ⟨n, rfl⟩ : ∃ n', n = n' + 3 := ⟨n - 3, by omega⟩
    simp only [Nat.cast_zero, add_zero, convergedAfter, nearbyAfter] at a3
    refine ⟨n, a2, fun j => rfl, ?_, a3, ?_, ?_⟩
    · intro fuel hf
      obtain ⟨n2, -, b2, b3, b4, b5⟩ := nearbyLoop_run lib R k kBloch LBV LDim E
        (nearbyFirstRound lib R k kBloch LBV LDim E ExcludeInnerCells
          { Sum := Sum8.zero, nCells := 0, trace := [] }) fuel 0 (by omega) (by omega)
      have hu := first_stop_unique _ n2 (n + 3) b2 a2 b4 a4
        (fun j hj => b5 j (Nat.zero_le _) hj) (fun j hj => a5 j (Nat.zero_le _) hj)
      simp only [Nat.cast_zero, add_zero, convergedAfter, nearbyAfter] at b3
      rw [b3, hu]
    · intro hlt
      have h4 : 3 ≤ convergedAfter lib
          (fun j => (nearbyAfter lib R k kBloch LBV LDim E
            (nearbyFirstRound lib R k kBloch LBV LDim E ExcludeInnerCells
              { Sum := Sum8.zero, nCells := 0, trace := [] }) j).Sum) (n + 3) := by
        rcases a4 with h | h
        · exact h
        · omega
      exact (convergedAfter_three lib
          (fun j => (nearbyAfter lib R k kBloch LBV LDim E
            (nearbyFirstRound lib R k kBloch LBV LDim E ExcludeInnerCells
              { Sum := Sum8.zero, nCells := 0, trace := [] }) j).Sum) n).mp h4
    · intro m hm hU
      have h4 := (convergedAfter_three lib
          (fun j => (nearbyAfter lib R k kBloch LBV LDim E
            (nearbyFirstRound lib R k kBloch LBV LDim E ExcludeInnerCells
              { Sum := Sum8.zero, nCells := 0, trace := [] }) j).Sum) m).mpr hU
      have hm3 : m + 3 < n + 3 := by omega
      exact absurd h4 (not_le.mpr (a5 (m + 3) (Nat.zero_le _) hm3))
  · intro Rho Gamma E D hE hD hS
    obtain ⟨st1, st2, c1, c2, c3, c4, c5, c6, -⟩ :=
      GetGBarDistant_parts lib R Rho k kBloch Gamma LDim E D hE hD hS
    have c3b : distantLoop lib R Rho k kBloch Gamma LDim E NMAX.toNat
        (NFIRSTROUND + 1 + ((0 : ℕ) : ℤ))
        (convergedAfter lib
          (fun j => (distantAfter lib R Rho k kBloch Gamma LDim E st1 j).Sum) 0)
        (distantAfter lib R Rho k kBloch Gamma LDim E st1 0)
        (distantAfter lib R Rho k kBloch Gamma LDim E st1 0).Sum = .ok st2 := by
      simp only [Nat.cast_zero, add_zero, convergedAfter, distantAfter]
      exact c3
    obtain ⟨n, -, a2, a3, a4, a5⟩ := distantLoop_extract lib R Rho k kBloch Gamma LDim E
      st1 st2 c4 NMAX.toNat 0 (by omega) (by omega) c3b
    have h3 : 3 ≤ n := by
      rcases a4 with h | h
      · exact le_trans h (convergedAfter_le lib _ n)
      · omega
    obtain ⟨n, rfl⟩ : ∃ n', n = n' + 3 := ⟨n - 3, by omega⟩
    refine ⟨st1, c1, c2, n, a2, fun j hj => (a5 j (Nat.zero_le _) hj).2, ?_, ?_, ?_, ?_, ?_⟩
    · intro fuel hf
      have h := distantLoop_run lib R Rho k kBloch Gamma LDim E st1 (n + 3) a2 a4 fuel 0
        (by omega) (by omega) a5
      simp only [Nat.cast_zero, add_zero, convergedAfter, distantAfter] at h
      simp only [distantAfter]
      exact h
    · rw [c5, a3]
    · rw [c6, a3]
    · intro hlt
      have h4 : 3 ≤ convergedAfter lib
          (fun j => (distantAfter lib R Rho k kBloch Gamma LDim E st1 j).Sum) (n + 3) := by
        rcases a4 with h | h
        · exact h
        · omega
      exact (convergedAfter_three lib
          (fun j => (distantAfter lib R Rho k kBloch Gamma LDim E st1 j).Sum) n).mp h4
    · intro m hm hU
      have h4 := (convergedAfter_three lib
          (fun j => (distantAfter lib R Rho k kBloch Gamma LDim E st1 j).Sum) m).mpr hU
      have hm3 : m + 3 < n + 3 := by omega
      exact absurd h4 (not_le.mpr (a5 (m + 3) (Nat.zero_le _) hm3).1)

/-- C21, part (iii), on the 1D lattice `L1 = (1, 0)` with `k = 1`,
`R = (0, 0, 5)`, `Rho = 5`, `E = 1` and Bloch vector `(1/2, 0)`, where
`GetGBarDistant` returns a non-singular result. -/
theorem C21_witness :
    ∃ D : DistantResult ℚ,
      ((1 : ℚ) ≠ 0)
      ∧ (GetGBarDistant refLibm (⟨0, 0, 5⟩ : Vec3 ℚ) (5 : ℚ) (⟨1, 0⟩ : cdouble ℚ)
          (⟨1 / 2, 0⟩ : Vec2 ℚ) (⟨2 * M_PI, 0, 0, 0⟩ : Mat2 ℚ) (1 : ℤ) (1 : ℚ) = .ok D)
      ∧ (D.Singular = false)
      ∧ (∃ st1 : DistantState ℚ,
      distantFirstRound refLibm (⟨0, 0, 5⟩ : Vec3 ℚ) (5 : ℚ) (⟨1, 0⟩ : cdouble ℚ) (⟨1 / 2, 0⟩ :
          Vec2 ℚ) (⟨2 * M_PI, 0, 0, 0⟩ : Mat2 ℚ) (1 : ℤ) (1 : ℚ)
          { Sum := Sum8.zero, Singular := false, nCells := 0, trace := [] } = .ok st1
      ∧ st1.Singular = false
      ∧ ∃ n : ℕ, n + 3 ≤ 9999
        ∧ (∀ j : ℕ, j < n + 3 →
          distantShell refLibm (⟨0, 0, 5⟩ : Vec3 ℚ) (5 : ℚ) (⟨1, 0⟩ : cdouble ℚ) (⟨1 / 2, 0⟩ : Vec2
              ℚ) (⟨2 * M_PI, 0, 0, 0⟩ : Mat2 ℚ) (1 : ℤ) (1 : ℚ) (NFIRSTROUND + 1 + (j : ℤ))
              (distantAfter refLibm (⟨0, 0, 5⟩ : Vec3 ℚ) (5 : ℚ) (⟨1, 0⟩ : cdouble ℚ) (⟨1 / 2, 0⟩ :
                  Vec2 ℚ) (⟨2 * M_PI, 0, 0, 0⟩ : Mat2 ℚ) (1 : ℤ) (1 : ℚ) st1 j)
            = .ok (distantAfter refLibm (⟨0, 0, 5⟩ : Vec3 ℚ) (5 : ℚ) (⟨1, 0⟩ : cdouble ℚ) (⟨1 / 2,
                0⟩ : Vec2 ℚ) (⟨2 * M_PI, 0, 0, 0⟩ : Mat2 ℚ) (1 : ℤ) (1 : ℚ) st1 (j + 1))
          ∧ (distantAfter refLibm (⟨0, 0, 5⟩ : Vec3 ℚ) (5 : ℚ) (⟨1, 0⟩ : cdouble ℚ) (⟨1 / 2, 0⟩ :
              Vec2 ℚ) (⟨2 * M_PI, 0, 0, 0⟩ : Mat2 ℚ) (1 : ℤ) (1 : ℚ) st1 (j + 1)).Singular = false)
        ∧ (∀ fuel : ℕ, 9999 ≤ fuel →
          distantLoop refLibm (⟨0, 0, 5⟩ : Vec3 ℚ) (5 : ℚ) (⟨1, 0⟩ : cdouble ℚ) (⟨1 / 2, 0⟩ : Vec2
              ℚ) (⟨2 * M_PI, 0, 0, 0⟩ : Mat2 ℚ) (1 : ℤ) (1 : ℚ) fuel (NFIRSTROUND + 1) 0 st1 st1.Sum
            = .ok (distantAfter refLibm (⟨0, 0, 5⟩ : Vec3 ℚ) (5 : ℚ) (⟨1, 0⟩ : cdouble ℚ) (⟨1 / 2,
                0⟩ : Vec2 ℚ) (⟨2 * M_PI, 0, 0, 0⟩ : Mat2 ℚ) (1 : ℤ) (1 : ℚ) st1 (n + 3)))
        ∧ D.Sum = (distantAfter refLibm (⟨0, 0, 5⟩ : Vec3 ℚ) (5 : ℚ) (⟨1, 0⟩ : cdouble ℚ) (⟨1 / 2,
            0⟩ : Vec2 ℚ) (⟨2 * M_PI, 0, 0, 0⟩ : Mat2 ℚ) (1 : ℤ) (1 : ℚ) st1 (n + 3)).Sum.scale
            (GetGBarDistant_PreFactor refLibm (⟨2 * M_PI, 0, 0, 0⟩ : Mat2 ℚ) (1 : ℤ))
        ∧ D.trace = (distantAfter refLibm (⟨0, 0, 5⟩ : Vec3 ℚ) (5 : ℚ) (⟨1, 0⟩ : cdouble ℚ) (⟨1 /
            2, 0⟩ : Vec2 ℚ) (⟨2 * M_PI, 0, 0, 0⟩ : Mat2 ℚ) (1 : ℤ) (1 : ℚ) st1 (n + 3)).trace
        ∧ (n + 3 < 9999 →
          underTolerance refLibm (distantAfter refLibm (⟨0, 0, 5⟩ : Vec3 ℚ) (5 : ℚ) (⟨1, 0⟩ :
              cdouble ℚ) (⟨1 / 2, 0⟩ : Vec2 ℚ) (⟨2 * M_PI, 0, 0, 0⟩ : Mat2 ℚ) (1 : ℤ) (1 : ℚ) st1
              (n + 1)).Sum (distantAfter refLibm (⟨0, 0, 5⟩ : Vec3 ℚ) (5 : ℚ) (⟨1, 0⟩ : cdouble ℚ)
              (⟨1 / 2, 0⟩ : Vec2 ℚ) (⟨2 * M_PI, 0, 0, 0⟩ : Mat2 ℚ) (1 : ℤ) (1 : ℚ) st1 n).Sum = true
          ∧ underTolerance refLibm (distantAfter refLibm (⟨0, 0, 5⟩ : Vec3 ℚ) (5 : ℚ) (⟨1, 0⟩ :
              cdouble ℚ) (⟨1 / 2, 0⟩ : Vec2 ℚ) (⟨2 * M_PI, 0, 0, 0⟩ : Mat2 ℚ) (1 : ℤ) (1 : ℚ) st1
              (n + 2)).Sum (distantAfter refLibm (⟨0, 0, 5⟩ : Vec3 ℚ) (5 : ℚ) (⟨1, 0⟩ : cdouble ℚ)
              (⟨1 / 2, 0⟩ : Vec2 ℚ) (⟨2 * M_PI, 0, 0, 0⟩ : Mat2 ℚ) (1 : ℤ) (1 : ℚ) st1 (n + 1)).Sum
              = true
          ∧ underTolerance refLibm (distantAfter refLibm (⟨0, 0, 5⟩ : Vec3 ℚ) (5 : ℚ) (⟨1, 0⟩ :
              cdouble ℚ) (⟨1 / 2, 0⟩ : Vec2 ℚ) (⟨2 * M_PI, 0, 0, 0⟩ : Mat2 ℚ) (1 : ℤ) (1 : ℚ) st1
              (n + 3)).Sum (distantAfter refLibm (⟨0, 0, 5⟩ : Vec3 ℚ) (5 : ℚ) (⟨1, 0⟩ : cdouble ℚ)
              (⟨1 / 2, 0⟩ : Vec2 ℚ) (⟨2 * M_PI, 0, 0, 0⟩ : Mat2 ℚ) (1 : ℤ) (1 : ℚ) st1 (n + 2)).Sum
              = true)
        ∧ ∀ m : ℕ, m < n →
          ¬ (underTolerance refLibm (distantAfter refLibm (⟨0, 0, 5⟩ : Vec3 ℚ) (5 : ℚ) (⟨1, 0⟩ :
              cdouble ℚ) (⟨1 / 2, 0⟩ : Vec2 ℚ) (⟨2 * M_PI, 0, 0, 0⟩ : Mat2 ℚ) (1 : ℤ) (1 : ℚ) st1
              (m + 1)).Sum (distantAfter refLibm (⟨0, 0, 5⟩ : Vec3 ℚ) (5 : ℚ) (⟨1, 0⟩ : cdouble ℚ)
              (⟨1 / 2, 0⟩ : Vec2 ℚ) (⟨2 * M_PI, 0, 0, 0⟩ : Mat2 ℚ) (1 : ℤ) (1 : ℚ) st1 m).Sum = true
          ∧ underTolerance refLibm (distantAfter refLibm (⟨0, 0, 5⟩ : Vec3 ℚ) (5 : ℚ) (⟨1, 0⟩ :
              cdouble ℚ) (⟨1 / 2, 0⟩ : Vec2 ℚ) (⟨2 * M_PI, 0, 0, 0⟩ : Mat2 ℚ) (1 : ℤ) (1 : ℚ) st1
              (m + 2)).Sum (distantAfter refLibm (⟨0, 0, 5⟩ : Vec3 ℚ) (5 : ℚ) (⟨1, 0⟩ : cdouble ℚ)
              (⟨1 / 2, 0⟩ : Vec2 ℚ) (⟨2 * M_PI, 0, 0, 0⟩ : Mat2 ℚ) (1 : ℤ) (1 : ℚ) st1 (m + 1)).Sum
              = true
          ∧ underTolerance refLibm (distantAfter refLibm (⟨0, 0, 5⟩ : Vec3 ℚ) (5 : ℚ) (⟨1, 0⟩ :
              cdouble ℚ) (⟨1 / 2, 0⟩ : Vec2 ℚ) (⟨2 * M_PI, 0, 0, 0⟩ : Mat2 ℚ) (1 : ℤ) (1 : ℚ) st1
              (m + 3)).Sum (distantAfter refLibm (⟨0, 0, 5⟩ : Vec3 ℚ) (5 : ℚ) (⟨1, 0⟩ : cdouble ℚ)
              (⟨1 / 2, 0⟩ : Vec2 ℚ) (⟨2 * M_PI, 0, 0, 0⟩ : Mat2 ℚ) (1 : ℤ) (1 : ℚ) st1 (m + 2)).Sum
              = true)) := by
  obtain ⟨D, hD, hs, _⟩ := GetGBarDistant_1D_far refLibm ⟨0, 0, 5⟩ 5 ⟨1, 0⟩ ⟨1 / 2, 0⟩
    ⟨2 * M_PI, 0, 0, 0⟩ 1 rfl rfl (by norm_num) (by norm_num)
  exact ⟨D, one_ne_zero, hD, hs,
    (C21_shell_loops_stop_after_three_converged_shells refLibm ⟨0, 0, 5⟩ ⟨1, 0⟩ ⟨1 / 2, 0⟩ ⟨1, 0,
        0, 0⟩ 1).2.2 5 ⟨2 * M_PI, 0, 0, 0⟩ 1 D
      one_ne_zero hD hs⟩

set_option maxRecDepth 100000 in
/-- C22 fails for `E = 0`: with a library whose square root of `1e-14` is
`1e-7`, the cell `(0, 0)` of the unit square lattice lies at distance
`1e-7 < 1e-6` from `R = (0, 0, 1e-7)`, and `AddGShort` with `E = 0`, `k = 1`
changes the zeroed sums. -/
theorem C22_counterexample :
    (refLibmSqrtAt 1.0e-14 1.0e-7).sqrt
        ((0 - 0) * (0 - 0) + (0 - 0) * (0 - 0) + 1.0e-7 * 1.0e-7) = 1.0e-7
    ∧ (1.0e-7 : ℚ) < 1.0e-6
    ∧ cellVector 0 0 (⟨1, 0, 0, 1⟩ : Mat2 ℚ) 2 = ⟨0, 0⟩
    ∧ AddGShort (refLibmSqrtAt 1.0e-14 1.0e-7) ⟨0, 0, 1.0e-7⟩ ⟨1, 0⟩ ⟨0, 0⟩ 0 0 ⟨1, 0, 0, 1⟩ 2 0
        Sum8.zero ≠ Sum8.zero := by
  refine ⟨by decide!, by decide!, by decide!, by decide!⟩

/-- C22, amended: with `r` the distance `|R - L|` the code computes,
`AddGShort` leaves the eight sums unchanged when `E ≠ 0` and `r < 1e-6`, and
when `E = 0` and `r < 1e-8`; when `E = 0` and `r ≥ 1e-8` (so also for
`1e-8 ≤ r < 1e-6`) it adds `e^{i kBloch·L} e^{ikr}/(4πr)` to slot 0, as
`AddGFull` does. -/
theorem C22_AddGShort_skip_thresholds (lib : Libm F) (R : Vec3 F) (k : cdouble F) (kBloch : Vec2 F)
    (n1 n2 : ℤ)
    (LBV : Mat2 F) (LDim : ℤ) (E : F) (S : Sum8 F) (L : Vec2 F) (r : F)
    (hL : L = cellVector n1 n2 LBV LDim)
    (hr : r = lib.sqrt ((R.x - L.x) * (R.x - L.x) + (R.y - L.y) * (R.y - L.y) + R.z * R.z)) :
    (E ≠ 0 → r < 1.0e-6 → AddGShort lib R k kBloch n1 n2 LBV LDim E S = S)
    ∧ (E = 0 → r < 1.0e-8 → AddGShort lib R k kBloch n1 n2 LBV LDim E S = S)
    ∧ (E = 0 → ¬ r < 1.0e-8 →
        (AddGShort lib R k kBloch n1 n2 LBV LDim E S).s0
          = S.s0 + lib.cexp (II * ofReal (L.x * kBloch.x + L.y * kBloch.y))
              * (lib.cexp (II * k * ofReal r) / ofReal (4 * M_PI * r))) := by
  subst hL hr
  refine ⟨?_, ?_, ?_⟩
  · intro hE h
    unfold AddGShort
    simp only [if_neg hE]
    rw [if_pos h]
  · intro hE h
    unfold AddGShort
    simp only [if_pos hE]
    unfold AddGFull
    simp only
    rw [if_pos h]
  · intro hE h
    unfold AddGShort
    simp only [if_pos hE]
    unfold AddGFull
    simp only
    rw [if_neg h]
    simp

set_option maxRecDepth 100000 in
/-- C22 (amended) at the cell `(0, 0)` of the unit square lattice, `k = 1`:
`E = 1` at distance `1e-7`, and `E = 0` at distance 0. -/
theorem C22_witness :
    ((1 : ℚ) ≠ 0
      ∧ (refLibmSqrtAt 1.0e-14 1.0e-7).sqrt
          ((0 - 0) * (0 - 0) + (0 - 0) * (0 - 0) + 1.0e-7 * 1.0e-7) < 1.0e-6
      ∧ AddGShort (refLibmSqrtAt 1.0e-14 1.0e-7) ⟨0, 0, 1.0e-7⟩ ⟨1, 0⟩ ⟨0, 0⟩ 0 0 ⟨1, 0, 0, 1⟩ 2 1
          Sum8.zero = Sum8.zero)
    ∧ (refLibm.sqrt ((0 - 0) * (0 - 0) + (0 - 0) * (0 - 0) + 0 * 0) < 1.0e-8
      ∧ AddGShort refLibm ⟨0, 0, 0⟩ ⟨1, 0⟩ ⟨0, 0⟩ 0 0 ⟨1, 0, 0, 1⟩ 2 0 Sum8.zero = Sum8.zero) := by
  have hL : (⟨0, 0⟩ : Vec2 ℚ) = cellVector 0 0 ⟨1, 0, 0, 1⟩ 2 := by
    simp [cellVector]
  refine ⟨⟨by norm_num, by decide!, ?_⟩, ⟨by decide!, ?_⟩⟩
  · exact (C22_AddGShort_skip_thresholds (refLibmSqrtAt 1.0e-14 1.0e-7) ⟨0, 0, 1.0e-7⟩ ⟨1, 0⟩ ⟨0,
      0⟩ 0 0 ⟨1, 0, 0, 1⟩ 2 1
      Sum8.zero ⟨0, 0⟩ _ hL rfl).1 (by norm_num) (by decide!)
  · exact (C22_AddGShort_skip_thresholds refLibm ⟨0, 0, 0⟩ ⟨1, 0⟩ ⟨0, 0⟩ 0 0 ⟨1, 0, 0, 1⟩ 2 0
      Sum8.zero ⟨0, 0⟩ _ hL rfl).2.1 rfl (by decide!)

/-- C23: let `sqrt` and `exp` of the library be the real square root and the
complex exponential, and `T(x, y, z) = e^{i kBloch·L} e^{ikr}/(4πr)` with
`r = sqrt((x-Lx)^2 + (y-Ly)^2 + z^2)`.  If the distance the code computes is
below `1e-8`, `AddGFull` (with `ValueOnly = false`) leaves the sums unchanged.
Otherwise it adds to the sums what it gives on zeroed sums; slot 0 of that is
`T(x, y, z)`, and slots 1 to 7 are the derivatives of `T` at `(x, y, z)`:
`∂x`, `∂y`, `∂z`, `∂y∂x`, `∂z∂x`, `∂z∂y` and `∂z∂y∂x`. -/
theorem C23_AddGFull_value_and_partials (lib : Libm ℝ) (hsqrt : ∀ x, lib.sqrt x = Real.sqrt x)
    (hexp : ∀ w, toComplex (lib.cexp w) = Complex.exp (toComplex w))
    (k : cdouble ℝ) (kBloch : Vec2 ℝ) (Lx Ly : ℝ) (T : ℝ → ℝ → ℝ → ℂ)
    (hT : ∀ x y z, T x y z
      = Complex.exp (Complex.I * ((Lx * kBloch.x + Ly * kBloch.y : ℝ) : ℂ))
        * (Complex.exp (Complex.I * toComplex k
              * (Real.sqrt ((x - Lx) * (x - Lx) + (y - Ly) * (y - Ly) + z * z) : ℝ))
            / ((4 * M_PI
              * Real.sqrt ((x - Lx) * (x - Lx) + (y - Ly) * (y - Ly) + z * z) : ℝ) : ℂ)))
    (x y z : ℝ) :
    (lib.sqrt ((x - Lx) * (x - Lx) + (y - Ly) * (y - Ly) + z * z) < 1.0e-8 →
      ∀ S, AddGFull lib ⟨x, y, z⟩ k kBloch Lx Ly S false = S)
    ∧ (¬ lib.sqrt ((x - Lx) * (x - Lx) + (y - Ly) * (y - Ly) + z * z) < 1.0e-8 →
      (∀ S, AddGFull lib ⟨x, y, z⟩ k kBloch Lx Ly S false
          = S.add (AddGFull lib ⟨x, y, z⟩ k kBloch Lx Ly Sum8.zero false))
      ∧ toComplex (AddGFull lib ⟨x, y, z⟩ k kBloch Lx Ly Sum8.zero false).s0 = T x y z
      ∧ HasDerivAt (fun t => T t y z)
          (toComplex (AddGFull lib ⟨x, y, z⟩ k kBloch Lx Ly Sum8.zero false).s1) x
      ∧ HasDerivAt (fun t => T x t z)
          (toComplex (AddGFull lib ⟨x, y, z⟩ k kBloch Lx Ly Sum8.zero false).s2) y
      ∧ HasDerivAt (fun t => T x y t)
          (toComplex (AddGFull lib ⟨x, y, z⟩ k kBloch Lx Ly Sum8.zero false).s3) z
      ∧ HasDerivAt (fun t => deriv (fun u => T u t z) x)
          (toComplex (AddGFull lib ⟨x, y, z⟩ k kBloch Lx Ly Sum8.zero false).s4) y
      ∧ HasDerivAt (fun t => deriv (fun u => T u y t) x)
          (toComplex (AddGFull lib ⟨x, y, z⟩ k kBloch Lx Ly Sum8.zero false).s5) z
      ∧ HasDerivAt (fun t => deriv (fun u => T x u t) y)
          (toComplex (AddGFull lib ⟨x, y, z⟩ k kBloch Lx Ly Sum8.zero false).s6) z
      ∧ HasDerivAt (fun t => deriv (fun v => deriv (fun u => T u v t) x) y)
          (toComplex (AddGFull lib ⟨x, y, z⟩ k kBloch Lx Ly Sum8.zero false).s7) z) := by
  constructor
  · intro h S
    exact AddGFull_of_lt lib ⟨x, y, z⟩ k kBloch Lx Ly S false h
  · intro h
    have hn : ¬ Real.sqrt ((x - Lx) * (x - Lx) + (y - Ly) * (y - Ly) + z * z) < 1.0e-8 := by
      rw [← hsqrt]
      exact h
    have hpos : 0 < (x - Lx) * (x - Lx) + (y - Ly) * (y - Ly) + z * z := by
      apply Real.sqrt_pos.mp
      have h8 : (0 : ℝ) < 1.0e-8 := by norm_num
      linarith [not_lt.mp hn]
    obtain ⟨a0, a1, a2, a3, a4, a5, a6, a7⟩ :=
      AddGFull_toComplex lib hsqrt hexp k kBloch Lx Ly x y z hn _ rfl _ rfl _ rfl
    obtain ⟨d1, d2, d3, d4, d5, d6, d7⟩ :=
      radial_partials Lx Ly
        (Complex.exp (Complex.I * ((Lx * kBloch.x + Ly * kBloch.y : ℝ) : ℂ)))
        (fun ρ : ℝ => Complex.exp (Complex.I * toComplex k * (ρ : ℂ)) / ((4 * M_PI * ρ : ℝ) : ℂ))
        (fun ρ : ℝ => (Complex.I * toComplex k * (ρ : ℂ) - 1)
          * (Complex.exp (Complex.I * toComplex k * (ρ : ℂ)) / ((4 * M_PI * ρ : ℝ) : ℂ))
          / ((ρ * ρ : ℝ) : ℂ))
        (fun ρ : ℝ =>
          (3 + Complex.I * toComplex k * (ρ : ℂ) * (-3 + Complex.I * toComplex k * (ρ : ℂ)))
          * (Complex.exp (Complex.I * toComplex k * (ρ : ℂ)) / ((4 * M_PI * ρ : ℝ) : ℂ))
          / ((ρ * ρ * (ρ * ρ) : ℝ) : ℂ))
        (fun ρ : ℝ =>
          (-15 + Complex.I * toComplex k * (ρ : ℂ)
            * (15 + Complex.I * toComplex k * (ρ : ℂ)
              * (-6 + Complex.I * toComplex k * (ρ : ℂ))))
          * (Complex.exp (Complex.I * toComplex k * (ρ : ℂ)) / ((4 * M_PI * ρ : ℝ) : ℂ))
          / ((ρ * ρ * (ρ * ρ) * (ρ * ρ) : ℝ) : ℂ))
        (fun ρ hρ => hasDerivAt_Phi (toComplex k) ρ hρ)
        (fun ρ hρ => hasDerivAt_Psi (toComplex k) ρ hρ)
        (fun ρ hρ => hasDerivAt_Zeta (toComplex k) ρ hρ)
        T hT x y z hpos
    refine ⟨fun S => AddGFull_add lib ⟨x, y, z⟩ k kBloch Lx Ly S false, ?_, ?_, ?_, ?_, ?_,
      ?_, ?_, ?_⟩
    · rw [a0, hT]
    · rw [a1]
      exact d1
    · rw [a2]
      exact d2
    · rw [a3]
      exact d3
    · rw [a4]
      exact d4
    · rw [a5]
      exact d5
    · rw [a6]
      exact d6
    · rw [a7]
      exact d7

/-- C23 at `R = (1, 0, 0)`, `L = (0, 0)`, `k = 1`, Bloch vector 0, for the library
with the real square root and the complex exponential. -/
theorem C23_witness :
    ∃ (lib : Libm ℝ) (T : ℝ → ℝ → ℝ → ℂ),
      (∀ x, lib.sqrt x = Real.sqrt x)
      ∧ (∀ w, toComplex (lib.cexp w) = Complex.exp (toComplex w))
      ∧ (∀ x y z, T x y z
      = Complex.exp (Complex.I * (((0 : ℝ) * (⟨0, 0⟩ : Vec2 ℝ).x + (0 : ℝ) * (⟨0, 0⟩ : Vec2 ℝ).y :
          ℝ) : ℂ))
        * (Complex.exp (Complex.I * toComplex (1 : cdouble ℝ)
              * (Real.sqrt ((x - (0 : ℝ)) * (x - (0 : ℝ)) + (y - (0 : ℝ)) * (y - (0 : ℝ)) + z * z)
                  : ℝ))
            / ((4 * M_PI
              * Real.sqrt ((x - (0 : ℝ)) * (x - (0 : ℝ)) + (y - (0 : ℝ)) * (y - (0 : ℝ)) + z * z) :
                  ℝ) : ℂ)))
      ∧ ¬ lib.sqrt (((1 : ℝ) - (0 : ℝ)) * ((1 : ℝ) - (0 : ℝ)) + ((0 : ℝ) - (0 : ℝ)) * ((0 : ℝ) - (0
          : ℝ)) + (0 : ℝ) * (0 : ℝ)) < 1.0e-8
      ∧ ((lib.sqrt (((1 : ℝ) - (0 : ℝ)) * ((1 : ℝ) - (0 : ℝ)) + ((0 : ℝ) - (0 : ℝ)) * ((0 : ℝ) - (0
          : ℝ)) + (0 : ℝ) * (0 : ℝ)) < 1.0e-8 →
      ∀ S, AddGFull lib ⟨(1 : ℝ), (0 : ℝ), (0 : ℝ)⟩ (1 : cdouble ℝ) (⟨0, 0⟩ : Vec2 ℝ) (0 : ℝ) (0 :
          ℝ) S false = S)
    ∧ (¬ lib.sqrt (((1 : ℝ) - (0 : ℝ)) * ((1 : ℝ) - (0 : ℝ)) + ((0 : ℝ) - (0 : ℝ)) * ((0 : ℝ) - (0
        : ℝ)) + (0 : ℝ) * (0 : ℝ)) < 1.0e-8 →
      (∀ S, AddGFull lib ⟨(1 : ℝ), (0 : ℝ), (0 : ℝ)⟩ (1 : cdouble ℝ) (⟨0, 0⟩ : Vec2 ℝ) (0 : ℝ) (0 :
          ℝ) S false
          = S.add (AddGFull lib ⟨(1 : ℝ), (0 : ℝ), (0 : ℝ)⟩ (1 : cdouble ℝ) (⟨0, 0⟩ : Vec2 ℝ) (0 :
              ℝ) (0 : ℝ) Sum8.zero false))
      ∧ toComplex (AddGFull lib ⟨(1 : ℝ), (0 : ℝ), (0 : ℝ)⟩ (1 : cdouble ℝ) (⟨0, 0⟩ : Vec2 ℝ) (0 :
          ℝ) (0 : ℝ) Sum8.zero false).s0 = T (1 : ℝ) (0 : ℝ) (0 : ℝ)
      ∧ HasDerivAt (fun t => T t (0 : ℝ) (0 : ℝ))
          (toComplex (AddGFull lib ⟨(1 : ℝ), (0 : ℝ), (0 : ℝ)⟩ (1 : cdouble ℝ) (⟨0, 0⟩ : Vec2 ℝ) (0
              : ℝ) (0 : ℝ) Sum8.zero false).s1) (1 : ℝ)
      ∧ HasDerivAt (fun t => T (1 : ℝ) t (0 : ℝ))
          (toComplex (AddGFull lib ⟨(1 : ℝ), (0 : ℝ), (0 : ℝ)⟩ (1 : cdouble ℝ) (⟨0, 0⟩ : Vec2 ℝ) (0
              : ℝ) (0 : ℝ) Sum8.zero false).s2) (0 : ℝ)
      ∧ HasDerivAt (fun t => T (1 : ℝ) (0 : ℝ) t)
          (toComplex (AddGFull lib ⟨(1 : ℝ), (0 : ℝ), (0 : ℝ)⟩ (1 : cdouble ℝ) (⟨0, 0⟩ : Vec2 ℝ) (0
              : ℝ) (0 : ℝ) Sum8.zero false).s3) (0 : ℝ)
      ∧ HasDerivAt (fun t => deriv (fun u => T u t (0 : ℝ)) (1 : ℝ))
          (toComplex (AddGFull lib ⟨(1 : ℝ), (0 : ℝ), (0 : ℝ)⟩ (1 : cdouble ℝ) (⟨0, 0⟩ : Vec2 ℝ) (0
              : ℝ) (0 : ℝ) Sum8.zero false).s4) (0 : ℝ)
      ∧ HasDerivAt (fun t => deriv (fun u => T u (0 : ℝ) t) (1 : ℝ))
          (toComplex (AddGFull lib ⟨(1 : ℝ), (0 : ℝ), (0 : ℝ)⟩ (1 : cdouble ℝ) (⟨0, 0⟩ : Vec2 ℝ) (0
              : ℝ) (0 : ℝ) Sum8.zero false).s5) (0 : ℝ)
      ∧ HasDerivAt (fun t => deriv (fun u => T (1 : ℝ) u t) (0 : ℝ))
          (toComplex (AddGFull lib ⟨(1 : ℝ), (0 : ℝ), (0 : ℝ)⟩ (1 : cdouble ℝ) (⟨0, 0⟩ : Vec2 ℝ) (0
              : ℝ) (0 : ℝ) Sum8.zero false).s6) (0 : ℝ)
      ∧ HasDerivAt (fun t => deriv (fun v => deriv (fun u => T u v t) (1 : ℝ)) (0 : ℝ))
          (toComplex (AddGFull lib ⟨(1 : ℝ), (0 : ℝ), (0 : ℝ)⟩ (1 : cdouble ℝ) (⟨0, 0⟩ : Vec2 ℝ) (0
              : ℝ) (0 : ℝ) Sum8.zero false).s7) (0 : ℝ))) := by
  let lib : Libm ℝ :=
    { sqrt := Real.sqrt, cabs := fun _ => 0, csqrt := fun w => w,
      cexp := fun w => ofComplex (Complex.exp (toComplex w)),
      clog := fun w => w, carg := fun _ => 0, erfcx := fun w => w,
      cerf := fun w => w, AmosBesselK := fun w _ => w,
      IsFinite := fun _ => true, ISNAN := fun _ => false }
  let T : ℝ → ℝ → ℝ → ℂ := fun x y z =>
    Complex.exp (Complex.I * (((0 : ℝ) * (⟨0, 0⟩ : Vec2 ℝ).x + (0 : ℝ) * (⟨0, 0⟩ : Vec2 ℝ).y : ℝ) :
        ℂ))
        * (Complex.exp (Complex.I * toComplex (1 : cdouble ℝ)
              * (Real.sqrt ((x - (0 : ℝ)) * (x - (0 : ℝ)) + (y - (0 : ℝ)) * (y - (0 : ℝ)) + z * z)
                  : ℝ))
            / ((4 * M_PI
              * Real.sqrt ((x - (0 : ℝ)) * (x - (0 : ℝ)) + (y - (0 : ℝ)) * (y - (0 : ℝ)) + z * z) :
                  ℝ) : ℂ))
  have hsqrt : ∀ x, lib.sqrt x = Real.sqrt x := fun _ => rfl
  have hexp : ∀ w, toComplex (lib.cexp w) = Complex.exp (toComplex w) := fun _ => rfl
  have hne : ¬ lib.sqrt (((1 : ℝ) - (0 : ℝ)) * ((1 : ℝ) - (0 : ℝ))
      + ((0 : ℝ) - (0 : ℝ)) * ((0 : ℝ) - (0 : ℝ)) + (0 : ℝ) * (0 : ℝ)) < 1.0e-8 := by
    show ¬ Real.sqrt _ < _
    norm_num
  exact ⟨lib, T, hsqrt, hexp, fun _ _ _ => rfl, hne,
    C23_AddGFull_value_and_partials lib hsqrt hexp 1 ⟨0, 0⟩ 0 0 T (fun _ _ _ => rfl) 1 0 0⟩

/-- C24: let `sqrt` and `exp` of the library be the real square root and the
complex exponential, and `erfcx(w) = exp(w^2) erfc(w)` for a function `erfc`
with `erfc(-w) = 2 - erfc(w)` whose derivative in the real direction is
`-M_2_SQRTPI exp(-w^2)` (`M_2_SQRTPI` is the constant for `2/sqrt π`).  Let
`E ≠ 0`, let `P` and `M` (`ggPgg`, `ggMgg`) be the sum and the difference of
`e^{ikρ} erfc(Eρ + ik/2E)` and `e^{-ikρ} erfc(Eρ - ik/2E)`, and
`G(ρ) = -2 M_2_SQRTPI E exp(-E^2 ρ^2 + k^2/(4E^2))` (`g4`).  Then
(i) `P' = ik M + G`, `M' = ik P` and `G' = -2 E^2 ρ G`;
(ii) `AddGShort` adds to the sums what it gives on zeroed sums;
(iii) for a cell at computed distance at least `1e-6`, slot 0 of that is
`T(x, y, z) = e^{i kBloch·L}/(8π) P(r)/r`;
(iv) the `ggPgg` of the code is `P`, and for `ρ > 0` the three radial factors
of the code are `(1/ρ) d/dρ` of `P/ρ`, of the first factor and of the second
factor;
(v) slots 1 to 7 are the derivatives `∂x`, `∂y`, `∂z`, `∂y∂x`, `∂z∂x`, `∂z∂y`
and `∂z∂y∂x` of `T` at `(x, y, z)`. -/
theorem C24_AddGShort_radial_factors (lib : Libm ℝ) (erfc : ℂ → ℂ)
    (hsqrt : ∀ x, lib.sqrt x = Real.sqrt x)
    (hexp : ∀ w, toComplex (lib.cexp w) = Complex.exp (toComplex w))
    (herfcx : ∀ w, toComplex (lib.erfcx w)
      = Complex.exp (toComplex w * toComplex w) * erfc (toComplex w))
    (hneg : ∀ w, erfc (-w) = 2 - erfc w)
    (hderiv : ∀ w : ℂ, HasDerivAt (fun t : ℝ => erfc (w + (t : ℂ)))
      (-((M_2_SQRTPI : ℝ) : ℂ) * Complex.exp (-(w * w))) 0)
    (k : cdouble ℝ) (kBloch : Vec2 ℝ) (n1 n2 : ℤ) (LBV : Mat2 ℝ) (LDim : ℤ) (E : ℝ)
    (hE : E ≠ 0) (L : Vec2 ℝ) (hL : L = cellVector n1 n2 LBV LDim)
    (P M G : ℝ → ℂ)
    (hP : P = fun ρ : ℝ =>
      Complex.exp (Complex.I * toComplex k * (ρ : ℂ))
          * erfc (((E * ρ : ℝ) : ℂ) + Complex.I * toComplex k / ((2 * E : ℝ) : ℂ))
        + Complex.exp (-Complex.I * toComplex k * (ρ : ℂ))
          * erfc (((E * ρ : ℝ) : ℂ) - Complex.I * toComplex k / ((2 * E : ℝ) : ℂ)))
    (hM : M = fun ρ : ℝ =>
      Complex.exp (Complex.I * toComplex k * (ρ : ℂ))
          * erfc (((E * ρ : ℝ) : ℂ) + Complex.I * toComplex k / ((2 * E : ℝ) : ℂ))
        - Complex.exp (-Complex.I * toComplex k * (ρ : ℂ))
          * erfc (((E * ρ : ℝ) : ℂ) - Complex.I * toComplex k / ((2 * E : ℝ) : ℂ)))
    (hG : G = fun ρ : ℝ =>
      ((-2 * M_2_SQRTPI * E : ℝ) : ℂ)
        * Complex.exp (((-(E * E) * (ρ * ρ) : ℝ) : ℂ)
            + toComplex k * toComplex k / ((4 * (E * E) : ℝ) : ℂ)))
    (T : ℝ → ℝ → ℝ → ℂ)
    (hT : ∀ x y z, T x y z
      = Complex.exp (Complex.I * ((kBloch.x * L.x + kBloch.y * L.y : ℝ) : ℂ))
          / ((8 * M_PI : ℝ) : ℂ)
        * (P (Real.sqrt ((x - L.x) * (x - L.x) + (y - L.y) * (y - L.y) + z * z))
          / ((Real.sqrt ((x - L.x) * (x - L.x) + (y - L.y) * (y - L.y) + z * z) : ℝ) : ℂ)))
    (x y z : ℝ)
    (hr : ¬ lib.sqrt ((x - L.x) * (x - L.x) + (y - L.y) * (y - L.y) + z * z) < 1.0e-6) :
    (∀ ρ : ℝ, HasDerivAt P (Complex.I * toComplex k * M ρ + G ρ) ρ
      ∧ HasDerivAt M (Complex.I * toComplex k * P ρ) ρ
      ∧ HasDerivAt G (((-2 * (E * E) * ρ : ℝ) : ℂ) * G ρ) ρ)
    ∧ (∀ S, AddGShort lib ⟨x, y, z⟩ k kBloch n1 n2 LBV LDim E S
        = S.add (AddGShort lib ⟨x, y, z⟩ k kBloch n1 n2 LBV LDim E Sum8.zero))
    ∧ toComplex (AddGShort lib ⟨x, y, z⟩ k kBloch n1 n2 LBV LDim E Sum8.zero).s0 = T x y z
    ∧ (∀ ρ : ℝ, toComplex (AddGShort_terms lib k E (ρ * ρ) ρ).ggPgg = P ρ)
    ∧ (∀ ρ : ℝ, 0 < ρ →
      HasDerivAt (fun t : ℝ => toComplex (AddGShort_terms lib k E (t * t) t).ggPgg / (t : ℂ))
          ((ρ : ℂ) * toComplex (AddGShort_terms lib k E (ρ * ρ) ρ).Term1) ρ
      ∧ HasDerivAt (fun t : ℝ => toComplex (AddGShort_terms lib k E (t * t) t).Term1)
          ((ρ : ℂ) * toComplex (AddGShort_terms lib k E (ρ * ρ) ρ).Term2) ρ
      ∧ HasDerivAt (fun t : ℝ => toComplex (AddGShort_terms lib k E (t * t) t).Term2)
          ((ρ : ℂ) * toComplex (AddGShort_terms lib k E (ρ * ρ) ρ).Term3) ρ)
    ∧ HasDerivAt (fun t => T t y z)
        (toComplex (AddGShort lib ⟨x, y, z⟩ k kBloch n1 n2 LBV LDim E Sum8.zero).s1) x
    ∧ HasDerivAt (fun t => T x t z)
        (toComplex (AddGShort lib ⟨x, y, z⟩ k kBloch n1 n2 LBV LDim E Sum8.zero).s2) y
    ∧ HasDerivAt (fun t => T x y t)
        (toComplex (AddGShort lib ⟨x, y, z⟩ k kBloch n1 n2 LBV LDim E Sum8.zero).s3) z
    ∧ HasDerivAt (fun t => deriv (fun u => T u t z) x)
        (toComplex (AddGShort lib ⟨x, y, z⟩ k kBloch n1 n2 LBV LDim E Sum8.zero).s4) y
    ∧ HasDerivAt (fun t => deriv (fun u => T u y t) x)
        (toComplex (AddGShort lib ⟨x, y, z⟩ k kBloch n1 n2 LBV LDim E Sum8.zero).s5) z
    ∧ HasDerivAt (fun t => deriv (fun u => T x u t) y)
        (toComplex (AddGShort lib ⟨x, y, z⟩ k kBloch n1 n2 LBV LDim E Sum8.zero).s6) z
    ∧ HasDerivAt (fun t => deriv (fun v => deriv (fun u => T u v t) x) y)
        (toComplex (AddGShort lib ⟨x, y, z⟩ k kBloch n1 n2 LBV LDim E Sum8.zero).s7) z := by
  have hrel := short_relations erfc hderiv (toComplex k) E hE P M G hP hM hG
  have htm := AddGShort_terms_toComplex lib erfc hexp herfcx hneg k E P M G hP hM hG
  have hf0 : (fun t : ℝ => toComplex (AddGShort_terms lib k E (t * t) t).ggPgg / (t : ℂ))
      = fun t : ℝ => P t / (t : ℂ) := by
    funext t
    rw [(htm t).1]
  have hf1 : (fun t : ℝ => toComplex (AddGShort_terms lib k E (t * t) t).Term1)
      = fun t : ℝ => -P t / ((t * t * t : ℝ) : ℂ)
        + (G t + Complex.I * toComplex k * M t) / ((t * t : ℝ) : ℂ) := by
    funext t
    rw [(htm t).2.1]
  have hf2 : (fun t : ℝ => toComplex (AddGShort_terms lib k E (t * t) t).Term2)
      = fun t : ℝ => 3 * P t / ((t * t * t * t * t : ℝ) : ℂ)
        - 3 * (G t + Complex.I * toComplex k * M t) / ((t * t * t * t : ℝ) : ℂ)
        - toComplex k * toComplex k * P t / ((t * t * t : ℝ) : ℂ)
        - ((2 * (E * E) : ℝ) : ℂ) * G t / ((t * t : ℝ) : ℂ) := by
    funext t
    rw [(htm t).2.2.1]
  have hrad : ∀ ρ : ℝ, 0 < ρ →
      HasDerivAt (fun t : ℝ => toComplex (AddGShort_terms lib k E (t * t) t).ggPgg / (t : ℂ))
          ((ρ : ℂ) * toComplex (AddGShort_terms lib k E (ρ * ρ) ρ).Term1) ρ
      ∧ HasDerivAt (fun t : ℝ => toComplex (AddGShort_terms lib k E (t * t) t).Term1)
          ((ρ : ℂ) * toComplex (AddGShort_terms lib k E (ρ * ρ) ρ).Term2) ρ
      ∧ HasDerivAt (fun t : ℝ => toComplex (AddGShort_terms lib k E (t * t) t).Term2)
          ((ρ : ℂ) * toComplex (AddGShort_terms lib k E (ρ * ρ) ρ).Term3) ρ := by
    intro ρ hρ
    obtain ⟨r1, r2, r3⟩ := hrel ρ
    refine ⟨?_, ?_, ?_⟩
    · rw [hf0, (htm ρ).2.1]
      exact short_radial_one (toComplex k) P M G ρ hρ r1
    · rw [hf1, (htm ρ).2.2.1]
      exact short_radial_two (toComplex k) E P M G ρ hρ r1 r2 r3
    · rw [hf2, (htm ρ).2.2.2]
      exact short_radial_three (toComplex k) E P M G ρ hρ r1 r2 r3
  have hn : ¬ Real.sqrt ((x - L.x) * (x - L.x) + (y - L.y) * (y - L.y) + z * z) < 1.0e-6 := by
    rw [← hsqrt]
    exact hr
  have hpos : 0 < (x - L.x) * (x - L.x) + (y - L.y) * (y - L.y) + z * z := by
    apply Real.sqrt_pos.mp
    have h6 : (0 : ℝ) < 1.0e-6 := by norm_num
    linarith [not_lt.mp hn]
  obtain ⟨a0, a1, a2, a3, a4, a5, a6, a7⟩ :=
    AddGShort_toComplex lib erfc hsqrt hexp herfcx hneg k kBloch n1 n2 LBV LDim E hE L hL
      P M G hP hM hG x y z hn _ rfl _ rfl
  have hT2 : ∀ x y z, T x y z
      = Complex.exp (Complex.I * ((kBloch.x * L.x + kBloch.y * L.y : ℝ) : ℂ))
          / ((8 * M_PI : ℝ) : ℂ)
        * (fun t : ℝ => toComplex (AddGShort_terms lib k E (t * t) t).ggPgg / (t : ℂ))
            (Real.sqrt ((x - L.x) * (x - L.x) + (y - L.y) * (y - L.y) + z * z)) := by
    intro x y z
    rw [hT, hf0]
  obtain ⟨d1, d2, d3, d4, d5, d6, d7⟩ :=
    radial_partials L.x L.y
      (Complex.exp (Complex.I * ((kBloch.x * L.x + kBloch.y * L.y : ℝ) : ℂ))
        / ((8 * M_PI : ℝ) : ℂ))
      (fun t : ℝ => toComplex (AddGShort_terms lib k E (t * t) t).ggPgg / (t : ℂ))
      (fun t : ℝ => toComplex (AddGShort_terms lib k E (t * t) t).Term1)
      (fun t : ℝ => toComplex (AddGShort_terms lib k E (t * t) t).Term2)
      (fun t : ℝ => toComplex (AddGShort_terms lib k E (t * t) t).Term3)
      (fun ρ hρ => (hrad ρ hρ).1) (fun ρ hρ => (hrad ρ hρ).2.1) (fun ρ hρ => (hrad ρ hρ).2.2)
      T hT2 x y z hpos
  refine ⟨hrel, fun S => AddGShort_add lib ⟨x, y, z⟩ k kBloch n1 n2 LBV LDim E S, ?_,
    fun ρ => (htm ρ).1, hrad, ?_, ?_, ?_, ?_, ?_, ?_, ?_⟩
  · rw [a0, hT]
  · rw [a1]
    exact d1
  · rw [a2]
    exact d2
  · rw [a3]
    exact d3
  · rw [a4]
    exact d4
  · rw [a5]
    exact d5
  · rw [a6]
    exact d6
  · rw [a7]
    exact d7

/-- C24 at `R = (1, 0, 0)`, the cell `(0, 0)` of the unit square lattice, `k = 1`,
`E = 1`, with a function `erfc` built from the integral of `exp(-w^2)` along
horizontal lines. -/
theorem C24_witness :
    ∃ (lib : Libm ℝ) (erfc : ℂ → ℂ) (P : ℝ → ℂ) (M : ℝ → ℂ) (G : ℝ → ℂ) (T : ℝ → ℝ → ℝ → ℂ),
      (∀ x, lib.sqrt x = Real.sqrt x)
      ∧ (∀ w, toComplex (lib.cexp w) = Complex.exp (toComplex w))
      ∧ (∀ w, toComplex (lib.erfcx w)
      = Complex.exp (toComplex w * toComplex w) * erfc (toComplex w))
      ∧ (∀ w, erfc (-w) = 2 - erfc w)
      ∧ (∀ w : ℂ, HasDerivAt (fun t : ℝ => erfc (w + (t : ℂ)))
      (-((M_2_SQRTPI : ℝ) : ℂ) * Complex.exp (-(w * w))) 0)
      ∧ ((1 : ℝ) ≠ 0)
      ∧ ((cellVector 0 0 (⟨1, 0, 0, 1⟩ : Mat2 ℝ) 2) = cellVector (0 : ℤ) (0 : ℤ) (⟨1, 0, 0, 1⟩ :
          Mat2 ℝ) (2 : ℤ))
      ∧ (P = fun ρ : ℝ =>
      Complex.exp (Complex.I * toComplex (1 : cdouble ℝ) * (ρ : ℂ))
          * erfc ((((1 : ℝ) * ρ : ℝ) : ℂ) + Complex.I * toComplex (1 : cdouble ℝ) / ((2 * (1 : ℝ) :
              ℝ) : ℂ))
        + Complex.exp (-Complex.I * toComplex (1 : cdouble ℝ) * (ρ : ℂ))
          * erfc ((((1 : ℝ) * ρ : ℝ) : ℂ) - Complex.I * toComplex (1 : cdouble ℝ) / ((2 * (1 : ℝ) :
              ℝ) : ℂ)))
      ∧ (M = fun ρ : ℝ =>
      Complex.exp (Complex.I * toComplex (1 : cdouble ℝ) * (ρ : ℂ))
          * erfc ((((1 : ℝ) * ρ : ℝ) : ℂ) + Complex.I * toComplex (1 : cdouble ℝ) / ((2 * (1 : ℝ) :
              ℝ) : ℂ))
        - Complex.exp (-Complex.I * toComplex (1 : cdouble ℝ) * (ρ : ℂ))
          * erfc ((((1 : ℝ) * ρ : ℝ) : ℂ) - Complex.I * toComplex (1 : cdouble ℝ) / ((2 * (1 : ℝ) :
              ℝ) : ℂ)))
      ∧ (G = fun ρ : ℝ =>
      ((-2 * M_2_SQRTPI * (1 : ℝ) : ℝ) : ℂ)
        * Complex.exp (((-((1 : ℝ) * (1 : ℝ)) * (ρ * ρ) : ℝ) : ℂ)
            + toComplex (1 : cdouble ℝ) * toComplex (1 : cdouble ℝ) / ((4 * ((1 : ℝ) * (1 : ℝ)) :
                ℝ) : ℂ)))
      ∧ (∀ x y z, T x y z
      = Complex.exp (Complex.I * (((⟨0, 0⟩ : Vec2 ℝ).x * (cellVector 0 0 (⟨1, 0, 0, 1⟩ : Mat2 ℝ)
          2).x + (⟨0, 0⟩ : Vec2 ℝ).y * (cellVector 0 0 (⟨1, 0, 0, 1⟩ : Mat2 ℝ) 2).y : ℝ) : ℂ))
          / ((8 * M_PI : ℝ) : ℂ)
        * (P (Real.sqrt ((x - (cellVector 0 0 (⟨1, 0, 0, 1⟩ : Mat2 ℝ) 2).x) * (x - (cellVector 0 0
            (⟨1, 0, 0, 1⟩ : Mat2 ℝ) 2).x) + (y - (cellVector 0 0 (⟨1, 0, 0, 1⟩ : Mat2 ℝ) 2).y) * (y
            - (cellVector 0 0 (⟨1, 0, 0, 1⟩ : Mat2 ℝ) 2).y) + z * z))
          / ((Real.sqrt ((x - (cellVector 0 0 (⟨1, 0, 0, 1⟩ : Mat2 ℝ) 2).x) * (x - (cellVector 0 0
              (⟨1, 0, 0, 1⟩ : Mat2 ℝ) 2).x) + (y - (cellVector 0 0 (⟨1, 0, 0, 1⟩ : Mat2 ℝ) 2).y) *
              (y - (cellVector 0 0 (⟨1, 0, 0, 1⟩ : Mat2 ℝ) 2).y) + z * z) : ℝ) : ℂ)))
      ∧ (¬ lib.sqrt (((1 : ℝ) - (cellVector 0 0 (⟨1, 0, 0, 1⟩ : Mat2 ℝ) 2).x) * ((1 : ℝ) -
          (cellVector 0 0 (⟨1, 0, 0, 1⟩ : Mat2 ℝ) 2).x) + ((0 : ℝ) - (cellVector 0 0 (⟨1, 0, 0, 1⟩
          : Mat2 ℝ) 2).y) * ((0 : ℝ) - (cellVector 0 0 (⟨1, 0, 0, 1⟩ : Mat2 ℝ) 2).y) + (0 : ℝ) * (0
          : ℝ)) < 1.0e-6)
      ∧ ((∀ ρ : ℝ, HasDerivAt P (Complex.I * toComplex (1 : cdouble ℝ) * M ρ + G ρ) ρ
      ∧ HasDerivAt M (Complex.I * toComplex (1 : cdouble ℝ) * P ρ) ρ
      ∧ HasDerivAt G (((-2 * ((1 : ℝ) * (1 : ℝ)) * ρ : ℝ) : ℂ) * G ρ) ρ)
    ∧ (∀ S, AddGShort lib ⟨(1 : ℝ), (0 : ℝ), (0 : ℝ)⟩ (1 : cdouble ℝ) (⟨0, 0⟩ : Vec2 ℝ) (0 : ℤ) (0
        : ℤ) (⟨1, 0, 0, 1⟩ : Mat2 ℝ) (2 : ℤ) (1 : ℝ) S
        = S.add (AddGShort lib ⟨(1 : ℝ), (0 : ℝ), (0 : ℝ)⟩ (1 : cdouble ℝ) (⟨0, 0⟩ : Vec2 ℝ) (0 :
            ℤ) (0 : ℤ) (⟨1, 0, 0, 1⟩ : Mat2 ℝ) (2 : ℤ) (1 : ℝ) Sum8.zero))
    ∧ toComplex (AddGShort lib ⟨(1 : ℝ), (0 : ℝ), (0 : ℝ)⟩ (1 : cdouble ℝ) (⟨0, 0⟩ : Vec2 ℝ) (0 :
        ℤ) (0 : ℤ) (⟨1, 0, 0, 1⟩ : Mat2 ℝ) (2 : ℤ) (1 : ℝ) Sum8.zero).s0 = T (1 : ℝ) (0 : ℝ) (0 : ℝ)
    ∧ (∀ ρ : ℝ, toComplex (AddGShort_terms lib (1 : cdouble ℝ) (1 : ℝ) (ρ * ρ) ρ).ggPgg = P ρ)
    ∧ (∀ ρ : ℝ, 0 < ρ →
      HasDerivAt (fun t : ℝ => toComplex (AddGShort_terms lib (1 : cdouble ℝ) (1 : ℝ) (t * t)
          t).ggPgg / (t : ℂ))
          ((ρ : ℂ) * toComplex (AddGShort_terms lib (1 : cdouble ℝ) (1 : ℝ) (ρ * ρ) ρ).Term1) ρ
      ∧ HasDerivAt (fun t : ℝ => toComplex (AddGShort_terms lib (1 : cdouble ℝ) (1 : ℝ) (t * t)
          t).Term1)
          ((ρ : ℂ) * toComplex (AddGShort_terms lib (1 : cdouble ℝ) (1 : ℝ) (ρ * ρ) ρ).Term2) ρ
      ∧ HasDerivAt (fun t : ℝ => toComplex (AddGShort_terms lib (1 : cdouble ℝ) (1 : ℝ) (t * t)
          t).Term2)
          ((ρ : ℂ) * toComplex (AddGShort_terms lib (1 : cdouble ℝ) (1 : ℝ) (ρ * ρ) ρ).Term3) ρ)
    ∧ HasDerivAt (fun t => T t (0 : ℝ) (0 : ℝ))
        (toComplex (AddGShort lib ⟨(1 : ℝ), (0 : ℝ), (0 : ℝ)⟩ (1 : cdouble ℝ) (⟨0, 0⟩ : Vec2 ℝ) (0
            : ℤ) (0 : ℤ) (⟨1, 0, 0, 1⟩ : Mat2 ℝ) (2 : ℤ) (1 : ℝ) Sum8.zero).s1) (1 : ℝ)
    ∧ HasDerivAt (fun t => T (1 : ℝ) t (0 : ℝ))
        (toComplex (AddGShort lib ⟨(1 : ℝ), (0 : ℝ), (0 : ℝ)⟩ (1 : cdouble ℝ) (⟨0, 0⟩ : Vec2 ℝ) (0
            : ℤ) (0 : ℤ) (⟨1, 0, 0, 1⟩ : Mat2 ℝ) (2 : ℤ) (1 : ℝ) Sum8.zero).s2) (0 : ℝ)
    ∧ HasDerivAt (fun t => T (1 : ℝ) (0 : ℝ) t)
        (toComplex (AddGShort lib ⟨(1 : ℝ), (0 : ℝ), (0 : ℝ)⟩ (1 : cdouble ℝ) (⟨0, 0⟩ : Vec2 ℝ) (0
            : ℤ) (0 : ℤ) (⟨1, 0, 0, 1⟩ : Mat2 ℝ) (2 : ℤ) (1 : ℝ) Sum8.zero).s3) (0 : ℝ)
    ∧ HasDerivAt (fun t => deriv (fun u => T u t (0 : ℝ)) (1 : ℝ))
        (toComplex (AddGShort lib ⟨(1 : ℝ), (0 : ℝ), (0 : ℝ)⟩ (1 : cdouble ℝ) (⟨0, 0⟩ : Vec2 ℝ) (0
            : ℤ) (0 : ℤ) (⟨1, 0, 0, 1⟩ : Mat2 ℝ) (2 : ℤ) (1 : ℝ) Sum8.zero).s4) (0 : ℝ)
    ∧ HasDerivAt (fun t => deriv (fun u => T u (0 : ℝ) t) (1 : ℝ))
        (toComplex (AddGShort lib ⟨(1 : ℝ), (0 : ℝ), (0 : ℝ)⟩ (1 : cdouble ℝ) (⟨0, 0⟩ : Vec2 ℝ) (0
            : ℤ) (0 : ℤ) (⟨1, 0, 0, 1⟩ : Mat2 ℝ) (2 : ℤ) (1 : ℝ) Sum8.zero).s5) (0 : ℝ)
    ∧ HasDerivAt (fun t => deriv (fun u => T (1 : ℝ) u t) (0 : ℝ))
        (toComplex (AddGShort lib ⟨(1 : ℝ), (0 : ℝ), (0 : ℝ)⟩ (1 : cdouble ℝ) (⟨0, 0⟩ : Vec2 ℝ) (0
            : ℤ) (0 : ℤ) (⟨1, 0, 0, 1⟩ : Mat2 ℝ) (2 : ℤ) (1 : ℝ) Sum8.zero).s6) (0 : ℝ)
    ∧ HasDerivAt (fun t => deriv (fun v => deriv (fun u => T u v t) (1 : ℝ)) (0 : ℝ))
        (toComplex (AddGShort lib ⟨(1 : ℝ), (0 : ℝ), (0 : ℝ)⟩ (1 : cdouble ℝ) (⟨0, 0⟩ : Vec2 ℝ) (0
            : ℤ) (0 : ℤ) (⟨1, 0, 0, 1⟩ : Mat2 ℝ) (2 : ℤ) (1 : ℝ) Sum8.zero).s7) (0 : ℝ)) := by
  obtain ⟨erfc, hneg, hderiv⟩ := exists_erfc_like ((M_2_SQRTPI : ℝ) : ℂ)
  let lib : Libm ℝ :=
    { sqrt := Real.sqrt, cabs := fun _ => 0, csqrt := fun w => w,
      cexp := fun w => ofComplex (Complex.exp (toComplex w)),
      clog := fun w => w, carg := fun _ => 0,
      erfcx := fun w => ofComplex (Complex.exp (toComplex w * toComplex w) * erfc (toComplex w)),
      cerf := fun w => w, AmosBesselK := fun w _ => w,
      IsFinite := fun _ => true, ISNAN := fun _ => false }
  have hsqrt : ∀ x, lib.sqrt x = Real.sqrt x := fun _ => rfl
  have hexp : ∀ w, toComplex (lib.cexp w) = Complex.exp (toComplex w) := fun _ => rfl
  have herfcx : ∀ w, toComplex (lib.erfcx w)
      = Complex.exp (toComplex w * toComplex w) * erfc (toComplex w) := fun _ => rfl
  have hr : ¬ lib.sqrt (((1 : ℝ) - (cellVector 0 0 (⟨1, 0, 0, 1⟩ : Mat2 ℝ) 2).x) * ((1 : ℝ) -
      (cellVector 0 0 (⟨1, 0, 0, 1⟩ : Mat2 ℝ) 2).x)
      + ((0 : ℝ) - (cellVector 0 0 (⟨1, 0, 0, 1⟩ : Mat2 ℝ) 2).y) * ((0 : ℝ) - (cellVector 0 0 (⟨1,
          0, 0, 1⟩ : Mat2 ℝ) 2).y) + (0 : ℝ) * (0 : ℝ)) < 1.0e-6 := by
    show ¬ Real.sqrt _ < _
    simp only [cellVector]
    norm_num
  exact ⟨lib, erfc, _, _, _, _, hsqrt, hexp, herfcx, hneg, hderiv, one_ne_zero, rfl, rfl, rfl,
    rfl, fun _ _ _ => rfl, hr,
    C24_AddGShort_radial_factors lib erfc hsqrt hexp herfcx hneg hderiv 1 ⟨0, 0⟩ 0 0 ⟨1, 0, 0, 1⟩ 2
        1 one_ne_zero _ rfl
      _ _ _ rfl rfl rfl _ (fun _ _ _ => rfl) 1 0 0 hr⟩

/-- C25: with `L` the lattice vector of the cell and `rml` the distance
`|R - L|` the code computes, `AddGLongRealSpace` leaves the sums unchanged when
`E = 0`; when `E ≠ 0`, `rml*E < 0.1` and `rml*|k| < 1` it adds the small-r
series (the polynomial in `rml2` with the coefficients `C0`, `C2`, `C4`); when
`E ≠ 0` and one of the two inequalities fails it adds, slot by slot, what
`AddGFull` adds for the cell minus what `AddGShort` adds, so that what it adds
plus what `AddGShort` adds is what `AddGFull` adds. -/
theorem C25_AddGLongRealSpace_branches (lib : Libm F) (R : Vec3 F) (k : cdouble F) (kBloch : Vec2
    F) (n1 n2 : ℤ)
    (LBV : Mat2 F) (LDim : ℤ) (E : F) (S : Sum8 F) (L : Vec2 F) (rml2 rml : F)
    (hL : L = cellVector n1 n2 LBV LDim)
    (hr2 : rml2 = (R.x - L.x) * (R.x - L.x) + (R.y - L.y) * (R.y - L.y) + R.z * R.z)
    (hr : rml = lib.sqrt rml2) :
    (E = 0 → AddGLongRealSpace lib R k kBloch n1 n2 LBV LDim E S = S)
    ∧ (E ≠ 0 → rml * E < 0.1 → rml * lib.cabs k < 1 →
        AddGLongRealSpace lib R k kBloch n1 n2 LBV LDim E S
          = S.add
            { s0 := lib.cexp (II * ofReal (kBloch.x * L.x + kBloch.y * L.y))
                * ((AddGLongRealSpace_coeffs lib k E).C0
                  + (AddGLongRealSpace_coeffs lib k E).C2 * ofReal rml2
                  + (AddGLongRealSpace_coeffs lib k E).C4 * ofReal rml2 * ofReal rml2),
              s1 := lib.cexp (II * ofReal (kBloch.x * L.x + kBloch.y * L.y))
                * (ofReal 2 * (AddGLongRealSpace_coeffs lib k E).C2 * ofReal (R.x - L.x)
                  + ofReal 4 * (AddGLongRealSpace_coeffs lib k E).C4 * ofReal rml2
                    * ofReal (R.x - L.x)),
              s2 := lib.cexp (II * ofReal (kBloch.x * L.x + kBloch.y * L.y))
                * (ofReal 2 * (AddGLongRealSpace_coeffs lib k E).C2 * ofReal (R.y - L.y)
                  + ofReal 4 * (AddGLongRealSpace_coeffs lib k E).C4 * ofReal rml2
                    * ofReal (R.y - L.y)),
              s3 := lib.cexp (II * ofReal (kBloch.x * L.x + kBloch.y * L.y))
                * (ofReal 2 * (AddGLongRealSpace_coeffs lib k E).C2 * ofReal R.z
                  + ofReal 4 * (AddGLongRealSpace_coeffs lib k E).C4 * ofReal rml2
                    * ofReal R.z),
              s4 := lib.cexp (II * ofReal (kBloch.x * L.x + kBloch.y * L.y))
                * (ofReal 8 * (AddGLongRealSpace_coeffs lib k E).C4 * ofReal (R.x - L.x)
                  * ofReal (R.y - L.y)),
              s5 := lib.cexp (II * ofReal (kBloch.x * L.x + kBloch.y * L.y))
                * (ofReal 8 * (AddGLongRealSpace_coeffs lib k E).C4 * ofReal (R.x - L.x)
                  * ofReal R.z),
              s6 := lib.cexp (II * ofReal (kBloch.x * L.x + kBloch.y * L.y))
                * (ofReal 8 * (AddGLongRealSpace_coeffs lib k E).C4 * ofReal (R.y - L.y)
                  * ofReal R.z),
              s7 := 0 })
    ∧ (E ≠ 0 → ¬ (rml * E < 0.1 ∧ rml * lib.cabs k < 1) →
        AddGLongRealSpace lib R k kBloch n1 n2 LBV LDim E S
          = S.add ((AddGFull lib R k kBloch L.x L.y Sum8.zero false).sub
              (AddGShort lib R k kBloch n1 n2 LBV LDim E Sum8.zero))
        ∧ (AddGLongRealSpace lib R k kBloch n1 n2 LBV LDim E Sum8.zero).add
              (AddGShort lib R k kBloch n1 n2 LBV LDim E Sum8.zero)
            = AddGFull lib R k kBloch L.x L.y Sum8.zero false) := by
  subst hL hr2 hr
  refine ⟨?_, ?_, ?_⟩
  · intro hE
    unfold AddGLongRealSpace
    rw [if_pos hE]
  · intro hE h1 h2
    unfold AddGLongRealSpace
    simp only [if_neg hE]
    rw [if_pos (by simp [h1, h2])]
    apply Sum8.ext <;> simp [Sum8.add]
  · intro hE h
    have hb : ∀ S : Sum8 F, AddGLongRealSpace lib R k kBloch n1 n2 LBV LDim E S
        = S.add ((AddGFull lib R k kBloch (cellVector n1 n2 LBV LDim).x
            (cellVector n1 n2 LBV LDim).y Sum8.zero false).sub
            (AddGShort lib R k kBloch n1 n2 LBV LDim E Sum8.zero)) := by
      intro S
      unfold AddGLongRealSpace
      simp only [if_neg hE]
      rw [if_neg (by simpa using h)]
    refine ⟨hb S, ?_⟩
    rw [hb, Sum8.zero_add, Sum8.sub_add_cancel]

set_option maxRecDepth 100000 in
/-- C25 at the cell `(0, 0)` of the unit square lattice, `k = 1`, `E = 1`:
`R = (0, 0, 1/100)` is in the small-r branch, `R = (0, 0, 1)` in the other. -/
theorem C25_witness :
    ((1 : ℚ) ≠ 0 ∧ refLibm.sqrt ((0 - 0) * (0 - 0) + (0 - 0) * (0 - 0) + (1/100) * (1/100)) * 1 <
        0.1
      ∧ refLibm.sqrt ((0 - 0) * (0 - 0) + (0 - 0) * (0 - 0) + (1/100) * (1/100))
          * refLibm.cabs ⟨1, 0⟩ < 1
      ∧ (AddGLongRealSpace refLibm ⟨0, 0, 1/100⟩ ⟨1, 0⟩ ⟨0, 0⟩ 0 0 ⟨1, 0, 0, 1⟩ 2 1 Sum8.zero).s7
          = 0)
    ∧ ((1 : ℚ) ≠ 0
      ∧ ¬ (refLibm.sqrt ((0 - 0) * (0 - 0) + (0 - 0) * (0 - 0) + 1 * 1) * 1 < 0.1
          ∧ refLibm.sqrt ((0 - 0) * (0 - 0) + (0 - 0) * (0 - 0) + 1 * 1)
              * refLibm.cabs ⟨1, 0⟩ < 1)
      ∧ (AddGLongRealSpace refLibm ⟨0, 0, 1⟩ ⟨1, 0⟩ ⟨0, 0⟩ 0 0 ⟨1, 0, 0, 1⟩ 2 1 Sum8.zero).add
            (AddGShort refLibm ⟨0, 0, 1⟩ ⟨1, 0⟩ ⟨0, 0⟩ 0 0 ⟨1, 0, 0, 1⟩ 2 1 Sum8.zero)
          = AddGFull refLibm ⟨0, 0, 1⟩ ⟨1, 0⟩ ⟨0, 0⟩ 0 0 Sum8.zero false) := by
  have hL : (⟨0, 0⟩ : Vec2 ℚ) = cellVector 0 0 ⟨1, 0, 0, 1⟩ 2 := by
    simp [cellVector]
  refine ⟨⟨by norm_num, by decide!, by decide!, ?_⟩, ⟨by norm_num, by decide!, ?_⟩⟩
  · have h := (C25_AddGLongRealSpace_branches refLibm ⟨0, 0, 1/100⟩ ⟨1, 0⟩ ⟨0, 0⟩ 0 0 ⟨1, 0, 0, 1⟩
      2 1 Sum8.zero
      ⟨0, 0⟩ _ _ hL rfl rfl).2.1 (by norm_num) (by decide!) (by decide!)
    rw [h]
    simp [Sum8.add, Sum8.zero]
  · exact ((C25_AddGLongRealSpace_branches refLibm ⟨0, 0, 1⟩ ⟨1, 0⟩ ⟨0, 0⟩ 0 0 ⟨1, 0, 0, 1⟩ 2 1
      Sum8.zero
      ⟨0, 0⟩ _ _ hL rfl rfl).2.2 (by norm_num) (by decide!)).2

/-- C26 fails when `|k|/20 > 1.2/ρ`: for `L1 = (1, 0)`, `k = 100` and
`R = (0, 0, 1)` (so `ρ = 1`) `GetRLBasis` returns `EOpt = |k|/20`, which exceeds
`1.2/ρ` and is not `min(max(sqrt(π/|L1|^2), |k|/20), 1.2/ρ)`. -/
theorem C26_counterexample :
    ∃ rl, GetRLBasis refLibm 1 ⟨1, 0, 0, 0⟩ ⟨100, 0⟩ ⟨0, 0, 1⟩ = .ok rl
      ∧ rl.Rho = 1
      ∧ rl.EOpt = refLibm.cabs ⟨100, 0⟩ / 20
      ∧ 1.2 / rl.Rho < rl.EOpt
      ∧ rl.EOpt ≠ min (max (refLibm.sqrt (M_PI / (1 * 1 + 0 * 0))) (refLibm.cabs ⟨100, 0⟩ / 20))
          (1.2 / rl.Rho) := by
  refine ⟨_, rfl, ?_, ?_, ?_, ?_⟩ <;> decide!

/-- C26, amended: for `LDim = 1` and `ρ^2 ≠ 0`, with `E0 = sqrt(π/|L1|^2)`,
`E1 = |k|/20` and `E2 = 1.2/ρ`, the `EOpt` of `GetRLBasis` is `E1` if `E0 < E1`,
else `E2` if `E0 > E2`, else `E0`.  It equals `min(max(E0, E1), E2)` when
`E1 ≤ E2`; it is `min(E0, E2)` when `E1 ≤ E0`; and it is `E1` when `E0 < E1`,
also when `E1` exceeds `E2`. -/
theorem C26_EOpt_1D_clamp (lib : Libm F) (L : Mat2 F) (k : cdouble F) (R : Vec3 F) (rl : RLBasis F)
    (E0 E1 E2 : F)
    (hrl : GetRLBasis lib 1 L k R = .ok rl)
    (hRho :
      (R.x - (R.x * L.a00 + R.y * L.a01) / (L.a00 * L.a00 + L.a01 * L.a01) * L.a00)
          * (R.x - (R.x * L.a00 + R.y * L.a01) / (L.a00 * L.a00 + L.a01 * L.a01) * L.a00)
        + (R.y - (R.x * L.a00 + R.y * L.a01) / (L.a00 * L.a00 + L.a01 * L.a01) * L.a01)
          * (R.y - (R.x * L.a00 + R.y * L.a01) / (L.a00 * L.a00 + L.a01 * L.a01) * L.a01)
        + R.z * R.z ≠ 0)
    (hE0 : E0 = lib.sqrt (M_PI / (L.a00 * L.a00 + L.a01 * L.a01)))
    (hE1 : E1 = lib.cabs k / 20)
    (hE2 : E2 = 1.2 / rl.Rho) :
    rl.EOpt = (if E0 < E1 then E1 else if E0 > E2 then E2 else E0)
    ∧ (E1 ≤ E2 → rl.EOpt = min (max E0 E1) E2)
    ∧ (E1 ≤ E0 → rl.EOpt = min E0 E2)
    ∧ (E0 < E1 → rl.EOpt = E1) := by
  have h1 : rl.EOpt = (if E0 < E1 then E1 else if E0 > E2 then E2 else E0) := by
    simp only [GetRLBasis, if_true, Except.ok.injEq] at hrl
    subst hrl
    simp only [if_neg hRho] at hE2 ⊢
    rw [← hE0, ← hE1, ← hE2]
  refine ⟨h1, ?_, ?_, ?_⟩
  · intro h
    rw [h1]
    split_ifs with a b
    · rw [max_eq_right (le_of_lt a), min_eq_left h]
    · rw [max_eq_left (le_of_not_lt a), min_eq_right (le_of_lt b)]
    · rw [max_eq_left (le_of_not_lt a), min_eq_left (le_of_not_lt b)]
  · intro h
    rw [h1, if_neg (not_lt.mpr h)]
    split_ifs with b
    · rw [min_eq_right (le_of_lt b)]
    · rw [min_eq_left (le_of_not_lt b)]
  · intro h
    rw [h1, if_pos h]

/-- C26 (amended) at `L1 = (1, 0)`, `k = 1`, `R = (0, 0, 1)`, where
`|k|/20 ≤ 1.2/ρ`. -/
theorem C26_witness :
    ∃ rl, GetRLBasis refLibm 1 ⟨1, 0, 0, 0⟩ ⟨1, 0⟩ ⟨0, 0, 1⟩ = .ok rl
      ∧ refLibm.cabs ⟨1, 0⟩ / 20 ≤ 1.2 / rl.Rho
      ∧ rl.EOpt = min (max (refLibm.sqrt (M_PI / (1 * 1 + 0 * 0))) (refLibm.cabs ⟨1, 0⟩ / 20))
          (1.2 / rl.Rho) := by
  obtain ⟨rl, hrl, _⟩ := GetRLBasis_1D_Gamma refLibm ⟨1, 0, 0, 0⟩ ⟨1, 0⟩ ⟨0, 0, 1⟩
  have hRho : rl.Rho = 1 := by
    simp only [GetRLBasis, if_true, Except.ok.injEq] at hrl
    subst hrl
    decide!
  have hle : refLibm.cabs ⟨1, 0⟩ / 20 ≤ 1.2 / rl.Rho := by
    rw [hRho]
    decide!
  exact ⟨rl, hrl, hle,
    (C26_EOpt_1D_clamp refLibm ⟨1, 0, 0, 0⟩ ⟨1, 0⟩ ⟨0, 0, 1⟩ rl _ _ _ hrl
      (by norm_num) rfl rfl rfl).2.1 hle⟩

set_option maxRecDepth 100000 in
/-- C27 fails: for the unit square lattice and `k = 1`, `GetRLBasis` returns
`EOpt = sqrt(π/Area)`, the larger of the two estimates; its square is not the
product of the two estimates, and it is not the square root of their product. -/
theorem C27_counterexample :
    ∃ rl, GetRLBasis refLibm 2 ⟨1, 0, 0, 1⟩ ⟨1, 0⟩ ⟨0, 0, 1⟩ = .ok rl
      ∧ rl.EOpt = refLibm.sqrt (M_PI / 1)
      ∧ refLibm.sqrt (norm (⟨1, 0⟩ : cdouble ℚ) + (2 * M_PI) * (2 * M_PI)
          + (2 * M_PI) * (2 * M_PI)) / 10 < refLibm.sqrt (M_PI / 1)
      ∧ rl.EOpt * rl.EOpt ≠ refLibm.sqrt (M_PI / 1)
          * (refLibm.sqrt (norm (⟨1, 0⟩ : cdouble ℚ) + (2 * M_PI) * (2 * M_PI)
              + (2 * M_PI) * (2 * M_PI)) / 10)
      ∧ rl.EOpt ≠ refLibm.sqrt (refLibm.sqrt (M_PI / 1)
          * (refLibm.sqrt (norm (⟨1, 0⟩ : cdouble ℚ) + (2 * M_PI) * (2 * M_PI)
              + (2 * M_PI) * (2 * M_PI)) / 10)) := by
  obtain ⟨rl, hrl, hG, hE⟩ :=
    GetRLBasis_2D_ok refLibm ⟨1, 0, 0, 1⟩ ⟨1, 0⟩ ⟨0, 0, 1⟩ (by norm_num)
  have hE1 : rl.EOpt = refLibm.sqrt (M_PI / 1) := by
    rw [hE, hG]
    decide!
  refine ⟨rl, hrl, hE1, by decide!, ?_, ?_⟩
  · rw [hE1]
    decide!
  · rw [hE1]
    decide!

/-- C27, amended: for `LDim = 2` and a lattice of positive area, the `EOpt` of
`GetRLBasis` is the larger (`fmax`) of the area-based estimate `sqrt(π/Area)`
and the wavenumber-based estimate
`sqrt(|k|^2 + |Gamma_1|^2 + |Gamma_2|^2)/10`. -/
theorem C27_EOpt_2D_is_max (lib : Libm F) (L : Mat2 F) (k : cdouble F) (R : Vec3 F)
    (hA : 0 < L.a00 * L.a11 - L.a01 * L.a10) :
    ∃ rl, GetRLBasis lib 2 L k R = .ok rl
      ∧ rl.EOpt = max (lib.sqrt (M_PI / (L.a00 * L.a11 - L.a01 * L.a10)))
          (lib.sqrt (norm k
            + (rl.Gamma.a00 * rl.Gamma.a00 + rl.Gamma.a01 * rl.Gamma.a01)
            + (rl.Gamma.a10 * rl.Gamma.a10 + rl.Gamma.a11 * rl.Gamma.a11)) / 10) := by
  obtain ⟨rl, h1, h2, h3⟩ := GetRLBasis_2D_ok lib L k R (ne_of_gt hA)
  refine ⟨rl, h1, ?_⟩
  rw [h3, h2]

/-- C27 (amended) at the unit square lattice (area 1), `k = 1`. -/
theorem C27_witness :
    (0 : ℚ) < 1 * 1 - 0 * 0
    ∧ ∃ rl, GetRLBasis refLibm 2 ⟨1, 0, 0, 1⟩ ⟨1, 0⟩ ⟨0, 0, 1⟩ = .ok rl
      ∧ rl.EOpt = max (refLibm.sqrt (M_PI / ((1 : ℚ) * 1 - 0 * 0)))
          (refLibm.sqrt (norm (⟨1, 0⟩ : cdouble ℚ)
            + (rl.Gamma.a00 * rl.Gamma.a00 + rl.Gamma.a01 * rl.Gamma.a01)
            + (rl.Gamma.a10 * rl.Gamma.a10 + rl.Gamma.a11 * rl.Gamma.a11)) / 10) :=
  ⟨by norm_num, C27_EOpt_2D_is_max refLibm ⟨1, 0, 0, 1⟩ ⟨1, 0⟩ ⟨0, 0, 1⟩ (by norm_num)⟩

/-- C28: for `LDim` 1 or 2,
(i) shell `NN` of `GetGBarNearby` calls `AddGShort` for the cells of
`shellCells LDim NN`, in order;
(ii) shell `NN` of `GetGBarDistant`, whenever it returns, has called its
per-vector routine for the same list;
(iii) for `NN ≥ 2` the pair `(a, b)` occurs in that list once if
`max(|a|, |b|) = NN` (2D), respectively `|a| = NN` and `b = 0` (1D), and not at
all otherwise;
(iv) the first round followed by the shells `2, ..., n + 1` contains `(a, b)`
once if `max(|a|, |b|) ≤ n + 1` (2D), respectively `|a| ≤ n + 1` and `b = 0`
(1D), and not at all otherwise;
(v) the calls of `GetGBarNearby` are the first round (left out when the inner
cells are excluded) followed by a number of complete shells from shell 2 on,
and so are the calls of every run of `GetGBarDistant` with `E ≠ 0` that
returns. -/
theorem C28_shell_enumeration (lib : Libm F) (R : Vec3 F) (Rho : F) (k : cdouble F) (kBloch : Vec2
    F)
    (LBV Gamma : Mat2 F) (LDim : ℤ) (E : F) (hL : LDim = 1 ∨ LDim = 2) :
    (∀ (NN : ℤ) (st : NearbyState F),
      (nearbyShell lib R k kBloch LBV LDim E NN st).trace = st.trace ++ shellCells LDim NN)
    ∧ (∀ (NN : ℤ) (st st1 : DistantState F),
      distantShell lib R Rho k kBloch Gamma LDim E NN st = .ok st1 →
        st1.trace = st.trace ++ shellCells LDim NN)
    ∧ (∀ NN a b : ℤ, 2 ≤ NN →
      (LDim = 2 → (shellCells LDim NN).count (a, b) = if max |a| |b| = NN then 1 else 0)
      ∧ (LDim = 1 → (shellCells LDim NN).count (a, b) = if |a| = NN ∧ b = 0 then 1 else 0))
    ∧ (∀ (n : ℕ) (a b : ℤ),
      (LDim = 2 → (innerBlock_spec LDim ++ shellsFrom LDim 2 n).count (a, b)
        = if max |a| |b| ≤ (n : ℤ) + 1 then 1 else 0)
      ∧ (LDim = 1 → (innerBlock_spec LDim ++ shellsFrom LDim 2 n).count (a, b)
        = if |a| ≤ (n : ℤ) + 1 ∧ b = 0 then 1 else 0))
    ∧ (∃ n : ℕ, (GetGBarNearby lib R k kBloch LBV LDim E false).trace
        = innerBlock_spec LDim ++ shellsFrom LDim 2 n)
    ∧ (∃ n : ℕ, (GetGBarNearby lib R k kBloch LBV LDim E true).trace = shellsFrom LDim 2 n)
    ∧ (∀ D : DistantResult F, E ≠ 0 →
      GetGBarDistant lib R Rho k kBloch Gamma LDim E = .ok D →
        ∃ n : ℕ, D.trace = innerBlock_spec LDim ++ shellsFrom LDim 2 n) := by
  refine ⟨fun NN st => nearbyShell_trace lib R k kBloch LBV LDim E NN st,
    fun NN st st1 h => distantShell_trace lib R Rho k kBloch Gamma LDim E NN st st1 h,
    ?_, ?_, ?_, ?_, ?_⟩
  · intro NN a b hN
    constructor
    · intro h2
      subst h2
      exact count_of_nodup _ (shellCells_nodup 2 NN (by omega)) (a, b) _
        (mem_shellCells_2D 2 NN a b (by decide) (by omega))
    · intro h1
      subst h1
      refine count_of_nodup _ (shellCells_nodup 1 NN (by omega)) (a, b) _ ?_
      rw [mem_shellCells_1D]
      have ha := abs_cases a
      omega
  · intro n a b
    constructor
    · intro h2
      subst h2
      exact count_of_nodup _ (cells_nodup 2 hL n) (a, b) _ (mem_cells_2D n a b)
    · intro h1
      subst h1
      exact count_of_nodup _ (cells_nodup 1 hL n) (a, b) _ (mem_cells_1D n a b)
  · obtain ⟨n, h, _⟩ := GetGBarNearby_all_inv lib R k kBloch LBV LDim E hL
    exact ⟨n, h⟩
  · obtain ⟨n, h, _⟩ := GetGBarNearby_excl_inv lib R k kBloch LBV LDim E
    exact ⟨n, h⟩
  · intro D hE hD
    exact GetGBarDistant_trace lib R Rho k kBloch Gamma LDim hL E hE D hD

/-- C28 at `LDim = 2` with the unit square lattice. -/
theorem C28_witness :
    ((2 : ℤ) = 1 ∨ (2 : ℤ) = 2)
    ∧ ((∀ (NN : ℤ) (st : NearbyState ℚ),
      (nearbyShell refLibm ⟨1/3, 1/5, 1⟩ ⟨1, 0⟩ ⟨0, 0⟩ ⟨1, 0, 0, 1⟩ 2 1 NN st).trace
        = st.trace ++ shellCells 2 NN)
    ∧ (∀ (NN : ℤ) (st st1 : DistantState ℚ),
      distantShell refLibm ⟨1/3, 1/5, 1⟩ 1 ⟨1, 0⟩ ⟨0, 0⟩ ⟨2 * M_PI, 0, 0, 2 * M_PI⟩ 2 1 NN st
          = .ok st1 →
        st1.trace = st.trace ++ shellCells 2 NN)
    ∧ (∀ NN a b : ℤ, 2 ≤ NN →
      ((2 : ℤ) = 2 → (shellCells 2 NN).count (a, b) = if max |a| |b| = NN then 1 else 0)
      ∧ ((2 : ℤ) = 1 → (shellCells 2 NN).count (a, b) = if |a| = NN ∧ b = 0 then 1 else 0))
    ∧ (∀ (n : ℕ) (a b : ℤ),
      ((2 : ℤ) = 2 → (innerBlock_spec 2 ++ shellsFrom 2 2 n).count (a, b)
        = if max |a| |b| ≤ (n : ℤ) + 1 then 1 else 0)
      ∧ ((2 : ℤ) = 1 → (innerBlock_spec 2 ++ shellsFrom 2 2 n).count (a, b)
        = if |a| ≤ (n : ℤ) + 1 ∧ b = 0 then 1 else 0))
    ∧ (∃ n : ℕ,
      (GetGBarNearby refLibm ⟨1/3, 1/5, 1⟩ ⟨1, 0⟩ ⟨0, 0⟩ ⟨1, 0, 0, 1⟩ 2 1 false).trace
        = innerBlock_spec 2 ++ shellsFrom 2 2 n)
    ∧ (∃ n : ℕ,
      (GetGBarNearby refLibm ⟨1/3, 1/5, 1⟩ ⟨1, 0⟩ ⟨0, 0⟩ ⟨1, 0, 0, 1⟩ 2 1 true).trace
        = shellsFrom 2 2 n)
    ∧ (∀ D : DistantResult ℚ, (1 : ℚ) ≠ 0 →
      GetGBarDistant refLibm ⟨1/3, 1/5, 1⟩ 1 ⟨1, 0⟩ ⟨0, 0⟩ ⟨2 * M_PI, 0, 0, 2 * M_PI⟩ 2 1
          = .ok D →
        ∃ n : ℕ, D.trace = innerBlock_spec 2 ++ shellsFrom 2 2 n)) :=
  ⟨Or.inr rfl,
    C28_shell_enumeration refLibm ⟨1/3, 1/5, 1⟩ 1 ⟨1, 0⟩ ⟨0, 0⟩ ⟨1, 0, 0, 1⟩ ⟨2 * M_PI, 0, 0, 2 *
        M_PI⟩ 2 1
      (Or.inr rfl)⟩

/-- C29: in the small-r branch of `AddGLongRealSpace` (`E ≠ 0`,
`rml*E < 0.1`, `rml*|k| < 1`), with `φ` the phase factor, `C0`, `C2`, `C4` the
coefficients the code computes from `k` and `E`, and
`T(x, y, z) = φ (C0 + C2 r^2 + C4 r^4)`, `r^2 = (x-Lx)^2 + (y-Ly)^2 + z^2`: the
routine adds to the sums what it gives on zeroed sums; slot 0 of that is
`T(x, y, z)`, slots 1 to 3 are `φ (2 C2 u + 4 C4 r^2 u)` for `u = x - Lx`,
`y - Ly`, `z`, slots 4 to 6 are `φ 8 C4 u v`, slot 7 is 0, and slots 1 to 7 are
the derivatives `∂x`, `∂y`, `∂z`, `∂y∂x`, `∂z∂x`, `∂z∂y` and `∂z∂y∂x` of `T`
at `(x, y, z)`. -/
theorem C29_small_r_partials (lib : Libm ℝ) (k : cdouble ℝ) (kBloch : Vec2 ℝ) (n1 n2 : ℤ) (LBV :
    Mat2 ℝ)
    (LDim : ℤ) (E : ℝ) (hE : E ≠ 0) (L : Vec2 ℝ) (hL : L = cellVector n1 n2 LBV LDim)
    (φ C0 C2 C4 : ℂ)
    (hφ : φ = toComplex (lib.cexp (II * ofReal (kBloch.x * L.x + kBloch.y * L.y))))
    (h0 : C0 = toComplex (AddGLongRealSpace_coeffs lib k E).C0)
    (h2 : C2 = toComplex (AddGLongRealSpace_coeffs lib k E).C2)
    (h4 : C4 = toComplex (AddGLongRealSpace_coeffs lib k E).C4)
    (T : ℝ → ℝ → ℝ → ℂ)
    (hT : ∀ x y z, T x y z
      = φ * (C0 + C2 * (((x - L.x) * (x - L.x) + (y - L.y) * (y - L.y) + z * z : ℝ) : ℂ)
          + C4 * (((x - L.x) * (x - L.x) + (y - L.y) * (y - L.y) + z * z : ℝ) : ℂ)
            * (((x - L.x) * (x - L.x) + (y - L.y) * (y - L.y) + z * z : ℝ) : ℂ)))
    (x y z : ℝ)
    (hs1 : lib.sqrt ((x - L.x) * (x - L.x) + (y - L.y) * (y - L.y) + z * z) * E < 0.1)
    (hs2 : lib.sqrt ((x - L.x) * (x - L.x) + (y - L.y) * (y - L.y) + z * z) * lib.cabs k < 1) :
    (∀ S, AddGLongRealSpace lib ⟨x, y, z⟩ k kBloch n1 n2 LBV LDim E S
        = S.add (AddGLongRealSpace lib ⟨x, y, z⟩ k kBloch n1 n2 LBV LDim E Sum8.zero))
    ∧ toComplex (AddGLongRealSpace lib ⟨x, y, z⟩ k kBloch n1 n2 LBV LDim E Sum8.zero).s0
      = T x y z
    ∧ toComplex (AddGLongRealSpace lib ⟨x, y, z⟩ k kBloch n1 n2 LBV LDim E Sum8.zero).s1
      = φ * (2 * C2 * ((x - L.x : ℝ) : ℂ)
          + 4 * C4 * (((x - L.x) * (x - L.x) + (y - L.y) * (y - L.y) + z * z : ℝ) : ℂ)
            * ((x - L.x : ℝ) : ℂ))
    ∧ toComplex (AddGLongRealSpace lib ⟨x, y, z⟩ k kBloch n1 n2 LBV LDim E Sum8.zero).s2
      = φ * (2 * C2 * ((y - L.y : ℝ) : ℂ)
          + 4 * C4 * (((x - L.x) * (x - L.x) + (y - L.y) * (y - L.y) + z * z : ℝ) : ℂ)
            * ((y - L.y : ℝ) : ℂ))
    ∧ toComplex (AddGLongRealSpace lib ⟨x, y, z⟩ k kBloch n1 n2 LBV LDim E Sum8.zero).s3
      = φ * (2 * C2 * ((z : ℝ) : ℂ)
          + 4 * C4 * (((x - L.x) * (x - L.x) + (y - L.y) * (y - L.y) + z * z : ℝ) : ℂ)
            * ((z : ℝ) : ℂ))
    ∧ toComplex (AddGLongRealSpace lib ⟨x, y, z⟩ k kBloch n1 n2 LBV LDim E Sum8.zero).s4
      = φ * (8 * C4 * ((x - L.x : ℝ) : ℂ) * ((y - L.y : ℝ) : ℂ))
    ∧ toComplex (AddGLongRealSpace lib ⟨x, y, z⟩ k kBloch n1 n2 LBV LDim E Sum8.zero).s5
      = φ * (8 * C4 * ((x - L.x : ℝ) : ℂ) * ((z : ℝ) : ℂ))
    ∧ toComplex (AddGLongRealSpace lib ⟨x, y, z⟩ k kBloch n1 n2 LBV LDim E Sum8.zero).s6
      = φ * (8 * C4 * ((y - L.y : ℝ) : ℂ) * ((z : ℝ) : ℂ))
    ∧ toComplex (AddGLongRealSpace lib ⟨x, y, z⟩ k kBloch n1 n2 LBV LDim E Sum8.zero).s7 = 0
    ∧ HasDerivAt (fun t => T t y z)
        (toComplex (AddGLongRealSpace lib ⟨x, y, z⟩ k kBloch n1 n2 LBV LDim E Sum8.zero).s1) x
    ∧ HasDerivAt (fun t => T x t z)
        (toComplex (AddGLongRealSpace lib ⟨x, y, z⟩ k kBloch n1 n2 LBV LDim E Sum8.zero).s2) y
    ∧ HasDerivAt (fun t => T x y t)
        (toComplex (AddGLongRealSpace lib ⟨x, y, z⟩ k kBloch n1 n2 LBV LDim E Sum8.zero).s3) z
    ∧ HasDerivAt (fun t => deriv (fun u => T u t z) x)
        (toComplex (AddGLongRealSpace lib ⟨x, y, z⟩ k kBloch n1 n2 LBV LDim E Sum8.zero).s4) y
    ∧ HasDerivAt (fun t => deriv (fun u => T u y t) x)
        (toComplex (AddGLongRealSpace lib ⟨x, y, z⟩ k kBloch n1 n2 LBV LDim E Sum8.zero).s5) z
    ∧ HasDerivAt (fun t => deriv (fun u => T x u t) y)
        (toComplex (AddGLongRealSpace lib ⟨x, y, z⟩ k kBloch n1 n2 LBV LDim E Sum8.zero).s6) z
    ∧ HasDerivAt (fun t => deriv (fun v => deriv (fun u => T u v t) x) y)
        (toComplex (AddGLongRealSpace lib ⟨x, y, z⟩ k kBloch n1 n2 LBV LDim E Sum8.zero).s7)
        z := by
  have hinc : AddGLongRealSpace lib ⟨x, y, z⟩ k kBloch n1 n2 LBV LDim E Sum8.zero
      = { s0 := 0 + lib.cexp (II * ofReal (kBloch.x * L.x + kBloch.y * L.y))
            * ((AddGLongRealSpace_coeffs lib k E).C0
              + (AddGLongRealSpace_coeffs lib k E).C2
                * ofReal ((x - L.x) * (x - L.x) + (y - L.y) * (y - L.y) + z * z)
              + (AddGLongRealSpace_coeffs lib k E).C4
                * ofReal ((x - L.x) * (x - L.x) + (y - L.y) * (y - L.y) + z * z)
                * ofReal ((x - L.x) * (x - L.x) + (y - L.y) * (y - L.y) + z * z)),
          s1 := 0 + lib.cexp (II * ofReal (kBloch.x * L.x + kBloch.y * L.y))
            * (ofReal 2 * (AddGLongRealSpace_coeffs lib k E).C2 * ofReal (x - L.x)
              + ofReal 4 * (AddGLongRealSpace_coeffs lib k E).C4
                * ofReal ((x - L.x) * (x - L.x) + (y - L.y) * (y - L.y) + z * z)
                * ofReal (x - L.x)),
          s2 := 0 + lib.cexp (II * ofReal (kBloch.x * L.x + kBloch.y * L.y))
            * (ofReal 2 * (AddGLongRealSpace_coeffs lib k E).C2 * ofReal (y - L.y)
              + ofReal 4 * (AddGLongRealSpace_coeffs lib k E).C4
                * ofReal ((x - L.x) * (x - L.x) + (y - L.y) * (y - L.y) + z * z)
                * ofReal (y - L.y)),
          s3 := 0 + lib.cexp (II * ofReal (kBloch.x * L.x + kBloch.y * L.y))
            * (ofReal 2 * (AddGLongRealSpace_coeffs lib k E).C2 * ofReal z
              + ofReal 4 * (AddGLongRealSpace_coeffs lib k E).C4
                * ofReal ((x - L.x) * (x - L.x) + (y - L.y) * (y - L.y) + z * z)
                * ofReal z),
          s4 := 0 + lib.cexp (II * ofReal (kBloch.x * L.x + kBloch.y * L.y))
            * (ofReal 8 * (AddGLongRealSpace_coeffs lib k E).C4 * ofReal (x - L.x)
              * ofReal (y - L.y)),
          s5 := 0 + lib.cexp (II * ofReal (kBloch.x * L.x + kBloch.y * L.y))
            * (ofReal 8 * (AddGLongRealSpace_coeffs lib k E).C4 * ofReal (x - L.x) * ofReal z),
          s6 := 0 + lib.cexp (II * ofReal (kBloch.x * L.x + kBloch.y * L.y))
            * (ofReal 8 * (AddGLongRealSpace_coeffs lib k E).C4 * ofReal (y - L.y) * ofReal z),
          s7 := 0 + ofReal 0 } := by
    unfold AddGLongRealSpace
    simp only [← hL]
    simp only [if_neg hE, decide_eq_true hs1, decide_eq_true hs2, Bool.and_self, if_true]
    rfl
  obtain ⟨d1, d2, d3, d4, d5, d6, d7⟩ := poly_partials L.x L.y φ C0 C2 C4 T hT x y z
  have e0 : toComplex (AddGLongRealSpace lib ⟨x, y, z⟩ k kBloch n1 n2 LBV LDim E Sum8.zero).s0
      = T x y z := by
    rw [hinc, hT, hφ, h0, h2, h4]
    simp only [toComplex_add, toComplex_mul, toComplex_ofReal, toComplex_zero, zero_add]
  have e1 : toComplex (AddGLongRealSpace lib ⟨x, y, z⟩ k kBloch n1 n2 LBV LDim E Sum8.zero).s1
      = φ * (2 * C2 * ((x - L.x : ℝ) : ℂ)
          + 4 * C4 * (((x - L.x) * (x - L.x) + (y - L.y) * (y - L.y) + z * z : ℝ) : ℂ)
            * ((x - L.x : ℝ) : ℂ)) := by
    rw [hinc, hφ, h2, h4]
    simp only [toComplex_add, toComplex_mul, toComplex_ofReal, toComplex_zero, zero_add]
    push_cast
    ring
  have e2 : toComplex (AddGLongRealSpace lib ⟨x, y, z⟩ k kBloch n1 n2 LBV LDim E Sum8.zero).s2
      = φ * (2 * C2 * ((y - L.y : ℝ) : ℂ)
          + 4 * C4 * (((x - L.x) * (x - L.x) + (y - L.y) * (y - L.y) + z * z : ℝ) : ℂ)
            * ((y - L.y : ℝ) : ℂ)) := by
    rw [hinc, hφ, h2, h4]
    simp only [toComplex_add, toComplex_mul, toComplex_ofReal, toComplex_zero, zero_add]
    push_cast
    ring
  have e3 : toComplex (AddGLongRealSpace lib ⟨x, y, z⟩ k kBloch n1 n2 LBV LDim E Sum8.zero).s3
      = φ * (2 * C2 * ((z : ℝ) : ℂ)
          + 4 * C4 * (((x - L.x) * (x - L.x) + (y - L.y) * (y - L.y) + z * z : ℝ) : ℂ)
            * ((z : ℝ) : ℂ)) := by
    rw [hinc, hφ, h2, h4]
    simp only [toComplex_add, toComplex_mul, toComplex_ofReal, toComplex_zero, zero_add]
    push_cast
    ring
  have e4 : toComplex (AddGLongRealSpace lib ⟨x, y, z⟩ k kBloch n1 n2 LBV LDim E Sum8.zero).s4
      = φ * (8 * C4 * ((x - L.x : ℝ) : ℂ) * ((y - L.y : ℝ) : ℂ)) := by
    rw [hinc, hφ, h4]
    simp only [toComplex_add, toComplex_mul, toComplex_ofReal, toComplex_zero, zero_add]
    push_cast
    ring
  have e5 : toComplex (AddGLongRealSpace lib ⟨x, y, z⟩ k kBloch n1 n2 LBV LDim E Sum8.zero).s5
      = φ * (8 * C4 * ((x - L.x : ℝ) : ℂ) * ((z : ℝ) : ℂ)) := by
    rw [hinc, hφ, h4]
    simp only [toComplex_add, toComplex_mul, toComplex_ofReal, toComplex_zero, zero_add]
    push_cast
    ring
  have e6 : toComplex (AddGLongRealSpace lib ⟨x, y, z⟩ k kBloch n1 n2 LBV LDim E Sum8.zero).s6
      = φ * (8 * C4 * ((y - L.y : ℝ) : ℂ) * ((z : ℝ) : ℂ)) := by
    rw [hinc, hφ, h4]
    simp only [toComplex_add, toComplex_mul, toComplex_ofReal, toComplex_zero, zero_add]
    push_cast
    ring
  have e7 : toComplex (AddGLongRealSpace lib ⟨x, y, z⟩ k kBloch n1 n2 LBV LDim E Sum8.zero).s7
      = 0 := by
    rw [hinc]
    simp only [toComplex_add, toComplex_ofReal, toComplex_zero, zero_add]
    push_cast
    rfl
  refine ⟨fun S => AddGLongRealSpace_add lib ⟨x, y, z⟩ k kBloch n1 n2 LBV LDim E S,
    e0, e1, e2, e3, e4, e5, e6, e7, ?_, ?_, ?_, ?_, ?_, ?_, ?_⟩
  · rw [e1]
    exact d1
  · rw [e2]
    exact d2
  · rw [e3]
    exact d3
  · rw [e4]
    exact d4
  · rw [e5]
    exact d5
  · rw [e6]
    exact d6
  · rw [e7]
    exact d7

/-- C29 at `R = (0, 0, 1/100)`, the cell `(0, 0)` of the unit square lattice,
`k = 1`, `E = 1`, for the library with the real square root, the complex
modulus and the complex exponential. -/
theorem C29_witness :
    ∃ (lib : Libm ℝ) (φ : ℂ) (C0 : ℂ) (C2 : ℂ) (C4 : ℂ) (T : ℝ → ℝ → ℝ → ℂ),
      ((1 : ℝ) ≠ 0)
      ∧ ((cellVector 0 0 (⟨1, 0, 0, 1⟩ : Mat2 ℝ) 2) = cellVector (0 : ℤ) (0 : ℤ) (⟨1, 0, 0, 1⟩ :
          Mat2 ℝ) (2 : ℤ))
      ∧ (φ = toComplex (lib.cexp (II * ofReal ((⟨0, 0⟩ : Vec2 ℝ).x * (cellVector 0 0 (⟨1, 0, 0, 1⟩
          : Mat2 ℝ) 2).x + (⟨0, 0⟩ : Vec2 ℝ).y * (cellVector 0 0 (⟨1, 0, 0, 1⟩ : Mat2 ℝ) 2).y))))
      ∧ (C0 = toComplex (AddGLongRealSpace_coeffs lib (1 : cdouble ℝ) (1 : ℝ)).C0)
      ∧ (C2 = toComplex (AddGLongRealSpace_coeffs lib (1 : cdouble ℝ) (1 : ℝ)).C2)
      ∧ (C4 = toComplex (AddGLongRealSpace_coeffs lib (1 : cdouble ℝ) (1 : ℝ)).C4)
      ∧ (∀ x y z, T x y z
      = φ * (C0 + C2 * (((x - (cellVector 0 0 (⟨1, 0, 0, 1⟩ : Mat2 ℝ) 2).x) * (x - (cellVector 0 0
          (⟨1, 0, 0, 1⟩ : Mat2 ℝ) 2).x) + (y - (cellVector 0 0 (⟨1, 0, 0, 1⟩ : Mat2 ℝ) 2).y) * (y -
          (cellVector 0 0 (⟨1, 0, 0, 1⟩ : Mat2 ℝ) 2).y) + z * z : ℝ) : ℂ)
          + C4 * (((x - (cellVector 0 0 (⟨1, 0, 0, 1⟩ : Mat2 ℝ) 2).x) * (x - (cellVector 0 0 (⟨1,
              0, 0, 1⟩ : Mat2 ℝ) 2).x) + (y - (cellVector 0 0 (⟨1, 0, 0, 1⟩ : Mat2 ℝ) 2).y) * (y -
              (cellVector 0 0 (⟨1, 0, 0, 1⟩ : Mat2 ℝ) 2).y) + z * z : ℝ) : ℂ)
            * (((x - (cellVector 0 0 (⟨1, 0, 0, 1⟩ : Mat2 ℝ) 2).x) * (x - (cellVector 0 0 (⟨1, 0,
                0, 1⟩ : Mat2 ℝ) 2).x) + (y - (cellVector 0 0 (⟨1, 0, 0, 1⟩ : Mat2 ℝ) 2).y) * (y -
                (cellVector 0 0 (⟨1, 0, 0, 1⟩ : Mat2 ℝ) 2).y) + z * z : ℝ) : ℂ)))
      ∧ (lib.sqrt (((0 : ℝ) - (cellVector 0 0 (⟨1, 0, 0, 1⟩ : Mat2 ℝ) 2).x) * ((0 : ℝ) -
          (cellVector 0 0 (⟨1, 0, 0, 1⟩ : Mat2 ℝ) 2).x) + ((0 : ℝ) - (cellVector 0 0 (⟨1, 0, 0, 1⟩
          : Mat2 ℝ) 2).y) * ((0 : ℝ) - (cellVector 0 0 (⟨1, 0, 0, 1⟩ : Mat2 ℝ) 2).y) + (1 / 100 :
          ℝ) * (1 / 100 : ℝ)) * (1 : ℝ) < 0.1)
      ∧ (lib.sqrt (((0 : ℝ) - (cellVector 0 0 (⟨1, 0, 0, 1⟩ : Mat2 ℝ) 2).x) * ((0 : ℝ) -
          (cellVector 0 0 (⟨1, 0, 0, 1⟩ : Mat2 ℝ) 2).x) + ((0 : ℝ) - (cellVector 0 0 (⟨1, 0, 0, 1⟩
          : Mat2 ℝ) 2).y) * ((0 : ℝ) - (cellVector 0 0 (⟨1, 0, 0, 1⟩ : Mat2 ℝ) 2).y) + (1 / 100 :
          ℝ) * (1 / 100 : ℝ)) * lib.cabs (1 : cdouble ℝ) < 1)
      ∧ ((∀ S, AddGLongRealSpace lib ⟨(0 : ℝ), (0 : ℝ), (1 / 100 : ℝ)⟩ (1 : cdouble ℝ) (⟨0, 0⟩ :
          Vec2 ℝ) (0 : ℤ) (0 : ℤ) (⟨1, 0, 0, 1⟩ : Mat2 ℝ) (2 : ℤ) (1 : ℝ) S
        = S.add (AddGLongRealSpace lib ⟨(0 : ℝ), (0 : ℝ), (1 / 100 : ℝ)⟩ (1 : cdouble ℝ) (⟨0, 0⟩ :
            Vec2 ℝ) (0 : ℤ) (0 : ℤ) (⟨1, 0, 0, 1⟩ : Mat2 ℝ) (2 : ℤ) (1 : ℝ) Sum8.zero))
    ∧ toComplex (AddGLongRealSpace lib ⟨(0 : ℝ), (0 : ℝ), (1 / 100 : ℝ)⟩ (1 : cdouble ℝ) (⟨0, 0⟩ :
        Vec2 ℝ) (0 : ℤ) (0 : ℤ) (⟨1, 0, 0, 1⟩ : Mat2 ℝ) (2 : ℤ) (1 : ℝ) Sum8.zero).s0
      = T (0 : ℝ) (0 : ℝ) (1 / 100 : ℝ)
    ∧ toComplex (AddGLongRealSpace lib ⟨(0 : ℝ), (0 : ℝ), (1 / 100 : ℝ)⟩ (1 : cdouble ℝ) (⟨0, 0⟩ :
        Vec2 ℝ) (0 : ℤ) (0 : ℤ) (⟨1, 0, 0, 1⟩ : Mat2 ℝ) (2 : ℤ) (1 : ℝ) Sum8.zero).s1
      = φ * (2 * C2 * (((0 : ℝ) - (cellVector 0 0 (⟨1, 0, 0, 1⟩ : Mat2 ℝ) 2).x : ℝ) : ℂ)
          + 4 * C4 * ((((0 : ℝ) - (cellVector 0 0 (⟨1, 0, 0, 1⟩ : Mat2 ℝ) 2).x) * ((0 : ℝ) -
              (cellVector 0 0 (⟨1, 0, 0, 1⟩ : Mat2 ℝ) 2).x) + ((0 : ℝ) - (cellVector 0 0 (⟨1, 0, 0,
              1⟩ : Mat2 ℝ) 2).y) * ((0 : ℝ) - (cellVector 0 0 (⟨1, 0, 0, 1⟩ : Mat2 ℝ) 2).y) + (1 /
              100 : ℝ) * (1 / 100 : ℝ) : ℝ) : ℂ)
            * (((0 : ℝ) - (cellVector 0 0 (⟨1, 0, 0, 1⟩ : Mat2 ℝ) 2).x : ℝ) : ℂ))
    ∧ toComplex (AddGLongRealSpace lib ⟨(0 : ℝ), (0 : ℝ), (1 / 100 : ℝ)⟩ (1 : cdouble ℝ) (⟨0, 0⟩ :
        Vec2 ℝ) (0 : ℤ) (0 : ℤ) (⟨1, 0, 0, 1⟩ : Mat2 ℝ) (2 : ℤ) (1 : ℝ) Sum8.zero).s2
      = φ * (2 * C2 * (((0 : ℝ) - (cellVector 0 0 (⟨1, 0, 0, 1⟩ : Mat2 ℝ) 2).y : ℝ) : ℂ)
          + 4 * C4 * ((((0 : ℝ) - (cellVector 0 0 (⟨1, 0, 0, 1⟩ : Mat2 ℝ) 2).x) * ((0 : ℝ) -
              (cellVector 0 0 (⟨1, 0, 0, 1⟩ : Mat2 ℝ) 2).x) + ((0 : ℝ) - (cellVector 0 0 (⟨1, 0, 0,
              1⟩ : Mat2 ℝ) 2).y) * ((0 : ℝ) - (cellVector 0 0 (⟨1, 0, 0, 1⟩ : Mat2 ℝ) 2).y) + (1 /
              100 : ℝ) * (1 / 100 : ℝ) : ℝ) : ℂ)
            * (((0 : ℝ) - (cellVector 0 0 (⟨1, 0, 0, 1⟩ : Mat2 ℝ) 2).y : ℝ) : ℂ))
    ∧ toComplex (AddGLongRealSpace lib ⟨(0 : ℝ), (0 : ℝ), (1 / 100 : ℝ)⟩ (1 : cdouble ℝ) (⟨0, 0⟩ :
        Vec2 ℝ) (0 : ℤ) (0 : ℤ) (⟨1, 0, 0, 1⟩ : Mat2 ℝ) (2 : ℤ) (1 : ℝ) Sum8.zero).s3
      = φ * (2 * C2 * (((1 / 100 : ℝ) : ℝ) : ℂ)
          + 4 * C4 * ((((0 : ℝ) - (cellVector 0 0 (⟨1, 0, 0, 1⟩ : Mat2 ℝ) 2).x) * ((0 : ℝ) -
              (cellVector 0 0 (⟨1, 0, 0, 1⟩ : Mat2 ℝ) 2).x) + ((0 : ℝ) - (cellVector 0 0 (⟨1, 0, 0,
              1⟩ : Mat2 ℝ) 2).y) * ((0 : ℝ) - (cellVector 0 0 (⟨1, 0, 0, 1⟩ : Mat2 ℝ) 2).y) + (1 /
              100 : ℝ) * (1 / 100 : ℝ) : ℝ) : ℂ)
            * (((1 / 100 : ℝ) : ℝ) : ℂ))
    ∧ toComplex (AddGLongRealSpace lib ⟨(0 : ℝ), (0 : ℝ), (1 / 100 : ℝ)⟩ (1 : cdouble ℝ) (⟨0, 0⟩ :
        Vec2 ℝ) (0 : ℤ) (0 : ℤ) (⟨1, 0, 0, 1⟩ : Mat2 ℝ) (2 : ℤ) (1 : ℝ) Sum8.zero).s4
      = φ * (8 * C4 * (((0 : ℝ) - (cellVector 0 0 (⟨1, 0, 0, 1⟩ : Mat2 ℝ) 2).x : ℝ) : ℂ) * (((0 :
          ℝ) - (cellVector 0 0 (⟨1, 0, 0, 1⟩ : Mat2 ℝ) 2).y : ℝ) : ℂ))
    ∧ toComplex (AddGLongRealSpace lib ⟨(0 : ℝ), (0 : ℝ), (1 / 100 : ℝ)⟩ (1 : cdouble ℝ) (⟨0, 0⟩ :
        Vec2 ℝ) (0 : ℤ) (0 : ℤ) (⟨1, 0, 0, 1⟩ : Mat2 ℝ) (2 : ℤ) (1 : ℝ) Sum8.zero).s5
      = φ * (8 * C4 * (((0 : ℝ) - (cellVector 0 0 (⟨1, 0, 0, 1⟩ : Mat2 ℝ) 2).x : ℝ) : ℂ) * (((1 /
          100 : ℝ) : ℝ) : ℂ))
    ∧ toComplex (AddGLongRealSpace lib ⟨(0 : ℝ), (0 : ℝ), (1 / 100 : ℝ)⟩ (1 : cdouble ℝ) (⟨0, 0⟩ :
        Vec2 ℝ) (0 : ℤ) (0 : ℤ) (⟨1, 0, 0, 1⟩ : Mat2 ℝ) (2 : ℤ) (1 : ℝ) Sum8.zero).s6
      = φ * (8 * C4 * (((0 : ℝ) - (cellVector 0 0 (⟨1, 0, 0, 1⟩ : Mat2 ℝ) 2).y : ℝ) : ℂ) * (((1 /
          100 : ℝ) : ℝ) : ℂ))
    ∧ toComplex (AddGLongRealSpace lib ⟨(0 : ℝ), (0 : ℝ), (1 / 100 : ℝ)⟩ (1 : cdouble ℝ) (⟨0, 0⟩ :
        Vec2 ℝ) (0 : ℤ) (0 : ℤ) (⟨1, 0, 0, 1⟩ : Mat2 ℝ) (2 : ℤ) (1 : ℝ) Sum8.zero).s7 = 0
    ∧ HasDerivAt (fun t => T t (0 : ℝ) (1 / 100 : ℝ))
        (toComplex (AddGLongRealSpace lib ⟨(0 : ℝ), (0 : ℝ), (1 / 100 : ℝ)⟩ (1 : cdouble ℝ) (⟨0, 0⟩
            : Vec2 ℝ) (0 : ℤ) (0 : ℤ) (⟨1, 0, 0, 1⟩ : Mat2 ℝ) (2 : ℤ) (1 : ℝ) Sum8.zero).s1) (0 : ℝ)
    ∧ HasDerivAt (fun t => T (0 : ℝ) t (1 / 100 : ℝ))
        (toComplex (AddGLongRealSpace lib ⟨(0 : ℝ), (0 : ℝ), (1 / 100 : ℝ)⟩ (1 : cdouble ℝ) (⟨0, 0⟩
            : Vec2 ℝ) (0 : ℤ) (0 : ℤ) (⟨1, 0, 0, 1⟩ : Mat2 ℝ) (2 : ℤ) (1 : ℝ) Sum8.zero).s2) (0 : ℝ)
    ∧ HasDerivAt (fun t => T (0 : ℝ) (0 : ℝ) t)
        (toComplex (AddGLongRealSpace lib ⟨(0 : ℝ), (0 : ℝ), (1 / 100 : ℝ)⟩ (1 : cdouble ℝ) (⟨0, 0⟩
            : Vec2 ℝ) (0 : ℤ) (0 : ℤ) (⟨1, 0, 0, 1⟩ : Mat2 ℝ) (2 : ℤ) (1 : ℝ) Sum8.zero).s3) (1 /
            100 : ℝ)
    ∧ HasDerivAt (fun t => deriv (fun u => T u t (1 / 100 : ℝ)) (0 : ℝ))
        (toComplex (AddGLongRealSpace lib ⟨(0 : ℝ), (0 : ℝ), (1 / 100 : ℝ)⟩ (1 : cdouble ℝ) (⟨0, 0⟩
            : Vec2 ℝ) (0 : ℤ) (0 : ℤ) (⟨1, 0, 0, 1⟩ : Mat2 ℝ) (2 : ℤ) (1 : ℝ) Sum8.zero).s4) (0 : ℝ)
    ∧ HasDerivAt (fun t => deriv (fun u => T u (0 : ℝ) t) (0 : ℝ))
        (toComplex (AddGLongRealSpace lib ⟨(0 : ℝ), (0 : ℝ), (1 / 100 : ℝ)⟩ (1 : cdouble ℝ) (⟨0, 0⟩
            : Vec2 ℝ) (0 : ℤ) (0 : ℤ) (⟨1, 0, 0, 1⟩ : Mat2 ℝ) (2 : ℤ) (1 : ℝ) Sum8.zero).s5) (1 /
            100 : ℝ)
    ∧ HasDerivAt (fun t => deriv (fun u => T (0 : ℝ) u t) (0 : ℝ))
        (toComplex (AddGLongRealSpace lib ⟨(0 : ℝ), (0 : ℝ), (1 / 100 : ℝ)⟩ (1 : cdouble ℝ) (⟨0, 0⟩
            : Vec2 ℝ) (0 : ℤ) (0 : ℤ) (⟨1, 0, 0, 1⟩ : Mat2 ℝ) (2 : ℤ) (1 : ℝ) Sum8.zero).s6) (1 /
            100 : ℝ)
    ∧ HasDerivAt (fun t => deriv (fun v => deriv (fun u => T u v t) (0 : ℝ)) (0 : ℝ))
        (toComplex (AddGLongRealSpace lib ⟨(0 : ℝ), (0 : ℝ), (1 / 100 : ℝ)⟩ (1 : cdouble ℝ) (⟨0, 0⟩
            : Vec2 ℝ) (0 : ℤ) (0 : ℤ) (⟨1, 0, 0, 1⟩ : Mat2 ℝ) (2 : ℤ) (1 : ℝ) Sum8.zero).s7)
        (1 / 100 : ℝ)) := by
  let lib : Libm ℝ :=
    { sqrt := Real.sqrt, cabs := fun w => Complex.abs (toComplex w), csqrt := fun w => w,
      cexp := fun w => ofComplex (Complex.exp (toComplex w)),
      clog := fun w => w, carg := fun _ => 0, erfcx := fun w => w,
      cerf := fun w => w, AmosBesselK := fun w _ => w,
      IsFinite := fun _ => true, ISNAN := fun _ => false }
  have hr : Real.sqrt (((0 : ℝ) - (cellVector 0 0 (⟨1, 0, 0, 1⟩ : Mat2 ℝ) 2).x) * ((0 : ℝ) -
      (cellVector 0 0 (⟨1, 0, 0, 1⟩ : Mat2 ℝ) 2).x) + ((0 : ℝ) - (cellVector 0 0 (⟨1, 0, 0, 1⟩ :
      Mat2 ℝ) 2).y) * ((0 : ℝ) - (cellVector 0 0 (⟨1, 0, 0, 1⟩ : Mat2 ℝ) 2).y) + (1 / 100 : ℝ) * (1
      / 100 : ℝ)) = 1 / 100 := by
    have hc : (cellVector 0 0 (⟨1, 0, 0, 1⟩ : Mat2 ℝ) 2 : Vec2 ℝ) = ⟨0, 0⟩ := by
      simp [cellVector]
    rw [hc]
    rw [show ((0 : ℝ) - 0) * ((0 : ℝ) - 0) + ((0 : ℝ) - 0) * ((0 : ℝ) - 0)
        + (1 / 100 : ℝ) * (1 / 100 : ℝ) = (1 / 100 : ℝ) * (1 / 100 : ℝ) by norm_num]
    exact Real.sqrt_mul_self (by norm_num)
  have hs1 : lib.sqrt (((0 : ℝ) - (cellVector 0 0 (⟨1, 0, 0, 1⟩ : Mat2 ℝ) 2).x) * ((0 : ℝ) -
      (cellVector 0 0 (⟨1, 0, 0, 1⟩ : Mat2 ℝ) 2).x) + ((0 : ℝ) - (cellVector 0 0 (⟨1, 0, 0, 1⟩ :
      Mat2 ℝ) 2).y) * ((0 : ℝ) - (cellVector 0 0 (⟨1, 0, 0, 1⟩ : Mat2 ℝ) 2).y) + (1 / 100 : ℝ) * (1
      / 100 : ℝ)) * (1 : ℝ) < 0.1 := by
    show Real.sqrt _ * _ < _
    rw [hr]
    norm_num
  have hs2 : lib.sqrt (((0 : ℝ) - (cellVector 0 0 (⟨1, 0, 0, 1⟩ : Mat2 ℝ) 2).x) * ((0 : ℝ) -
      (cellVector 0 0 (⟨1, 0, 0, 1⟩ : Mat2 ℝ) 2).x) + ((0 : ℝ) - (cellVector 0 0 (⟨1, 0, 0, 1⟩ :
      Mat2 ℝ) 2).y) * ((0 : ℝ) - (cellVector 0 0 (⟨1, 0, 0, 1⟩ : Mat2 ℝ) 2).y) + (1 / 100 : ℝ) * (1
      / 100 : ℝ)) * lib.cabs (1 : cdouble ℝ) < 1 := by
    show Real.sqrt _ * Complex.abs (toComplex 1) < _
    rw [hr]
    have h1 : toComplex (1 : cdouble ℝ) = 1 := by
      apply Complex.ext <;> simp [toComplex]
    rw [h1]
    norm_num
  exact ⟨lib, _, _, _, _, _, one_ne_zero, rfl, rfl, rfl, rfl, rfl, fun _ _ _ => rfl, hs1, hs2,
    C29_small_r_partials lib 1 ⟨0, 0⟩ 0 0 ⟨1, 0, 0, 1⟩ 2 1 one_ne_zero _ rfl _ _ _ _ rfl rfl rfl
        rfl _
      (fun _ _ _ => rfl) 0 0 (1 / 100) hs1 hs2⟩

/-- C30: for every `z` there is `N` with `1 ≤ N ≤ 100`, the number of the last
term the loop of `ExpInt_PS` processed (the loop leaves `n = N` when it stops
at the tolerance test, and `n = 101` when it runs out after `N = 100` terms),
such that the value returned is
`-EULERGAMMA - log(z) - sum_{n=1}^{N} (-z)^n / (n * n!)`. -/
theorem C30_ExpInt_PS_truncated_series (lib : Libm F) (z : cdouble F) (RelTol : F) :
    ∃ N : ℕ, 1 ≤ N ∧ N ≤ 100
      ∧ ((ExpInt_PS_loop lib z RelTol 101 1 (ExpInt_PS_init lib z)).2 = N
        ∨ ((ExpInt_PS_loop lib z RelTol 101 1 (ExpInt_PS_init lib z)).2 = 101 ∧ N = 100))
      ∧ ExpInt_PS lib z RelTol
        = ExpInt_PS_spec (ofReal (-EULERGAMMA) - lib.clog z) z N
      ∧ ExpInt_PS_spec (ofReal (-EULERGAMMA) - lib.clog z) z N
        = ofReal (-EULERGAMMA) - lib.clog z
          - ((List.range N).map (fun i =>
              (-z) ^ (i + 1) / ofReal ((((i + 1).factorial : ℕ) : F) * ((i + 1 : ℕ) : F)))).sum :=
                  by
  obtain ⟨N, _, n2, n3, n4, n5⟩ := ExpInt_PS_loop_inv lib (ofReal (-EULERGAMMA) - lib.clog z) z
    RelTol 101 0 (ExpInt_PS_init lib z) (by norm_num) (by norm_num)
    (by simp [ExpInt_PS_init]) (by simp [ExpInt_PS_init])
    (by simp [ExpInt_PS_init, ExpInt_PS_spec])
  exact ⟨N, by have := n3 (by norm_num); omega, n2, n5, n4, rfl⟩

end Claims

end scuff
